import Mathlib

/-!
# Lighting of devilutionX (`Source/lighting.cpp`)

A shallow embedding of the light source manager, of light propagation, of the
vision manager and vision propagation, and of the tables of `MakeLightTable`,
together with the flag loop of `InitAutomap` (`Source/automap.cpp`) and the random
number functions of `Source/engine.cpp`, followed by the properties proved about
them.

Conventions of the embedding.

* C `int` values are `Int`. Where a computation can leave the range of its C type
  (the random number generator, the bytes of the ramp and block tables, the
  conversion to `char` in `SetLight`) the reduction is written out; elsewhere no
  computation leaves the 32-bit range for the inputs the theorems range over.
* Global arrays are total functions from their (integer) index. Reading or
  writing a C array outside its bounds is undefined behaviour; the theorems
  restrict the indices wherever that matters.
* The global variables of the translation unit (and the globals of other units
  that it reads) are the fields of `Lighting`; a C function that works on the
  globals is a function `Lighting → Lighting`.
* Compile-time constants that are defined in headers outside `Source/lighting.cpp`
  (`MAXDUNX`, `MAXDUNY`, `MAXLIGHTS`, `NO_LIGHT`) are the fields of `Consts`, a
  parameter of every function that uses one of them.
-/

namespace Devilution

/-! ## Data model -/

/-- Compile-time constants used by `lighting.cpp` and defined in headers that are
not part of the sources at hand. They are parameters of the development. -/
structure Consts where
  MAXDUNX : Int
  MAXDUNY : Int
  MAXLIGHTS : Int
  NO_LIGHT : Int

/-- The values the constants have in the upstream headers (`gendung.h`,
`lighting.h`); used only to evaluate the code on concrete inputs. -/
def upstream : Consts :=
  { MAXDUNX := 112, MAXDUNY := 112, MAXLIGHTS := 32, NO_LIGHT := -1 }

/-- A pair of integer coordinates (`Point`). -/
structure Point where
  x : Int
  y : Int
deriving DecidableEq, Repr

/-- The position record of a light (`LightPosition`): tile, sub-tile offset and
the previous tile position. -/
structure LightPosition where
  tile : Point
  offset : Point
  old : Point
deriving DecidableEq, Repr

/-- One entry of `LightList` / `VisionList` (`LightListStruct`). -/
structure LightListStruct where
  position : LightPosition
  _lradius : Int
  _lid : Int
  _ldel : Bool
  _lunflag : Bool
  oldRadious : Int
  _lflags : Bool
deriving DecidableEq, Repr

/-- The global variables read or written by the light manager and by light
propagation. `dLight` is the working grid, `dPreLight` the base grid (both arrays
of `char`); `lightactive` (`uint8_t`), `lightradius` and `lightblock` (`BYTE`)
hold unsigned bytes, modelled as natural numbers. -/
structure Lighting where
  LightList : Int → LightListStruct
  lightactive : Int → Nat
  numlights : Int
  dolighting : Bool
  lightflag : Bool
  lightradius : Int → Nat → Nat
  lightblock : Int → Int → Int → Nat
  dLight : Int → Int → Int
  dPreLight : Int → Int → Int
  LoadMapObjsFlag : Bool
  currlevel : Int

/-! ## Control structures -/

/-- The loop `for (v = lo; n iterations; v++) body`. -/
def forLoop {σ : Type} (lo : Int) : Nat → (Int → σ → σ) → σ → σ
  | 0, _, s => s
  | n + 1, body, s => forLoop (lo + 1) n body (body lo s)

/-- The loop `for (v = lo; v < hi; v++) body`, for a body that changes neither
`v` nor `hi`. -/
def forRange {σ : Type} (lo hi : Int) (body : Int → σ → σ) (s : σ) : σ :=
  forLoop lo (hi - lo).toNat body s

/-- Assignment `a[i] = v` to a one-dimensional array. -/
def setAt {α : Type} (a : Int → α) (i : Int) (v : α) : Int → α :=
  fun k => if k = i then v else a k

/-- Assignment `g[x][y] = v` to a two-dimensional array. -/
def setGrid (g : Int → Int → Int) (x y v : Int) : Int → Int → Int :=
  fun a b => if a = x ∧ b = y then v else g a b

/-- Conversion of an `int` to `char` (signed, 8 bits). -/
def toChar (v : Int) : Int :=
  (v + 128) % 256 - 128

/-! ## Light propagation -/

/-- Result of `RotateRadius`: the eight values behind its pointer arguments. -/
structure Rotation where
  x : Int
  y : Int
  dx : Int
  dy : Int
  lx : Int
  ly : Int
  bx : Int
  by_ : Int
deriving DecidableEq, Repr

/-- `RotateRadius(&x, &y, &dx, &dy, &lx, &ly, &bx, &by)`. The incoming values of
`x`, `y`, `bx`, `by` are overwritten before they are read, so the result depends
on `dx`, `dy`, `lx`, `ly` only. -/
def RotateRadius (dx dy lx ly : Int) : Rotation :=
  let dx1 := 7 - dy
  let dy1 := dx
  let lx1 := 7 - ly
  let ly1 := lx
  let x := dx1 - lx1
  let y := dy1 - ly1
  { x := if x < 0 then x + 8 else x
    y := if y < 0 then y + 8 else y
    dx := dx1, dy := dy1, lx := lx1, ly := ly1
    bx := if x < 0 then 1 else 0
    by_ := if y < 0 then 1 else 0 }

/-- `SetLight(x, y, v)`: writes the base grid while map objects are loaded and the
working grid otherwise. The parameter `v` of the C function is a `char`. -/
def SetLight (s : Lighting) (x y v : Int) : Lighting :=
  if s.LoadMapObjsFlag then { s with dPreLight := setGrid s.dPreLight x y (toChar v) }
  else { s with dLight := setGrid s.dLight x y (toChar v) }

/-- `GetLight(x, y)`. -/
def GetLight (s : Lighting) (x y : Int) : Int :=
  if s.LoadMapObjsFlag then s.dPreLight x y else s.dLight x y

/-- One of the four quadrant passes of `DoLighting`:
`for (y = 0; y < ylim; y++) for (x = 1; x < xlim; x++) { ... }`, reading
`lightblock[mult][y + block_y][x + block_x]` and writing the tile
`(tx x y, ty x y)`. The first pass has `block_x = block_y = 0`. -/
def lightPass (K : Consts) (nRadius mult ylim xlim block_x block_y : Int)
    (tx ty : Int → Int → Int) (s : Lighting) : Lighting :=
  forRange 0 ylim (fun y s =>
    forRange 1 xlim (fun x s =>
      let radius_block := s.lightblock mult (y + block_y) (x + block_x)
      if radius_block < 128 then
        let temp_x := tx x y
        let temp_y := ty x y
        let v : Int := s.lightradius nRadius radius_block
        if 0 ≤ temp_x ∧ temp_x < K.MAXDUNX ∧ 0 ≤ temp_y ∧ temp_y < K.MAXDUNY then
          if v < GetLight s temp_x temp_y then SetLight s temp_x temp_y v else s
        else s
      else s) s) s

/-- The head of `DoLighting`: the sub-tile offset of light `Lnum` (zero when
`Lnum` is negative), normalised to `0..7` by borrowing one tile from the position
when it is negative. The result is `(nXPos, nYPos, xoff, yoff)`. -/
def lightOrigin (s : Lighting) (nXPos nYPos Lnum : Int) : Int × Int × Int × Int :=
  if Lnum ≥ 0 then
    let xoff := (s.LightList Lnum).position.offset.x
    let yoff := (s.LightList Lnum).position.offset.y
    (if xoff < 0 then nXPos - 1 else nXPos, if yoff < 0 then nYPos - 1 else nYPos,
      if xoff < 0 then xoff + 8 else xoff, if yoff < 0 then yoff + 8 else yoff)
  else (nXPos, nYPos, 0, 0)

/-- The write of `DoLighting` to the tile of the source itself. -/
def lightOwnTile (K : Consts) (s : Lighting) (nXPos nYPos nRadius : Int) : Lighting :=
  if nXPos ≥ 0 ∧ nXPos < K.MAXDUNX ∧ nYPos ≥ 0 ∧ nYPos < K.MAXDUNY then
    if s.currlevel < 17 then SetLight s nXPos nYPos 0
    else if GetLight s nXPos nYPos > s.lightradius nRadius 0 then
      SetLight s nXPos nYPos (s.lightradius nRadius 0)
    else s
  else s

/-- The body of `DoLighting` after the offset has been normalised: the window
limits, the write to the source tile and the four quadrant passes with the
offset rotated by `RotateRadius` in between. -/
def lightFrom (K : Consts) (s : Lighting) (nXPos nYPos nRadius xoff yoff : Int) : Lighting :=
  let dist_x := xoff
  let dist_y := yoff
  let min_x := if nXPos - 15 < 0 then nXPos + 1 else 15
  let max_x := if nXPos + 15 > K.MAXDUNX then K.MAXDUNX - nXPos else 15
  let min_y := if nYPos - 15 < 0 then nYPos + 1 else 15
  let max_y := if nYPos + 15 > K.MAXDUNY then K.MAXDUNY - nYPos else 15
  let s := lightOwnTile K s nXPos nYPos nRadius
  let mult := xoff + 8 * yoff
  let s := lightPass K nRadius mult min_y max_x 0 0
    (fun x _ => nXPos + x) (fun _ y => nYPos + y) s
  let r1 := RotateRadius dist_x dist_y 0 0
  let mult := r1.x + 8 * r1.y
  let s := lightPass K nRadius mult max_y max_x r1.bx r1.by_
    (fun _ y => nXPos + y) (fun x _ => nYPos - x) s
  let r2 := RotateRadius r1.dx r1.dy r1.lx r1.ly
  let mult := r2.x + 8 * r2.y
  let s := lightPass K nRadius mult max_y min_x r2.bx r2.by_
    (fun x _ => nXPos - x) (fun _ y => nYPos - y) s
  let r3 := RotateRadius r2.dx r2.dy r2.lx r2.ly
  let mult := r3.x + 8 * r3.y
  lightPass K nRadius mult min_y min_x r3.bx r3.by_
    (fun _ y => nXPos - y) (fun x _ => nYPos + x) s

/-- `DoLighting(nXPos, nYPos, nRadius, Lnum)`. -/
def DoLighting (K : Consts) (s : Lighting) (nXPos nYPos nRadius Lnum : Int) : Lighting :=
  let o := lightOrigin s nXPos nYPos Lnum
  lightFrom K s o.1 o.2.1 nRadius o.2.2.1 o.2.2.2

/-- `DoUnLight(nXPos, nYPos, nRadius)`. -/
def DoUnLight (K : Consts) (s : Lighting) (nXPos nYPos nRadius : Int) : Lighting :=
  let nRadius := nRadius + 1
  let min_y := nYPos - nRadius
  let max_y := nYPos + nRadius
  let min_x := nXPos - nRadius
  let max_x := nXPos + nRadius
  let min_y := if min_y < 0 then 0 else min_y
  let max_y := if max_y > K.MAXDUNY then K.MAXDUNY else max_y
  let min_x := if min_x < 0 then 0 else min_x
  let max_x := if max_x > K.MAXDUNX then K.MAXDUNX else max_x
  forRange min_y max_y (fun y s =>
    forRange min_x max_x (fun x s =>
      if x ≥ 0 ∧ x < K.MAXDUNX ∧ y ≥ 0 ∧ y < K.MAXDUNY then
        { s with dLight := setGrid s.dLight x y (s.dPreLight x y) }
      else s) s) s

/-! ## Attenuation and block tables (`MakeLightTable`) -/

/-- The entry `lightradius[j][i]` written by the loop at the end of the ramp
section of `MakeLightTable` (the table of every level below 17):
`15` for `i > (j + 1) * 8`, else `(BYTE)(15.0 * i / (8.0 * (j + 1)) + 0.5)`.
The quotient `q = 15 i / (8 (j + 1))` is a multiple of `1 / (8 (j + 1))`, so
`q + 1/2` is either an integer (then `q` is a dyadic rational that the division
yields exactly) or at least `1/256` away from one, far more than the rounding
error of a `double`; the truncation therefore equals the exact
`⌊(30 i + 8 (j + 1)) / (16 (j + 1))⌋`. -/
def MakeLightTable_lightradius (j : Int) (i : Nat) : Nat :=
  if (i : Int) > (j + 1) * 8 then 15
  else ((30 * i + 8 * (j + 1)) / (16 * (j + 1))).toNat

/-- The entry `lightblock[m][k][l]`, `m = j * 8 + i` with `0 ≤ i < 8`, written by
the last loop of `MakeLightTable`:
`(BYTE)sqrt((8 l - j)² + (8 k - i)²)`, the later `+ 0.5` being cut off again by
the conversion to `BYTE`. The square root of an integer below `2^53` is
correctly rounded, so its truncation is the integer square root. -/
def MakeLightTable_lightblock (m k l : Int) : Nat :=
  let j := m / 8
  let i := m % 8
  Nat.sqrt ((8 * l - j) * (8 * l - j) + (8 * k - i) * (8 * k - i)).toNat

/-- The tables of a level below 17 as `MakeLightTable` leaves them, on the index
ranges of the C arrays `lightradius[16][128]` and `lightblock[64][16][16]`. -/
def StandardTables (s : Lighting) : Prop :=
  s.currlevel < 17 ∧
  (∀ (j : Int) (i : Nat), 0 ≤ j → j < 16 → i < 128 →
    s.lightradius j i = MakeLightTable_lightradius j i) ∧
  (∀ m k l : Int, 0 ≤ m → m < 64 → 0 ≤ k → k < 16 → 0 ≤ l → l < 16 →
    s.lightblock m k l = MakeLightTable_lightblock m k l)

/-! ## Light source manager -/

/-- `InitLighting()`; `lightactive` is an array of `uint8_t`. -/
def InitLighting (K : Consts) (s : Lighting) : Lighting :=
  forRange 0 K.MAXLIGHTS (fun i s => { s with lightactive := setAt s.lightactive i (i % 256).toNat })
    { s with numlights := 0, dolighting := false, lightflag := false }

/-- `AddLight(x, y, r)`: the returned id and the new state. -/
def AddLight (K : Consts) (s : Lighting) (x y r : Int) : Int × Lighting :=
  if s.lightflag then (K.NO_LIGHT, s)
  else if s.numlights < K.MAXLIGHTS then
    let lid := s.lightactive s.numlights
    let l := s.LightList lid
    (lid, { s with
      numlights := s.numlights + 1
      LightList := setAt s.LightList lid
        { l with
          position := { l.position with tile := ⟨x, y⟩, offset := ⟨0, 0⟩ }
          _lradius := r, _ldel := false, _lunflag := false }
      dolighting := true })
  else (K.NO_LIGHT, s)

/-- `AddUnLight(i)`. -/
def AddUnLight (K : Consts) (s : Lighting) (i : Int) : Lighting :=
  if s.lightflag ∨ i = K.NO_LIGHT then s
  else
    { s with
      LightList := setAt s.LightList i { s.LightList i with _ldel := true }
      dolighting := true }

/-- `ChangeLightRadius(i, r)`. -/
def ChangeLightRadius (K : Consts) (s : Lighting) (i r : Int) : Lighting :=
  if s.lightflag ∨ i = K.NO_LIGHT then s
  else
    let l := s.LightList i
    { s with
      LightList := setAt s.LightList i
        { l with
          _lunflag := true
          position := { l.position with old := l.position.tile }
          oldRadious := l._lradius
          _lradius := r }
      dolighting := true }

/-- `ChangeLightXY(i, x, y)`. -/
def ChangeLightXY (K : Consts) (s : Lighting) (i x y : Int) : Lighting :=
  if s.lightflag ∨ i = K.NO_LIGHT then s
  else
    let l := s.LightList i
    { s with
      LightList := setAt s.LightList i
        { l with
          _lunflag := true
          position := { l.position with old := l.position.tile, tile := ⟨x, y⟩ }
          oldRadious := l._lradius }
      dolighting := true }

/-- `ChangeLightOff(i, x, y)`. -/
def ChangeLightOff (K : Consts) (s : Lighting) (i x y : Int) : Lighting :=
  if s.lightflag ∨ i = K.NO_LIGHT then s
  else
    let l := s.LightList i
    { s with
      LightList := setAt s.LightList i
        { l with
          _lunflag := true
          position := { l.position with old := l.position.tile, offset := ⟨x, y⟩ }
          oldRadious := l._lradius }
      dolighting := true }

/-- `ChangeLight(i, x, y, r)`. -/
def ChangeLight (K : Consts) (s : Lighting) (i x y r : Int) : Lighting :=
  if s.lightflag ∨ i = K.NO_LIGHT then s
  else
    let l := s.LightList i
    { s with
      LightList := setAt s.LightList i
        { l with
          _lunflag := true
          position := { l.position with old := l.position.tile, tile := ⟨x, y⟩ }
          oldRadious := l._lradius
          _lradius := r }
      dolighting := true }

/-- Body of the first loop of `ProcessLightList`: undo the light in slot
`lightactive[i]` when it is pending-delete and/or pending-change. -/
def processUndo (K : Consts) (i : Int) (s : Lighting) : Lighting :=
  let j := s.lightactive i
  let s :=
    if (s.LightList j)._ldel then
      DoUnLight K s (s.LightList j).position.tile.x (s.LightList j).position.tile.y
        (s.LightList j)._lradius
    else s
  if (s.LightList j)._lunflag then
    let s := DoUnLight K s (s.LightList j).position.old.x (s.LightList j).position.old.y
      (s.LightList j).oldRadious
    { s with LightList := setAt s.LightList j { s.LightList j with _lunflag := false } }
  else s

/-- Body of the second loop of `ProcessLightList`: reapply the light in slot
`lightactive[i]` unless it is pending-delete. -/
def processApply (K : Consts) (i : Int) (s : Lighting) : Lighting :=
  let j := s.lightactive i
  if !(s.LightList j)._ldel then
    DoLighting K s (s.LightList j).position.tile.x (s.LightList j).position.tile.y
      (s.LightList j)._lradius j
  else s

/-- The compaction loop of `ProcessLightList`, `while (i < numlights) { ... }`.
Every iteration either decrements `numlights` or increments `i`, so the loop
makes exactly `numlights - i` iterations; `fuel` bounds their number. -/
def processCompact : Nat → Int → Lighting → Lighting
  | 0, _, s => s
  | fuel + 1, i, s =>
    if i < s.numlights then
      if (s.LightList (s.lightactive i))._ldel then
        let numlights := s.numlights - 1
        let temp := s.lightactive numlights
        processCompact fuel i
          { s with
            numlights := numlights
            lightactive := setAt (setAt s.lightactive numlights (s.lightactive i)) i temp }
      else processCompact fuel (i + 1) s
    else s

/-- `ProcessLightList()`. -/
def ProcessLightList (K : Consts) (s : Lighting) : Lighting :=
  if s.lightflag then s
  else
    let s :=
      if s.dolighting then
        let s := forRange 0 s.numlights (processUndo K) s
        let s := forRange 0 s.numlights (processApply K) s
        processCompact s.numlights.toNat 0 s
      else s
    { s with dolighting := false }

/-! ## Concrete states used to evaluate the code -/

/-- A light record with every field zero. -/
def zeroLight : LightListStruct :=
  { position := { tile := ⟨0, 0⟩, offset := ⟨0, 0⟩, old := ⟨0, 0⟩ }
    _lradius := 0, _lid := 0, _ldel := false, _lunflag := false
    oldRadious := 0, _lflags := false }

/-- An unlit level below 17: both grids hold 15 everywhere, the tables are those
of `MakeLightTable`, the pool is empty and nothing is pending. -/
def darkLevel : Lighting :=
  { LightList := fun _ => zeroLight
    lightactive := fun i => i.toNat
    numlights := 0, dolighting := false, lightflag := false
    lightradius := MakeLightTable_lightradius
    lightblock := MakeLightTable_lightblock
    dLight := fun _ _ => 15, dPreLight := fun _ _ => 15
    LoadMapObjsFlag := false, currlevel := 1 }

/-- The dark level with a full pool: `numlights = MAXLIGHTS`. -/
def fullLevel : Lighting :=
  { darkLevel with numlights := upstream.MAXLIGHTS }

/-- The dark level with lighting frozen. -/
def frozenLevel : Lighting :=
  { darkLevel with lightflag := true }

/-- The dark level holding one light, in slot 0, at tile (30, 30) with radius 5,
as `AddLight(30, 30, 5)` followed by `ProcessLightList` leaves the pool. -/
def oneLight : Lighting :=
  { darkLevel with
    numlights := 1
    LightList := setAt darkLevel.LightList 0
      { zeroLight with position := { zeroLight.position with tile := ⟨30, 30⟩ }, _lradius := 5 } }

/-- The dark level after `AddLight(30, 30, 5); ProcessLightList`. -/
def afterFirstProcess : Lighting :=
  ProcessLightList upstream (AddLight upstream darkLevel 30 30 5).2

/-! ## Notions used in the statements and proofs -/

/-- The guarded write at the centre of every pass of `DoLighting`. -/
def stamp (K : Consts) (s : Lighting) (tx ty : Int) (v : Nat) : Lighting :=
  if 0 ≤ tx ∧ tx < K.MAXDUNX ∧ 0 ≤ ty ∧ ty < K.MAXDUNY then
    if (v : Int) < GetLight s tx ty then SetLight s tx ty v else s
  else s

/-- Two states agree on what the passes of `DoLighting` read besides the grids. -/
structure SameTables (s t : Lighting) : Prop where
  hlightradius : t.lightradius = s.lightradius
  hlightblock : t.lightblock = s.lightblock
  hLoadMapObjsFlag : t.LoadMapObjsFlag = s.LoadMapObjsFlag
  hcurrlevel : t.currlevel = s.currlevel

/-- Two states agree on everything but the two light grids. -/
structure SameCtl (s t : Lighting) : Prop where
  hLightList : t.LightList = s.LightList
  hlightactive : t.lightactive = s.lightactive
  hnumlights : t.numlights = s.numlights
  hdolighting : t.dolighting = s.dolighting
  hlightflag : t.lightflag = s.lightflag
  hlightradius : t.lightradius = s.lightradius
  hlightblock : t.lightblock = s.lightblock
  hLoadMapObjsFlag : t.LoadMapObjsFlag = s.LoadMapObjsFlag
  hcurrlevel : t.currlevel = s.currlevel

/-- The state with the working grid replaced by the all-dark grid. -/
def allDark (s : Lighting) : Lighting :=
  { s with dLight := fun _ _ => 15 }

/-- The relation that couples a run of `DoLighting` on a grid `g0` with values
`0..15` and the same run on the all-dark grid. -/
def Coupled (g0 : Int → Int → Int) (s d : Lighting) : Prop :=
  SameCtl s d ∧ s.LoadMapObjsFlag = false ∧ s.dPreLight = d.dPreLight ∧
    (∀ a b, 0 ≤ d.dLight a b ∧ d.dLight a b ≤ 15) ∧
    ∀ a b, s.dLight a b = min (g0 a b) (d.dLight a b)

/-- The tile `(a, b)` is on the map. -/
def onMap (K : Consts) (a b : Int) : Prop :=
  0 ≤ a ∧ a < K.MAXDUNX ∧ 0 ≤ b ∧ b < K.MAXDUNY

/-- The square restored by `DoUnLight(x, y, r)`, before clipping to the map. -/
def inSquare (x y r a b : Int) : Prop :=
  x - (r + 1) ≤ a ∧ a < x + (r + 1) ∧ y - (r + 1) ≤ b ∧ b < y + (r + 1)

/-- The tile `(a, b)` is within Chebyshev distance `r` of `(x, y)`. -/
def near (x y r a b : Int) : Prop :=
  x - r ≤ a ∧ a ≤ x + r ∧ y - r ≤ b ∧ b ≤ y + r

instance (K : Consts) (a b : Int) : Decidable (onMap K a b) := by
  unfold onMap; infer_instance

instance (x y r a b : Int) : Decidable (inSquare x y r a b) := by
  unfold inSquare; infer_instance

instance (x y r a b : Int) : Decidable (near x y r a b) := by
  unfold near; infer_instance

/-- The invariant of a run of `DoLighting` on the all-dark grid for a source at
`(x, y)` with radius `r` and zero offset: only on-map tiles within distance `r`
are lit. -/
def DarkRun (K : Consts) (s : Lighting) (x y r : Int) (t : Lighting) : Prop :=
  SameCtl s t ∧ (∀ a b, t.dLight a b ≤ 15) ∧
    ∀ a b, ¬ (onMap K a b ∧ near x y r a b) → t.dLight a b = 15

/-- Two states agree on everything but the light records and the working grid. -/
structure SameRest (s t : Lighting) : Prop where
  hlightactive : t.lightactive = s.lightactive
  hnumlights : t.numlights = s.numlights
  hdolighting : t.dolighting = s.dolighting
  hlightflag : t.lightflag = s.lightflag
  hlightradius : t.lightradius = s.lightradius
  hlightblock : t.lightblock = s.lightblock
  hLoadMapObjsFlag : t.LoadMapObjsFlag = s.LoadMapObjsFlag
  hcurrlevel : t.currlevel = s.currlevel
  hdPreLight : t.dPreLight = s.dPreLight

/-- The tiles restored by the undo step of `ProcessLightList` for the record `l`. -/
def undoArea (l : LightListStruct) (a b : Int) : Prop :=
  (l._ldel = true ∧ inSquare l.position.tile.x l.position.tile.y l._lradius a b) ∨
    (l._lunflag = true ∧ inSquare l.position.old.x l.position.old.y l.oldRadious a b)

instance (l : LightListStruct) (a b : Int) : Decidable (undoArea l a b) := by
  unfold undoArea; infer_instance

/-- Slot `j` is among the first `n` entries of the slot table. -/
def visited (s : Lighting) (n : Int) (j : Int) : Prop :=
  ∃ i, 0 ≤ i ∧ i < n ∧ (s.lightactive i : Int) = j

/-- The tile `(a, b)` is restored by the undo loop over the first `n` slots. -/
def undone (K : Consts) (s : Lighting) (n : Int) (a b : Int) : Prop :=
  onMap K a b ∧ ∃ i, 0 ≤ i ∧ i < n ∧ undoArea (s.LightList (s.lightactive i)) a b

/-- The record `l` with its pending-change flag cleared. -/
def clearUn (l : LightListStruct) : LightListStruct :=
  { l with _lunflag := false }

/-- The light level that the light in slot `j`, at its current position, offset and
radius, contributes to tile `(a, b)`: what `DoLighting` for that light alone leaves
there on the all-dark grid. -/
def lightLevel (K : Consts) (s : Lighting) (j a b : Int) : Int :=
  (DoLighting K (allDark s) (s.LightList j).position.tile.x (s.LightList j).position.tile.y
    (s.LightList j)._lradius j).dLight a b

/-- The value `v` is the minimum of `base` and of the values `c i` for the indices
`i` that satisfy `S`. -/
def IsMinOf (v base : Int) (S : Int → Prop) (c : Int → Int) : Prop :=
  v ≤ base ∧ (∀ i, S i → v ≤ c i) ∧ (v = base ∨ ∃ i, S i ∧ v = c i)

/-- The dark level with a light in slot 0 at tile (30, 30), radius 0 and sub-tile
offset (0, 7). -/
def offsetLight : Lighting :=
  { darkLevel with
    numlights := 1
    LightList := setAt darkLevel.LightList 0
      { zeroLight with
        position := { zeroLight.position with tile := ⟨30, 30⟩, offset := ⟨0, 7⟩ } } }

/-- The pool of `oneLight` with its light pending-delete and the dirty flag set, as
`AddUnLight(0)` leaves it. -/
def pendingDelete : Lighting :=
  { oneLight with
    dolighting := true
    LightList := setAt oneLight.LightList 0 { oneLight.LightList 0 with _ldel := true } }

/-- A call of the light source manager. -/
inductive LightOp where
  | addLight (x y r : Int)
  | addUnLight (i : Int)
  | changeLightRadius (i r : Int)
  | changeLightXY (i x y : Int)
  | changeLightOff (i x y : Int)
  | changeLight (i x y r : Int)
  | processLightList

/-- The state after a call of the light source manager. -/
def LightOp.run (K : Consts) (s : Lighting) : LightOp → Lighting
  | .addLight x y r => (AddLight K s x y r).2
  | .addUnLight i => AddUnLight K s i
  | .changeLightRadius i r => ChangeLightRadius K s i r
  | .changeLightXY i x y => ChangeLightXY K s i x y
  | .changeLightOff i x y => ChangeLightOff K s i x y
  | .changeLight i x y r => ChangeLight K s i x y r
  | .processLightList => ProcessLightList K s

/-- The state after a sequence of calls. -/
def runOps (K : Consts) (s : Lighting) : List LightOp → Lighting
  | [] => s
  | op :: ops => runOps K (op.run K s) ops

/-- A call within the ranges of the claims: radii `0..15`, offsets `-8..7`. -/
def LightOp.inRange : LightOp → Prop
  | .addLight _ _ r => 0 ≤ r ∧ r ≤ 15
  | .addUnLight _ => True
  | .changeLightRadius _ r => 0 ≤ r ∧ r ≤ 15
  | .changeLightXY _ _ _ => True
  | .changeLightOff _ x y => (-8 ≤ x ∧ x ≤ 7) ∧ -8 ≤ y ∧ y ≤ 7
  | .changeLight _ _ _ r => 0 ≤ r ∧ r ≤ 15
  | .processLightList => True

/-- A call that respects the coalescing discipline in state `s`: radii are in
`0..15`, a change call is made only for a light that is not already
pending-change, and sub-tile offsets stay (0, 0). -/
def LightOp.disciplined (s : Lighting) : LightOp → Prop
  | .addLight _ _ r => 0 ≤ r ∧ r ≤ 15
  | .addUnLight _ => True
  | .changeLightRadius i r => (0 ≤ r ∧ r ≤ 15) ∧ (s.LightList i)._lunflag = false
  | .changeLightXY i _ _ => (s.LightList i)._lunflag = false
  | .changeLightOff i x y => (x = 0 ∧ y = 0) ∧ (s.LightList i)._lunflag = false
  | .changeLight i _ _ r => (0 ≤ r ∧ r ≤ 15) ∧ (s.LightList i)._lunflag = false
  | .processLightList => True

/-- The states reachable from `InitLighting` on `s0` by disciplined calls. -/
inductive Disciplined (K : Consts) (s0 : Lighting) : Lighting → Prop
  | init : Disciplined K s0 (InitLighting K s0)
  | step (s : Lighting) (op : LightOp) :
      Disciplined K s0 s → op.disciplined s → Disciplined K s0 (op.run K s)

/-- The minimum of the base value of tile `(a, b)` and of the levels contributed to
it by the live lights that are not pending-delete, at their current position,
offset and radius. -/
def minLevel (K : Consts) (s : Lighting) (a b : Int) : Int :=
  forLoop 0 s.numlights.toNat
    (fun i m =>
      if (s.LightList (s.lightactive i))._ldel then m
      else min m (lightLevel K s (s.lightactive i) a b))
    (s.dPreLight a b)

/-- The level a light at `(x, y)` with radius `r` and zero offset contributes to
tile `(a, b)`. -/
def levelAt (K : Consts) (s : Lighting) (x y r a b : Int) : Int :=
  (DoLighting K (allDark s) x y r (-1)).dLight a b

/-- The position and radius with which a light is present in the working grid:
the previous ones while it is pending-change, else the current ones. -/
def shown (l : LightListStruct) : Int × Int × Int :=
  if l._lunflag then (l.position.old.x, l.position.old.y, l.oldRadious)
  else (l.position.tile.x, l.position.tile.y, l._lradius)

/-- The invariant of the light manager under disciplined calls. `m` is the number
of lights that were live at the last `ProcessLightList` call. -/
structure LightInv (K : Consts) (base : Int → Int → Int) (s : Lighting) (m : Int) : Prop where
  hfrozen : s.lightflag = false
  hmap : s.LoadMapObjsFlag = false
  hstd : StandardTables s
  hbase : s.dPreLight = base
  hn0 : 0 ≤ s.numlights
  hnmax : s.numlights ≤ K.MAXLIGHTS
  hinj : ∀ i k : Int, 0 ≤ i → i < K.MAXLIGHTS → 0 ≤ k → k < K.MAXLIGHTS →
    s.lightactive i = s.lightactive k → i = k
  hm0 : 0 ≤ m
  hmn : m ≤ s.numlights
  hoff : ∀ i, 0 ≤ i → i < s.numlights →
    (s.LightList (s.lightactive i)).position.offset = ⟨0, 0⟩
  hrad : ∀ i, 0 ≤ i → i < s.numlights →
    0 ≤ (s.LightList (s.lightactive i))._lradius ∧ (s.LightList (s.lightactive i))._lradius ≤ 15
  hshown : ∀ i, 0 ≤ i → i < m →
    0 ≤ (shown (s.LightList (s.lightactive i))).2.2 ∧
      (shown (s.LightList (s.lightactive i))).2.2 ≤ 15
  hgrid : ∀ a b, IsMinOf (s.dLight a b) (base a b) (fun i => 0 ≤ i ∧ i < m)
    (fun i => levelAt K s (shown (s.LightList (s.lightactive i))).1
      (shown (s.LightList (s.lightactive i))).2.1 (shown (s.LightList (s.lightactive i))).2.2 a b)
  hclean : s.dolighting = false → m = s.numlights ∧ ∀ i, 0 ≤ i → i < s.numlights →
    (s.LightList (s.lightactive i))._ldel = false ∧
      (s.LightList (s.lightactive i))._lunflag = false

/-- The pool after `AddLight(30, 30, 5); ProcessLightList; ChangeLightXY(0, 50, 50);
ChangeLightXY(0, 70, 70); ProcessLightList` on the dark level, starting from
`InitLighting`. -/
def strayRun : Lighting :=
  ProcessLightList upstream (ChangeLightXY upstream (ChangeLightXY upstream
    (ProcessLightList upstream (AddLight upstream (InitLighting upstream darkLevel) 30 30 5).2)
    0 50 50) 0 70 70)

/-- Constants of headers that are not among the sources (`gendung.h`,
`lighting.h`): the capacity of the vision pool and the masks of the three tile
flags that the vision code sets and clears. -/
structure VisionConsts where
  MAXVISION : Int
  BFLAG_VISIBLE : Nat
  BFLAG_LIT : Nat
  BFLAG_EXPLORED : Nat

/-- The values these constants have in the upstream headers; used only to evaluate
the code on concrete inputs. -/
def upstreamFlags : VisionConsts :=
  { MAXVISION := 32, BFLAG_VISIBLE := 2, BFLAG_LIT := 64, BFLAG_EXPLORED := 128 }

/-- The global variables read or written by the vision manager and by vision
propagation. Arrays are total functions of their integer indices; `dFlags` holds
the bit pattern of each flag byte, and the pair `(x, y)` with `0 ≤ y < MAXDUNY`
stands for the byte at offset `x * MAXDUNY + y` of the array
`dFlags[MAXDUNX][MAXDUNY]`, so a pair with `x ≥ MAXDUNX` is a byte behind the
array. The one access of the code with a column index outside `0 .. MAXDUNY - 1`
is resolved to such a pair by `flagCell`. `AutomapView`, written by
`SetAutomapView`, is not part of this state. -/
structure Vision where
  VisionList : Int → LightListStruct
  numvision : Int
  dovision : Bool
  visionid : Int
  dFlags : Int → Int → Nat
  TransList : Int → Bool
  TransVal : Int
  dTransVal : Int → Int → Int
  dPiece : Int → Int → Int
  nBlockTable : Int → Bool

/-- The table `vCrawlTable[23][30]`. -/
def vCrawlRows : List (List Nat) :=
  [ [1, 0, 2, 0, 3, 0, 4, 0, 5, 0, 6, 0, 7, 0, 8, 0, 9, 0, 10, 0, 11, 0, 12, 0, 13, 0, 14, 0, 15, 0],
    [1, 0, 2, 0, 3, 0, 4, 0, 5, 0, 6, 0, 7, 0, 8, 1, 9, 1, 10, 1, 11, 1, 12, 1, 13, 1, 14, 1, 15, 1],
    [1, 0, 2, 0, 3, 0, 4, 1, 5, 1, 6, 1, 7, 1, 8, 1, 9, 1, 10, 1, 11, 1, 12, 2, 13, 2, 14, 2, 15, 2],
    [1, 0, 2, 0, 3, 1, 4, 1, 5, 1, 6, 1, 7, 1, 8, 2, 9, 2, 10, 2, 11, 2, 12, 2, 13, 3, 14, 3, 15, 3],
    [1, 0, 2, 1, 3, 1, 4, 1, 5, 1, 6, 2, 7, 2, 8, 2, 9, 3, 10, 3, 11, 3, 12, 3, 13, 4, 14, 4, 0, 0],
    [1, 0, 2, 1, 3, 1, 4, 1, 5, 2, 6, 2, 7, 3, 8, 3, 9, 3, 10, 4, 11, 4, 12, 4, 13, 5, 14, 5, 0, 0],
    [1, 0, 2, 1, 3, 1, 4, 2, 5, 2, 6, 3, 7, 3, 8, 3, 9, 4, 10, 4, 11, 5, 12, 5, 13, 6, 14, 6, 0, 0],
    [1, 1, 2, 1, 3, 2, 4, 2, 5, 3, 6, 3, 7, 4, 8, 4, 9, 5, 10, 5, 11, 6, 12, 6, 13, 7, 0, 0, 0, 0],
    [1, 1, 2, 1, 3, 2, 4, 2, 5, 3, 6, 4, 7, 4, 8, 5, 9, 6, 10, 6, 11, 7, 12, 7, 12, 8, 13, 8, 0, 0],
    [1, 1, 2, 2, 3, 2, 4, 3, 5, 4, 6, 5, 7, 5, 8, 6, 9, 7, 10, 7, 10, 8, 11, 8, 12, 9, 0, 0, 0, 0],
    [1, 1, 2, 2, 3, 3, 4, 4, 5, 5, 6, 5, 7, 6, 8, 7, 9, 8, 10, 9, 11, 9, 11, 10, 0, 0, 0, 0, 0, 0],
    [1, 1, 2, 2, 3, 3, 4, 4, 5, 5, 6, 6, 7, 7, 8, 8, 9, 9, 10, 10, 11, 11, 0, 0, 0, 0, 0, 0, 0, 0],
    [1, 1, 2, 2, 3, 3, 4, 4, 5, 5, 5, 6, 6, 7, 7, 8, 8, 9, 9, 10, 9, 11, 10, 11, 0, 0, 0, 0, 0, 0],
    [1, 1, 2, 2, 2, 3, 3, 4, 4, 5, 5, 6, 5, 7, 6, 8, 7, 9, 7, 10, 8, 10, 8, 11, 9, 12, 0, 0, 0, 0],
    [1, 1, 1, 2, 2, 3, 2, 4, 3, 5, 4, 6, 4, 7, 5, 8, 6, 9, 6, 10, 7, 11, 7, 12, 8, 12, 8, 13, 0, 0],
    [1, 1, 1, 2, 2, 3, 2, 4, 3, 5, 3, 6, 4, 7, 4, 8, 5, 9, 5, 10, 6, 11, 6, 12, 7, 13, 0, 0, 0, 0],
    [0, 1, 1, 2, 1, 3, 2, 4, 2, 5, 3, 6, 3, 7, 3, 8, 4, 9, 4, 10, 5, 11, 5, 12, 6, 13, 6, 14, 0, 0],
    [0, 1, 1, 2, 1, 3, 1, 4, 2, 5, 2, 6, 3, 7, 3, 8, 3, 9, 4, 10, 4, 11, 4, 12, 5, 13, 5, 14, 0, 0],
    [0, 1, 1, 2, 1, 3, 1, 4, 1, 5, 2, 6, 2, 7, 2, 8, 3, 9, 3, 10, 3, 11, 3, 12, 4, 13, 4, 14, 0, 0],
    [0, 1, 0, 2, 1, 3, 1, 4, 1, 5, 1, 6, 1, 7, 2, 8, 2, 9, 2, 10, 2, 11, 2, 12, 3, 13, 3, 14, 3, 15],
    [0, 1, 0, 2, 0, 3, 1, 4, 1, 5, 1, 6, 1, 7, 1, 8, 1, 9, 1, 10, 1, 11, 2, 12, 2, 13, 2, 14, 2, 15],
    [0, 1, 0, 2, 0, 3, 0, 4, 0, 5, 0, 6, 0, 7, 1, 8, 1, 9, 1, 10, 1, 11, 1, 12, 1, 13, 1, 14, 1, 15],
    [0, 1, 0, 2, 0, 3, 0, 4, 0, 5, 0, 6, 0, 7, 0, 8, 0, 9, 0, 10, 0, 11, 0, 12, 0, 13, 0, 14, 0, 15] ]

/-- The entry `vCrawlTable[j][k]`; an index outside the table reads 0. -/
def vCrawlTable (j k : Nat) : Nat :=
  (vCrawlRows.getD j []).getD k 0

/-- The entry `RadiusAdj[j]`; an index outside the table reads 0. -/
def RadiusAdj (j : Nat) : Nat :=
  [0, 0, 0, 0, 1, 1, 1, 2, 2, 2, 3, 4, 3, 2, 2, 2, 1, 1, 1, 0, 0, 0, 0].getD j 0

/-- Assignment `dFlags[x][y] = v`. -/
def setFlags (g : Int → Int → Nat) (x y : Int) (v : Nat) : Int → Int → Nat :=
  fun a b => if a = x ∧ b = y then v else g a b

/-- The byte that the expression `dFlags[x][y]` addresses for a column index `y` in
`0 .. MAXDUNY`, the range the guard of the own-tile block of `DoVision` admits. The
rows of the array `dFlags[MAXDUNX][MAXDUNY]` lie one after the other, so the index
`y = MAXDUNY` of row `x` is the byte `dFlags[x + 1][0]`: the flag byte of tile
`(x + 1, 0)` when `x + 1 < MAXDUNX`, a byte behind the array otherwise. -/
def flagCell (K : Consts) (x y : Int) : Int × Int :=
  if y = K.MAXDUNY then (x + 1, 0) else (x, y)

/-- The statements that mark the tile `(x, y)`:
`if (doautomap) dFlags[x][y] |= BFLAG_EXPLORED; if (visible) dFlags[x][y] |= BFLAG_LIT;
dFlags[x][y] |= BFLAG_VISIBLE;`. The call of `SetAutomapView` in the first branch
writes `AutomapView` only. -/
def markTile (F : VisionConsts) (s : Vision) (x y : Int) (doautomap visible : Bool) : Vision :=
  let f0 := s.dFlags x y
  let f1 := if doautomap then f0 ||| F.BFLAG_EXPLORED else f0
  let f2 := if visible then f1 ||| F.BFLAG_LIT else f1
  { s with dFlags := setFlags s.dFlags x y (f2 ||| F.BFLAG_VISIBLE) }

/-- The values the `switch (v)` of `DoVision` computes from the table entries
`cx = vCrawlTable[j][k]` and `cy = vCrawlTable[j][k + 1]`. -/
structure CrawlStep where
  nCrawlX : Int
  nCrawlY : Int
  x1adj : Int
  y1adj : Int
  x2adj : Int
  y2adj : Int

/-- The `switch (v)` of `DoVision`, `v` in `0..3`. -/
def crawlStep (X Y v : Int) (cx cy : Nat) : CrawlStep :=
  let d : Bool := decide (cx > 0 ∧ cy > 0)
  if v = 0 then
    { nCrawlX := X + cx, nCrawlY := Y + cy
      x1adj := if d then -1 else 0, y1adj := 0, x2adj := 0, y2adj := if d then -1 else 0 }
  else if v = 1 then
    { nCrawlX := X - cx, nCrawlY := Y - cy
      x1adj := 0, y1adj := if d then 1 else 0, x2adj := if d then 1 else 0, y2adj := 0 }
  else if v = 2 then
    { nCrawlX := X + cx, nCrawlY := Y - cy
      x1adj := if d then -1 else 0, y1adj := 0, x2adj := 0, y2adj := if d then 1 else 0 }
  else
    { nCrawlX := X - cx, nCrawlY := Y + cy
      x1adj := 0, y1adj := if d then -1 else 0, x2adj := if d then 1 else 0, y2adj := 0 }

/-- The test `0 <= x && x < MAXDUNX && 0 <= y && y < MAXDUNY && !nBlockTable[dPiece[x][y]]`. -/
def openTile (K : Consts) (s : Vision) (x y : Int) : Bool :=
  decide (0 ≤ x ∧ x < K.MAXDUNX ∧ 0 ≤ y ∧ y < K.MAXDUNY) && !s.nBlockTable (s.dPiece x y)

/-- One iteration of the innermost loop of `DoVision`, for `k = 2 p`. The state is
`nBlockerFlag` and the globals; once the flag is set the loop has ended, so the
remaining iterations do nothing. -/
def visionBody (K : Consts) (F : VisionConsts) (X Y : Int) (doautomap visible : Bool)
    (v j p : Int) (st : Bool × Vision) : Bool × Vision :=
  if st.1 then st
  else
    let s := st.2
    let c := crawlStep X Y v (vCrawlTable j.toNat (2 * p.toNat))
      (vCrawlTable j.toNat (2 * p.toNat + 1))
    if 0 ≤ c.nCrawlX ∧ c.nCrawlX < K.MAXDUNX ∧ 0 ≤ c.nCrawlY ∧ c.nCrawlY < K.MAXDUNY then
      let blocker := s.nBlockTable (s.dPiece c.nCrawlX c.nCrawlY)
      if openTile K s (c.x1adj + c.nCrawlX) (c.y1adj + c.nCrawlY) ||
          openTile K s (c.x2adj + c.nCrawlX) (c.y2adj + c.nCrawlY) then
        let s := markTile F s c.nCrawlX c.nCrawlY doautomap visible
        let s :=
          if !blocker then
            if s.dTransVal c.nCrawlX c.nCrawlY ≠ 0 then
              { s with TransList := setAt s.TransList (s.dTransVal c.nCrawlX c.nCrawlY) true }
            else s
          else s
        (blocker, s)
      else (blocker, s)
    else (false, s)

/-- The walk along ring `j` in pass `v`: the loop
`for (k = 0; k < nLineLen && !nBlockerFlag; k += 2)` with
`nLineLen = 2 * (nRadius - RadiusAdj[j])`. -/
def visionWalk (K : Consts) (F : VisionConsts) (X Y nRadius : Int) (doautomap visible : Bool)
    (v j : Int) (s : Vision) : Vision :=
  (forRange 0 (nRadius - RadiusAdj j.toNat) (visionBody K F X Y doautomap visible v j)
    (false, s)).2

/-- `DoVision(nXPos, nYPos, nRadius, doautomap, visible)`. The guard of the own-tile
block admits `nXPos = MAXDUNX` and `nYPos = MAXDUNY`; the byte its statements
`dFlags[nXPos][nYPos] |= ..` then write is the one given by `flagCell`. The ring
walks test their tile with `<` and stay inside the array. -/
def DoVision (K : Consts) (F : VisionConsts) (s : Vision) (nXPos nYPos nRadius : Int)
    (doautomap visible : Bool) : Vision :=
  let s :=
    if 0 ≤ nXPos ∧ nXPos ≤ K.MAXDUNX ∧ 0 ≤ nYPos ∧ nYPos ≤ K.MAXDUNY then
      markTile F s (flagCell K nXPos nYPos).1 (flagCell K nXPos nYPos).2 doautomap visible
    else s
  forRange 0 4
    (fun v s => forRange 0 23 (visionWalk K F nXPos nYPos nRadius doautomap visible v) s) s

/-- The statement `f &= ~mask` on the bit pattern of a flag byte. -/
def clearBits (f mask : Nat) : Nat :=
  Nat.ldiff f mask

/-- `DoUnVision(nXPos, nYPos, nRadius)`. -/
def DoUnVision (K : Consts) (F : VisionConsts) (s : Vision) (nXPos nYPos nRadius : Int) :
    Vision :=
  let nRadius := nRadius + 1
  let nRadius := nRadius + 1
  let y1 := nYPos - nRadius
  let y2 := nYPos + nRadius
  let x1 := nXPos - nRadius
  let x2 := nXPos + nRadius
  let y1 := if y1 < 0 then 0 else y1
  let y2 := if y2 > K.MAXDUNY then K.MAXDUNY else y2
  let x1 := if x1 < 0 then 0 else x1
  let x2 := if x2 > K.MAXDUNX then K.MAXDUNX else x2
  forRange x1 x2 (fun i s =>
    forRange y1 y2 (fun j s =>
      { s with
        dFlags := setFlags s.dFlags i j
          (clearBits (s.dFlags i j) (F.BFLAG_VISIBLE ||| F.BFLAG_LIT)) }) s) s

/-- `InitVision()`. -/
def InitVision (s : Vision) : Vision :=
  forRange 0 s.TransVal (fun i s => { s with TransList := setAt s.TransList i false })
    { s with numvision := 0, dovision := false, visionid := 1 }

/-- `AddVision(x, y, r, mine)`: the returned id and the new state. The counter
`visionid` is an `int`; its overflow after `2^31 - 1` ids is undefined in C and is
not modelled. -/
def AddVision (F : VisionConsts) (s : Vision) (x y r : Int) (mine : Bool) : Int × Vision :=
  if s.numvision < F.MAXVISION then
    let l := s.VisionList s.numvision
    (s.visionid, { s with
      VisionList := setAt s.VisionList s.numvision
        { l with
          position := { l.position with tile := ⟨x, y⟩ }
          _lradius := r, _lid := s.visionid, _ldel := false, _lunflag := false
          _lflags := mine }
      visionid := s.visionid + 1
      numvision := s.numvision + 1
      dovision := true })
  else (-1, s)

/-- `ChangeVisionRadius(id, r)`. -/
def ChangeVisionRadius (s : Vision) (id r : Int) : Vision :=
  forRange 0 s.numvision (fun i s =>
    if (s.VisionList i)._lid = id then
      let l := s.VisionList i
      { s with
        VisionList := setAt s.VisionList i
          { l with
            _lunflag := true
            position := { l.position with old := l.position.tile }
            oldRadious := l._lradius
            _lradius := r }
        dovision := true }
    else s) s

/-- `ChangeVisionXY(id, x, y)`. -/
def ChangeVisionXY (s : Vision) (id x y : Int) : Vision :=
  forRange 0 s.numvision (fun i s =>
    if (s.VisionList i)._lid = id then
      let l := s.VisionList i
      { s with
        VisionList := setAt s.VisionList i
          { l with
            _lunflag := true
            position := { l.position with old := l.position.tile, tile := ⟨x, y⟩ }
            oldRadious := l._lradius }
        dovision := true }
    else s) s

/-- Body of the first loop of `ProcessVisionList`. -/
def visionUndo (K : Consts) (F : VisionConsts) (i : Int) (s : Vision) : Vision :=
  let s :=
    if (s.VisionList i)._ldel then
      DoUnVision K F s (s.VisionList i).position.tile.x (s.VisionList i).position.tile.y
        (s.VisionList i)._lradius
    else s
  if (s.VisionList i)._lunflag then
    let s := DoUnVision K F s (s.VisionList i).position.old.x (s.VisionList i).position.old.y
      (s.VisionList i).oldRadious
    { s with VisionList := setAt s.VisionList i { s.VisionList i with _lunflag := false } }
  else s

/-- Body of the third loop of `ProcessVisionList`. -/
def visionApply (K : Consts) (F : VisionConsts) (i : Int) (s : Vision) : Vision :=
  if !(s.VisionList i)._ldel then
    DoVision K F s (s.VisionList i).position.tile.x (s.VisionList i).position.tile.y
      (s.VisionList i)._lradius (s.VisionList i)._lflags (s.VisionList i)._lflags
  else s

/-- One run of the loop `for (i = 0; i < numvision; i++)` inside the `do ... while`
of `ProcessVisionList`, from index `i` with the current `delflag`. The bound
`numvision` is read again at every iteration; `i` grows by one each time, so
`numvision - i` iterations suffice and `fuel` bounds them. -/
def visionCompactPass : Nat → Int → Bool → Vision → Bool × Vision
  | 0, _, delflag, s => (delflag, s)
  | fuel + 1, i, delflag, s =>
    if i < s.numvision then
      if (s.VisionList i)._ldel then
        let numvision := s.numvision - 1
        let s := { s with numvision := numvision }
        let s :=
          if numvision > 0 ∧ i ≠ numvision then
            { s with VisionList := setAt s.VisionList i (s.VisionList numvision) }
          else s
        visionCompactPass fuel (i + 1) true s
      else visionCompactPass fuel (i + 1) delflag s
    else (delflag, s)

/-- The loop `do { delflag = false; for (...) ...; } while (delflag)` of
`ProcessVisionList`. A run of the inner loop that sets `delflag` lowers `numvision`,
so at most `numvision + 1` runs happen and `fuel` bounds them. -/
def visionCompact : Nat → Vision → Vision
  | 0, s => s
  | fuel + 1, s =>
    let r := visionCompactPass s.numvision.toNat 0 false s
    if r.1 then visionCompact fuel r.2 else r.2

/-- `ProcessVisionList()`. -/
def ProcessVisionList (K : Consts) (F : VisionConsts) (s : Vision) : Vision :=
  let s :=
    if s.dovision then
      let s := forRange 0 s.numvision (visionUndo K F) s
      let s := forRange 0 s.TransVal
        (fun i s => { s with TransList := setAt s.TransList i false }) s
      let s := forRange 0 s.numvision (visionApply K F) s
      visionCompact (s.numvision.toNat + 1) s
    else s
  { s with dovision := false }

/-- The part of `InitAutomap()` that touches the tile flags:
`for (auto &column : dFlags) for (auto &dFlag : column) dFlag &= ~BFLAG_EXPLORED;`
over the array `dFlags[MAXDUNX][MAXDUNY]`. The automap data it loads before are
not part of this state. -/
def InitAutomap (K : Consts) (F : VisionConsts) (s : Vision) : Vision :=
  forRange 0 K.MAXDUNX (fun i s =>
    forRange 0 K.MAXDUNY (fun j s =>
      { s with
        dFlags := setFlags s.dFlags i j (clearBits (s.dFlags i j) F.BFLAG_EXPLORED) }) s) s

/-- Every bit of `mask` is set in the flag byte `f`. -/
def flagSet (f mask : Nat) : Prop :=
  f &&& mask = mask

/-- No bit of `mask` is set in the flag byte `f`. -/
def flagClear (f mask : Nat) : Prop :=
  f &&& mask = 0

instance (f mask : Nat) : Decidable (flagSet f mask) := by
  unfold flagSet; infer_instance

instance (f mask : Nat) : Decidable (flagClear f mask) := by
  unfold flagClear; infer_instance

/-- The three flag masks are non-zero and share no bit. -/
def FlagsDistinct (F : VisionConsts) : Prop :=
  F.BFLAG_VISIBLE ≠ 0 ∧ F.BFLAG_LIT ≠ 0 ∧ F.BFLAG_EXPLORED ≠ 0 ∧
    F.BFLAG_VISIBLE &&& F.BFLAG_LIT = 0 ∧ F.BFLAG_VISIBLE &&& F.BFLAG_EXPLORED = 0 ∧
    F.BFLAG_LIT &&& F.BFLAG_EXPLORED = 0

/-- The flag byte after the statements of `markTile`. -/
def markFlags (F : VisionConsts) (doautomap visible : Bool) (f : Nat) : Nat :=
  let f1 := if doautomap then f ||| F.BFLAG_EXPLORED else f
  let f2 := if visible then f1 ||| F.BFLAG_LIT else f1
  f2 ||| F.BFLAG_VISIBLE

/-- Two vision states agree on everything but the flag grid and `TransList`. -/
structure VFrame (s u : Vision) : Prop where
  hVisionList : u.VisionList = s.VisionList
  hnumvision : u.numvision = s.numvision
  hdovision : u.dovision = s.dovision
  hvisionid : u.visionid = s.visionid
  hTransVal : u.TransVal = s.TransVal
  hdTransVal : u.dTransVal = s.dTransVal
  hdPiece : u.dPiece = s.dPiece
  hnBlockTable : u.nBlockTable = s.nBlockTable

/-- State `u` is state `s` with the tiles of `M` marked and the entries of `T` of
`TransList` set. -/
structure Marked (F : VisionConsts) (doautomap visible : Bool) (s u : Vision)
    (M : Int → Int → Prop) (T : Int → Prop) : Prop where
  frame : VFrame s u
  hit : ∀ a b, M a b → u.dFlags a b = markFlags F doautomap visible (s.dFlags a b)
  miss : ∀ a b, ¬ M a b → u.dFlags a b = s.dFlags a b
  trans : ∀ t, u.TransList t = true ↔ (s.TransList t = true ∨ T t)

/-- The entry `nBlockTable[dPiece[x][y]]`. -/
def blocker (s : Vision) (x y : Int) : Bool :=
  s.nBlockTable (s.dPiece x y)

/-- The values of step `p` (`k = 2 p`) of the walk along ring `j` in pass `v`. -/
def cand (X Y v j p : Int) : CrawlStep :=
  crawlStep X Y v (vCrawlTable j.toNat (2 * p.toNat)) (vCrawlTable j.toNat (2 * p.toNat + 1))

/-- The candidate tile of a step is on the map. -/
def candOn (K : Consts) (c : CrawlStep) : Prop :=
  0 ≤ c.nCrawlX ∧ c.nCrawlX < K.MAXDUNX ∧ 0 ≤ c.nCrawlY ∧ c.nCrawlY < K.MAXDUNY

/-- The candidate tile of a step is on the map and opaque: the step sets
`nBlockerFlag`. -/
def candBlocks (K : Consts) (s : Vision) (c : CrawlStep) : Prop :=
  candOn K c ∧ blocker s c.nCrawlX c.nCrawlY = true

/-- The candidate tile of a step is on the map and one of its two adjusted
neighbours is on the map and not opaque: the step marks the candidate. -/
def candSeen (K : Consts) (s : Vision) (c : CrawlStep) : Prop :=
  candOn K c ∧
    (openTile K s (c.x1adj + c.nCrawlX) (c.y1adj + c.nCrawlY) = true ∨
      openTile K s (c.x2adj + c.nCrawlX) (c.y2adj + c.nCrawlY) = true)

/-- Step `p` of the walk along ring `j` in pass `v` of `DoVision(X, Y, r, ..)` is
executed (no earlier candidate of the walk is an on-map opaque tile) and marks its
candidate. -/
def stepMarks (K : Consts) (s : Vision) (X Y r v j p : Int) : Prop :=
  (0 ≤ p ∧ p < r - RadiusAdj j.toNat) ∧
    (∀ q, 0 ≤ q → q < p → ¬ candBlocks K s (cand X Y v j q)) ∧ candSeen K s (cand X Y v j p)

/-- Tile `(a, b)` is marked by the walk along ring `j` in pass `v`. -/
def walkMarks (K : Consts) (s : Vision) (X Y r v j a b : Int) : Prop :=
  ∃ p, stepMarks K s X Y r v j p ∧ (cand X Y v j p).nCrawlX = a ∧ (cand X Y v j p).nCrawlY = b

/-- Entry `t` of `TransList` is set by the walk along ring `j` in pass `v`: `t` is
the non-zero region id of a non-opaque tile marked by the walk. -/
def walkTrans (K : Consts) (s : Vision) (X Y r v j t : Int) : Prop :=
  ∃ p, stepMarks K s X Y r v j p ∧
    blocker s (cand X Y v j p).nCrawlX (cand X Y v j p).nCrawlY = false ∧
    s.dTransVal (cand X Y v j p).nCrawlX (cand X Y v j p).nCrawlY = t ∧ t ≠ 0

/-- Tile `(a, b)` is marked by `DoVision(X, Y, r, ..)`: it is the byte written by
the own-tile block, whose guard the observer passes, or it is marked by a ring
walk. -/
def visMarks (K : Consts) (s : Vision) (X Y r a b : Int) : Prop :=
  ((0 ≤ X ∧ X ≤ K.MAXDUNX ∧ 0 ≤ Y ∧ Y ≤ K.MAXDUNY) ∧
      a = (flagCell K X Y).1 ∧ b = (flagCell K X Y).2) ∨
    ∃ v j, (0 ≤ v ∧ v < 4) ∧ (0 ≤ j ∧ j < 23) ∧ walkMarks K s X Y r v j a b

/-- Entry `t` of `TransList` is set by `DoVision(X, Y, r, ..)`. -/
def visTrans (K : Consts) (s : Vision) (X Y r t : Int) : Prop :=
  ∃ v j, (0 ≤ v ∧ v < 4) ∧ (0 ≤ j ∧ j < 23) ∧ walkTrans K s X Y r v j t

/-- A record of the vision pool with every field zero. -/
def zeroVision : LightListStruct :=
  { position := { tile := ⟨0, 0⟩, offset := ⟨0, 0⟩, old := ⟨0, 0⟩ }
    _lradius := 0, _lid := 0, _ldel := false, _lunflag := false
    oldRadious := 0, _lflags := false }

/-- An open map: no tile is opaque, every tile flag is clear, every tile lies in
translucency region 1, no region is active and the vision pool is empty. -/
def openMap : Vision :=
  { VisionList := fun _ => zeroVision
    numvision := 0, dovision := false, visionid := 1
    dFlags := fun _ _ => 0
    TransList := fun _ => false
    TransVal := 2
    dTransVal := fun _ _ => 1
    dPiece := fun _ _ => 0
    nBlockTable := fun _ => false }

/-- The map of `openMap` with every tile opaque. -/
def wallMap : Vision :=
  { openMap with nBlockTable := fun _ => true }

/-- The open map with a full vision pool. -/
def fullPool : Vision :=
  { openMap with numvision := upstreamFlags.MAXVISION }

/-- The record written by `ChangeVisionRadius(id, r)` over the record `l`. -/
def radiusChanged (r : Int) (l : LightListStruct) : LightListStruct :=
  { l with
    _lunflag := true
    position := { l.position with old := l.position.tile }
    oldRadious := l._lradius
    _lradius := r }

/-- The record written by `ChangeVisionXY(id, x, y)` over the record `l`. -/
def xyChanged (x y : Int) (l : LightListStruct) : LightListStruct :=
  { l with
    _lunflag := true
    position := { l.position with old := l.position.tile, tile := ⟨x, y⟩ }
    oldRadious := l._lradius }

/-- The open map with one live vision source of id 1 at (50, 50), radius 10. -/
def oneVision : Vision :=
  (AddVision upstreamFlags openMap 50 50 10 true).2

/-- The tiles whose visible and lit bits the undo loop of `ProcessVisionList` clears
for the record `l`. -/
def visionUndoArea (K : Consts) (l : LightListStruct) (a b : Int) : Prop :=
  onMap K a b ∧
    ((l._ldel = true ∧ inSquare l.position.tile.x l.position.tile.y (l._lradius + 1) a b) ∨
      (l._lunflag = true ∧ inSquare l.position.old.x l.position.old.y (l.oldRadious + 1) a b))

instance (K : Consts) (l : LightListStruct) (a b : Int) : Decidable (visionUndoArea K l a b) := by
  unfold visionUndoArea; infer_instance

/-- Two vision states agree on everything but the records and the flag grid. -/
structure VRest (s u : Vision) : Prop where
  hnumvision : u.numvision = s.numvision
  hdovision : u.dovision = s.dovision
  hvisionid : u.visionid = s.visionid
  hTransList : u.TransList = s.TransList
  hTransVal : u.TransVal = s.TransVal
  hdTransVal : u.dTransVal = s.dTransVal
  hdPiece : u.dPiece = s.dPiece
  hnBlockTable : u.nBlockTable = s.nBlockTable

/-- State `u` is state `s` after marking: the tiles of `M` have their visible bit
set, the tiles of `MP` their explored bit, the flags of the tiles outside `M` are
unchanged and no bit of any flag byte is cleared. -/
structure Seen (F : VisionConsts) (s u : Vision) (M MP : Int → Int → Prop) : Prop where
  frame : VFrame s u
  hit : ∀ a b, M a b → flagSet (u.dFlags a b) F.BFLAG_VISIBLE
  hitP : ∀ a b, MP a b → flagSet (u.dFlags a b) F.BFLAG_EXPLORED
  miss : ∀ a b, ¬ M a b → u.dFlags a b = s.dFlags a b
  grow : ∀ a b m, flagSet (s.dFlags a b) m → flagSet (u.dFlags a b) m

/-- Tile `(a, b)` is marked by `DoVision` for one of the live vision sources, at its
current position and radius. -/
def nowMarked (K : Consts) (s : Vision) (a b : Int) : Prop :=
  ∃ i, 0 ≤ i ∧ i < s.numvision ∧
    visMarks K s (s.VisionList i).position.tile.x (s.VisionList i).position.tile.y
      (s.VisionList i)._lradius a b

/-- Tile `(a, b)` is marked by `DoVision` for one of the live personal vision
sources. -/
def nowExplored (K : Consts) (s : Vision) (a b : Int) : Prop :=
  ∃ i, 0 ≤ i ∧ i < s.numvision ∧ (s.VisionList i)._lflags = true ∧
    visMarks K s (s.VisionList i).position.tile.x (s.VisionList i).position.tile.y
      (s.VisionList i)._lradius a b

/-- Tile `(a, b)` lies in the undo area of one of the live vision sources. -/
def visionUndone (K : Consts) (s : Vision) (a b : Int) : Prop :=
  ∃ i, 0 ≤ i ∧ i < s.numvision ∧ visionUndoArea K (s.VisionList i) a b

/-- A call of the vision source manager. -/
inductive VisionOp where
  | addVision (x y r : Int) (mine : Bool)
  | changeVisionRadius (id r : Int)
  | changeVisionXY (id x y : Int)
  | processVisionList

/-- The state after a call of the vision source manager. -/
def VisionOp.run (K : Consts) (F : VisionConsts) (s : Vision) : VisionOp → Vision
  | .addVision x y r mine => (AddVision F s x y r mine).2
  | .changeVisionRadius id r => ChangeVisionRadius s id r
  | .changeVisionXY id x y => ChangeVisionXY s id x y
  | .processVisionList => ProcessVisionList K F s

/-- The ids returned by the successful `AddVision` calls of a sequence of calls, in
the order of the calls. -/
def visionIds (K : Consts) (F : VisionConsts) : Vision → List VisionOp → List Int
  | _, [] => []
  | s, .addVision x y r mine :: ops =>
    if s.numvision < F.MAXVISION then
      (AddVision F s x y r mine).1 :: visionIds K F (AddVision F s x y r mine).2 ops
    else visionIds K F (AddVision F s x y r mine).2 ops
  | s, .changeVisionRadius id r :: ops => visionIds K F (ChangeVisionRadius s id r) ops
  | s, .changeVisionXY id x y :: ops => visionIds K F (ChangeVisionXY s id x y) ops
  | s, .processVisionList :: ops => visionIds K F (ProcessVisionList K F s) ops

/-- The states reachable from `InitVision` on `s0` by calls that satisfy `ok`. -/
inductive VisionReach (K : Consts) (F : VisionConsts) (ok : Vision → VisionOp → Prop)
    (s0 : Vision) : Vision → Prop
  | init : VisionReach K F ok s0 (InitVision s0)
  | step (s : Vision) (op : VisionOp) :
      VisionReach K F ok s0 s → ok s op → VisionReach K F ok s0 (op.run K F s)

/-- The invariant of the vision ids: no live source is pending-delete, the ids of
the live sources are below the id counter and pairwise different. -/
structure IdInv (s : Vision) : Prop where
  hn : 0 ≤ s.numvision
  hlive : ∀ i, 0 ≤ i → i < s.numvision → (s.VisionList i)._ldel = false
  hid : ∀ i, 0 ≤ i → i < s.numvision → (s.VisionList i)._lid < s.visionid
  huniq : ∀ i k, 0 ≤ i → i < s.numvision → 0 ≤ k → k < s.numvision →
    (s.VisionList i)._lid = (s.VisionList k)._lid → i = k

/-- A call that respects the coalescing discipline in state `s`: radii are in
`0..15` and a change call is made only for sources that are not already
pending-change. -/
def VisionOp.disciplined (s : Vision) : VisionOp → Prop
  | .addVision _ _ r _ => 0 ≤ r ∧ r ≤ 15
  | .changeVisionRadius id r => (0 ≤ r ∧ r ≤ 15) ∧
      ∀ k, 0 ≤ k → k < s.numvision → (s.VisionList k)._lid = id →
        (s.VisionList k)._lunflag = false
  | .changeVisionXY id _ _ =>
      ∀ k, 0 ≤ k → k < s.numvision → (s.VisionList k)._lid = id →
        (s.VisionList k)._lunflag = false
  | .processVisionList => True

/-- A call that puts no vision source in row `MAXDUNY`, the row whose own-tile
write `DoVision` lands in the next row of the flag grid. -/
def VisionOp.placed (K : Consts) : VisionOp → Prop
  | .addVision _ y _ _ => y ≠ K.MAXDUNY
  | .changeVisionRadius _ _ => True
  | .changeVisionXY _ _ y => y ≠ K.MAXDUNY
  | .processVisionList => True

/-- No live vision source is in row `MAXDUNY`, and none that is pending-change was
there when it was last applied. -/
def PlacedInv (K : Consts) (s : Vision) : Prop :=
  ∀ i, 0 ≤ i → i < s.numvision →
    (s.VisionList i).position.tile.y ≠ K.MAXDUNY ∧
      ((s.VisionList i)._lunflag = true → (s.VisionList i).position.old.y ≠ K.MAXDUNY)

/-- Tile `(a, b)` is marked by `DoVision` for one of the first `m` vision sources,
at the position and radius with which the source was last applied. -/
def shownMarked (K : Consts) (s : Vision) (m a b : Int) : Prop :=
  ∃ i, 0 ≤ i ∧ i < m ∧
    visMarks K s (shown (s.VisionList i)).1 (shown (s.VisionList i)).2.1
      (shown (s.VisionList i)).2.2 a b

/-- The invariant of the vision manager under disciplined calls. `m` is the number
of sources that were live at the last `ProcessVisionList` call. -/
structure VisInv (K : Consts) (F : VisionConsts) (s : Vision) (m : Int) : Prop where
  hid : IdInv s
  hm0 : 0 ≤ m
  hmn : m ≤ s.numvision
  hrad : ∀ i, 0 ≤ i → i < s.numvision →
    0 ≤ (s.VisionList i)._lradius ∧ (s.VisionList i)._lradius ≤ 15
  hshown : ∀ i, 0 ≤ i → i < m →
    0 ≤ (shown (s.VisionList i)).2.2 ∧ (shown (s.VisionList i)).2.2 ≤ 15
  hset : ∀ a b, onMap K a b → shownMarked K s m a b →
    flagSet (s.dFlags a b) F.BFLAG_VISIBLE
  hclear : ∀ a b, onMap K a b → ¬ shownMarked K s m a b →
    flagClear (s.dFlags a b) F.BFLAG_VISIBLE
  hclean : s.dovision = false → m = s.numvision ∧
    ∀ i, 0 ≤ i → i < s.numvision → (s.VisionList i)._lunflag = false

/-- The vision pool after `AddVision(30, 30, 5, true); ProcessVisionList;
ChangeVisionXY(1, 50, 50); ChangeVisionXY(1, 70, 70); ProcessVisionList` on the open
map, starting from `InitVision`. -/
def strayVision : Vision :=
  ProcessVisionList upstream upstreamFlags (ChangeVisionXY (ChangeVisionXY
    (ProcessVisionList upstream upstreamFlags
      (AddVision upstreamFlags (InitVision openMap) 30 30 5 true).2) 1 50 50) 1 70 70)

/-- The state of the light manager and of the vision manager together. -/
structure Game where
  light : Lighting
  vision : Vision

/-- A call of the light manager, of the vision manager, or of `DoVision` or
`DoUnVision`. -/
inductive GameOp where
  | light (op : LightOp)
  | vision (op : VisionOp)
  | doVision (x y r : Int) (doautomap visible : Bool)
  | doUnVision (x y r : Int)

/-- The state after a call. The functions of the light manager do not mention the
tile flags, those of the vision manager do not mention the light grids. -/
def GameOp.run (K : Consts) (F : VisionConsts) (g : Game) : GameOp → Game
  | .light op => { g with light := op.run K g.light }
  | .vision op => { g with vision := op.run K F g.vision }
  | .doVision x y r doautomap visible =>
    { g with vision := DoVision K F g.vision x y r doautomap visible }
  | .doUnVision x y r => { g with vision := DoUnVision K F g.vision x y r }

/-- The state after a sequence of calls. -/
def runGame (K : Consts) (F : VisionConsts) (g : Game) : List GameOp → Game
  | [] => g
  | op :: ops => runGame K F (op.run K F g) ops

/-- The open map with every tile explored. -/
def exploredMap : Vision :=
  { openMap with dFlags := fun _ _ => 128 }

/-- An array access of `DoLighting`: `lightblock[m][k][l]`, `lightradius[j][i]`, or
a tile `(x, y)` of a light grid. -/
inductive Access where
  | block (m k l : Int)
  | radius (j i : Int)
  | grid (x y : Int)

/-- The access is within the C arrays `lightblock[64][16][16]`,
`lightradius[16][128]` and the grids `[MAXDUNX][MAXDUNY]`. -/
def Access.ok (K : Consts) : Access → Prop
  | .block m k l => (0 ≤ m ∧ m < 64) ∧ (0 ≤ k ∧ k < 16) ∧ 0 ≤ l ∧ l < 16
  | .radius j i => (0 ≤ j ∧ j < 16) ∧ 0 ≤ i ∧ i < 128
  | .grid x y => 0 ≤ x ∧ x < K.MAXDUNX ∧ 0 ≤ y ∧ y < K.MAXDUNY

/-- Every access of a log is within the arrays. -/
def logOk (K : Consts) (log : List Access) : Prop :=
  ∀ a, a ∈ log → a.ok K

/-- The array accesses of one quadrant pass of `DoLighting` (`lightPass`), added to
`log`: each iteration reads `lightblock[mult][y + block_y][x + block_x]`; when the
entry is below 128 it reads `lightradius[nRadius][radius_block]`, and when the
tile passes the bounds test it reads and possibly writes the grid there. The
tables are not written by `DoLighting`, so they are read from the state at entry. -/
def passLog (K : Consts) (s : Lighting) (nRadius mult ylim xlim block_x block_y : Int)
    (tx ty : Int → Int → Int) (log : List Access) : List Access :=
  forRange 0 ylim (fun y log =>
    forRange 1 xlim (fun x log =>
      let radius_block := s.lightblock mult (y + block_y) (x + block_x)
      let log := Access.block mult (y + block_y) (x + block_x) :: log
      if radius_block < 128 then
        let temp_x := tx x y
        let temp_y := ty x y
        let log := Access.radius nRadius radius_block :: log
        if 0 ≤ temp_x ∧ temp_x < K.MAXDUNX ∧ 0 ≤ temp_y ∧ temp_y < K.MAXDUNY then
          Access.grid temp_x temp_y :: log
        else log
      else log) log) log

/-- The array accesses of the write of `DoLighting` to the tile of the source
(`lightOwnTile`). -/
def ownLog (K : Consts) (s : Lighting) (nXPos nYPos nRadius : Int) : List Access :=
  if nXPos ≥ 0 ∧ nXPos < K.MAXDUNX ∧ nYPos ≥ 0 ∧ nYPos < K.MAXDUNY then
    if s.currlevel < 17 then [Access.grid nXPos nYPos]
    else [Access.grid nXPos nYPos, Access.radius nRadius 0]
  else []

/-- The array accesses of the body of `DoLighting` (`lightFrom`). -/
def lightFromLog (K : Consts) (s : Lighting) (nXPos nYPos nRadius xoff yoff : Int) :
    List Access :=
  let dist_x := xoff
  let dist_y := yoff
  let min_x := if nXPos - 15 < 0 then nXPos + 1 else 15
  let max_x := if nXPos + 15 > K.MAXDUNX then K.MAXDUNX - nXPos else 15
  let min_y := if nYPos - 15 < 0 then nYPos + 1 else 15
  let max_y := if nYPos + 15 > K.MAXDUNY then K.MAXDUNY - nYPos else 15
  let log := ownLog K s nXPos nYPos nRadius
  let mult := xoff + 8 * yoff
  let log := passLog K s nRadius mult min_y max_x 0 0
    (fun x _ => nXPos + x) (fun _ y => nYPos + y) log
  let r1 := RotateRadius dist_x dist_y 0 0
  let mult := r1.x + 8 * r1.y
  let log := passLog K s nRadius mult max_y max_x r1.bx r1.by_
    (fun _ y => nXPos + y) (fun x _ => nYPos - x) log
  let r2 := RotateRadius r1.dx r1.dy r1.lx r1.ly
  let mult := r2.x + 8 * r2.y
  let log := passLog K s nRadius mult max_y min_x r2.bx r2.by_
    (fun x _ => nXPos - x) (fun _ y => nYPos - y) log
  let r3 := RotateRadius r2.dx r2.dy r2.lx r2.ly
  let mult := r3.x + 8 * r3.y
  passLog K s nRadius mult min_y min_x r3.bx r3.by_
    (fun _ y => nXPos - y) (fun x _ => nYPos + x) log

/-- The accesses of `DoLighting(nXPos, nYPos, nRadius, Lnum)` to the block table,
the attenuation table and the light grids. -/
def DoLightingLog (K : Consts) (s : Lighting) (nXPos nYPos nRadius Lnum : Int) : List Access :=
  let o := lightOrigin s nXPos nYPos Lnum
  lightFromLog K s o.1 o.2.1 nRadius o.2.2.1 o.2.2.2

/-- The variables of the ramp section of `MakeLightTable`: the write pointer `tbl`
as an offset into `pLightTbl`, the table, and the bytes `col` and `max`. -/
structure RampState where
  tbl : Int
  pLightTbl : Int → Int
  col : Int
  max : Int

/-- The statement `*tbl++ = v`. -/
def put (t : RampState) (v : Int) : RampState :=
  { t with tbl := t.tbl + 1, pLightTbl := setAt t.pLightTbl t.tbl v }

/-- The statement `if (col < max) { col++; } else { max = 0; col = 0; }` on bytes. -/
def stepCol (t : RampState) : RampState :=
  if t.col < t.max then { t with col := (t.col + 1) % 256 } else { t with max := 0, col := 0 }

/-- Body of the loop `for (j = 0; j < 8; j++)` of `MakeLightTable`: a band of 16
colours; the entry of palette index 0 is not written. -/
def rampLow (shade j : Int) (t : RampState) : RampState :=
  forRange 0 16 (fun k t =>
    let t := if k ≠ 0 ∨ j ≠ 0 then put t t.col else t
    stepCol t)
    { t with col := (16 * j + shade) % 256, max := (16 * j + 15) % 256 }

/-- Body of the loop `for (j = 16; j < 20; j++)` of `MakeLightTable`: a band of 8
colours; `shade >> 1` is `shade / 2` for the non-negative `shade`. -/
def rampMid (shade j : Int) (t : RampState) : RampState :=
  forRange 0 8 (fun _ t => stepCol (put t t.col))
    { t with col := (8 * j + shade / 2) % 256, max := (8 * j + 7) % 256 }

/-- Body of the loop `for (j = 10; j < 16; j++)` of `MakeLightTable`: a band of 16
colours that never yields index 255. -/
def rampHigh (shade j : Int) (t : RampState) : RampState :=
  forRange 0 16 (fun _ t =>
    let t := stepCol (put t t.col)
    if t.col = 255 then { t with max := 0, col := 0 } else t)
    { t with col := (16 * j + shade) % 256, max := (16 * j + 15) % 256 }

/-- Body of the loop `for (i = 0; i < lights; i++)` of `MakeLightTable`; the state
is `shade` and the ramp variables. -/
def rampOne (light4flag : Bool) (_i : Int) (st : Int × RampState) : Int × RampState :=
  let shade := st.1
  let t := put st.2 0
  let t := forRange 0 8 (rampLow shade) t
  let t := forRange 16 20 (rampMid shade) t
  let t := forRange 10 16 (rampHigh shade) t
  (if light4flag then shade + 5 else shade + 1, t)

/-- The ramps written by `MakeLightTable` before its sections for hell and for
levels from 17 on: `lights` ramps and a ramp of zeros, from offset 0 of
`pLightTbl`. On a level that is not hell and below 17 the rest of the function
writes only behind these ramps. -/
def MakeLightTable_ramps (light4flag : Bool) (tab0 : Int → Int) : Int → Int :=
  let lights : Int := if light4flag then 3 else 15
  let st := forRange 0 lights (rampOne light4flag)
    (0, { tbl := 0, pLightTbl := tab0, col := 0, max := 0 })
  (forRange 0 256 (fun _ t => put t 0) st.2).pLightTbl

/-- Modelled from the spec: the value the claim gives for palette index `p` in the
ramp with shade `s`. -/
def rampValue (s p : Int) : Int :=
  if p = 0 then 0
  else if 128 ≤ p ∧ p ≤ 159 then (if p % 8 + s / 2 ≤ 7 then p + s / 2 else 0)
  else if p % 16 + s ≤ 15 ∧ p + s ≠ 255 then p + s else 0

/-- The number of ramps before the ramp of zeros. -/
def rampLights (light4flag : Bool) : Int :=
  if light4flag then 3 else 15

/-- The shade of ramp `i`. -/
def rampShade (light4flag : Bool) (i : Int) : Int :=
  if light4flag then 5 * i else i

/-- The value of the table at offset `a` according to the claim. -/
def rampTarget (light4flag : Bool) (a : Int) : Int :=
  if a < 256 * rampLights light4flag then rampValue (rampShade light4flag (a / 256)) (a % 256)
  else 0

/-- The table agrees with the claim below the write pointer. -/
def RampInv (light4flag : Bool) (t : RampState) : Prop :=
  0 ≤ t.tbl ∧ ∀ a, 0 ≤ a → a < t.tbl → t.pLightTbl a = rampTarget light4flag a

/-- The variables of `lighting_color_cycling`: the pointer `tbl` as an offset into
`pLightTbl`, the table, and the saved byte `col`. -/
structure CycleState where
  tbl : Int
  pLightTbl : Int → Int
  col : Int

/-- Body of the loop `for (i = 0; i < 30; i++)` of `lighting_color_cycling`:
`tbl[0] = tbl[1]; tbl++`. -/
def cycleShift (_i : Int) (t : CycleState) : CycleState :=
  { t with
    pLightTbl := setAt t.pLightTbl t.tbl (t.pLightTbl (t.tbl + 1))
    tbl := t.tbl + 1 }

/-- Body of the loop `for (j = 0; j < l; j++)` of `lighting_color_cycling`. -/
def cycleRamp (_j : Int) (t : CycleState) : CycleState :=
  let t := { t with tbl := t.tbl + 1 }
  let t := { t with col := t.pLightTbl t.tbl }
  let t := forRange 0 30 cycleShift t
  let t := { t with pLightTbl := setAt t.pLightTbl t.tbl t.col }
  { t with tbl := t.tbl + 225 }

/-- The function `lighting_color_cycling` as a map of the light table; the level
type and the constant `DTYPE_HELL` are parameters. -/
def lighting_color_cycling (light4flag : Bool) (leveltype DTYPE_HELL : Int)
    (pLightTbl : Int → Int) : Int → Int :=
  let l : Int := if light4flag then 4 else 16
  if leveltype ≠ DTYPE_HELL then pLightTbl
  else (forRange 0 l cycleRamp { tbl := 0, pLightTbl := pLightTbl, col := 0 }).pLightTbl

/-- Modelled from the spec: the entry that a rotation of the entries 1..31 of the
ramps by one position toward lower indices moves to offset `a`. -/
def cycleSource (a : Int) : Int :=
  if 1 ≤ a % 256 ∧ a % 256 ≤ 30 then a + 1 else if a % 256 = 31 then a - 30 else a

/-- The entry that `n` rotations move to offset `a` of the first `l` ramps. -/
def cycleSourceN (l : Int) (n : Nat) (a : Int) : Int :=
  if 0 ≤ a ∧ a < 256 * l ∧ 1 ≤ a % 256 ∧ a % 256 ≤ 31
  then a - a % 256 + 1 + (a % 256 - 1 + n) % 31 else a

/-- Conversion to `uint32_t`. -/
def toUInt32 (v : Int) : Int :=
  v % 4294967296

/-- Conversion to `int32_t` (two's complement). -/
def toInt32 (v : Int) : Int :=
  (v + 2147483648) % 4294967296 - 2147483648

/-- The constant `RndInc` of `engine.cpp`. -/
def RndInc : Int := 1

/-- The constant `RndMult` of `engine.cpp`, `0x015A4E35`. -/
def RndMult : Int := 22695477

/-- The function `abs` on `int`: the magnitude, stored in an `int` again, so that
the most negative value is returned as it is. -/
def abs32 (v : Int) : Int :=
  toInt32 (if v < 0 then -v else v)

/-- The function `AdvanceRndSeed` on the state `sglGameSeed`: the returned value
and the new seed. The product and the sum are taken in `uint32_t`. -/
def AdvanceRndSeed (sglGameSeed : Int) : Int × Int :=
  let seed := toInt32 (toUInt32 (toUInt32 (RndMult * toUInt32 sglGameSeed) + RndInc))
  (abs32 seed, seed)

/-- The function `GenerateRnd` on the state `sglGameSeed`: the returned value and
the new seed. The operator `%` of C truncates (`Int.tmod`), and `>> 16` on an
`int32_t` is the arithmetic shift. -/
def GenerateRnd (v : Int) (sglGameSeed : Int) : Int × Int :=
  if v ≤ 0 then (0, sglGameSeed)
  else if v < 65535 then
    let r := AdvanceRndSeed sglGameSeed
    (Int.tmod (r.1 / 65536) v, r.2)
  else
    let r := AdvanceRndSeed sglGameSeed
    (Int.tmod r.1 v, r.2)

/-- A level with one light record everywhere whose sub-tile offset is (-3, 5). -/
def negOffsetLight : Lighting :=
  { darkLevel with
    LightList := fun _ =>
      { zeroLight with position := { zeroLight.position with offset := ⟨-3, 5⟩ } } }

/-- The invariant of the light pool in the states reachable from `InitLighting`:
lighting is not frozen, `numlights` is within the pool, `lightactive` is a
permutation of `0 .. MAXLIGHTS - 1`, and while the dirty flag is clear no live light
is pending-delete or pending-change. -/
structure PoolInv (K : Consts) (s : Lighting) : Prop where
  hfrozen : s.lightflag = false
  hn0 : 0 ≤ s.numlights
  hnmax : s.numlights ≤ K.MAXLIGHTS
  hperm : ∃ σ : Equiv.Perm Int, (∀ k, ¬ (0 ≤ k ∧ k < K.MAXLIGHTS) → σ k = k) ∧
    ∀ k, 0 ≤ k → k < K.MAXLIGHTS → (s.lightactive k : Int) = σ k
  hidle : s.dolighting = false → ∀ k, 0 ≤ k → k < s.numlights →
    (s.LightList (s.lightactive k))._ldel = false ∧
      (s.LightList (s.lightactive k))._lunflag = false

/-- Assignment `lightblock[m][k][l] = v`. -/
def setBlock (t : Int → Int → Int → Nat) (m k l : Int) (v : Nat) : Int → Int → Int → Nat :=
  fun a b c => if a = m ∧ b = k ∧ c = l then v else t a b c

/-- The last loop nest of `MakeLightTable`, which fills `lightblock`:
`fs = (BYTE)sqrt((double)(8 * l - j) * (8 * l - j) + (8 * k - i) * (8 * k - i));
fs += fs < 0 ? -0.5 : 0.5; lightblock[j * 8 + i][k][l] = fs;`.
The argument of `sqrt` is an integer below `2^53`, so the correctly rounded root
has the integer square root as its integer part; the conversion to `BYTE` keeps
that part (modulo 256), and the `0.5` added afterwards is cut off again by the
conversion to the `BYTE` array element. -/
def MakeLightTable_blocks (lightblock : Int → Int → Int → Nat) : Int → Int → Int → Nat :=
  forRange 0 8 (fun j t =>
    forRange 0 8 (fun i t =>
      forRange 0 16 (fun k t =>
        forRange 0 16 (fun l t =>
          setBlock t (j * 8 + i) k l
            (Nat.sqrt ((8 * l - j) * (8 * l - j) + (8 * k - i) * (8 * k - i)).toNat % 256)) t) t) t)
    lightblock

/-- Modelled from the spec: the level the reference definition gives a tile at
offset `(a, b)` from a source of radius `R`: `lightradius[R][d]` for the distance
bucket `d = ⌊8 sqrt(a² + b²)⌋ = ⌊sqrt(64 (a² + b²))⌋` when `d < 128`, else 15. -/
def refLevel (s : Lighting) (R a b : Int) : Int :=
  if Nat.sqrt (64 * (a * a + b * b)).toNat < 128 then
    (s.lightradius R (Nat.sqrt (64 * (a * a + b * b)).toNat) : Int)
  else 15

/-- The offsets `(a, b)` from the source tile `(X, Y)` that the four passes of
`DoLighting` visit: pass 1 the tiles `(X + x, Y + y)` with `x < max_x`, `y < min_y`,
pass 2 the tiles `(X + y, Y - x)` with `x < max_x`, `y < max_y`, pass 3 the tiles
`(X - x, Y - y)` with `x < min_x`, `y < max_y`, and pass 4 the tiles `(X - y, Y + x)`
with `x < min_x`, `y < min_y`, always with `1 ≤ x` and `0 ≤ y`. -/
def litWindow (K : Consts) (X Y a b : Int) : Prop :=
  let min_x := if X - 15 < 0 then X + 1 else 15
  let max_x := if X + 15 > K.MAXDUNX then K.MAXDUNX - X else 15
  let min_y := if Y - 15 < 0 then Y + 1 else 15
  let max_y := if Y + 15 > K.MAXDUNY then K.MAXDUNY - Y else 15
  ((1 ≤ a ∧ a < max_x) ∧ 0 ≤ b ∧ b < min_y) ∨
    ((0 ≤ a ∧ a < max_y) ∧ 1 ≤ -b ∧ -b < max_x) ∨
    ((1 ≤ -a ∧ -a < min_x) ∧ 0 ≤ -b ∧ -b < max_y) ∨
    ((0 ≤ -a ∧ -a < min_y) ∧ 1 ≤ b ∧ b < min_x)

instance (K : Consts) (X Y a b : Int) : Decidable (litWindow K X Y a b) := by
  unfold litWindow; infer_instance

/-! # Theorems -/

/-! ## Loops -/

theorem forLoop_rel {σ τ : Type} (R : σ → τ → Prop) (f : Int → σ → σ) (g : Int → τ → τ) :
    ∀ (n : Nat) (lo : Int) (a : σ) (b : τ),
      (∀ i, lo ≤ i → i < lo + n → ∀ u v, R u v → R (f i u) (g i v)) → R a b →
      R (forLoop lo n f a) (forLoop lo n g b)
  | 0, _, _, _, _, hs => hs
  | n + 1, lo, a, b, h, hs => by
    simp only [forLoop]
    apply forLoop_rel R f g n (lo + 1)
    · intro i h1 h2 u v huv
      exact h i (by omega) (by push_cast; omega) u v huv
    · exact h lo (le_refl _) (by push_cast; omega) a b hs

theorem forRange_rel {σ τ : Type} (R : σ → τ → Prop) (f : Int → σ → σ) (g : Int → τ → τ)
    (lo hi : Int) (a : σ) (b : τ)
    (h : ∀ i, lo ≤ i → i < hi → ∀ u v, R u v → R (f i u) (g i v)) (hs : R a b) :
    R (forRange lo hi f a) (forRange lo hi g b) := by
  unfold forRange
  apply forLoop_rel R f g _ lo a b _ hs
  intro i h1 h2 u v huv
  exact h i h1 (by omega) u v huv

theorem forRange_inv {σ : Type} (P : σ → Prop) (body : Int → σ → σ) (lo hi : Int) (s : σ)
    (h : ∀ i, lo ≤ i → i < hi → ∀ t, P t → P (body i t)) (hs : P s) :
    P (forRange lo hi body s) := by
  have := forRange_rel (fun u v => u = v ∧ P u) body body lo hi s s
    (fun i h1 h2 u v huv => ⟨by rw [huv.1], h i h1 h2 u huv.2⟩) ⟨rfl, hs⟩
  exact this.2

/-- Loop invariant with the loop counter: `P i` holds before iteration `i`. -/
theorem forLoop_count {σ : Type} (P : Int → σ → Prop) (body : Int → σ → σ) :
    ∀ (n : Nat) (lo : Int) (s : σ),
      (∀ i, lo ≤ i → i < lo + n → ∀ t, P i t → P (i + 1) (body i t)) → P lo s →
      P (lo + n) (forLoop lo n body s)
  | 0, lo, _, _, hs => by simpa [forLoop] using hs
  | n + 1, lo, s, h, hs => by
    simp only [forLoop]
    have := forLoop_count P body n (lo + 1) (body lo s)
      (fun i h1 h2 t ht => h i (by omega) (by push_cast; omega) t ht)
      (h lo (le_refl _) (by push_cast; omega) s hs)
    have e : lo + ((n + 1 : Nat) : Int) = lo + 1 + n := by push_cast; ring
    rw [e]
    exact this

theorem forRange_count {σ : Type} (P : Int → σ → Prop) (body : Int → σ → σ) (lo hi : Int)
    (s : σ) (hle : lo ≤ hi)
    (h : ∀ i, lo ≤ i → i < hi → ∀ t, P i t → P (i + 1) (body i t)) (hs : P lo s) :
    P hi (forRange lo hi body s) := by
  unfold forRange
  have := forLoop_count P body (hi - lo).toNat lo s
    (fun i h1 h2 t ht => h i h1 (by omega) t ht) hs
  have e : lo + (((hi - lo).toNat : Nat) : Int) = hi := by omega
  rw [e] at this
  exact this

theorem forRange_empty {σ : Type} (body : Int → σ → σ) (lo hi : Int) (s : σ) (h : hi ≤ lo) :
    forRange lo hi body s = s := by
  unfold forRange
  have : (hi - lo).toNat = 0 := by omega
  rw [this]; rfl

theorem forRange_succ {σ : Type} (body : Int → σ → σ) (lo hi : Int) (s : σ) (h : lo < hi) :
    forRange lo hi body s = forRange (lo + 1) hi body (body lo s) := by
  unfold forRange
  have : (hi - lo).toNat = (hi - (lo + 1)).toNat + 1 := by omega
  rw [this]; rfl

/-! ## Frames -/

theorem SameCtl.refl (s : Lighting) : SameCtl s s :=
  ⟨rfl, rfl, rfl, rfl, rfl, rfl, rfl, rfl, rfl⟩

theorem SameCtl.trans {s t u : Lighting} (h1 : SameCtl s t) (h2 : SameCtl t u) : SameCtl s u :=
  ⟨h2.1.trans h1.1, h2.2.trans h1.2, h2.3.trans h1.3, h2.4.trans h1.4, h2.5.trans h1.5,
    h2.6.trans h1.6, h2.7.trans h1.7, h2.8.trans h1.8, h2.9.trans h1.9⟩

theorem SameCtl.symm {s t : Lighting} (h : SameCtl s t) : SameCtl t s :=
  ⟨h.1.symm, h.2.symm, h.3.symm, h.4.symm, h.5.symm, h.6.symm, h.7.symm, h.8.symm, h.9.symm⟩

theorem SameCtl.tables {s t : Lighting} (h : SameCtl s t) : SameTables s t :=
  ⟨h.hlightradius, h.hlightblock, h.hLoadMapObjsFlag, h.hcurrlevel⟩

/-- A state is determined by its two grids and the rest of its fields. -/
theorem Lighting.eq_of_SameCtl {s t : Lighting} (h : SameCtl s t) (h1 : t.dLight = s.dLight)
    (h2 : t.dPreLight = s.dPreLight) : t = s := by
  obtain ⟨a1, a2, a3, a4, a5, a6, a7, a8, a9⟩ := h
  cases s; cases t
  simp only at a1 a2 a3 a4 a5 a6 a7 a8 a9 h1 h2
  subst a1 a2 a3 a4 a5 a6 a7 a8 a9 h1 h2
  rfl

theorem SameCtl_SetLight (s : Lighting) (x y v : Int) : SameCtl s (SetLight s x y v) := by
  unfold SetLight
  split <;> exact ⟨rfl, rfl, rfl, rfl, rfl, rfl, rfl, rfl, rfl⟩

theorem SameCtl_stamp (K : Consts) (s : Lighting) (x y : Int) (v : Nat) :
    SameCtl s (stamp K s x y v) := by
  unfold stamp
  split
  · split
    · exact SameCtl_SetLight _ _ _ _
    · exact SameCtl.refl s
  · exact SameCtl.refl s

/-! ## Relational and unary invariants of `DoLighting` -/

theorem lightPass_rel (R : Lighting → Lighting → Prop) (K : Consts)
    (nRadius mult ylim xlim block_x block_y : Int) (tx ty : Int → Int → Int)
    (htab : ∀ s d, R s d → SameTables s d)
    (hstamp : ∀ s d x y, R s d → 0 ≤ y → y < ylim → 1 ≤ x → x < xlim →
      s.lightblock mult (y + block_y) (x + block_x) < 128 →
      R (stamp K s (tx x y) (ty x y)
          (s.lightradius nRadius (s.lightblock mult (y + block_y) (x + block_x))))
        (stamp K d (tx x y) (ty x y)
          (s.lightradius nRadius (s.lightblock mult (y + block_y) (x + block_x)))))
    (s d : Lighting) (h : R s d) :
    R (lightPass K nRadius mult ylim xlim block_x block_y tx ty s)
      (lightPass K nRadius mult ylim xlim block_x block_y tx ty d) := by
  unfold lightPass
  apply forRange_rel R _ _ _ _ _ _ _ h
  intro y hy0 hy1 u v huv
  apply forRange_rel R _ _ _ _ _ _ _ huv
  intro x hx0 hx1 u v huv
  have hc := htab u v huv
  simp only [hc.hlightblock, hc.hlightradius]
  split
  · rename_i hlt
    have := hstamp u v x y huv hy0 hy1 hx0 hx1 hlt
    simpa only [stamp] using this
  · exact huv

theorem lightPass_inv (P : Lighting → Prop) (K : Consts)
    (nRadius mult ylim xlim block_x block_y : Int) (tx ty : Int → Int → Int)
    (hstamp : ∀ s x y, P s → 0 ≤ y → y < ylim → 1 ≤ x → x < xlim →
      s.lightblock mult (y + block_y) (x + block_x) < 128 →
      P (stamp K s (tx x y) (ty x y)
          (s.lightradius nRadius (s.lightblock mult (y + block_y) (x + block_x)))))
    (s : Lighting) (h : P s) :
    P (lightPass K nRadius mult ylim xlim block_x block_y tx ty s) := by
  have := lightPass_rel (fun u v => u = v ∧ P u) K nRadius mult ylim xlim block_x block_y tx ty
    (fun s d h => by rw [h.1]; exact (SameCtl.refl d).tables)
    (fun s d x y h h1 h2 h3 h4 h5 => ⟨by rw [h.1], hstamp s x y h.2 h1 h2 h3 h4 h5⟩) s s ⟨rfl, h⟩
  exact this.2

theorem lightOwnTile_rel (R : Lighting → Lighting → Prop) (K : Consts)
    (htab : ∀ s d, R s d → SameTables s d)
    (hstamp : ∀ s d a b v, R s d → R (stamp K s a b v) (stamp K d a b v))
    (hzero : ∀ s d a b, R s d → R (SetLight s a b 0) (SetLight d a b 0))
    (s d : Lighting) (x y r : Int) (h : R s d) :
    R (lightOwnTile K s x y r) (lightOwnTile K d x y r) := by
  have hc := htab s d h
  unfold lightOwnTile
  simp only [hc.hcurrlevel, hc.hlightradius]
  by_cases hin : x ≥ 0 ∧ x < K.MAXDUNX ∧ y ≥ 0 ∧ y < K.MAXDUNY
  · simp only [hin, and_self, if_true]
    by_cases hl : s.currlevel < 17
    · simp only [hl, if_true]
      exact hzero s d _ _ h
    · simp only [hl, if_false]
      have := hstamp s d x y (s.lightradius r 0) h
      have hin2 : 0 ≤ x ∧ x < K.MAXDUNX ∧ 0 ≤ y ∧ y < K.MAXDUNY := hin
      simp only [stamp, hin2, and_self, if_true] at this
      exact this
  · simp only [hin, if_false]
    exact h

theorem lightFrom_rel (R : Lighting → Lighting → Prop) (K : Consts)
    (htab : ∀ s d, R s d → SameTables s d)
    (hstamp : ∀ s d a b v, R s d → R (stamp K s a b v) (stamp K d a b v))
    (hzero : ∀ s d a b, R s d → R (SetLight s a b 0) (SetLight d a b 0))
    (s d : Lighting) (x y r xoff yoff : Int) (h : R s d) :
    R (lightFrom K s x y r xoff yoff) (lightFrom K d x y r xoff yoff) := by
  unfold lightFrom
  refine lightPass_rel R K _ _ _ _ _ _ _ _ htab (fun s d x y h _ _ _ _ _ => hstamp s d _ _ _ h) _ _ ?_
  refine lightPass_rel R K _ _ _ _ _ _ _ _ htab (fun s d x y h _ _ _ _ _ => hstamp s d _ _ _ h) _ _ ?_
  refine lightPass_rel R K _ _ _ _ _ _ _ _ htab (fun s d x y h _ _ _ _ _ => hstamp s d _ _ _ h) _ _ ?_
  refine lightPass_rel R K _ _ _ _ _ _ _ _ htab (fun s d x y h _ _ _ _ _ => hstamp s d _ _ _ h) _ _ ?_
  exact lightOwnTile_rel R K htab hstamp hzero s d x y r h

theorem lightOrigin_congr {s d : Lighting} (h : SameCtl s d) (x y L : Int) :
    lightOrigin d x y L = lightOrigin s x y L := by
  unfold lightOrigin
  rw [h.hLightList]

theorem DoLighting_rel (R : Lighting → Lighting → Prop) (K : Consts)
    (htab : ∀ s d, R s d → SameTables s d)
    (hstamp : ∀ s d a b v, R s d → R (stamp K s a b v) (stamp K d a b v))
    (hzero : ∀ s d a b, R s d → R (SetLight s a b 0) (SetLight d a b 0))
    (s d : Lighting) (x y r L : Int) (horig : lightOrigin d x y L = lightOrigin s x y L)
    (h : R s d) :
    R (DoLighting K s x y r L) (DoLighting K d x y r L) := by
  unfold DoLighting
  rw [horig]
  exact lightFrom_rel R K htab hstamp hzero s d _ _ _ _ _ h

theorem DoLighting_inv (P : Lighting → Prop) (K : Consts)
    (hstamp : ∀ s a b v, P s → P (stamp K s a b v))
    (hzero : ∀ s a b, P s → P (SetLight s a b 0))
    (s : Lighting) (x y r L : Int) (h : P s) :
    P (DoLighting K s x y r L) := by
  have := DoLighting_rel (fun u v => u = v ∧ P u) K
    (fun s d h => by rw [h.1]; exact (SameCtl.refl d).tables)
    (fun s d a b v h => ⟨by rw [h.1], hstamp s a b v h.2⟩)
    (fun s d a b h => ⟨by rw [h.1], hzero s a b h.2⟩) s s x y r L rfl ⟨rfl, h⟩
  exact this.2

theorem SameCtl_DoLighting (K : Consts) (s : Lighting) (x y r L : Int) :
    SameCtl s (DoLighting K s x y r L) :=
  DoLighting_inv (fun t => SameCtl s t) K
    (fun t a b v h => h.trans (SameCtl_stamp K t a b v))
    (fun t a b h => h.trans (SameCtl_SetLight t a b 0)) s x y r L (SameCtl.refl s)

/-! ## `DoLighting` as a pointwise minimum -/

theorem toChar_of_small (v : Int) (h0 : 0 ≤ v) (h1 : v < 128) : toChar v = v := by
  unfold toChar; omega

theorem SetLight_dLight (s : Lighting) (x y v : Int) (hflag : s.LoadMapObjsFlag = false) :
    (SetLight s x y v).dLight = setGrid s.dLight x y (toChar v) ∧
      (SetLight s x y v).dPreLight = s.dPreLight := by
  simp [SetLight, hflag]

theorem SetLight_dPreLight (s : Lighting) (x y v : Int) (hflag : s.LoadMapObjsFlag = true) :
    (SetLight s x y v).dLight = s.dLight := by
  simp [SetLight, hflag]

/-- Outside `LoadMapObjs`, a guarded write replaces the working value of its tile,
when the tile is on the map, by the minimum of that value and `v`. -/
theorem stamp_dLight (K : Consts) (s : Lighting) (x y : Int) (v : Nat)
    (hflag : s.LoadMapObjsFlag = false) (hle : s.dLight x y ≤ 127) (a b : Int) :
    (stamp K s x y v).dLight a b =
      if (a = x ∧ b = y) ∧ 0 ≤ x ∧ x < K.MAXDUNX ∧ 0 ≤ y ∧ y < K.MAXDUNY
      then min (s.dLight a b) v else s.dLight a b := by
  unfold stamp
  by_cases hin : 0 ≤ x ∧ x < K.MAXDUNX ∧ 0 ≤ y ∧ y < K.MAXDUNY
  · simp only [hin, and_self, if_true, and_true, GetLight, hflag, Bool.false_eq_true, if_false]
    by_cases hv : (v : Int) < s.dLight x y
    · simp only [hv, if_true, (SetLight_dLight s x y v hflag).1, setGrid]
      by_cases hab : a = x ∧ b = y
      · obtain ⟨rfl, rfl⟩ := hab
        simp only [and_self, if_true]
        rw [toChar_of_small _ (by omega) (by omega)]
        omega
      · simp only [hab, if_false]
    · simp only [hv, if_false]
      by_cases hab : a = x ∧ b = y
      · obtain ⟨rfl, rfl⟩ := hab
        simp only [and_self, if_true]
        omega
      · simp only [hab, if_false]
  · simp only [hin, if_false, and_false]

theorem stamp_dPreLight (K : Consts) (s : Lighting) (x y : Int) (v : Nat)
    (hflag : s.LoadMapObjsFlag = false) :
    (stamp K s x y v).dPreLight = s.dPreLight := by
  unfold stamp
  split
  · split
    · exact (SetLight_dLight s x y v hflag).2
    · rfl
  · rfl

theorem Coupled_stamp (K : Consts) (g0 : Int → Int → Int)
    (hg : ∀ a b, 0 ≤ g0 a b ∧ g0 a b ≤ 15) (s d : Lighting) (x y : Int) (v : Nat)
    (h : Coupled g0 s d) : Coupled g0 (stamp K s x y v) (stamp K d x y v) := by
  obtain ⟨hc, hf, hp, hd, hs⟩ := h
  have hfd : d.LoadMapObjsFlag = false := by rw [hc.hLoadMapObjsFlag]; exact hf
  have hs127 : s.dLight x y ≤ 127 := by
    have := hs x y; have := hg x y; have := hd x y; omega
  have hd127 : d.dLight x y ≤ 127 := by have := hd x y; omega
  refine ⟨((SameCtl_stamp K s x y v).symm.trans hc).trans (SameCtl_stamp K d x y v), ?_, ?_, ?_, ?_⟩
  · rw [(SameCtl_stamp K s x y v).hLoadMapObjsFlag]; exact hf
  · rw [stamp_dPreLight K s x y v hf, stamp_dPreLight K d x y v hfd]; exact hp
  · intro a b
    rw [stamp_dLight K d x y v hfd hd127]
    have := hd a b
    split <;> omega
  · intro a b
    rw [stamp_dLight K d x y v hfd hd127, stamp_dLight K s x y v hf hs127]
    have := hd a b
    have := hs a b
    split <;> omega

theorem Coupled_zero (g0 : Int → Int → Int)
    (hg : ∀ a b, 0 ≤ g0 a b ∧ g0 a b ≤ 15) (s d : Lighting) (x y : Int)
    (h : Coupled g0 s d) : Coupled g0 (SetLight s x y 0) (SetLight d x y 0) := by
  obtain ⟨hc, hf, hp, hd, hs⟩ := h
  have hfd : d.LoadMapObjsFlag = false := by rw [hc.hLoadMapObjsFlag]; exact hf
  refine ⟨((SameCtl_SetLight s x y 0).symm.trans hc).trans (SameCtl_SetLight d x y 0), ?_, ?_, ?_, ?_⟩
  · rw [(SameCtl_SetLight s x y 0).hLoadMapObjsFlag]; exact hf
  · rw [(SetLight_dLight s x y 0 hf).2, (SetLight_dLight d x y 0 hfd).2]; exact hp
  · intro a b
    rw [(SetLight_dLight d x y 0 hfd).1]
    have := hd a b
    simp only [setGrid, toChar]
    split <;> omega
  · intro a b
    rw [(SetLight_dLight d x y 0 hfd).1, (SetLight_dLight s x y 0 hf).1]
    have := hd a b
    have := hs a b
    have := hg a b
    simp only [setGrid, toChar]
    split <;> omega

theorem Coupled_allDark (s : Lighting) (hflag : s.LoadMapObjsFlag = false)
    (hg : ∀ a b, 0 ≤ s.dLight a b ∧ s.dLight a b ≤ 15) : Coupled s.dLight s (allDark s) := by
  refine ⟨⟨rfl, rfl, rfl, rfl, rfl, rfl, rfl, rfl, rfl⟩, hflag, rfl, ?_, ?_⟩
  · intro a b; simp [allDark]
  · intro a b
    have := hg a b
    simp only [allDark]
    omega

theorem Coupled_DoLighting (K : Consts) (g0 : Int → Int → Int)
    (hg : ∀ a b, 0 ≤ g0 a b ∧ g0 a b ≤ 15) (s d : Lighting) (x y r L : Int)
    (h : Coupled g0 s d) : Coupled g0 (DoLighting K s x y r L) (DoLighting K d x y r L) :=
  DoLighting_rel (Coupled g0) K (fun _ _ h => h.1.tables)
    (fun s d a b v h => Coupled_stamp K g0 hg s d a b v h)
    (fun s d a b h => Coupled_zero g0 hg s d a b h) s d x y r L
    (lightOrigin_congr h.1 x y L) h

/-- Outside `LoadMapObjs` and on a grid with values `0..15`, `DoLighting` lowers
every working value to the minimum of that value and the value the same call
leaves on the all-dark grid; it changes nothing but the working grid. -/
theorem DoLighting_min (K : Consts) (s : Lighting) (x y r L : Int)
    (hflag : s.LoadMapObjsFlag = false) (hg : ∀ a b, 0 ≤ s.dLight a b ∧ s.dLight a b ≤ 15) :
    (∀ a b, (DoLighting K s x y r L).dLight a b =
      min (s.dLight a b) ((DoLighting K (allDark s) x y r L).dLight a b)) ∧
    (∀ a b, 0 ≤ (DoLighting K (allDark s) x y r L).dLight a b ∧
      (DoLighting K (allDark s) x y r L).dLight a b ≤ 15) ∧
    (DoLighting K s x y r L).dPreLight = s.dPreLight := by
  have h := Coupled_DoLighting K s.dLight hg s (allDark s) x y r L (Coupled_allDark s hflag hg)
  obtain ⟨hc, hf, hp, hd, hs⟩ := h
  refine ⟨hs, hd, ?_⟩
  have := DoLighting_inv (fun t => t.LoadMapObjsFlag = false ∧ t.dPreLight = s.dPreLight) K
    (fun t a b v h => ⟨by rw [(SameCtl_stamp K t a b v).hLoadMapObjsFlag]; exact h.1,
      by rw [stamp_dPreLight K t a b v h.1]; exact h.2⟩)
    (fun t a b h => ⟨by rw [(SameCtl_SetLight t a b 0).hLoadMapObjsFlag]; exact h.1,
      by rw [(SetLight_dLight t a b 0 h.1).2]; exact h.2⟩) s x y r L ⟨hflag, rfl⟩
  exact this.2

/-- While map objects are loaded (`LoadMapObjsFlag`), `DoLighting` leaves the
working grid alone. -/
theorem DoLighting_dLight_of_flag (K : Consts) (s : Lighting) (x y r L : Int)
    (hflag : s.LoadMapObjsFlag = true) : (DoLighting K s x y r L).dLight = s.dLight := by
  have := DoLighting_inv (fun t => t.LoadMapObjsFlag = true ∧ t.dLight = s.dLight) K
    (fun t a b v h => by
      refine ⟨by rw [(SameCtl_stamp K t a b v).hLoadMapObjsFlag]; exact h.1, ?_⟩
      unfold stamp
      split
      · split
        · rw [SetLight_dPreLight t a b v h.1]; exact h.2
        · exact h.2
      · exact h.2)
    (fun t a b h => ⟨by rw [(SameCtl_SetLight t a b 0).hLoadMapObjsFlag]; exact h.1,
      by rw [SetLight_dPreLight t a b 0 h.1]; exact h.2⟩) s x y r L ⟨hflag, rfl⟩
  exact this.2

theorem allDark_DoLighting (K : Consts) (s : Lighting) (x y r L : Int)
    (hflag : s.LoadMapObjsFlag = false) (hg : ∀ a b, 0 ≤ s.dLight a b ∧ s.dLight a b ≤ 15) :
    allDark (DoLighting K s x y r L) = allDark s := by
  apply Lighting.eq_of_SameCtl
  · have h := SameCtl_DoLighting K s x y r L
    exact ⟨h.1, h.2, h.3, h.4, h.5, h.6, h.7, h.8, h.9⟩
  · rfl
  · exact (DoLighting_min K s x y r L hflag hg).2.2

/-- C3. Brightest-wins composition: for two light sources A and B (radii `0..15`,
offsets `-8..7`) and a working grid with values `0..15`, `DoLighting` for A then B
leaves the same working grid as B then A, and every tile ends with the minimum of
its original value, the level A contributes and the level B contributes, a
contribution being what `DoLighting` alone leaves on the all-dark grid. -/
theorem DoLighting_brightest_wins (K : Consts) (s : Lighting)
    (xA yA rA LA xB yB rB LB : Int)
    (hgrid : ∀ a b, 0 ≤ s.dLight a b ∧ s.dLight a b ≤ 15)
    (_hrA : 0 ≤ rA ∧ rA ≤ 15) (_hrB : 0 ≤ rB ∧ rB ≤ 15)
    (_hoA : 0 ≤ LA → (-8 ≤ (s.LightList LA).position.offset.x ∧
      (s.LightList LA).position.offset.x ≤ 7) ∧ -8 ≤ (s.LightList LA).position.offset.y ∧
      (s.LightList LA).position.offset.y ≤ 7)
    (_hoB : 0 ≤ LB → (-8 ≤ (s.LightList LB).position.offset.x ∧
      (s.LightList LB).position.offset.x ≤ 7) ∧ -8 ≤ (s.LightList LB).position.offset.y ∧
      (s.LightList LB).position.offset.y ≤ 7) :
    (DoLighting K (DoLighting K s xA yA rA LA) xB yB rB LB).dLight =
      (DoLighting K (DoLighting K s xB yB rB LB) xA yA rA LA).dLight ∧
    ∀ a b, (DoLighting K (DoLighting K s xA yA rA LA) xB yB rB LB).dLight a b =
      min (s.dLight a b)
        (min ((DoLighting K (allDark s) xA yA rA LA).dLight a b)
          ((DoLighting K (allDark s) xB yB rB LB).dLight a b)) := by
  cases hflag : s.LoadMapObjsFlag
  · -- the working grid is written
    have key : ∀ (x1 y1 r1 L1 x2 y2 r2 L2 a b : Int),
        (DoLighting K (DoLighting K s x1 y1 r1 L1) x2 y2 r2 L2).dLight a b =
          min (s.dLight a b)
            (min ((DoLighting K (allDark s) x1 y1 r1 L1).dLight a b)
              ((DoLighting K (allDark s) x2 y2 r2 L2).dLight a b)) := by
      intro x1 y1 r1 L1 x2 y2 r2 L2 a b
      obtain ⟨h1, h1d, _⟩ := DoLighting_min K s x1 y1 r1 L1 hflag hgrid
      have hf1 : (DoLighting K s x1 y1 r1 L1).LoadMapObjsFlag = false := by
        rw [(SameCtl_DoLighting K s x1 y1 r1 L1).hLoadMapObjsFlag]; exact hflag
      have hg1 : ∀ a b, 0 ≤ (DoLighting K s x1 y1 r1 L1).dLight a b ∧
          (DoLighting K s x1 y1 r1 L1).dLight a b ≤ 15 := by
        intro a b
        have := h1 a b; have := h1d a b; have := hgrid a b
        omega
      obtain ⟨h2, _, _⟩ := DoLighting_min K (DoLighting K s x1 y1 r1 L1) x2 y2 r2 L2 hf1 hg1
      rw [h2 a b, allDark_DoLighting K s x1 y1 r1 L1 hflag hgrid, h1 a b]
      omega
    refine ⟨?_, key xA yA rA LA xB yB rB LB⟩
    funext a b
    rw [key xA yA rA LA xB yB rB LB a b, key xB yB rB LB xA yA rA LA a b]
    omega
  · -- the base grid is written, the working grid stays
    have hfr : ∀ (x1 y1 r1 L1 : Int), (DoLighting K s x1 y1 r1 L1).LoadMapObjsFlag = true := by
      intro x1 y1 r1 L1
      rw [(SameCtl_DoLighting K s x1 y1 r1 L1).hLoadMapObjsFlag]; exact hflag
    have key : ∀ (x1 y1 r1 L1 x2 y2 r2 L2 : Int),
        (DoLighting K (DoLighting K s x1 y1 r1 L1) x2 y2 r2 L2).dLight = s.dLight := by
      intro x1 y1 r1 L1 x2 y2 r2 L2
      rw [DoLighting_dLight_of_flag K _ x2 y2 r2 L2 (hfr x1 y1 r1 L1),
        DoLighting_dLight_of_flag K s x1 y1 r1 L1 hflag]
    have hdark : ∀ (x1 y1 r1 L1 : Int),
        (DoLighting K (allDark s) x1 y1 r1 L1).dLight = fun _ _ => 15 :=
      fun x1 y1 r1 L1 => DoLighting_dLight_of_flag K (allDark s) x1 y1 r1 L1 hflag
    refine ⟨by rw [key, key], ?_⟩
    intro a b
    rw [key, hdark, hdark]
    have := hgrid a b
    simp only
    omega

theorem darkLevel_grid (a b : Int) : 0 ≤ darkLevel.dLight a b ∧ darkLevel.dLight a b ≤ 15 :=
  show (0 : Int) ≤ 15 ∧ (15 : Int) ≤ 15 from ⟨by decide, by decide⟩

theorem DoLighting_brightest_wins_witness :
    (DoLighting upstream (DoLighting upstream darkLevel 30 30 5 0) 32 31 3 (-1)).dLight =
      (DoLighting upstream (DoLighting upstream darkLevel 32 31 3 (-1)) 30 30 5 0).dLight :=
  (DoLighting_brightest_wins upstream darkLevel 30 30 5 0 32 31 3 (-1)
    darkLevel_grid ⟨by decide, by decide⟩ ⟨by decide, by decide⟩
    (fun _ => ⟨⟨by decide, by decide⟩, by decide, by decide⟩)
    (fun h => absurd h (by decide))).1

/-! ## The attenuation table -/

theorem lightradius_le_15 (R : Int) (d : Nat) (hR : 0 ≤ R) :
    MakeLightTable_lightradius R d ≤ 15 := by
  unfold MakeLightTable_lightradius
  split
  · exact le_refl _
  · rename_i h
    have hpos : (0 : Int) < 16 * (R + 1) := by omega
    have h1 : (30 * (d : Int) + 8 * (R + 1)) / (16 * (R + 1)) < 16 := by
      rw [Int.ediv_lt_iff_lt_mul hpos]
      nlinarith
    omega

theorem lightradius_eq_round (R : Int) (d : Nat) (hR0 : 0 ≤ R) (hd : (d : Int) ≤ (R + 1) * 8) :
    (MakeLightTable_lightradius R d : Int) = ⌊(15 * d : ℚ) / (8 * (R + 1)) + 1 / 2⌋ := by
  have h1 : ¬ (d : Int) > (R + 1) * 8 := by omega
  simp only [MakeLightTable_lightradius, h1, if_false]
  have hnn : 0 ≤ (30 * (d : Int) + 8 * (R + 1)) / (16 * (R + 1)) :=
    Int.ediv_nonneg (by omega) (by omega)
  rw [Int.toNat_of_nonneg hnn]
  obtain ⟨n, rfl⟩ := Int.eq_ofNat_of_zero_le hR0
  have e : (15 * d : ℚ) / (8 * (((n : Int) : ℚ) + 1)) + 1 / 2
      = (((30 * (d : Int) + 8 * (n + 1) : Int) : ℚ)) / ((16 * (n + 1) : Nat) : ℚ) := by
    push_cast
    field_simp
    ring
  rw [e, Rat.floor_intCast_div_natCast]
  push_cast
  rfl

/-- C6. Falloff monotonicity: for every radius index `R` in `0..15` and distance
buckets `d1 < d2 ≤ 127`, the attenuation table of a level below 17 has
`lightradius[R][d1] ≤ lightradius[R][d2]`; its entries are `15 d / (8 (R + 1))`
rounded half up for `d ≤ 8 (R + 1)` and `15` beyond. -/
theorem lightradius_monotone (R : Int) (d1 d2 : Nat) (hR0 : 0 ≤ R) (hR : R ≤ 15)
    (h12 : d1 < d2) (hd2 : d2 ≤ 127) :
    MakeLightTable_lightradius R d1 ≤ MakeLightTable_lightradius R d2 ∧
      (∀ d : Nat, (d : Int) ≤ 8 * (R + 1) →
        (MakeLightTable_lightradius R d : Int) = ⌊(15 * d : ℚ) / (8 * (R + 1)) + 1 / 2⌋) ∧
      (∀ d : Nat, 8 * (R + 1) < (d : Int) → MakeLightTable_lightradius R d = 15) := by
  have _h1 := hR
  have _h2 := hd2
  refine ⟨?_, fun d hd => lightradius_eq_round R d hR0 (by omega), fun d hd => ?_⟩
  · by_cases h2 : (d2 : Int) > (R + 1) * 8
    · have : MakeLightTable_lightradius R d2 = 15 := by
        simp [MakeLightTable_lightradius, h2]
      rw [this]
      exact lightradius_le_15 R d1 hR0
    · have h1 : ¬ (d1 : Int) > (R + 1) * 8 := by omega
      simp only [MakeLightTable_lightradius, h1, h2, if_false]
      apply Int.toNat_le_toNat
      apply Int.ediv_le_ediv (by omega)
      omega
  · have : (d : Int) > (R + 1) * 8 := by omega
    simp [MakeLightTable_lightradius, this]

theorem lightradius_monotone_witness :
    MakeLightTable_lightradius 3 10 ≤ MakeLightTable_lightradius 3 11 :=
  (lightradius_monotone 3 10 11 (by decide) (by decide) (by decide) (by decide)).1

/-! ## The light source manager -/

/-- C7. Capacity boundary for lights: when lighting is not frozen and the pool
holds `MAXLIGHTS` lights, `AddLight` returns `NO_LIGHT` and leaves the whole
state (records, slot table, `numlights`, dirty flag, both grids) unchanged. -/
theorem AddLight_full (K : Consts) (s : Lighting) (x y r : Int)
    (hfrozen : s.lightflag = false) (hfull : s.numlights = K.MAXLIGHTS) :
    AddLight K s x y r = (K.NO_LIGHT, s) := by
  simp [AddLight, hfrozen, hfull]

theorem AddLight_full_witness :
    fullLevel.lightflag = false ∧ fullLevel.numlights = upstream.MAXLIGHTS ∧
      AddLight upstream fullLevel 3 4 5 = (upstream.NO_LIGHT, fullLevel) :=
  ⟨rfl, rfl, AddLight_full upstream fullLevel 3 4 5 rfl rfl⟩

/-- C8. When lighting is not frozen and `numlights < MAXLIGHTS`, `AddLight(x, y, r)`
returns `lightactive[numlights]`; afterwards that slot holds tile `(x, y)`, radius
`r`, offset `(0, 0)` and cleared pending-delete and pending-change flags,
`numlights` has grown by one, the dirty flag is set and every other slot record is
unchanged (as are the slot table, the frozen flag and both grids). -/
theorem AddLight_success (K : Consts) (s : Lighting) (x y r : Int)
    (hfrozen : s.lightflag = false) (hroom : s.numlights < K.MAXLIGHTS) :
    let id : Int := s.lightactive s.numlights
    let t := (AddLight K s x y r).2
    (AddLight K s x y r).1 = id ∧
      (t.LightList id).position.tile = ⟨x, y⟩ ∧
      (t.LightList id)._lradius = r ∧
      (t.LightList id).position.offset = ⟨0, 0⟩ ∧
      (t.LightList id)._ldel = false ∧
      (t.LightList id)._lunflag = false ∧
      t.numlights = s.numlights + 1 ∧
      t.dolighting = true ∧
      (∀ j : Int, j ≠ id → t.LightList j = s.LightList j) ∧
      t.lightactive = s.lightactive ∧ t.lightflag = s.lightflag ∧
      t.dLight = s.dLight ∧ t.dPreLight = s.dPreLight := by
  simp only [AddLight, hfrozen, hroom, if_true, Bool.false_eq_true, if_false, setAt]
  refine ⟨trivial, ?_, ?_, ?_, ?_, ?_, trivial, trivial, ?_, trivial, trivial, trivial, trivial⟩ <;> simp
  intro j hj
  simp [hj]

theorem AddLight_success_witness :
    (AddLight upstream darkLevel 30 30 5).1 = 0 ∧
      ((AddLight upstream darkLevel 30 30 5).2.LightList 0)._lradius = 5 :=
  have h := AddLight_success upstream darkLevel 30 30 5 rfl (by decide)
  ⟨h.1, h.2.2.1⟩

/-- C9. While the frozen flag `lightflag` is set, `AddLight` returns `NO_LIGHT`, and
`AddLight`, `AddUnLight`, `ChangeLightRadius`, `ChangeLightXY`, `ChangeLightOff`,
`ChangeLight` and `ProcessLightList` leave the whole lighting state unchanged. -/
theorem frozen_noop (K : Consts) (s : Lighting) (i x y r : Int) (hfrozen : s.lightflag = true) :
    AddLight K s x y r = (K.NO_LIGHT, s) ∧
      AddUnLight K s i = s ∧
      ChangeLightRadius K s i r = s ∧
      ChangeLightXY K s i x y = s ∧
      ChangeLightOff K s i x y = s ∧
      ChangeLight K s i x y r = s ∧
      ProcessLightList K s = s := by
  simp [AddLight, AddUnLight, ChangeLightRadius, ChangeLightXY, ChangeLightOff, ChangeLight,
    ProcessLightList, hfrozen]

theorem frozen_noop_witness :
    AddLight upstream frozenLevel 30 30 5 = (upstream.NO_LIGHT, frozenLevel) ∧
      ProcessLightList upstream frozenLevel = frozenLevel :=
  have h := frozen_noop upstream frozenLevel 0 30 30 5 rfl
  ⟨h.1, h.2.2.2.2.2.2⟩

/-! ## `DoUnLight` -/

/-- `DoUnLight` copies the base grid into the working grid on the on-map tiles of
its square and changes nothing else. -/
theorem DoUnLight_spec (K : Consts) (s : Lighting) (x y r : Int) :
    SameCtl s (DoUnLight K s x y r) ∧ (DoUnLight K s x y r).dPreLight = s.dPreLight ∧
      ∀ a b, (DoUnLight K s x y r).dLight a b =
        if onMap K a b ∧ inSquare x y r a b then s.dPreLight a b else s.dLight a b := by
  unfold DoUnLight
  simp only
  generalize hly : (if y - (r + 1) < 0 then (0 : Int) else y - (r + 1)) = ly
  generalize hhy : (if y + (r + 1) > K.MAXDUNY then K.MAXDUNY else y + (r + 1)) = hy
  generalize hlx : (if x - (r + 1) < 0 then (0 : Int) else x - (r + 1)) = lx
  generalize hhx : (if x + (r + 1) > K.MAXDUNX then K.MAXDUNX else x + (r + 1)) = hx
  -- the inner loop, for a row `y0`
  have inner : ∀ (y0 : Int) (t : Lighting),
      let u := forRange lx hx (fun x s =>
        if x ≥ 0 ∧ x < K.MAXDUNX ∧ y0 ≥ 0 ∧ y0 < K.MAXDUNY then
          { s with dLight := setGrid s.dLight x y0 (s.dPreLight x y0) }
        else s) t
      SameCtl t u ∧ u.dPreLight = t.dPreLight ∧
        ∀ a b, u.dLight a b =
          if b = y0 ∧ lx ≤ a ∧ a < hx ∧ onMap K a b then t.dPreLight a b else t.dLight a b := by
    intro y0 t
    by_cases hle : lx ≤ hx
    · refine forRange_count (fun i u => SameCtl t u ∧ u.dPreLight = t.dPreLight ∧
        ∀ a b, u.dLight a b =
          if b = y0 ∧ lx ≤ a ∧ a < i ∧ onMap K a b then t.dPreLight a b else t.dLight a b)
        _ lx hx t hle ?_ ?_
      · intro i hi0 hi1 u ⟨hc, hp, hd⟩
        by_cases hin : i ≥ 0 ∧ i < K.MAXDUNX ∧ y0 ≥ 0 ∧ y0 < K.MAXDUNY
        · simp only [hin, and_self, if_true]
          refine ⟨⟨hc.1, hc.2, hc.3, hc.4, hc.5, hc.6, hc.7, hc.8, hc.9⟩, hp, ?_⟩
          intro a b
          simp only [setGrid, hp, hd a b, onMap]
          by_cases hab : a = i ∧ b = y0
          · obtain ⟨rfl, rfl⟩ := hab
            have : (b = b ∧ lx ≤ a ∧ a < a + 1 ∧ 0 ≤ a ∧ a < K.MAXDUNX ∧ 0 ≤ b ∧ b < K.MAXDUNY) := by
              omega
            simp only [and_self, if_true, this]
          · simp only [hab, if_false]
            have : (b = y0 ∧ lx ≤ a ∧ a < i + 1 ∧ 0 ≤ a ∧ a < K.MAXDUNX ∧ 0 ≤ b ∧ b < K.MAXDUNY) ↔
                (b = y0 ∧ lx ≤ a ∧ a < i ∧ 0 ≤ a ∧ a < K.MAXDUNX ∧ 0 ≤ b ∧ b < K.MAXDUNY) := by
              constructor
              · rintro ⟨h1, h2, h3, h4⟩
                refine ⟨h1, h2, ?_, h4⟩
                by_contra hcon
                exact hab ⟨by omega, h1⟩
              · rintro ⟨h1, h2, h3, h4⟩
                exact ⟨h1, h2, by omega, h4⟩
            simp only [this]
        · simp only [hin, if_false]
          refine ⟨hc, hp, ?_⟩
          intro a b
          rw [hd a b]
          have : (b = y0 ∧ lx ≤ a ∧ a < i + 1 ∧ onMap K a b) ↔
              (b = y0 ∧ lx ≤ a ∧ a < i ∧ onMap K a b) := by
            unfold onMap
            constructor
            · rintro ⟨h1, h2, h3, h4⟩
              refine ⟨h1, h2, ?_, h4⟩
              by_contra hcon
              have : a = i := by omega
              subst this; subst h1
              exact hin ⟨h4.1, h4.2.1, h4.2.2.1, h4.2.2.2⟩
            · rintro ⟨h1, h2, h3, h4⟩
              exact ⟨h1, h2, by omega, h4⟩
          simp only [this]
      · refine ⟨SameCtl.refl t, rfl, ?_⟩
        intro a b
        have : ¬ (b = y0 ∧ lx ≤ a ∧ a < lx ∧ onMap K a b) := by omega
        simp only [this, if_false]
    · simp only
      rw [forRange_empty _ _ _ _ (by omega)]
      refine ⟨SameCtl.refl t, rfl, ?_⟩
      intro a b
      have : ¬ (b = y0 ∧ lx ≤ a ∧ a < hx ∧ onMap K a b) := by omega
      simp only [this, if_false]
  -- the outer loop
  have outer : SameCtl s (forRange ly hy (fun y s => forRange lx hx (fun x s =>
        if x ≥ 0 ∧ x < K.MAXDUNX ∧ y ≥ 0 ∧ y < K.MAXDUNY then
          { s with dLight := setGrid s.dLight x y (s.dPreLight x y) }
        else s) s) s) ∧
      (forRange ly hy (fun y s => forRange lx hx (fun x s =>
        if x ≥ 0 ∧ x < K.MAXDUNX ∧ y ≥ 0 ∧ y < K.MAXDUNY then
          { s with dLight := setGrid s.dLight x y (s.dPreLight x y) }
        else s) s) s).dPreLight = s.dPreLight ∧
      ∀ a b, (forRange ly hy (fun y s => forRange lx hx (fun x s =>
        if x ≥ 0 ∧ x < K.MAXDUNX ∧ y ≥ 0 ∧ y < K.MAXDUNY then
          { s with dLight := setGrid s.dLight x y (s.dPreLight x y) }
        else s) s) s).dLight a b =
        if (ly ≤ b ∧ b < hy) ∧ lx ≤ a ∧ a < hx ∧ onMap K a b then s.dPreLight a b
        else s.dLight a b := by
    by_cases hle : ly ≤ hy
    · refine forRange_count (fun i u => SameCtl s u ∧ u.dPreLight = s.dPreLight ∧
        ∀ a b, u.dLight a b =
          if (ly ≤ b ∧ b < i) ∧ lx ≤ a ∧ a < hx ∧ onMap K a b then s.dPreLight a b
          else s.dLight a b) _ ly hy s hle ?_ ?_
      · intro i hi0 hi1 u ⟨hc, hp, hd⟩
        obtain ⟨ic, ip, id⟩ := inner i u
        refine ⟨hc.trans ic, ip.trans hp, ?_⟩
        intro a b
        rw [id a b, hd a b, hp]
        by_cases h1 : b = i ∧ lx ≤ a ∧ a < hx ∧ onMap K a b
        · have : (ly ≤ b ∧ b < i + 1) ∧ lx ≤ a ∧ a < hx ∧ onMap K a b :=
            ⟨by omega, h1.2⟩
          rw [if_pos h1, if_pos this]
        · rw [if_neg h1]
          have : ((ly ≤ b ∧ b < i + 1) ∧ lx ≤ a ∧ a < hx ∧ onMap K a b) ↔
              ((ly ≤ b ∧ b < i) ∧ lx ≤ a ∧ a < hx ∧ onMap K a b) := by
            constructor
            · rintro ⟨h2, h3⟩
              refine ⟨⟨h2.1, ?_⟩, h3⟩
              by_contra hcon
              exact h1 ⟨by omega, h3⟩
            · rintro ⟨h2, h3⟩
              exact ⟨⟨h2.1, by omega⟩, h3⟩
          simp only [this]
      · refine ⟨SameCtl.refl s, rfl, ?_⟩
        intro a b
        have : ¬ ((ly ≤ b ∧ b < ly) ∧ lx ≤ a ∧ a < hx ∧ onMap K a b) := by omega
        simp only [this, if_false]
    · rw [forRange_empty _ _ _ _ (by omega)]
      refine ⟨SameCtl.refl s, rfl, ?_⟩
      intro a b
      have : ¬ ((ly ≤ b ∧ b < hy) ∧ lx ≤ a ∧ a < hx ∧ onMap K a b) := by omega
      simp only [this, if_false]
  refine ⟨outer.1, outer.2.1, ?_⟩
  intro a b
  rw [outer.2.2 a b]
  have : ((ly ≤ b ∧ b < hy) ∧ lx ≤ a ∧ a < hx ∧ onMap K a b) ↔
      (onMap K a b ∧ inSquare x y r a b) := by
    unfold onMap inSquare
    subst hly hhy hlx hhx
    constructor
    · rintro ⟨⟨h1, h2⟩, h3, h4, h5⟩
      refine ⟨h5, ?_⟩
      split_ifs at h1 h2 h3 h4 <;> omega
    · rintro ⟨h5, h1, h2, h3, h4⟩
      refine ⟨⟨?_, ?_⟩, ?_, ?_, h5⟩ <;> split_ifs <;> omega
  simp only [this]

/-! ## Reach of a light with zero offset -/

/-- On a level below 17 and with zero offset, a tile that is more than `r` tiles
away from the source on either axis gets the level 15 from the tables. -/
theorem std_level_far (r x y : Int) (hr0 : 0 ≤ r) (hx0 : 0 ≤ x) (hy0 : 0 ≤ y)
    (hfar : ¬ (x ≤ r ∧ y ≤ r)) :
    MakeLightTable_lightradius r (MakeLightTable_lightblock 0 y x) = 15 := by
  have hsq : ∀ m : Int, 0 ≤ m → m ≤ x ∨ m ≤ y →
      (8 * m).toNat ≤ MakeLightTable_lightblock 0 y x := by
    intro m hm hor
    unfold MakeLightTable_lightblock
    simp only [Int.zero_ediv, Int.zero_emod, sub_zero]
    rw [Nat.le_sqrt]
    zify
    rw [Int.toNat_of_nonneg (by positivity), Int.toNat_of_nonneg (by positivity)]
    rcases hor with h | h <;> nlinarith
  have h1 : (8 * (r + 1)).toNat ≤ MakeLightTable_lightblock 0 y x :=
    hsq (r + 1) (by omega) (by omega)
  generalize MakeLightTable_lightblock 0 y x = rb at h1
  unfold MakeLightTable_lightradius
  split
  · rfl
  · rename_i hgt
    have hrb : (rb : Int) = 8 * (r + 1) := by omega
    rw [hrb]
    have : (30 * (8 * (r + 1)) + 8 * (r + 1)) / (16 * (r + 1)) = 15 := by
      have hpos : (0 : Int) < 16 * (r + 1) := by omega
      have h15 : 15 ≤ (30 * (8 * (r + 1)) + 8 * (r + 1)) / (16 * (r + 1)) := by
        rw [Int.le_ediv_iff_mul_le hpos]; omega
      have h16 : (30 * (8 * (r + 1)) + 8 * (r + 1)) / (16 * (r + 1)) < 16 := by
        rw [Int.ediv_lt_iff_lt_mul hpos]; omega
      omega
    omega

theorem RotateRadius_zero :
    RotateRadius 0 0 0 0 = ⟨0, 0, 7, 0, 7, 0, 0, 0⟩ ∧
    RotateRadius 7 0 7 0 = ⟨0, 0, 7, 7, 7, 7, 0, 0⟩ ∧
    RotateRadius 7 7 7 7 = ⟨0, 0, 0, 7, 0, 7, 0, 0⟩ := by
  decide

theorem DarkRun_pass (K : Consts) (s : Lighting) (x y r ylim xlim : Int)
    (tx ty : Int → Int → Int) (hstd : StandardTables s) (hflag : s.LoadMapObjsFlag = false)
    (hr : 0 ≤ r ∧ r ≤ 15) (hyl : ylim ≤ 15) (hxl : xlim ≤ 15)
    (htile : ∀ u v : Int, 0 ≤ u → 0 ≤ v → u ≤ r → v ≤ r → near x y r (tx u v) (ty u v))
    (t : Lighting) (h : DarkRun K s x y r t) :
    DarkRun K s x y r (lightPass K r 0 ylim xlim 0 0 tx ty t) := by
  refine lightPass_inv (DarkRun K s x y r) K r 0 ylim xlim 0 0 tx ty ?_ t h
  intro t u v ⟨hc, hle, hfar⟩ hv0 hv1 hu0 hu1 hlt
  have hft : t.LoadMapObjsFlag = false := by rw [hc.hLoadMapObjsFlag]; exact hflag
  refine ⟨hc.trans (SameCtl_stamp K t _ _ _), ?_, ?_⟩
  · intro a b
    rw [stamp_dLight K t _ _ _ hft (by have := hle (tx u v) (ty u v); omega)]
    have := hle a b
    split <;> omega
  · intro a b hab
    rw [stamp_dLight K t _ _ _ hft (by have := hle (tx u v) (ty u v); omega)]
    have h15 := hfar a b hab
    split
    · rename_i hw
      obtain ⟨⟨rfl, rfl⟩, hin⟩ := hw
      have hnn : ¬ (u ≤ r ∧ v ≤ r) := by
        intro hcon
        exact hab ⟨hin, htile u v (by omega) hv0 hcon.1 hcon.2⟩
      simp only [add_zero] at hlt ⊢
      rw [hc.hlightblock, hstd.2.2 0 v u (by omega) (by omega) hv0 (by omega) (by omega) (by omega)]
        at hlt ⊢
      rw [hc.hlightradius, hstd.2.1 r _ hr.1 (by omega) hlt,
        std_level_far r u v hr.1 (by omega) hv0 hnn, h15]
      rfl
    · exact h15

/-- On a level below 17, a light with zero offset and radius `r` in `0..15`
contributes 15 (nothing) to every tile that is off the map or more than `r`
tiles away on either axis. -/
theorem lightFrom_zero_reach (K : Consts) (s : Lighting) (x y r : Int)
    (hstd : StandardTables s) (hflag : s.LoadMapObjsFlag = false) (hr : 0 ≤ r ∧ r ≤ 15)
    (hdark : ∀ a b, s.dLight a b = 15) :
    DarkRun K s x y r (lightFrom K s x y r 0 0) := by
  unfold lightFrom
  simp only [RotateRadius_zero.1, RotateRadius_zero.2.1, RotateRadius_zero.2.2, mul_zero,
    add_zero]
  refine DarkRun_pass K s x y r _ _ _ _ hstd hflag hr (by split <;> omega) (by split <;> omega)
    (fun u v _ _ _ _ => by unfold near; omega) _ ?_
  refine DarkRun_pass K s x y r _ _ _ _ hstd hflag hr (by split <;> omega) (by split <;> omega)
    (fun u v _ _ _ _ => by unfold near; omega) _ ?_
  refine DarkRun_pass K s x y r _ _ _ _ hstd hflag hr (by split <;> omega) (by split <;> omega)
    (fun u v _ _ _ _ => by unfold near; omega) _ ?_
  refine DarkRun_pass K s x y r _ _ _ _ hstd hflag hr (by split <;> omega) (by split <;> omega)
    (fun u v _ _ _ _ => by unfold near; omega) _ ?_
  -- the tile of the source
  unfold lightOwnTile
  have hl : s.currlevel < 17 := hstd.1
  by_cases hin : x ≥ 0 ∧ x < K.MAXDUNX ∧ y ≥ 0 ∧ y < K.MAXDUNY
  · simp only [hin, and_self, if_true, hl]
    refine ⟨SameCtl_SetLight s x y 0, ?_, ?_⟩
    · intro a b
      rw [(SetLight_dLight s x y 0 hflag).1]
      simp only [setGrid, toChar]
      have := hdark a b
      split <;> omega
    · intro a b hab
      rw [(SetLight_dLight s x y 0 hflag).1]
      simp only [setGrid]
      split
      · rename_i hw
        obtain ⟨rfl, rfl⟩ := hw
        exact absurd ⟨⟨hin.1, hin.2.1, hin.2.2.1, hin.2.2.2⟩, by unfold near; omega⟩ hab
      · exact hdark a b
  · simp only [hin, if_false]
    exact ⟨SameCtl.refl s, fun a b => by rw [hdark a b], fun a b _ => hdark a b⟩

/-! ## The phases of `ProcessLightList` -/

theorem SameRest.same (s : Lighting) : SameRest s s :=
  ⟨rfl, rfl, rfl, rfl, rfl, rfl, rfl, rfl, rfl⟩

theorem SameRest.andThen {s t u : Lighting} (h1 : SameRest s t) (h2 : SameRest t u) :
    SameRest s u :=
  ⟨h2.1.trans h1.1, h2.2.trans h1.2, h2.3.trans h1.3, h2.4.trans h1.4, h2.5.trans h1.5,
    h2.6.trans h1.6, h2.7.trans h1.7, h2.8.trans h1.8, h2.9.trans h1.9⟩

theorem SameRest.of_SameCtl {s t : Lighting} (h : SameCtl s t) (hp : t.dPreLight = s.dPreLight) :
    SameRest s t :=
  ⟨h.hlightactive, h.hnumlights, h.hdolighting, h.hlightflag, h.hlightradius, h.hlightblock,
    h.hLoadMapObjsFlag, h.hcurrlevel, hp⟩

theorem setAt_self {α : Type} (a : Int → α) (i : Int) : setAt a i (a i) = a := by
  funext k
  unfold setAt
  split
  · rename_i h; rw [h]
  · rfl

/-- One iteration of the undo loop of `ProcessLightList`. -/
theorem processUndo_spec (K : Consts) (i : Int) (s : Lighting) :
    SameRest s (processUndo K i s) ∧
      (processUndo K i s).LightList =
        setAt s.LightList (s.lightactive i)
          { s.LightList (s.lightactive i) with _lunflag := false } ∧
      ∀ a b, (processUndo K i s).dLight a b =
        if onMap K a b ∧ undoArea (s.LightList (s.lightactive i)) a b then s.dPreLight a b
        else s.dLight a b := by
  unfold processUndo
  simp only
  generalize hjj : ((s.lightactive i : Nat) : Int) = j
  -- the state after the first conditional
  have first : ∃ t, (if (s.LightList j)._ldel = true then
        DoUnLight K s (s.LightList j).position.tile.x (s.LightList j).position.tile.y
          (s.LightList j)._lradius else s) = t ∧ SameCtl s t ∧ t.dPreLight = s.dPreLight ∧
        ∀ a b, t.dLight a b = if onMap K a b ∧ ((s.LightList j)._ldel = true ∧
          inSquare (s.LightList j).position.tile.x (s.LightList j).position.tile.y
            (s.LightList j)._lradius a b) then s.dPreLight a b else s.dLight a b := by
    refine ⟨_, rfl, ?_⟩
    by_cases hdel : (s.LightList j)._ldel = true
    · rw [if_pos hdel]
      obtain ⟨c, p, d⟩ := DoUnLight_spec K s (s.LightList j).position.tile.x
        (s.LightList j).position.tile.y (s.LightList j)._lradius
      refine ⟨c, p, fun a b => ?_⟩
      rw [d a b]
      simp only [hdel, true_and]
    · rw [if_neg hdel]
      refine ⟨SameCtl.refl s, rfl, fun a b => ?_⟩
      rw [if_neg (fun h => hdel h.2.1)]
  obtain ⟨t, ht, hc, hp, hd⟩ := first
  rw [ht]
  rw [hc.hLightList]
  by_cases hun : (s.LightList j)._lunflag = true
  · rw [if_pos hun]
    obtain ⟨c2, p2, d2⟩ := DoUnLight_spec K t (s.LightList j).position.old.x
      (s.LightList j).position.old.y (s.LightList j).oldRadious
    refine ⟨⟨?_, ?_, ?_, ?_, ?_, ?_, ?_, ?_, ?_⟩, ?_, ?_⟩
    · exact c2.hlightactive.trans hc.hlightactive
    · exact c2.hnumlights.trans hc.hnumlights
    · exact c2.hdolighting.trans hc.hdolighting
    · exact c2.hlightflag.trans hc.hlightflag
    · exact c2.hlightradius.trans hc.hlightradius
    · exact c2.hlightblock.trans hc.hlightblock
    · exact c2.hLoadMapObjsFlag.trans hc.hLoadMapObjsFlag
    · exact c2.hcurrlevel.trans hc.hcurrlevel
    · exact p2.trans hp
    · show setAt (DoUnLight K t _ _ _).LightList j _ = _
      rw [c2.hLightList, hc.hLightList]
    · intro a b
      show (DoUnLight K t _ _ _).dLight a b = _
      rw [d2 a b, hd a b, hp]
      unfold undoArea
      simp only [hun, true_and]
      by_cases h1 : onMap K a b <;> by_cases h2 : inSquare (s.LightList j).position.old.x
          (s.LightList j).position.old.y (s.LightList j).oldRadious a b <;>
        simp [h1, h2]
  · rw [if_neg hun]
    refine ⟨SameRest.of_SameCtl hc hp, ?_, ?_⟩
    · rw [hc.hLightList]
      have : ({ s.LightList j with _lunflag := false } : LightListStruct) = s.LightList j := by
        have h : (s.LightList j)._lunflag = false := by simpa using hun
        cases hl : s.LightList j
        rw [hl] at h
        simp only at h
        rw [h]
      rw [this, setAt_self]
    · intro a b
      rw [hd a b]
      unfold undoArea
      simp only [hun, false_and, or_false, Bool.false_eq_true]

theorem forRange_one {σ : Type} (body : Int → σ → σ) (s : σ) :
    forRange 0 1 body s = body 0 s := rfl

theorem SameCtl_processApply (K : Consts) (i : Int) (s : Lighting) :
    SameCtl s (processApply K i s) := by
  unfold processApply
  simp only
  split
  · exact SameCtl_DoLighting K s _ _ _ _
  · exact SameCtl.refl s

/-- A pool with one light: `ProcessLightList` runs each of its loops once. -/
theorem ProcessLightList_one (K : Consts) (s : Lighting) (hfrozen : s.lightflag = false)
    (hdirty : s.dolighting = true) (hn : s.numlights = 1) :
    ProcessLightList K s =
      { processCompact 1 0 (processApply K 0 (processUndo K 0 s)) with dolighting := false } := by
  unfold ProcessLightList
  have h1 : (processUndo K 0 s).numlights = 1 := by
    rw [(processUndo_spec K 0 s).1.hnumlights]; exact hn
  have h2 : (processApply K 0 (processUndo K 0 s)).numlights = 1 := by
    rw [(SameCtl_processApply K 0 _).hnumlights]; exact h1
  simp only [hfrozen, hdirty, hn, forRange_one, h1, h2, Bool.false_eq_true, if_false, if_true]
  rfl

/-- A pool without lights: `ProcessLightList` only clears the dirty flag. -/
theorem ProcessLightList_empty (K : Consts) (s : Lighting) (hfrozen : s.lightflag = false)
    (hn : s.numlights = 0) :
    ProcessLightList K s = { s with dolighting := false } := by
  unfold ProcessLightList
  have e1 : forRange 0 s.numlights (processUndo K) s = s := by rw [hn]; rfl
  have e2 : forRange 0 s.numlights (processApply K) s = s := by rw [hn]; rfl
  have e3 : processCompact s.numlights.toNat 0 s = s := by rw [hn]; rfl
  simp only [hfrozen, Bool.false_eq_true, if_false, e1, e2, e3, ite_self]

theorem Lighting.eq_of_SameRest {s t : Lighting} (h : SameRest s t)
    (hL : t.LightList = s.LightList) (hd : t.dLight = s.dLight) : t = s := by
  obtain ⟨a1, a2, a3, a4, a5, a6, a7, a8, a9⟩ := h
  cases s; cases t
  simp only at a1 a2 a3 a4 a5 a6 a7 a8 a9 hL hd
  subst a1 a2 a3 a4 a5 a6 a7 a8 a9 hL hd
  rfl

/-- The compaction loop changes the slot table and `numlights` only. -/
theorem processCompact_frame (K : Consts) :
    ∀ (fuel : Nat) (i : Int) (s : Lighting),
      (processCompact fuel i s).LightList = s.LightList ∧
      (processCompact fuel i s).dLight = s.dLight ∧
      (processCompact fuel i s).dPreLight = s.dPreLight ∧
      (processCompact fuel i s).dolighting = s.dolighting ∧
      (processCompact fuel i s).lightflag = s.lightflag ∧
      (processCompact fuel i s).lightradius = s.lightradius ∧
      (processCompact fuel i s).lightblock = s.lightblock ∧
      (processCompact fuel i s).LoadMapObjsFlag = s.LoadMapObjsFlag ∧
      (processCompact fuel i s).currlevel = s.currlevel
  | 0, _, _ => ⟨rfl, rfl, rfl, rfl, rfl, rfl, rfl, rfl, rfl⟩
  | fuel + 1, i, s => by
    unfold processCompact
    split
    · split
      · exact processCompact_frame K fuel i _
      · exact processCompact_frame K fuel (i + 1) s
    · exact ⟨rfl, rfl, rfl, rfl, rfl, rfl, rfl, rfl, rfl⟩

/-- An undo step for a light that is neither pending-delete nor pending-change
changes nothing. -/
theorem processUndo_clean (K : Consts) (i : Int) (s : Lighting)
    (hdel : (s.LightList (s.lightactive i))._ldel = false)
    (hun : (s.LightList (s.lightactive i))._lunflag = false) :
    processUndo K i s = s := by
  obtain ⟨hr, hL, hd⟩ := processUndo_spec K i s
  apply Lighting.eq_of_SameRest hr
  · rw [hL]
    have : ({ s.LightList (s.lightactive i) with _lunflag := false } : LightListStruct) =
        s.LightList (s.lightactive i) := by
      cases hl : s.LightList (s.lightactive i)
      rw [hl] at hun
      simp only at hun
      rw [hun]
    rw [this, setAt_self]
  · funext a b
    rw [hd a b]
    unfold undoArea
    simp [hdel, hun]

/-! ## Adding and removing one light -/

/-- The contribution of a light with zero offset, on a level below 17, is 15
outside the on-map tiles within distance `r`. -/
theorem DoLighting_zero_reach (K : Consts) (s : Lighting) (x y r L : Int)
    (hstd : StandardTables s) (hflag : s.LoadMapObjsFlag = false) (hr : 0 ≤ r ∧ r ≤ 15)
    (hoff : 0 ≤ L → (s.LightList L).position.offset = ⟨0, 0⟩) (a b : Int)
    (hab : ¬ (onMap K a b ∧ near x y r a b)) :
    (DoLighting K (allDark s) x y r L).dLight a b = 15 := by
  have ho : lightOrigin (allDark s) x y L = (x, y, 0, 0) := by
    unfold lightOrigin
    by_cases hL : L ≥ 0
    · have := hoff hL
      simp only [hL, if_true, allDark, this]
      rfl
    · simp only [hL, if_false]
  unfold DoLighting
  simp only [ho]
  have hstd' : StandardTables (allDark s) := hstd
  exact (lightFrom_zero_reach K (allDark s) x y r hstd' hflag hr (fun _ _ => rfl)).2.2 a b hab

/-- C2. Undo exactness: from an unfrozen state with an empty light pool, no
pending dirty work and a working grid equal to the base grid (values `0..15`,
tables of a level below 17), for every on-map tile `(x, y)` and radius `r` in
`0..15` the sequence `id = AddLight(x, y, r); ProcessLightList; AddUnLight(id);
ProcessLightList` leaves the working grid equal to the grid before the
`AddLight`. The calls are made outside `LoadMapObjs` (`LoadMapObjsFlag` is set
only inside that function, which calls neither `AddUnLight` nor
`ProcessLightList`), and the sentinel `NO_LIGHT` is negative, hence no slot
number. -/
theorem undo_exactness (K : Consts) (s : Lighting) (x y r : Int)
    (hK : K.NO_LIGHT < 0) (hfrozen : s.lightflag = false) (hempty : s.numlights = 0)
    (hclean : s.dolighting = false) (hmap : s.LoadMapObjsFlag = false)
    (hbase : s.dLight = s.dPreLight) (hgrid : ∀ a b, 0 ≤ s.dLight a b ∧ s.dLight a b ≤ 15)
    (hstd : StandardTables s) (_hon : onMap K x y) (hr : 0 ≤ r ∧ r ≤ 15) :
    (ProcessLightList K
      (AddUnLight K (ProcessLightList K (AddLight K s x y r).2) (AddLight K s x y r).1)).dLight =
      s.dLight := by
  by_cases hroom : s.numlights < K.MAXLIGHTS
  · -- the light is added in slot `j`
    generalize hj : ((s.lightactive s.numlights : Nat) : Int) = j
    have hjN : j ≠ K.NO_LIGHT := by omega
    have hadd : AddLight K s x y r = (j,
        { s with
          numlights := s.numlights + 1
          LightList := setAt s.LightList j
            { s.LightList j with
              position := { (s.LightList j).position with tile := ⟨x, y⟩, offset := ⟨0, 0⟩ }
              _lradius := r, _ldel := false, _lunflag := false }
          dolighting := true }) := by
      simp only [AddLight, hfrozen, hroom, Bool.false_eq_true, if_false, if_true, hj]
    rw [hadd]
    simp only
    generalize hs1 : ({ s with
          numlights := s.numlights + 1
          LightList := setAt s.LightList j
            { s.LightList j with
              position := { (s.LightList j).position with tile := ⟨x, y⟩, offset := ⟨0, 0⟩ }
              _lradius := r, _ldel := false, _lunflag := false }
          dolighting := true } : Lighting) = s1
    have a1 : s1.lightflag = false := by rw [← hs1]; exact hfrozen
    have a2 : s1.dolighting = true := by rw [← hs1]
    have a3 : s1.numlights = 1 := by rw [← hs1]; simp [hempty]
    have a4 : ((s1.lightactive 0 : Nat) : Int) = j := by rw [← hs1, ← hj, hempty]
    have a5 : s1.LightList j =
        { s.LightList j with
              position := { (s.LightList j).position with tile := ⟨x, y⟩, offset := ⟨0, 0⟩ }
              _lradius := r, _ldel := false, _lunflag := false } := by
      rw [← hs1]; simp [setAt]
    have a6 : s1.dLight = s.dLight := by rw [← hs1]
    have a7 : s1.dPreLight = s.dPreLight := by rw [← hs1]
    have a8 : StandardTables s1 := by rw [← hs1]; exact hstd
    have a9 : s1.LoadMapObjsFlag = false := by rw [← hs1]; exact hmap
    -- first `ProcessLightList`
    have hu1 : processUndo K 0 s1 = s1 :=
      processUndo_clean K 0 s1 (by rw [a4, a5]) (by rw [a4, a5])
    have hp1 : processApply K 0 s1 = DoLighting K s1 x y r j := by
      unfold processApply
      simp only [a4, a5, Bool.not_false, if_true]
    generalize hs2 : DoLighting K s1 x y r j = s2 at hp1
    have hc2 : SameCtl s1 s2 := by rw [← hs2]; exact SameCtl_DoLighting K s1 x y r j
    have hg1 : ∀ a b, 0 ≤ s1.dLight a b ∧ s1.dLight a b ≤ 15 := by rw [a6]; exact hgrid
    obtain ⟨hmin, _, hpre2⟩ := DoLighting_min K s1 x y r j a9 hg1
    rw [hs2] at hmin hpre2
    have hk1 : processCompact 1 0 s2 = s2 := by
      unfold processCompact
      have : (0 : Int) < s2.numlights := by rw [hc2.hnumlights, a3]; decide
      simp only [this, if_true, hc2.hlightactive, a4, hc2.hLightList, a5, Bool.false_eq_true,
        if_false]
      rfl
    rw [ProcessLightList_one K s1 a1 a2 a3, hu1, hp1, hk1]
    -- `AddUnLight`
    have b0 : AddUnLight K { s2 with dolighting := false } j =
        { s2 with
          LightList := setAt s2.LightList j { s2.LightList j with _ldel := true }
          dolighting := true } := by
      simp only [AddUnLight, hc2.hlightflag, a1, hjN, Bool.false_eq_true, or_self, if_false]
    rw [b0]
    generalize hs3 : ({ s2 with
          LightList := setAt s2.LightList j { s2.LightList j with _ldel := true }
          dolighting := true } : Lighting) = s3
    have b1 : s3.lightflag = false := by rw [← hs3]; simp [hc2.hlightflag, a1]
    have b2 : s3.dolighting = true := by rw [← hs3]
    have b3 : s3.numlights = 1 := by rw [← hs3]; simp [hc2.hnumlights, a3]
    have b4 : ((s3.lightactive 0 : Nat) : Int) = j := by rw [← hs3]; simp [hc2.hlightactive, a4]
    have b5 : s3.LightList j = { s1.LightList j with _ldel := true } := by
      rw [← hs3]; simp [setAt, hc2.hLightList]
    have b6 : s3.dLight = s2.dLight := by rw [← hs3]
    have b7 : s3.dPreLight = s.dPreLight := by rw [← hs3]; simp [hpre2, a7]
    -- second `ProcessLightList`
    rw [ProcessLightList_one K s3 b1 b2 b3]
    show (processCompact 1 0 (processApply K 0 (processUndo K 0 s3))).dLight = s.dLight
    rw [(processCompact_frame K 1 0 _).2.1]
    obtain ⟨ur, uL, ud⟩ := processUndo_spec K 0 s3
    have hp3 : processApply K 0 (processUndo K 0 s3) = processUndo K 0 s3 := by
      unfold processApply
      simp only [ur.hlightactive, b4, uL, setAt, if_true, b5, Bool.not_true, Bool.false_eq_true,
        if_false]
    rw [hp3]
    funext a b
    rw [ud a b, b4, b5, b7, b6, hmin a b, a6]
    unfold undoArea
    simp only [a5, Bool.false_eq_true, false_and, or_false, true_and]
    split
    · rw [hbase]
    · rename_i hno
      have : (DoLighting K (allDark s1) x y r j).dLight a b = 15 := by
        apply DoLighting_zero_reach K s1 x y r j a8 a9 hr (fun _ => by rw [a5])
        intro hcon
        apply hno
        refine ⟨hcon.1, ?_⟩
        have := hcon.2
        unfold near at this
        unfold inSquare
        omega
      rw [this]
      have := hgrid a b
      omega
  · -- the pool has no room: nothing happens
    have hadd : AddLight K s x y r = (K.NO_LIGHT, s) := by
      simp only [AddLight, hfrozen, hroom, Bool.false_eq_true, if_false]
    rw [hadd]
    simp only
    have hp : ProcessLightList K s = s := by
      rw [ProcessLightList_empty K s hfrozen hempty]
      cases s
      simp only at hclean
      subst hclean
      rfl
    rw [hp]
    have hu : AddUnLight K s K.NO_LIGHT = s := by simp [AddUnLight]
    rw [hu, hp]

theorem darkLevel_standard : StandardTables darkLevel :=
  ⟨by decide, fun _ _ _ _ _ => rfl, fun _ _ _ _ _ _ _ _ _ => rfl⟩

theorem undo_exactness_witness :
    (ProcessLightList upstream
      (AddUnLight upstream (ProcessLightList upstream (AddLight upstream darkLevel 30 30 5).2)
        (AddLight upstream darkLevel 30 30 5).1)).dLight = darkLevel.dLight :=
  undo_exactness upstream darkLevel 30 30 5 (by decide) rfl rfl rfl rfl rfl darkLevel_grid
    darkLevel_standard (by decide) ⟨by decide, by decide⟩

/-- The grids `DoLighting` leaves depend on the state only through the grids, the
tables and flags the passes read, and the offset of the light. -/
theorem DoLighting_congr (K : Consts) (s d : Lighting) (x y r L : Int)
    (htab : SameTables s d) (horig : lightOrigin d x y L = lightOrigin s x y L)
    (hd : d.dLight = s.dLight) (hp : d.dPreLight = s.dPreLight) :
    (DoLighting K d x y r L).dLight = (DoLighting K s x y r L).dLight ∧
      (DoLighting K d x y r L).dPreLight = (DoLighting K s x y r L).dPreLight := by
  have key : ∀ (u v : Lighting) (a b w : Int),
      (SameTables u v ∧ v.dLight = u.dLight ∧ v.dPreLight = u.dPreLight) →
      (SameTables (SetLight u a b w) (SetLight v a b w) ∧
        (SetLight v a b w).dLight = (SetLight u a b w).dLight ∧
        (SetLight v a b w).dPreLight = (SetLight u a b w).dPreLight) := by
    intro u v a b w ⟨h1, h2, h3⟩
    have cu := SameCtl_SetLight u a b w
    have cv := SameCtl_SetLight v a b w
    refine ⟨⟨cv.hlightradius.trans (h1.1.trans cu.hlightradius.symm),
      cv.hlightblock.trans (h1.2.trans cu.hlightblock.symm),
      cv.hLoadMapObjsFlag.trans (h1.3.trans cu.hLoadMapObjsFlag.symm),
      cv.hcurrlevel.trans (h1.4.trans cu.hcurrlevel.symm)⟩, ?_, ?_⟩
    · unfold SetLight
      rw [h1.hLoadMapObjsFlag]
      cases u.LoadMapObjsFlag <;> simp [h2]
    · unfold SetLight
      rw [h1.hLoadMapObjsFlag]
      cases u.LoadMapObjsFlag <;> simp [h3]
  have := DoLighting_rel
    (fun u v => SameTables u v ∧ v.dLight = u.dLight ∧ v.dPreLight = u.dPreLight) K
    (fun _ _ h => h.1)
    (fun u v a b w h => by
      unfold stamp
      have hg : GetLight v a b = GetLight u a b := by
        unfold GetLight; rw [h.1.hLoadMapObjsFlag, h.2.1, h.2.2]
      rw [hg]
      split
      · split
        · exact key u v a b w h
        · exact h
      · exact h)
    (fun u v a b h => key u v a b 0 h) s d x y r L horig ⟨htab, hd, hp⟩
  exact ⟨this.2.1, this.2.2⟩

/-- C5. Coalesced radius change: from an unfrozen state with an empty light pool
and a working grid equal to the base grid, `id = AddLight(x, y, r1);
ChangeLightRadius(id, r2); ProcessLightList` leaves exactly the working grid of
`AddLight(x, y, r2); ProcessLightList`, for all `x`, `y`, `r1`, `r2`; in
particular for the light added at (30, 30) with radius 5 and changed to radius 2.
The sentinel `NO_LIGHT` is negative, hence no slot number. -/
theorem coalesced_radius_change (K : Consts) (s : Lighting) (x y r1 r2 : Int)
    (hK : K.NO_LIGHT < 0) (hfrozen : s.lightflag = false) (hempty : s.numlights = 0)
    (hbase : s.dLight = s.dPreLight) :
    (ProcessLightList K
      (ChangeLightRadius K (AddLight K s x y r1).2 (AddLight K s x y r1).1 r2)).dLight =
      (ProcessLightList K (AddLight K s x y r2).2).dLight := by
  by_cases hroom : s.numlights < K.MAXLIGHTS
  · generalize hj : ((s.lightactive s.numlights : Nat) : Int) = j
    have hjN : j ≠ K.NO_LIGHT := by omega
    have hadd : ∀ r, AddLight K s x y r = (j,
        { s with
          numlights := s.numlights + 1
          LightList := setAt s.LightList j
            { s.LightList j with
              position := { (s.LightList j).position with tile := ⟨x, y⟩, offset := ⟨0, 0⟩ }
              _lradius := r, _ldel := false, _lunflag := false }
          dolighting := true }) := by
      intro r
      simp only [AddLight, hfrozen, hroom, Bool.false_eq_true, if_false, if_true, hj]
    rw [hadd r1, hadd r2]
    simp only
    -- right-hand side: the light added with radius `r2`
    generalize hs1 : ({ s with
          numlights := s.numlights + 1
          LightList := setAt s.LightList j
            { s.LightList j with
              position := { (s.LightList j).position with tile := ⟨x, y⟩, offset := ⟨0, 0⟩ }
              _lradius := r2, _ldel := false, _lunflag := false }
          dolighting := true } : Lighting) = s1
    have a1 : s1.lightflag = false := by rw [← hs1]; exact hfrozen
    have a2 : s1.dolighting = true := by rw [← hs1]
    have a3 : s1.numlights = 1 := by rw [← hs1]; simp [hempty]
    have a4 : ((s1.lightactive 0 : Nat) : Int) = j := by rw [← hs1, ← hj, hempty]
    have a5 : s1.LightList j =
        { s.LightList j with
              position := { (s.LightList j).position with tile := ⟨x, y⟩, offset := ⟨0, 0⟩ }
              _lradius := r2, _ldel := false, _lunflag := false } := by
      rw [← hs1]; simp [setAt]
    have a6 : s1.dLight = s.dLight := by rw [← hs1]
    have a7 : s1.dPreLight = s.dPreLight := by rw [← hs1]
    have hu1 : processUndo K 0 s1 = s1 :=
      processUndo_clean K 0 s1 (by rw [a4, a5]) (by rw [a4, a5])
    have hp1 : processApply K 0 s1 = DoLighting K s1 x y r2 j := by
      unfold processApply
      simp only [a4, a5, Bool.not_false, if_true]
    rw [ProcessLightList_one K s1 a1 a2 a3, hu1, hp1]
    show _ = (processCompact 1 0 (DoLighting K s1 x y r2 j)).dLight
    rw [(processCompact_frame K 1 0 _).2.1]
    -- left-hand side: the light added with radius `r1` and changed to `r2`
    have hch : ChangeLightRadius K { s with
          numlights := s.numlights + 1
          LightList := setAt s.LightList j
            { s.LightList j with
              position := { (s.LightList j).position with tile := ⟨x, y⟩, offset := ⟨0, 0⟩ }
              _lradius := r1, _ldel := false, _lunflag := false }
          dolighting := true } j r2 =
        { s with
          numlights := s.numlights + 1
          LightList := setAt (setAt s.LightList j
            { s.LightList j with
              position := { (s.LightList j).position with tile := ⟨x, y⟩, offset := ⟨0, 0⟩ }
              _lradius := r1, _ldel := false, _lunflag := false }) j
            { s.LightList j with
              position := { (s.LightList j).position with
                tile := ⟨x, y⟩, offset := ⟨0, 0⟩, old := ⟨x, y⟩ }
              _lradius := r2, _ldel := false, _lunflag := true, oldRadious := r1 }
          dolighting := true } := by
      simp only [ChangeLightRadius, hfrozen, hjN, Bool.false_eq_true, or_self, if_false, setAt,
        if_true]
    rw [hch]
    generalize hc : ({ s with
          numlights := s.numlights + 1
          LightList := setAt (setAt s.LightList j
            { s.LightList j with
              position := { (s.LightList j).position with tile := ⟨x, y⟩, offset := ⟨0, 0⟩ }
              _lradius := r1, _ldel := false, _lunflag := false }) j
            { s.LightList j with
              position := { (s.LightList j).position with
                tile := ⟨x, y⟩, offset := ⟨0, 0⟩, old := ⟨x, y⟩ }
              _lradius := r2, _ldel := false, _lunflag := true, oldRadious := r1 }
          dolighting := true } : Lighting) = c
    have c1 : c.lightflag = false := by rw [← hc]; exact hfrozen
    have c2 : c.dolighting = true := by rw [← hc]
    have c3 : c.numlights = 1 := by rw [← hc]; simp [hempty]
    have c4 : ((c.lightactive 0 : Nat) : Int) = j := by rw [← hc, ← hj, hempty]
    have c5 : c.LightList j =
        { s.LightList j with
              position := { (s.LightList j).position with
                tile := ⟨x, y⟩, offset := ⟨0, 0⟩, old := ⟨x, y⟩ }
              _lradius := r2, _ldel := false, _lunflag := true, oldRadious := r1 } := by
      rw [← hc]; simp [setAt]
    have c6 : c.dLight = s.dLight := by rw [← hc]
    have c7 : c.dPreLight = s.dPreLight := by rw [← hc]
    have c8 : SameTables s1 c := by rw [← hc, ← hs1]; exact ⟨rfl, rfl, rfl, rfl⟩
    rw [ProcessLightList_one K c c1 c2 c3]
    show (processCompact 1 0 (processApply K 0 (processUndo K 0 c))).dLight = _
    rw [(processCompact_frame K 1 0 _).2.1]
    obtain ⟨ur, uL, ud⟩ := processUndo_spec K 0 c
    generalize processUndo K 0 c = u at ur uL ud
    rw [c4, c5] at uL
    have u5 : u.LightList j = { s.LightList j with
              position := { (s.LightList j).position with
                tile := ⟨x, y⟩, offset := ⟨0, 0⟩, old := ⟨x, y⟩ }
              _lradius := r2, _ldel := false, _lunflag := false, oldRadious := r1 } := by
      rw [uL]; simp [setAt]
    have u6 : u.dLight = s1.dLight := by
      funext a b
      rw [ud a b, c7, c6, a6, hbase]
      split <;> rfl
    have hpu : processApply K 0 u = DoLighting K u x y r2 j := by
      unfold processApply
      simp only [ur.hlightactive, c4, u5, Bool.not_false, if_true]
    rw [hpu]
    refine (DoLighting_congr K s1 u x y r2 j ?_ ?_ u6 ?_).1
    · exact ⟨ur.hlightradius.trans c8.1, ur.hlightblock.trans c8.2, ur.hLoadMapObjsFlag.trans c8.3,
        ur.hcurrlevel.trans c8.4⟩
    · unfold lightOrigin
      rw [u5, a5]
    · rw [ur.hdPreLight, c7, a7]
  · have hadd : ∀ r, AddLight K s x y r = (K.NO_LIGHT, s) := by
      intro r
      simp only [AddLight, hfrozen, hroom, Bool.false_eq_true, if_false]
    rw [hadd r1, hadd r2]
    simp only
    have hu : ChangeLightRadius K s K.NO_LIGHT r2 = s := by simp [ChangeLightRadius]
    rw [hu]

theorem coalesced_radius_change_witness :
    (ProcessLightList upstream
      (ChangeLightRadius upstream (AddLight upstream darkLevel 30 30 5).2
        (AddLight upstream darkLevel 30 30 5).1 2)).dLight =
      (ProcessLightList upstream (AddLight upstream darkLevel 30 30 2).2).dLight :=
  coalesced_radius_change upstream darkLevel 30 30 5 2 (by decide) rfl rfl rfl

/-! ## Sentinel ids and the change operations -/

/-- C10. Called with the sentinel `NO_LIGHT`, each of `AddUnLight`,
`ChangeLightRadius`, `ChangeLightXY`, `ChangeLightOff` and `ChangeLight` leaves the
whole lighting state unchanged; called with a live id while not frozen,
`AddUnLight` sets that light's pending-delete flag and the dirty flag and changes
nothing else. A live id is an entry of the unsigned array `lightactive`, the
sentinel is negative. -/
theorem sentinel_noop_and_AddUnLight_live (K : Consts) (s : Lighting) (x y r : Int) :
    (AddUnLight K s K.NO_LIGHT = s ∧
      ChangeLightRadius K s K.NO_LIGHT r = s ∧
      ChangeLightXY K s K.NO_LIGHT x y = s ∧
      ChangeLightOff K s K.NO_LIGHT x y = s ∧
      ChangeLight K s K.NO_LIGHT x y r = s) ∧
    ∀ k : Int, s.lightflag = false → K.NO_LIGHT < 0 → 0 ≤ k → k < s.numlights →
      let i : Int := s.lightactive k
      let t := AddUnLight K s i
      t.LightList i = { s.LightList i with _ldel := true } ∧
        t.dolighting = true ∧
        (∀ j : Int, j ≠ i → t.LightList j = s.LightList j) ∧
        t.lightactive = s.lightactive ∧ t.numlights = s.numlights ∧
        t.lightflag = s.lightflag ∧ t.dLight = s.dLight ∧ t.dPreLight = s.dPreLight ∧
        t.lightradius = s.lightradius ∧ t.lightblock = s.lightblock ∧
        t.LoadMapObjsFlag = s.LoadMapObjsFlag ∧ t.currlevel = s.currlevel := by
  refine ⟨by simp [AddUnLight, ChangeLightRadius, ChangeLightXY, ChangeLightOff, ChangeLight], ?_⟩
  intro k hfrozen hK _ _
  have hne : ((s.lightactive k : Nat) : Int) ≠ K.NO_LIGHT := by omega
  simp only [AddUnLight, hfrozen, hne, Bool.false_eq_true, or_self, if_false, setAt, if_true]
  refine ⟨trivial, trivial, ?_, trivial, trivial, trivial, trivial, trivial, trivial, trivial,
    trivial, trivial⟩
  intro j hj
  simp [hj]

theorem sentinel_noop_and_AddUnLight_live_witness :
    ((AddUnLight upstream oneLight 0).LightList 0)._ldel = true ∧
      (AddUnLight upstream oneLight 0).dolighting = true :=
  have h := (sentinel_noop_and_AddUnLight_live upstream oneLight 0 0 0).2 0 rfl (by decide)
    (by decide) (by decide)
  ⟨congrArg LightListStruct._ldel h.1, h.2.1⟩

/-- C4 (as amended). When lighting is not frozen and the id is not the sentinel,
each of `ChangeLightRadius`, `ChangeLightXY`, `ChangeLightOff` and `ChangeLight`
copies the light's current tile position and radius into its previous-position
and previous-radius fields on every call, whether or not the light is already
pending-change; so after two change calls on the same light the previous fields
hold the position and radius the light had just before the second call. -/
theorem ChangeLight_records_previous (K : Consts) (s : Lighting) (i x y r x2 y2 r2 : Int)
    (hfrozen : s.lightflag = false) (hi : i ≠ K.NO_LIGHT) :
    (((ChangeLightRadius K s i r).LightList i).position.old = (s.LightList i).position.tile ∧
      ((ChangeLightRadius K s i r).LightList i).oldRadious = (s.LightList i)._lradius ∧
      ((ChangeLightRadius K s i r).LightList i)._lunflag = true ∧
      ((ChangeLightRadius K s i r).LightList i)._lradius = r ∧
      ((ChangeLightRadius K s i r).LightList i).position.tile = (s.LightList i).position.tile) ∧
    (((ChangeLightXY K s i x y).LightList i).position.old = (s.LightList i).position.tile ∧
      ((ChangeLightXY K s i x y).LightList i).oldRadious = (s.LightList i)._lradius ∧
      ((ChangeLightXY K s i x y).LightList i)._lunflag = true ∧
      ((ChangeLightXY K s i x y).LightList i)._lradius = (s.LightList i)._lradius ∧
      ((ChangeLightXY K s i x y).LightList i).position.tile = ⟨x, y⟩) ∧
    (((ChangeLightOff K s i x y).LightList i).position.old = (s.LightList i).position.tile ∧
      ((ChangeLightOff K s i x y).LightList i).oldRadious = (s.LightList i)._lradius ∧
      ((ChangeLightOff K s i x y).LightList i)._lunflag = true ∧
      ((ChangeLightOff K s i x y).LightList i)._lradius = (s.LightList i)._lradius ∧
      ((ChangeLightOff K s i x y).LightList i).position.tile = (s.LightList i).position.tile) ∧
    (((ChangeLight K s i x y r).LightList i).position.old = (s.LightList i).position.tile ∧
      ((ChangeLight K s i x y r).LightList i).oldRadious = (s.LightList i)._lradius ∧
      ((ChangeLight K s i x y r).LightList i)._lunflag = true ∧
      ((ChangeLight K s i x y r).LightList i)._lradius = r ∧
      ((ChangeLight K s i x y r).LightList i).position.tile = ⟨x, y⟩) ∧
    ((ChangeLight K (ChangeLight K s i x y r) i x2 y2 r2).LightList i).position.old = ⟨x, y⟩ ∧
    ((ChangeLight K (ChangeLight K s i x y r) i x2 y2 r2).LightList i).oldRadious = r := by
  simp [ChangeLightRadius, ChangeLightXY, ChangeLightOff, ChangeLight, hfrozen, hi, setAt]

theorem ChangeLight_records_previous_witness :
    ((ChangeLight upstream (ChangeLight upstream oneLight 0 50 50 3) 0 70 70 2).LightList
      0).position.old = ⟨50, 50⟩ :=
  (ChangeLight_records_previous upstream oneLight 0 50 50 3 70 70 2 rfl (by decide)).2.2.2.2.1

/-- The record of a light right after `AddLight(x, y, r); ProcessLightList` on an
empty pool: it holds the position and radius given and is not pending-change. -/
theorem ProcessLightList_AddLight_record (K : Consts) (s : Lighting) (x y r : Int)
    (hfrozen : s.lightflag = false) (hempty : s.numlights = 0)
    (hroom : s.numlights < K.MAXLIGHTS) :
    ((ProcessLightList K (AddLight K s x y r).2).LightList
        (s.lightactive 0)).position.tile = ⟨x, y⟩ ∧
      ((ProcessLightList K (AddLight K s x y r).2).LightList (s.lightactive 0))._lradius = r ∧
      ((ProcessLightList K (AddLight K s x y r).2).LightList
        (s.lightactive 0))._lunflag = false ∧
      (ProcessLightList K (AddLight K s x y r).2).lightflag = false := by
  generalize hj : ((s.lightactive 0 : Nat) : Int) = j
  have hadd : AddLight K s x y r = (j,
      { s with
        numlights := s.numlights + 1
        LightList := setAt s.LightList j
          { s.LightList j with
            position := { (s.LightList j).position with tile := ⟨x, y⟩, offset := ⟨0, 0⟩ }
            _lradius := r, _ldel := false, _lunflag := false }
        dolighting := true }) := by
    have hroom0 : (0 : Int) < K.MAXLIGHTS := by rw [hempty] at hroom; exact hroom
    simp only [AddLight, hfrozen, Bool.false_eq_true, if_false, hempty, hroom0, if_true, hj]
  rw [hadd]
  simp only
  generalize hs1 : ({ s with
        numlights := s.numlights + 1
        LightList := setAt s.LightList j
          { s.LightList j with
            position := { (s.LightList j).position with tile := ⟨x, y⟩, offset := ⟨0, 0⟩ }
            _lradius := r, _ldel := false, _lunflag := false }
        dolighting := true } : Lighting) = s1
  have a1 : s1.lightflag = false := by rw [← hs1]; exact hfrozen
  have a2 : s1.dolighting = true := by rw [← hs1]
  have a3 : s1.numlights = 1 := by rw [← hs1]; simp [hempty]
  have a4 : ((s1.lightactive 0 : Nat) : Int) = j := by rw [← hs1, ← hj]
  have a5 : s1.LightList j =
      { s.LightList j with
            position := { (s.LightList j).position with tile := ⟨x, y⟩, offset := ⟨0, 0⟩ }
            _lradius := r, _ldel := false, _lunflag := false } := by
    rw [← hs1]; simp [setAt]
  have hu1 : processUndo K 0 s1 = s1 :=
    processUndo_clean K 0 s1 (by rw [a4, a5]) (by rw [a4, a5])
  rw [ProcessLightList_one K s1 a1 a2 a3, hu1]
  show ((processCompact 1 0 (processApply K 0 s1)).LightList j).position.tile = ⟨x, y⟩ ∧
    ((processCompact 1 0 (processApply K 0 s1)).LightList j)._lradius = r ∧
    ((processCompact 1 0 (processApply K 0 s1)).LightList j)._lunflag = false ∧
    (processCompact 1 0 (processApply K 0 s1)).lightflag = false
  rw [(processCompact_frame K 1 0 _).1, (processCompact_frame K 1 0 _).2.2.2.2.1,
    (SameCtl_processApply K 0 s1).hLightList, (SameCtl_processApply K 0 s1).hlightflag, a5]
  exact ⟨rfl, rfl, rfl, a1⟩

/-- The records of the pool after `AddLight(30, 30, 5); ProcessLightList` on the
dark level: slot 0 holds the light, no longer pending. -/
theorem afterFirstProcess_record :
    (afterFirstProcess.LightList 0).position.tile = ⟨30, 30⟩ ∧
      (afterFirstProcess.LightList 0)._lradius = 5 ∧
      (afterFirstProcess.LightList 0)._lunflag = false ∧
      afterFirstProcess.lightflag = false := by
  have h := ProcessLightList_AddLight_record upstream darkLevel 30 30 5 rfl rfl (by decide)
  have e : ((darkLevel.lightactive 0 : Nat) : Int) = 0 := rfl
  rw [e] at h
  unfold afterFirstProcess
  exact h

/-- Two successive position changes, and two successive radius changes, of the
same light: the previous fields hold the values set by the first change. -/
theorem change_twice (K : Consts) (s : Lighting) (i x1 y1 x2 y2 r1 r2 : Int)
    (hfrozen : s.lightflag = false) (hi : i ≠ K.NO_LIGHT) :
    ((ChangeLightXY K (ChangeLightXY K s i x1 y1) i x2 y2).LightList i).position.old =
        ⟨x1, y1⟩ ∧
      ((ChangeLightRadius K (ChangeLightRadius K s i r1) i r2).LightList i).oldRadious = r1 := by
  simp [ChangeLightRadius, ChangeLightXY, hfrozen, hi, setAt]

/-- C4 (counterexample to the claim as stated). Light 0 stands at (30, 30) with
radius 5 at the last `ProcessLightList` call and is not pending-change. After
`ChangeLightXY(0, 50, 50); ChangeLightXY(0, 70, 70)` its previous position is
(50, 50), not (30, 30); after `ChangeLightRadius(0, 3); ChangeLightRadius(0, 2)`
its previous radius is 3, not 5. -/
theorem ChangeLight_twice_overwrites_previous :
    (afterFirstProcess.LightList 0).position.tile = ⟨30, 30⟩ ∧
      (afterFirstProcess.LightList 0)._lradius = 5 ∧
      (afterFirstProcess.LightList 0)._lunflag = false ∧
      ((ChangeLightXY upstream (ChangeLightXY upstream afterFirstProcess 0 50 50) 0 70 70).LightList
        0).position.old = ⟨50, 50⟩ ∧
      ((ChangeLightXY upstream (ChangeLightXY upstream afterFirstProcess 0 50 50) 0 70 70).LightList
        0).position.old ≠ ⟨30, 30⟩ ∧
      ((ChangeLightRadius upstream (ChangeLightRadius upstream afterFirstProcess 0 3) 0 2).LightList
        0).oldRadious = 3 := by
  obtain ⟨h1, h2, h3, h4⟩ := afterFirstProcess_record
  have h := change_twice upstream afterFirstProcess 0 50 50 70 70 3 2 h4 (by decide)
  refine ⟨h1, h2, h3, h.1, ?_, h.2⟩
  rw [h.1]
  decide

/-! ## The loops of `ProcessLightList` -/

theorem undoArea_clearUn (l : LightListStruct) (a b : Int) (h : undoArea (clearUn l) a b) :
    undoArea l a b := by
  unfold undoArea clearUn at *
  rcases h with h | h
  · exact Or.inl h
  · simp at h

/-- The undo loop of `ProcessLightList` over the first `n` slots. -/
theorem undoLoop_spec (K : Consts) (s : Lighting) (n : Int) :
    SameRest s (forRange 0 n (processUndo K) s) ∧
      (∀ j, visited s n j → (forRange 0 n (processUndo K) s).LightList j = clearUn (s.LightList j)) ∧
      (∀ j, ¬ visited s n j → (forRange 0 n (processUndo K) s).LightList j = s.LightList j) ∧
      (∀ a b, undone K s n a b → (forRange 0 n (processUndo K) s).dLight a b = s.dPreLight a b) ∧
      (∀ a b, ¬ undone K s n a b → (forRange 0 n (processUndo K) s).dLight a b = s.dLight a b) := by
  by_cases hn : 0 ≤ n
  · refine forRange_count (fun i t => SameRest s t ∧
      (∀ j, visited s i j → t.LightList j = clearUn (s.LightList j)) ∧
      (∀ j, ¬ visited s i j → t.LightList j = s.LightList j) ∧
      (∀ a b, undone K s i a b → t.dLight a b = s.dPreLight a b) ∧
      (∀ a b, ¬ undone K s i a b → t.dLight a b = s.dLight a b)) _ 0 n s hn ?_ ?_
    · intro i hi0 hi1 u ⟨hr, hL1, hL2, hd1, hd2⟩
      obtain ⟨pr, pL, pd⟩ := processUndo_spec K i u
      rw [hr.hlightactive] at pL pd
      generalize hj : ((s.lightactive i : Nat) : Int) = j at pL pd
      have hju : u.LightList j = s.LightList j ∨ u.LightList j = clearUn (s.LightList j) := by
        by_cases hv : visited s i j
        · exact Or.inr (hL1 j hv)
        · exact Or.inl (hL2 j hv)
      have hclear : ({ u.LightList j with _lunflag := false } : LightListStruct) =
          clearUn (s.LightList j) := by
        rcases hju with h | h <;> rw [h] <;> rfl
      refine ⟨hr.andThen pr, ?_, ?_, ?_, ?_⟩
      · intro j' ⟨i', h0, h1, h2⟩
        rw [pL]
        unfold setAt
        by_cases hjj : j' = j
        · rw [if_pos hjj, hclear, hjj]
        · rw [if_neg hjj]
          apply hL1
          refine ⟨i', h0, ?_, h2⟩
          by_contra hcon
          have : i' = i := by omega
          subst this
          exact hjj (h2.symm.trans hj)
      · intro j' hv
        rw [pL]
        unfold setAt
        have hjj : j' ≠ j := by
          intro hcon
          exact hv ⟨i, hi0, by omega, hj.trans hcon.symm⟩
        rw [if_neg hjj]
        apply hL2
        intro ⟨i', h0, h1, h2⟩
        exact hv ⟨i', h0, by omega, h2⟩
      · intro a b ⟨hon, i', h0, h1, h2⟩
        rw [pd a b, hr.hdPreLight]
        by_cases hold : undone K s i a b
        · rw [hd1 a b hold]
          split <;> rfl
        · have hi' : i' = i := by
            by_contra hcon
            exact hold ⟨hon, i', h0, by omega, h2⟩
          subst hi'
          rw [hj] at h2
          have hu : u.LightList j = s.LightList j := by
            by_cases hv : visited s i' j
            · exfalso
              obtain ⟨i'', g0, g1, g2⟩ := hv
              apply hold
              refine ⟨hon, i'', g0, g1, ?_⟩
              rw [g2]; exact h2
            · exact hL2 j hv
          rw [hu, if_pos ⟨hon, h2⟩]
      · intro a b hnot
        rw [pd a b]
        have h1 : ¬ undone K s i a b := by
          intro ⟨hon, i', h0, h1, h2⟩
          exact hnot ⟨hon, i', h0, by omega, h2⟩
        have h2 : ¬ (onMap K a b ∧ undoArea (u.LightList j) a b) := by
          intro ⟨hon, hua⟩
          apply hnot
          refine ⟨hon, i, hi0, by omega, ?_⟩
          rw [hj]
          rcases hju with h | h
          · rw [h] at hua; exact hua
          · rw [h] at hua; exact undoArea_clearUn _ a b hua
        rw [if_neg h2, hd2 a b h1]
    · refine ⟨SameRest.same s, ?_, fun _ _ => rfl, ?_, fun _ _ _ => rfl⟩
      · intro j ⟨i, h0, h1, _⟩
        omega
      · intro a b ⟨_, i, h0, h1, _⟩
        omega
  · rw [forRange_empty _ _ _ _ (by omega)]
    refine ⟨SameRest.same s, ?_, fun _ _ => rfl, ?_, fun _ _ _ => rfl⟩
    · intro j ⟨i, h0, h1, _⟩
      omega
    · intro a b ⟨_, i, h0, h1, _⟩
      omega

theorem IsMinOf_unique {v w base : Int} {S : Int → Prop} {c : Int → Int}
    (hv : IsMinOf v base S c) (hw : IsMinOf w base S c) : v = w := by
  obtain ⟨v1, v2, v3⟩ := hv
  obtain ⟨w1, w2, w3⟩ := hw
  apply le_antisymm
  · rcases w3 with h | ⟨i, hi, h⟩
    · rw [h]; exact v1
    · rw [h]; exact v2 i hi
  · rcases v3 with h | ⟨i, hi, h⟩
    · rw [h]; exact w1
    · rw [h]; exact w2 i hi

theorem allDark_eq {s t : Lighting} (h : SameCtl s t) (hp : t.dPreLight = s.dPreLight) :
    allDark t = allDark s := by
  apply Lighting.eq_of_SameCtl
  · exact ⟨h.1, h.2, h.3, h.4, h.5, h.6, h.7, h.8, h.9⟩
  · rfl
  · exact hp

/-- The apply loop of `ProcessLightList` over the first `n` slots, outside
`LoadMapObjs` and on a grid with values `0..15`. -/
theorem applyLoop_spec (K : Consts) (s : Lighting) (n : Int)
    (hflag : s.LoadMapObjsFlag = false) (hg : ∀ a b, 0 ≤ s.dLight a b ∧ s.dLight a b ≤ 15) :
    SameCtl s (forRange 0 n (processApply K) s) ∧
      (forRange 0 n (processApply K) s).dPreLight = s.dPreLight ∧
      ∀ a b, IsMinOf ((forRange 0 n (processApply K) s).dLight a b) (s.dLight a b)
        (fun i => 0 ≤ i ∧ i < n ∧ (s.LightList (s.lightactive i))._ldel = false)
        (fun i => lightLevel K s (s.lightactive i) a b) := by
  have hlev : ∀ j a b, 0 ≤ lightLevel K s j a b ∧ lightLevel K s j a b ≤ 15 := by
    intro j a b
    exact (DoLighting_min K s _ _ _ _ hflag hg).2.1 a b
  by_cases hn : 0 ≤ n
  · refine forRange_count (fun i t => SameCtl s t ∧ t.dPreLight = s.dPreLight ∧
      ∀ a b, IsMinOf (t.dLight a b) (s.dLight a b)
        (fun i' => 0 ≤ i' ∧ i' < i ∧ (s.LightList (s.lightactive i'))._ldel = false)
        (fun i' => lightLevel K s (s.lightactive i') a b)) _ 0 n s hn ?_ ?_
    · intro i hi0 hi1 u ⟨hc, hp, hm⟩
      unfold processApply
      simp only
      rw [hc.hlightactive, hc.hLightList]
      generalize hj : ((s.lightactive i : Nat) : Int) = j
      cases hdel : (s.LightList j)._ldel
      · -- the light is applied
        simp only [Bool.not_false, if_true]
        have hfu : u.LoadMapObjsFlag = false := by rw [hc.hLoadMapObjsFlag]; exact hflag
        have hgu : ∀ a b, 0 ≤ u.dLight a b ∧ u.dLight a b ≤ 15 := by
          intro a b
          obtain ⟨m1, m2, m3⟩ := hm a b
          have := hg a b
          rcases m3 with h | ⟨i', _, h⟩
          · rw [h]; exact this
          · rw [h]; exact hlev _ a b
        obtain ⟨d1, _, d3⟩ := DoLighting_min K u (s.LightList j).position.tile.x
          (s.LightList j).position.tile.y (s.LightList j)._lradius j hfu hgu
        rw [allDark_eq hc hp] at d1
        refine ⟨hc.trans (SameCtl_DoLighting K u _ _ _ _), d3.trans hp, ?_⟩
        intro a b
        obtain ⟨m1, m2, m3⟩ := hm a b
        have hd := d1 a b
        have hlj : (DoLighting K (allDark s) (s.LightList j).position.tile.x
            (s.LightList j).position.tile.y (s.LightList j)._lradius j).dLight a b =
            lightLevel K s j a b := rfl
        rw [hlj] at hd
        refine ⟨by omega, ?_, ?_⟩
        · intro i' ⟨h0, h1, h2⟩
          by_cases hii : i' = i
          · subst hii
            simp only
            rw [hj]
            omega
          · have := m2 i' ⟨h0, by omega, h2⟩
            simp only at this ⊢
            omega
        · by_cases hlt : lightLevel K s j a b < u.dLight a b
          · right
            refine ⟨i, ⟨hi0, by omega, by rw [hj]; exact hdel⟩, ?_⟩
            simp only
            rw [hj]
            omega
          · have hsame : (DoLighting K u (s.LightList j).position.tile.x
                (s.LightList j).position.tile.y (s.LightList j)._lradius j).dLight a b =
                u.dLight a b := by omega
            rw [hsame]
            rcases m3 with h | ⟨i', ⟨h0, h1, h2⟩, h⟩
            · exact Or.inl h
            · exact Or.inr ⟨i', ⟨h0, by omega, h2⟩, h⟩
      · -- the light is pending-delete: skipped
        simp only [Bool.not_true, Bool.false_eq_true, if_false]
        refine ⟨hc, hp, ?_⟩
        intro a b
        obtain ⟨m1, m2, m3⟩ := hm a b
        refine ⟨m1, ?_, ?_⟩
        · intro i' ⟨h0, h1, h2⟩
          have hii : i' ≠ i := by
            intro hcon
            subst hcon
            rw [hj, hdel] at h2
            exact absurd h2 (by decide)
          exact m2 i' ⟨h0, by omega, h2⟩
        · rcases m3 with h | ⟨i', ⟨h0, h1, h2⟩, h⟩
          · exact Or.inl h
          · exact Or.inr ⟨i', ⟨h0, by omega, h2⟩, h⟩
    · refine ⟨SameCtl.refl s, rfl, fun a b => ⟨le_refl _, ?_, Or.inl rfl⟩⟩
      intro i ⟨h0, h1, _⟩
      omega
  · rw [forRange_empty _ _ _ _ (by omega)]
    refine ⟨SameCtl.refl s, rfl, fun a b => ⟨le_refl _, ?_, Or.inl rfl⟩⟩
    intro i ⟨h0, h1, _⟩
    omega

theorem setAt_swap (la : Int → Nat) (i n : Int) :
    setAt (setAt la n (la i)) i (la n) = la ∘ (Equiv.swap i n) := by
  funext k
  unfold setAt
  simp only [Function.comp]
  by_cases h1 : k = i
  · subst h1
    simp
  · by_cases h2 : k = n
    · subst h2
      simp [h1]
    · simp [h1, h2, Equiv.swap_apply_of_ne_of_ne h1 h2]

/-- The compaction loop of `ProcessLightList`, started at index `i` with enough
fuel: it permutes the window `[i, numlights)` of the slot table so that the slots
that are not pending-delete come first, and lowers `numlights` to their end. -/
theorem processCompact_spec (K : Consts) :
    ∀ (fuel : Nat) (i : Int) (s : Lighting), 0 ≤ i → i ≤ s.numlights →
      s.numlights - i ≤ fuel →
      i ≤ (processCompact fuel i s).numlights ∧
      (processCompact fuel i s).numlights ≤ s.numlights ∧
      (∃ σ : Equiv.Perm Int, (∀ k, ¬ (i ≤ k ∧ k < s.numlights) → σ k = k) ∧
        (processCompact fuel i s).lightactive = s.lightactive ∘ σ) ∧
      (∀ k, i ≤ k → k < (processCompact fuel i s).numlights →
        (s.LightList ((processCompact fuel i s).lightactive k))._ldel = false) ∧
      (∀ k, (processCompact fuel i s).numlights ≤ k → k < s.numlights →
        (s.LightList ((processCompact fuel i s).lightactive k))._ldel = true)
  | 0, i, s, _, h1, h2 => by
    have : i = s.numlights := by omega
    simp only [processCompact]
    refine ⟨h1, le_refl _, ⟨1, fun _ _ => rfl, rfl⟩, ?_, ?_⟩
    · intro k _ _; omega
    · intro k _ _; omega
  | fuel + 1, i, s, h0, h1, h2 => by
    unfold processCompact
    by_cases hlt : i < s.numlights
    · rw [if_pos hlt]
      cases hdel : (s.LightList (s.lightactive i))._ldel
      · -- keep slot `i`
        simp only [Bool.false_eq_true, if_false]
        obtain ⟨a1, a2, ⟨σ, a3, a4⟩, a5, a6⟩ :=
          processCompact_spec K fuel (i + 1) s (by omega) (by omega) (by push_cast at h2; omega)
        refine ⟨by omega, a2, ⟨σ, fun k hk => a3 k (by omega), a4⟩, ?_, a6⟩
        intro k hk0 hk1
        by_cases hki : k = i
        · subst hki
          rw [a4]
          simp only [Function.comp]
          rw [a3 k (by omega)]
          exact hdel
        · exact a5 k (by omega) hk1
      · -- move slot `i` behind the live ones
        simp only [if_true]
        generalize hs' : ({ s with
            numlights := s.numlights - 1
            lightactive := setAt (setAt s.lightactive (s.numlights - 1) (s.lightactive i)) i
              (s.lightactive (s.numlights - 1)) } : Lighting) = s'
        have b1 : s'.numlights = s.numlights - 1 := by rw [← hs']
        have b2 : s'.lightactive = s.lightactive ∘ (Equiv.swap i (s.numlights - 1)) := by
          rw [← hs']; exact setAt_swap _ _ _
        have b3 : s'.LightList = s.LightList := by rw [← hs']
        obtain ⟨a1, a2, ⟨σ, a3, a4⟩, a5, a6⟩ :=
          processCompact_spec K fuel i s' h0 (by omega) (by push_cast at h2; omega)
        rw [b3] at a5 a6
        rw [b1] at a2 a3 a6
        refine ⟨a1, by omega, ⟨σ.trans (Equiv.swap i (s.numlights - 1)), ?_, ?_⟩, a5, ?_⟩
        · intro k hk
          simp only [Equiv.trans_apply]
          rw [a3 k (by omega)]
          exact Equiv.swap_apply_of_ne_of_ne (by omega) (by omega)
        · rw [a4, b2]
          funext k
          simp [Function.comp]
        · intro k hk0 hk1
          by_cases hk : k < s.numlights - 1
          · exact a6 k hk0 hk
          · have hkn : k = s.numlights - 1 := by omega
            rw [a4, b2]
            simp only [Function.comp]
            rw [a3 k (by omega), hkn, Equiv.swap_apply_right]
            exact hdel
    · rw [if_neg hlt]
      have : i = s.numlights := by omega
      refine ⟨h1, le_refl _, ⟨1, fun _ _ => rfl, rfl⟩, ?_, ?_⟩
      · intro k _ _; omega
      · intro k _ _; omega

theorem lightLevel_congr (K : Consts) (s t : Lighting) (j : Int) (htab : SameTables s t)
    (hp : t.dPreLight = s.dPreLight) (hpos : (t.LightList j).position.tile = (s.LightList j).position.tile)
    (hoff : (t.LightList j).position.offset = (s.LightList j).position.offset)
    (hrad : (t.LightList j)._lradius = (s.LightList j)._lradius) (a b : Int) :
    lightLevel K t j a b = lightLevel K s j a b := by
  unfold lightLevel
  rw [hpos, hrad]
  have := (DoLighting_congr K (allDark s) (allDark t) (s.LightList j).position.tile.x
    (s.LightList j).position.tile.y (s.LightList j)._lradius j
    ⟨htab.1, htab.2, htab.3, htab.4⟩ (by
      unfold lightOrigin
      show (if j ≥ 0 then _ else _) = (if j ≥ 0 then _ else _)
      simp only [allDark, hoff]) rfl hp).1
  rw [this]

/-- `ProcessLightList` on a dirty, unfrozen pool is its three loops followed by the
reset of the dirty flag. -/
theorem ProcessLightList_dirty (K : Consts) (s : Lighting) (hfrozen : s.lightflag = false)
    (hdirty : s.dolighting = true) :
    ProcessLightList K s =
      { processCompact s.numlights.toNat 0
          (forRange 0 s.numlights (processApply K) (forRange 0 s.numlights (processUndo K) s))
        with dolighting := false } := by
  unfold ProcessLightList
  have h1 : (forRange 0 s.numlights (processUndo K) s).numlights = s.numlights :=
    (undoLoop_spec K s s.numlights).1.hnumlights
  have h2 : (forRange 0 s.numlights (processApply K)
      (forRange 0 s.numlights (processUndo K) s)).numlights = s.numlights := by
    have := (SameCtl.refl (forRange 0 s.numlights (processUndo K) s))
    have hc : SameCtl (forRange 0 s.numlights (processUndo K) s)
        (forRange 0 s.numlights (processApply K) (forRange 0 s.numlights (processUndo K) s)) :=
      forRange_inv (fun t => SameCtl (forRange 0 s.numlights (processUndo K) s) t) _ _ _ _
        (fun i _ _ t ht => ht.trans (SameCtl_processApply K i t)) (SameCtl.refl _)
    rw [hc.hnumlights, h1]
  simp only [hfrozen, hdirty, Bool.false_eq_true, if_false, if_true, h1, h2]

theorem SameCtl_applyLoop (K : Consts) (s : Lighting) (n : Int) :
    SameCtl s (forRange 0 n (processApply K) s) :=
  forRange_inv (fun t => SameCtl s t) _ _ _ _
    (fun i _ _ t ht => ht.trans (SameCtl_processApply K i t)) (SameCtl.refl _)

/-- What a `ProcessLightList` call on a dirty, unfrozen pool does to the pool: the
pending-change flags of the live slots are cleared, nothing else in the records
changes, the window `[0, numlights)` of the slot table is permuted so that the
slots not pending-delete come first, and `numlights` is lowered to their end. -/
theorem ProcessLightList_pool (K : Consts) (s : Lighting) (hfrozen : s.lightflag = false)
    (hdirty : s.dolighting = true) (hn : 0 ≤ s.numlights) :
    ((ProcessLightList K s).dolighting = false ∧
      (ProcessLightList K s).lightflag = false ∧
      (ProcessLightList K s).lightradius = s.lightradius ∧
      (ProcessLightList K s).lightblock = s.lightblock ∧
      (ProcessLightList K s).LoadMapObjsFlag = s.LoadMapObjsFlag ∧
      (ProcessLightList K s).currlevel = s.currlevel) ∧
    ((∀ j, visited s s.numlights j →
        (ProcessLightList K s).LightList j = clearUn (s.LightList j)) ∧
      (∀ j, ¬ visited s s.numlights j → (ProcessLightList K s).LightList j = s.LightList j)) ∧
    (0 ≤ (ProcessLightList K s).numlights ∧
      (ProcessLightList K s).numlights ≤ s.numlights ∧
      (∃ σ : Equiv.Perm Int, (∀ k, ¬ (0 ≤ k ∧ k < s.numlights) → σ k = k) ∧
        (ProcessLightList K s).lightactive = s.lightactive ∘ σ) ∧
      (∀ k, 0 ≤ k → k < (ProcessLightList K s).numlights →
        (s.LightList ((ProcessLightList K s).lightactive k))._ldel = false) ∧
      (∀ k, (ProcessLightList K s).numlights ≤ k → k < s.numlights →
        (s.LightList ((ProcessLightList K s).lightactive k))._ldel = true)) := by
  rw [ProcessLightList_dirty K s hfrozen hdirty]
  obtain ⟨ur, uL1, uL2, _, _⟩ := undoLoop_spec K s s.numlights
  generalize forRange 0 s.numlights (processUndo K) s = s1 at ur uL1 uL2
  have ac := SameCtl_applyLoop K s1 s.numlights
  generalize forRange 0 s.numlights (processApply K) s1 = s2 at ac
  have hn2 : s2.numlights = s.numlights := ac.hnumlights.trans ur.hnumlights
  obtain ⟨c1, c2, ⟨σ, c3, c4⟩, c5, c6⟩ :=
    processCompact_spec K s.numlights.toNat 0 s2 (le_refl _) (by omega) (by omega)
  obtain ⟨f1, f2, f3, f4, f5, f6, f7, f8, f9⟩ := processCompact_frame K s.numlights.toNat 0 s2
  generalize processCompact s.numlights.toNat 0 s2 = s3 at c1 c2 c4 c5 c6 f1 f2 f3 f4 f5 f6 f7 f8 f9
  have hdel : ∀ j, (s2.LightList j)._ldel = (s.LightList j)._ldel := by
    intro j
    rw [ac.hLightList]
    by_cases hv : visited s s.numlights j
    · rw [uL1 j hv]; rfl
    · rw [uL2 j hv]
  have hla2 : s2.lightactive = s.lightactive := ac.hlightactive.trans ur.hlightactive
  refine ⟨⟨rfl, ?_, ?_, ?_, ?_, ?_⟩, ⟨?_, ?_⟩, ⟨c1, ?_, ⟨σ, ?_, ?_⟩, ?_, ?_⟩⟩
  · show s3.lightflag = false
    rw [f5, ac.hlightflag, ur.hlightflag]; exact hfrozen
  · show s3.lightradius = _
    rw [f6, ac.hlightradius, ur.hlightradius]
  · show s3.lightblock = _
    rw [f7, ac.hlightblock, ur.hlightblock]
  · show s3.LoadMapObjsFlag = _
    rw [f8, ac.hLoadMapObjsFlag, ur.hLoadMapObjsFlag]
  · show s3.currlevel = _
    rw [f9, ac.hcurrlevel, ur.hcurrlevel]
  · intro j hv
    show s3.LightList j = _
    rw [f1, ac.hLightList, uL1 j hv]
  · intro j hv
    show s3.LightList j = _
    rw [f1, ac.hLightList, uL2 j hv]
  · show s3.numlights ≤ _
    omega
  · intro k hk
    exact c3 k (by omega)
  · show s3.lightactive = _
    rw [c4, hla2]
  · intro k h0 h1
    have := c5 k h0 h1
    rw [hdel] at this
    exact this
  · intro k h0 h1
    have := c6 k h0 (by omega)
    rw [hdel] at this
    exact this

/-- What a `ProcessLightList` call on a dirty, unfrozen pool does to the grids,
outside `LoadMapObjs` and for grids with values `0..15`: the base grid stays, and
the working grid holds, per tile, the minimum of the undone value (the base value
where an undo square covers the tile, the old working value elsewhere) and of the
levels of the lights that are not pending-delete. -/
theorem ProcessLightList_grid (K : Consts) (s : Lighting) (hfrozen : s.lightflag = false)
    (hdirty : s.dolighting = true) (hflag : s.LoadMapObjsFlag = false)
    (hg : ∀ a b, 0 ≤ s.dLight a b ∧ s.dLight a b ≤ 15)
    (hb : ∀ a b, 0 ≤ s.dPreLight a b ∧ s.dPreLight a b ≤ 15) :
    (ProcessLightList K s).dPreLight = s.dPreLight ∧
    ∀ a b, ∃ base, (undone K s s.numlights a b → base = s.dPreLight a b) ∧
      (¬ undone K s s.numlights a b → base = s.dLight a b) ∧
      IsMinOf ((ProcessLightList K s).dLight a b) base
        (fun i => 0 ≤ i ∧ i < s.numlights ∧ (s.LightList (s.lightactive i))._ldel = false)
        (fun i => lightLevel K s (s.lightactive i) a b) := by
  rw [ProcessLightList_dirty K s hfrozen hdirty]
  obtain ⟨ur, uL1, uL2, ud1, ud2⟩ := undoLoop_spec K s s.numlights
  generalize forRange 0 s.numlights (processUndo K) s = s1 at ur uL1 uL2 ud1 ud2
  have hf1 : s1.LoadMapObjsFlag = false := by rw [ur.hLoadMapObjsFlag]; exact hflag
  have hg1 : ∀ a b, 0 ≤ s1.dLight a b ∧ s1.dLight a b ≤ 15 := by
    intro a b
    by_cases hu : undone K s s.numlights a b
    · rw [ud1 a b hu]; exact hb a b
    · rw [ud2 a b hu]; exact hg a b
  obtain ⟨ac, ap, am⟩ := applyLoop_spec K s1 s.numlights hf1 hg1
  generalize forRange 0 s.numlights (processApply K) s1 = s2 at ac ap am
  obtain ⟨f1, f2, f3, f4, f5, f6, f7, f8, f9⟩ := processCompact_frame K s.numlights.toNat 0 s2
  generalize processCompact s.numlights.toNat 0 s2 = s3 at f1 f2 f3 f4 f5 f6 f7 f8 f9
  refine ⟨?_, ?_⟩
  · show s3.dPreLight = _
    rw [f3, ap, ur.hdPreLight]
  · intro a b
    refine ⟨s1.dLight a b, fun hu => ud1 a b hu, fun hu => ud2 a b hu, ?_⟩
    show IsMinOf (s3.dLight a b) _ _ _
    rw [f2]
    have hm := am a b
    have hS : ∀ i, (s1.LightList (s1.lightactive i))._ldel = (s.LightList (s.lightactive i))._ldel := by
      intro i
      rw [ur.hlightactive]
      by_cases hv : visited s s.numlights (s.lightactive i)
      · rw [uL1 _ hv]; rfl
      · rw [uL2 _ hv]
    have hlev : ∀ i, lightLevel K s1 (s1.lightactive i) a b = lightLevel K s (s.lightactive i) a b := by
      intro i
      rw [ur.hlightactive]
      apply lightLevel_congr K s s1 _ ⟨ur.hlightradius, ur.hlightblock, ur.hLoadMapObjsFlag,
        ur.hcurrlevel⟩ ur.hdPreLight
      · by_cases hv : visited s s.numlights (s.lightactive i)
        · rw [uL1 _ hv]; rfl
        · rw [uL2 _ hv]
      · by_cases hv : visited s s.numlights (s.lightactive i)
        · rw [uL1 _ hv]; rfl
        · rw [uL2 _ hv]
      · by_cases hv : visited s s.numlights (s.lightactive i)
        · rw [uL1 _ hv]; rfl
        · rw [uL2 _ hv]
    obtain ⟨m1, m2, m3⟩ := hm
    refine ⟨m1, ?_, ?_⟩
    · intro i ⟨h0, h1, h2⟩
      have := m2 i ⟨h0, h1, by rw [hS]; exact h2⟩
      simp only at this ⊢
      rw [hlev] at this
      exact this
    · rcases m3 with h | ⟨i, ⟨h0, h1, h2⟩, h⟩
      · exact Or.inl h
      · right
        refine ⟨i, ⟨h0, h1, by rw [← hS]; exact h2⟩, ?_⟩
        simp only at h ⊢
        rw [← hlev]
        exact h

/-! ## Grids and the mutators; `DoUnLight` -/

/-- C11. Deferred geometry: none of `AddLight`, `AddUnLight`, `ChangeLightRadius`,
`ChangeLightXY`, `ChangeLightOff` and `ChangeLight` changes any entry of the
working light grid or of the base light grid. -/
theorem mutators_leave_grids (K : Consts) (s : Lighting) (i x y r : Int) :
    ((AddLight K s x y r).2.dLight = s.dLight ∧ (AddLight K s x y r).2.dPreLight = s.dPreLight) ∧
    ((AddUnLight K s i).dLight = s.dLight ∧ (AddUnLight K s i).dPreLight = s.dPreLight) ∧
    ((ChangeLightRadius K s i r).dLight = s.dLight ∧
      (ChangeLightRadius K s i r).dPreLight = s.dPreLight) ∧
    ((ChangeLightXY K s i x y).dLight = s.dLight ∧
      (ChangeLightXY K s i x y).dPreLight = s.dPreLight) ∧
    ((ChangeLightOff K s i x y).dLight = s.dLight ∧
      (ChangeLightOff K s i x y).dPreLight = s.dPreLight) ∧
    ((ChangeLight K s i x y r).dLight = s.dLight ∧
      (ChangeLight K s i x y r).dPreLight = s.dPreLight) := by
  unfold AddLight AddUnLight ChangeLightRadius ChangeLightXY ChangeLightOff ChangeLight
  refine ⟨?_, ?_, ?_, ?_, ?_, ?_⟩
  · split
    · exact ⟨rfl, rfl⟩
    · split <;> exact ⟨rfl, rfl⟩
  all_goals (split <;> exact ⟨rfl, rfl⟩)

/-- C12. `DoUnLight(x, y, r)` sets working = base for exactly the on-map tiles
`(tx, ty)` with `x - (r + 1) ≤ tx < x + (r + 1)` and `y - (r + 1) ≤ ty < y + (r + 1)`
and leaves every other working-grid tile and the entire base grid unchanged, for
every integer `x`, `y` and `r`, off-map centres included. -/
theorem DoUnLight_restores_square (K : Consts) (s : Lighting) (x y r : Int) :
    (∀ tx ty, (0 ≤ tx ∧ tx < K.MAXDUNX ∧ 0 ≤ ty ∧ ty < K.MAXDUNY) →
      (x - (r + 1) ≤ tx ∧ tx < x + (r + 1) ∧ y - (r + 1) ≤ ty ∧ ty < y + (r + 1)) →
      (DoUnLight K s x y r).dLight tx ty = s.dPreLight tx ty) ∧
    (∀ tx ty, ¬ ((0 ≤ tx ∧ tx < K.MAXDUNX ∧ 0 ≤ ty ∧ ty < K.MAXDUNY) ∧
        (x - (r + 1) ≤ tx ∧ tx < x + (r + 1) ∧ y - (r + 1) ≤ ty ∧ ty < y + (r + 1))) →
      (DoUnLight K s x y r).dLight tx ty = s.dLight tx ty) ∧
    (DoUnLight K s x y r).dPreLight = s.dPreLight := by
  obtain ⟨_, hp, hd⟩ := DoUnLight_spec K s x y r
  refine ⟨?_, ?_, hp⟩
  · intro tx ty h1 h2
    rw [hd tx ty]
    exact if_pos (⟨h1, h2⟩ : onMap K tx ty ∧ inSquare x y r tx ty)
  · intro tx ty h
    rw [hd tx ty]
    exact if_neg (fun hc : onMap K tx ty ∧ inSquare x y r tx ty => h hc)

theorem DoUnLight_restores_square_witness :
    (DoUnLight upstream darkLevel 30 30 2).dLight 30 30 = darkLevel.dPreLight 30 30 :=
  (DoUnLight_restores_square upstream darkLevel 30 30 2).1 30 30
    ⟨by decide, by decide, by decide, by decide⟩ ⟨by decide, by decide, by decide, by decide⟩

/-! ## Sub-tile offsets and `DoUnLight` -/

/-- Outside `LoadMapObjs`, a pass of `DoLighting` never raises a working value. -/
theorem lightPass_mono (K : Consts) (nRadius mult ylim xlim block_x block_y : Int)
    (tx ty : Int → Int → Int) (s : Lighting) (hflag : s.LoadMapObjsFlag = false)
    (hg : ∀ a b, s.dLight a b ≤ 127) :
    SameCtl s (lightPass K nRadius mult ylim xlim block_x block_y tx ty s) ∧
      ∀ a b, (lightPass K nRadius mult ylim xlim block_x block_y tx ty s).dLight a b ≤
        s.dLight a b := by
  refine lightPass_inv (fun t => SameCtl s t ∧ ∀ a b, t.dLight a b ≤ s.dLight a b) K nRadius mult
    ylim xlim block_x block_y tx ty ?_ s ⟨SameCtl.refl s, fun _ _ => le_refl _⟩
  intro t x y ⟨hc, hle⟩ _ _ _ _ _
  have hft : t.LoadMapObjsFlag = false := by rw [hc.hLoadMapObjsFlag]; exact hflag
  refine ⟨hc.trans (SameCtl_stamp K t _ _ _), ?_⟩
  intro a b
  rw [stamp_dLight K t _ _ _ hft (by have := hle (tx x y) (ty x y); have := hg (tx x y) (ty x y); omega)]
  have := hle a b
  split <;> omega

/-- Outside `LoadMapObjs`, after a pass of `DoLighting` the tile written for the
local coordinates `(x0, y0)`, when on the map and with a distance bucket below 128,
holds at most the level the tables give for it. -/
theorem lightPass_le (K : Consts) (nRadius mult ylim xlim block_x block_y : Int)
    (tx ty : Int → Int → Int) (s : Lighting) (hflag : s.LoadMapObjsFlag = false)
    (hg : ∀ a b, s.dLight a b ≤ 15) (x0 y0 : Int) (hy : 0 ≤ y0 ∧ y0 < ylim)
    (hx : 1 ≤ x0 ∧ x0 < xlim)
    (hrb : s.lightblock mult (y0 + block_y) (x0 + block_x) < 128)
    (hon : onMap K (tx x0 y0) (ty x0 y0)) :
    (lightPass K nRadius mult ylim xlim block_x block_y tx ty s).dLight (tx x0 y0) (ty x0 y0) ≤
      s.lightradius nRadius (s.lightblock mult (y0 + block_y) (x0 + block_x)) := by
  unfold lightPass
  have key := forRange_count (fun y t => SameCtl s t ∧ (∀ a b, t.dLight a b ≤ s.dLight a b) ∧
      (y0 < y → t.dLight (tx x0 y0) (ty x0 y0) ≤
        s.lightradius nRadius (s.lightblock mult (y0 + block_y) (x0 + block_x))))
    (fun y s => forRange 1 xlim (fun x s =>
      let radius_block := s.lightblock mult (y + block_y) (x + block_x)
      if radius_block < 128 then
        let temp_x := tx x y
        let temp_y := ty x y
        let v : Int := s.lightradius nRadius radius_block
        if 0 ≤ temp_x ∧ temp_x < K.MAXDUNX ∧ 0 ≤ temp_y ∧ temp_y < K.MAXDUNY then
          if v < GetLight s temp_x temp_y then SetLight s temp_x temp_y v else s
        else s
      else s) s) 0 ylim s (by omega) ?_ ⟨SameCtl.refl s, fun _ _ => le_refl _, fun h => by omega⟩
  · exact key.2.2 hy.2
  · intro y hy0 hy1 t ⟨hc, hle, hT⟩
    have inner := forRange_count (fun x u => SameCtl s u ∧ (∀ a b, u.dLight a b ≤ s.dLight a b) ∧
        ((y0 < y ∨ (y = y0 ∧ x0 < x)) → u.dLight (tx x0 y0) (ty x0 y0) ≤
          s.lightradius nRadius (s.lightblock mult (y0 + block_y) (x0 + block_x))))
      (fun x s =>
        let radius_block := s.lightblock mult (y + block_y) (x + block_x)
        if radius_block < 128 then
          let temp_x := tx x y
          let temp_y := ty x y
          let v : Int := s.lightradius nRadius radius_block
          if 0 ≤ temp_x ∧ temp_x < K.MAXDUNX ∧ 0 ≤ temp_y ∧ temp_y < K.MAXDUNY then
            if v < GetLight s temp_x temp_y then SetLight s temp_x temp_y v else s
          else s
        else s) 1 xlim t (by omega) ?_ ⟨hc, hle, fun h => by
          rcases h with h | ⟨_, h⟩
          · exact hT h
          · omega⟩
    · refine ⟨inner.1, inner.2.1, fun h => inner.2.2 ?_⟩
      by_cases hyy : y = y0
      · exact Or.inr ⟨hyy, hx.2⟩
      · exact Or.inl (by omega)
    · intro x hx0 hx1 u ⟨uc, ule, uT⟩
      have hfu : u.LoadMapObjsFlag = false := by rw [uc.hLoadMapObjsFlag]; exact hflag
      have hst := stamp_dLight K u (tx x y) (ty x y)
        (u.lightradius nRadius (u.lightblock mult (y + block_y) (x + block_x))) hfu
        (by have := ule (tx x y) (ty x y); have := hg (tx x y) (ty x y); omega)
      have hsc := SameCtl_stamp K u (tx x y) (ty x y)
        (u.lightradius nRadius (u.lightblock mult (y + block_y) (x + block_x)))
      unfold stamp at hst hsc
      simp only
      by_cases hlt : u.lightblock mult (y + block_y) (x + block_x) < 128
      · rw [if_pos hlt]
        refine ⟨uc.trans hsc, ?_, ?_⟩
        · intro a b
          rw [hst a b]
          have := ule a b
          split <;> omega
        · intro h
          rw [hst]
          by_cases hxy : y = y0 ∧ x = x0
          · obtain ⟨rfl, rfl⟩ := hxy
            rw [if_pos ⟨⟨rfl, rfl⟩, hon⟩, uc.hlightradius, uc.hlightblock]
            omega
          · have hprev : y0 < y ∨ (y = y0 ∧ x0 < x) := by
              rcases h with h | ⟨h1, h2⟩
              · exact Or.inl h
              · refine Or.inr ⟨h1, ?_⟩
                by_contra hcon
                exact hxy ⟨h1, by omega⟩
            have := uT hprev
            split <;> omega
      · rw [if_neg hlt]
        refine ⟨uc, ule, ?_⟩
        intro h
        by_cases hxy : y = y0 ∧ x = x0
        · obtain ⟨rfl, rfl⟩ := hxy
          rw [uc.hlightblock] at hlt
          exact absurd hrb hlt
        · apply uT
          rcases h with h | ⟨h1, h2⟩
          · exact Or.inl h
          · refine Or.inr ⟨h1, ?_⟩
            by_contra hcon
            exact hxy ⟨h1, by omega⟩

/-- Outside `LoadMapObjs`, the write to the source tile keeps the working values
in `0..15`. -/
theorem lightOwnTile_range (K : Consts) (s : Lighting) (X Y r : Int)
    (hflag : s.LoadMapObjsFlag = false) (hg : ∀ a b, 0 ≤ s.dLight a b ∧ s.dLight a b ≤ 15) :
    SameCtl s (lightOwnTile K s X Y r) ∧
      ∀ a b, 0 ≤ (lightOwnTile K s X Y r).dLight a b ∧ (lightOwnTile K s X Y r).dLight a b ≤ 15 := by
  have := lightOwnTile_rel
    (fun u v => u = v ∧ SameCtl s u ∧ ∀ a b, 0 ≤ u.dLight a b ∧ u.dLight a b ≤ 15) K
    (fun u v h => by rw [h.1]; exact (SameCtl.refl v).tables)
    (fun u v a b w h => by
      refine ⟨by rw [h.1], h.2.1.trans (SameCtl_stamp K u a b w), ?_⟩
      have hfu : u.LoadMapObjsFlag = false := by rw [h.2.1.hLoadMapObjsFlag]; exact hflag
      intro a' b'
      rw [stamp_dLight K u a b w hfu (by have := h.2.2 a b; omega)]
      have := h.2.2 a' b'
      split <;> omega)
    (fun u v a b h => by
      refine ⟨by rw [h.1], h.2.1.trans (SameCtl_SetLight u a b 0), ?_⟩
      have hfu : u.LoadMapObjsFlag = false := by rw [h.2.1.hLoadMapObjsFlag]; exact hflag
      intro a' b'
      rw [(SetLight_dLight u a b 0 hfu).1]
      have := h.2.2 a' b'
      simp only [setGrid, toChar]
      split <;> omega) s s X Y r ⟨rfl, SameCtl.refl s, hg⟩
  exact this.2

/-- Outside `LoadMapObjs` and on a grid with values `0..15`: after `DoLighting`
the tile `(X + x0, Y + y0)` of the first quadrant, when inside the window, on the
map and with a distance bucket below 128, holds at most the level the tables give
for it. -/
theorem lightFrom_first_le (K : Consts) (s : Lighting) (X Y r xoff yoff : Int)
    (hflag : s.LoadMapObjsFlag = false) (hg : ∀ a b, 0 ≤ s.dLight a b ∧ s.dLight a b ≤ 15)
    (x0 y0 : Int) (hy : 0 ≤ y0 ∧ y0 < (if Y - 15 < 0 then Y + 1 else 15))
    (hx : 1 ≤ x0 ∧ x0 < (if X + 15 > K.MAXDUNX then K.MAXDUNX - X else 15))
    (hrb : s.lightblock (xoff + 8 * yoff) y0 x0 < 128) (hon : onMap K (X + x0) (Y + y0)) :
    (lightFrom K s X Y r xoff yoff).dLight (X + x0) (Y + y0) ≤
      s.lightradius r (s.lightblock (xoff + 8 * yoff) y0 x0) := by
  unfold lightFrom
  simp only
  generalize (if X - 15 < 0 then X + 1 else 15) = min_x
  generalize (if X + 15 > K.MAXDUNX then K.MAXDUNX - X else 15) = max_x at hx
  generalize (if Y - 15 < 0 then Y + 1 else 15) = min_y at hy
  generalize (if Y + 15 > K.MAXDUNY then K.MAXDUNY - Y else 15) = max_y
  obtain ⟨oc, og⟩ := lightOwnTile_range K s X Y r hflag hg
  generalize lightOwnTile K s X Y r = s0 at oc og
  have hf0 : s0.LoadMapObjsFlag = false := by rw [oc.hLoadMapObjsFlag]; exact hflag
  have p1 := lightPass_le K r (xoff + 8 * yoff) min_y max_x 0 0 (fun x _ => X + x)
    (fun _ y => Y + y) s0 hf0 (fun a b => (og a b).2) x0 y0 hy hx
    (by rw [oc.hlightblock]; simpa using hrb) hon
  rw [oc.hlightblock, oc.hlightradius] at p1
  simp only [add_zero] at p1
  obtain ⟨c1, m1⟩ := lightPass_mono K r (xoff + 8 * yoff) min_y max_x 0 0 (fun x _ => X + x)
    (fun _ y => Y + y) s0 hf0 (fun a b => by have := og a b; omega)
  generalize lightPass K r (xoff + 8 * yoff) min_y max_x 0 0 (fun x _ => X + x)
    (fun _ y => Y + y) s0 = s1 at p1 c1 m1
  have hf1 : s1.LoadMapObjsFlag = false := by rw [c1.hLoadMapObjsFlag]; exact hf0
  have g1 : ∀ a b, s1.dLight a b ≤ 127 := fun a b => by
    have := m1 a b; have := og a b; omega
  obtain ⟨c2, m2⟩ := lightPass_mono K r
    ((RotateRadius xoff yoff 0 0).x + 8 * (RotateRadius xoff yoff 0 0).y) max_y max_x
    (RotateRadius xoff yoff 0 0).bx (RotateRadius xoff yoff 0 0).by_
    (fun _ y => X + y) (fun x _ => Y - x) s1 hf1 g1
  generalize lightPass K r
    ((RotateRadius xoff yoff 0 0).x + 8 * (RotateRadius xoff yoff 0 0).y) max_y max_x
    (RotateRadius xoff yoff 0 0).bx (RotateRadius xoff yoff 0 0).by_
    (fun _ y => X + y) (fun x _ => Y - x) s1 = s2 at c2 m2
  have hf2 : s2.LoadMapObjsFlag = false := by rw [c2.hLoadMapObjsFlag]; exact hf1
  have g2 : ∀ a b, s2.dLight a b ≤ 127 := fun a b => by
    have := m2 a b; have := g1 a b; omega
  generalize RotateRadius (RotateRadius xoff yoff 0 0).dx (RotateRadius xoff yoff 0 0).dy
    (RotateRadius xoff yoff 0 0).lx (RotateRadius xoff yoff 0 0).ly = R2
  obtain ⟨c3, m3⟩ := lightPass_mono K r (R2.x + 8 * R2.y) max_y min_x R2.bx R2.by_
    (fun x _ => X - x) (fun _ y => Y - y) s2 hf2 g2
  generalize lightPass K r (R2.x + 8 * R2.y) max_y min_x R2.bx R2.by_
    (fun x _ => X - x) (fun _ y => Y - y) s2 = s3 at c3 m3
  have hf3 : s3.LoadMapObjsFlag = false := by rw [c3.hLoadMapObjsFlag]; exact hf2
  have g3 : ∀ a b, s3.dLight a b ≤ 127 := fun a b => by
    have := m3 a b; have := g2 a b; omega
  generalize RotateRadius R2.dx R2.dy R2.lx R2.ly = R3
  obtain ⟨c4, m4⟩ := lightPass_mono K r (R3.x + 8 * R3.y) min_y min_x R3.bx R3.by_
    (fun _ y => X - y) (fun x _ => Y + x) s3 hf3 g3
  have := m4 (X + x0) (Y + y0)
  have := m3 (X + x0) (Y + y0)
  have := m2 (X + x0) (Y + y0)
  omega

/-- The tile east of a light that stands at least 15 tiles away from every map
edge and has a non-negative sub-tile offset: after `DoLighting` it holds at most
the level `v` that bounds the table entry for local tile `(1, 0)`. -/
theorem DoLighting_east_le (K : Consts) (s : Lighting) (X Y r L : Int)
    (hflag : s.LoadMapObjsFlag = false) (hg : ∀ a b, 0 ≤ s.dLight a b ∧ s.dLight a b ≤ 15)
    (hL : 0 ≤ L) (hox : 0 ≤ (s.LightList L).position.offset.x)
    (hoy : 0 ≤ (s.LightList L).position.offset.y)
    (hX : 15 ≤ X ∧ X + 15 ≤ K.MAXDUNX) (hY : 15 ≤ Y ∧ Y + 15 ≤ K.MAXDUNY) (v : Nat)
    (hrb : s.lightblock ((s.LightList L).position.offset.x +
      8 * (s.LightList L).position.offset.y) 0 1 < 128)
    (hv : s.lightradius r (s.lightblock ((s.LightList L).position.offset.x +
      8 * (s.LightList L).position.offset.y) 0 1) ≤ v)
    (E : Int) (hE : E = X + 1) :
    (DoLighting K s X Y r L).dLight E Y ≤ v := by
  have horig : lightOrigin s X Y L = (X, Y, (s.LightList L).position.offset.x,
      (s.LightList L).position.offset.y) := by
    unfold lightOrigin
    rw [if_pos hL]
    simp only
    rw [if_neg (by omega), if_neg (by omega), if_neg (by omega), if_neg (by omega)]
  have hle := lightFrom_first_le K s X Y r (s.LightList L).position.offset.x
    (s.LightList L).position.offset.y hflag hg 1 0
    (by rw [if_neg (by omega)]; omega) (by rw [if_neg (by omega)]; omega) hrb
    (by unfold onMap; omega)
  unfold DoLighting
  simp only [horig]
  rw [hE]
  have e : Y + 0 = Y := add_zero Y
  rw [e] at hle
  have hv' : ((s.lightradius r (s.lightblock ((s.LightList L).position.offset.x +
      8 * (s.LightList L).position.offset.y) 0 1) : Nat) : Int) ≤ (v : Int) := by
    exact_mod_cast hv
  exact le_trans hle hv'

theorem offsetLight_table :
    MakeLightTable_lightblock (0 + 8 * 7) 0 1 = 1 ∧ MakeLightTable_lightradius 0 1 = 2 := by
  constructor
  · unfold MakeLightTable_lightblock
    norm_num
  · unfold MakeLightTable_lightradius
    norm_num
    rfl

theorem offsetLight_grid (a b : Int) : 0 ≤ offsetLight.dLight a b ∧ offsetLight.dLight a b ≤ 15 :=
  show (0 : Int) ≤ 15 ∧ (15 : Int) ≤ 15 from ⟨by decide, by decide⟩

/-- C13 (as amended). `DoUnLight` is conservative for lights without sub-tile
offset: for a light with offset (0, 0) (or `DoLighting` called without a light
slot), radius `r` in `0..15`, the tables of a level below 17 and a working grid
with values `0..15`, each tile whose working value `DoLighting` changes lies on
the map inside the square restored by `DoUnLight(x, y, r)`; hence `DoLighting`
followed by `DoUnLight` with the same position and radius returns a working grid
that started equal to the base grid to the base grid. -/
theorem DoUnLight_covers_zero_offset (K : Consts) (s : Lighting) (x y r L : Int)
    (hstd : StandardTables s) (hflag : s.LoadMapObjsFlag = false)
    (hg : ∀ a b, 0 ≤ s.dLight a b ∧ s.dLight a b ≤ 15) (hr : 0 ≤ r ∧ r ≤ 15)
    (hoff : 0 ≤ L → (s.LightList L).position.offset = ⟨0, 0⟩) :
    (∀ a b, (DoLighting K s x y r L).dLight a b ≠ s.dLight a b →
      onMap K a b ∧ inSquare x y r a b) ∧
    (s.dLight = s.dPreLight →
      (DoUnLight K (DoLighting K s x y r L) x y r).dLight = s.dPreLight) := by
  obtain ⟨hmin, _, hpre⟩ := DoLighting_min K s x y r L hflag hg
  have hin : ∀ a b, (DoLighting K s x y r L).dLight a b ≠ s.dLight a b →
      onMap K a b ∧ inSquare x y r a b := by
    intro a b hne
    by_contra hcon
    have hfar : ¬ (onMap K a b ∧ near x y r a b) := by
      intro h
      apply hcon
      refine ⟨h.1, ?_⟩
      have := h.2
      unfold near at this
      unfold inSquare
      omega
    have h15 := DoLighting_zero_reach K s x y r L hstd hflag hr hoff a b hfar
    apply hne
    rw [hmin a b, h15]
    have := hg a b
    omega
  refine ⟨hin, ?_⟩
  intro hbase
  obtain ⟨_, _, hd⟩ := DoUnLight_spec K (DoLighting K s x y r L) x y r
  funext a b
  rw [hd a b, hpre]
  split
  · rfl
  · rename_i hno
    by_contra hne
    apply hno
    apply hin
    intro heq
    apply hne
    rw [heq, hbase]

theorem DoUnLight_covers_zero_offset_witness :
    (DoUnLight upstream (DoLighting upstream darkLevel 30 30 5 (-1)) 30 30 5).dLight =
      darkLevel.dPreLight :=
  (DoUnLight_covers_zero_offset upstream darkLevel 30 30 5 (-1) darkLevel_standard rfl
    darkLevel_grid ⟨by decide, by decide⟩ (fun h => absurd h (by decide))).2 rfl

/-- C13 (counterexample to the claim as stated). The light of `offsetLight` stands
on tile (30, 30) with radius 0 and sub-tile offset (0, 7). `DoLighting` lowers the
working value of tile (31, 30), which lies outside the square of
`DoUnLight(30, 30, 0)`; after `DoLighting; DoUnLight` that tile differs from the
base grid, although the working grid started equal to the base grid. -/
theorem DoUnLight_misses_offset_light :
    (DoLighting upstream offsetLight 30 30 0 0).dLight 31 30 ≠ offsetLight.dLight 31 30 ∧
      ¬ inSquare 30 30 0 31 30 ∧
      offsetLight.dLight = offsetLight.dPreLight ∧
      (DoUnLight upstream (DoLighting upstream offsetLight 30 30 0 0) 30 30 0).dLight 31 30 ≠
        offsetLight.dPreLight 31 30 := by
  have hdo : (DoLighting upstream offsetLight 30 30 0 0).dLight 31 30 ≤ ((2 : Nat) : Int) :=
    DoLighting_east_le upstream offsetLight 30 30 0 0 rfl offsetLight_grid (by decide)
      (by decide) (by decide) (by decide) (by decide) 2
      (by
        show MakeLightTable_lightblock (0 + 8 * 7) 0 1 < 128
        rw [offsetLight_table.1]; decide)
      (by
        show MakeLightTable_lightradius 0 (MakeLightTable_lightblock (0 + 8 * 7) 0 1) ≤ 2
        rw [offsetLight_table.1, offsetLight_table.2])
      31 (by decide)
  have h15 : offsetLight.dLight 31 30 = 15 := rfl
  have hp15 : offsetLight.dPreLight 31 30 = 15 := rfl
  have hout : ¬ inSquare 30 30 0 31 30 := by
    unfold inSquare
    omega
  have hun : (DoUnLight upstream (DoLighting upstream offsetLight 30 30 0 0) 30 30 0).dLight 31 30 =
      (DoLighting upstream offsetLight 30 30 0 0).dLight 31 30 :=
    ((DoUnLight_spec upstream (DoLighting upstream offsetLight 30 30 0 0) 30 30 0).2.2 31 30).trans
      (if_neg (fun h => hout h.2))
  refine ⟨?_, hout, rfl, ?_⟩
  · intro hcon
    have h := hcon.trans h15
    generalize (DoLighting upstream offsetLight 30 30 0 0).dLight 31 30 = v at hdo h
    omega
  · intro hcon
    have h := hun.symm.trans (hcon.trans hp15)
    generalize (DoLighting upstream offsetLight 30 30 0 0).dLight 31 30 = v at hdo h
    omega

/-! ## Pool compaction -/

theorem perm_window (σ : Equiv.Perm Int) (lo hi : Int)
    (hfix : ∀ k, ¬ (lo ≤ k ∧ k < hi) → σ k = k) (k : Int) (hk : lo ≤ k ∧ k < hi) :
    (lo ≤ σ k ∧ σ k < hi) ∧ (lo ≤ σ.symm k ∧ σ.symm k < hi) := by
  constructor
  · by_contra h
    have h1 := hfix (σ k) h
    have h2 : σ k = k := σ.injective h1
    rw [h2] at h
    exact h hk
  · by_contra h
    have h1 := hfix (σ.symm k) h
    rw [Equiv.apply_symm_apply] at h1
    rw [← h1] at h
    exact h hk

/-- C14. Pool compaction: after a `ProcessLightList` call made while not frozen and
dirty (with `0 ≤ numlights ≤ MAXLIGHTS`, as in every reachable state), the live
ids `lightactive[0..numlights)` are exactly the ids that were live before the call
and had their pending-delete flag clear, `numlights` is their count, the stored
position, offset and radius of every light are unchanged, no live light is
pending-delete or pending-change, and each deleted id lies in the free part
`lightactive[numlights..MAXLIGHTS)`. -/
theorem pool_compaction (K : Consts) (s : Lighting) (hfrozen : s.lightflag = false)
    (hdirty : s.dolighting = true) (hn0 : 0 ≤ s.numlights) (hmax : s.numlights ≤ K.MAXLIGHTS) :
    (∀ j, visited (ProcessLightList K s) (ProcessLightList K s).numlights j ↔
      (visited s s.numlights j ∧ (s.LightList j)._ldel = false)) ∧
    (ProcessLightList K s).numlights = ((Finset.Ico 0 s.numlights).filter
      (fun i => (s.LightList (s.lightactive i))._ldel = false)).card ∧
    (∀ j, ((ProcessLightList K s).LightList j).position = (s.LightList j).position ∧
      ((ProcessLightList K s).LightList j)._lradius = (s.LightList j)._lradius) ∧
    (∀ j, visited (ProcessLightList K s) (ProcessLightList K s).numlights j →
      ((ProcessLightList K s).LightList j)._ldel = false ∧
      ((ProcessLightList K s).LightList j)._lunflag = false) ∧
    (∀ j, visited s s.numlights j → (s.LightList j)._ldel = true →
      ∃ k, (ProcessLightList K s).numlights ≤ k ∧ k < K.MAXLIGHTS ∧
        ((ProcessLightList K s).lightactive k : Int) = j) := by
  obtain ⟨_, ⟨r1, r2⟩, ⟨n1, n2, ⟨σ, p1, p2⟩, d1, d2⟩⟩ :=
    ProcessLightList_pool K s hfrozen hdirty hn0
  generalize ProcessLightList K s = t at r1 r2 n1 n2 p2 d1 d2
  have hla : ∀ k, t.lightactive k = s.lightactive (σ k) := by
    intro k; rw [p2]; rfl
  have hlive : ∀ j, visited t t.numlights j ↔
      (visited s s.numlights j ∧ (s.LightList j)._ldel = false) := by
    intro j
    constructor
    · rintro ⟨k, h0, h1, h2⟩
      have hw := (perm_window σ 0 s.numlights p1 k ⟨h0, by omega⟩).1
      refine ⟨⟨σ k, hw.1, hw.2, by rw [← hla]; exact h2⟩, ?_⟩
      rw [← h2]
      exact d1 k h0 h1
    · rintro ⟨⟨i, h0, h1, h2⟩, hdel⟩
      have hw := (perm_window σ 0 s.numlights p1 i ⟨h0, h1⟩).2
      have hk : t.lightactive (σ.symm i) = s.lightactive i := by
        rw [hla, Equiv.apply_symm_apply]
      refine ⟨σ.symm i, hw.1, ?_, by rw [hk]; exact h2⟩
      by_contra hcon
      have := d2 (σ.symm i) (by omega) hw.2
      rw [hk, h2, hdel] at this
      exact absurd this (by decide)
  have hrec : ∀ j, (t.LightList j).position = (s.LightList j).position ∧
      (t.LightList j)._lradius = (s.LightList j)._lradius ∧
      (t.LightList j)._ldel = (s.LightList j)._ldel := by
    intro j
    by_cases hv : visited s s.numlights j
    · rw [r1 j hv]; exact ⟨rfl, rfl, rfl⟩
    · rw [r2 j hv]; exact ⟨rfl, rfl, rfl⟩
  refine ⟨hlive, ?_, fun j => ⟨(hrec j).1, (hrec j).2.1⟩, ?_, ?_⟩
  · -- the count
    have hcard : ((Finset.Ico 0 s.numlights).filter
        (fun i => (s.LightList (s.lightactive i))._ldel = false)).card =
        (Finset.Ico 0 t.numlights).card := by
      symm
      apply Finset.card_bij (fun k _ => σ k)
      · intro k hk
        rw [Finset.mem_Ico] at hk
        have hw := (perm_window σ 0 s.numlights p1 k ⟨hk.1, by omega⟩).1
        rw [Finset.mem_filter, Finset.mem_Ico]
        refine ⟨hw, ?_⟩
        rw [← hla]
        exact d1 k hk.1 hk.2
      · intro k1 _ k2 _ h
        exact σ.injective h
      · intro i hi
        rw [Finset.mem_filter, Finset.mem_Ico] at hi
        have hw := (perm_window σ 0 s.numlights p1 i hi.1).2
        have hk : t.lightactive (σ.symm i) = s.lightactive i := by
          rw [hla, Equiv.apply_symm_apply]
        refine ⟨σ.symm i, ?_, Equiv.apply_symm_apply σ i⟩
        rw [Finset.mem_Ico]
        refine ⟨hw.1, ?_⟩
        by_contra hcon
        have := d2 (σ.symm i) (by omega) hw.2
        rw [hk, hi.2] at this
        exact absurd this (by decide)
    rw [hcard, Int.card_Ico]
    omega
  · intro j hv
    have hs := (hlive j).1 hv
    refine ⟨by rw [(hrec j).2.2]; exact hs.2, ?_⟩
    rw [r1 j hs.1]
    rfl
  · rintro j ⟨i, h0, h1, h2⟩ hdel
    have hw := (perm_window σ 0 s.numlights p1 i ⟨h0, h1⟩).2
    have hk : t.lightactive (σ.symm i) = s.lightactive i := by
      rw [hla, Equiv.apply_symm_apply]
    refine ⟨σ.symm i, ?_, by omega, by rw [hk]; exact h2⟩
    by_contra hcon
    have := d1 (σ.symm i) hw.1 (by omega)
    rw [hk, h2, hdel] at this
    exact absurd this (by decide)

theorem pool_compaction_witness :
    ((ProcessLightList upstream pendingDelete).LightList 0).position =
        (pendingDelete.LightList 0).position ∧
      ((ProcessLightList upstream pendingDelete).LightList 0)._lradius =
        (pendingDelete.LightList 0)._lradius :=
  (pool_compaction upstream pendingDelete rfl rfl (by decide) (by decide)).2.2.1 0



/-! ## The invariant of the light manager -/

theorem levelAt_congr (K : Consts) (s t : Lighting) (htab : SameTables s t)
    (hp : t.dPreLight = s.dPreLight) (x y r a b : Int) :
    levelAt K t x y r a b = levelAt K s x y r a b := by
  unfold levelAt
  have := (DoLighting_congr K (allDark s) (allDark t) x y r (-1)
    ⟨htab.1, htab.2, htab.3, htab.4⟩ (by unfold lightOrigin; rw [if_neg (by decide), if_neg (by decide)])
    rfl hp).1
  rw [this]

theorem lightLevel_eq_levelAt (K : Consts) (s : Lighting) (j a b : Int)
    (hoff : (s.LightList j).position.offset = ⟨0, 0⟩) :
    lightLevel K s j a b =
      levelAt K s (s.LightList j).position.tile.x (s.LightList j).position.tile.y
        (s.LightList j)._lradius a b := by
  unfold lightLevel levelAt DoLighting
  have h1 : lightOrigin (allDark s) (s.LightList j).position.tile.x
      (s.LightList j).position.tile.y j =
      ((s.LightList j).position.tile.x, (s.LightList j).position.tile.y, 0, 0) := by
    unfold lightOrigin
    have : (allDark s).LightList j = s.LightList j := rfl
    rw [this, hoff]
    split <;> rfl
  have h2 : lightOrigin (allDark s) (s.LightList j).position.tile.x
      (s.LightList j).position.tile.y (-1) =
      ((s.LightList j).position.tile.x, (s.LightList j).position.tile.y, 0, 0) := by
    unfold lightOrigin
    rw [if_neg (by decide)]
  rw [h1, h2]

theorem levelAt_range (K : Consts) (s : Lighting) (hflag : s.LoadMapObjsFlag = false)
    (x y r a b : Int) : 0 ≤ levelAt K s x y r a b ∧ levelAt K s x y r a b ≤ 15 := by
  have h := (DoLighting_min K (allDark s) x y r (-1) hflag
    (fun _ _ => show (0 : Int) ≤ 15 ∧ (15 : Int) ≤ 15 from ⟨by decide, by decide⟩)).2.1 a b
  exact h

theorem levelAt_far (K : Consts) (s : Lighting) (hstd : StandardTables s)
    (hflag : s.LoadMapObjsFlag = false) (x y r a b : Int) (hr : 0 ≤ r ∧ r ≤ 15)
    (hab : ¬ (onMap K a b ∧ inSquare x y r a b)) : levelAt K s x y r a b = 15 := by
  unfold levelAt
  apply DoLighting_zero_reach K s x y r (-1) hstd hflag hr (fun h => absurd h (by decide))
  intro hcon
  apply hab
  refine ⟨hcon.1, ?_⟩
  have := hcon.2
  unfold near at this
  unfold inSquare
  omega

/-- Replacing one light record by a record that is shown in the grid as before,
keeps a zero offset and a radius in range, and setting the dirty flag, preserves
the invariant. -/
theorem LightInv_update (K : Consts) (base : Int → Int → Int) (s : Lighting) (m : Int)
    (h : LightInv K base s m) (i0 : Int) (rec : LightListStruct)
    (hs : shown rec = shown (s.LightList i0))
    (ho : (s.LightList i0).position.offset = ⟨0, 0⟩ → rec.position.offset = ⟨0, 0⟩)
    (hr : (0 ≤ (s.LightList i0)._lradius ∧ (s.LightList i0)._lradius ≤ 15) →
      0 ≤ rec._lradius ∧ rec._lradius ≤ 15) :
    LightInv K base
      { s with LightList := setAt s.LightList i0 rec, dolighting := true } m := by
  have hrecs : ∀ j, (setAt s.LightList i0 rec) j = if j = i0 then rec else s.LightList j :=
    fun j => rfl
  have hshown : ∀ j, shown ((setAt s.LightList i0 rec) j) = shown (s.LightList j) := by
    intro j
    rw [hrecs]
    split
    · rename_i hj; rw [hj]; exact hs
    · rfl
  generalize ht : ({ s with LightList := setAt s.LightList i0 rec, dolighting := true } :
    Lighting) = t
  have t1 : t.LightList = setAt s.LightList i0 rec := by rw [← ht]
  have t2 : t.lightactive = s.lightactive := by rw [← ht]
  have t3 : t.numlights = s.numlights := by rw [← ht]
  have t4 : t.dolighting = true := by rw [← ht]
  have t5 : t.lightflag = s.lightflag := by rw [← ht]
  have t6 : SameTables s t := by rw [← ht]; exact ⟨rfl, rfl, rfl, rfl⟩
  have t7 : t.dLight = s.dLight := by rw [← ht]
  have t8 : t.dPreLight = s.dPreLight := by rw [← ht]
  have hl : ∀ x y r a b, levelAt K t x y r a b = levelAt K s x y r a b :=
    fun x y r a b => levelAt_congr K s t t6 t8 x y r a b
  refine ⟨t5.trans h.hfrozen, t6.hLoadMapObjsFlag.trans h.hmap, ?_, t8.trans h.hbase,
    by rw [t3]; exact h.hn0, by rw [t3]; exact h.hnmax, by rw [t2]; exact h.hinj, h.hm0,
    by rw [t3]; exact h.hmn, ?_, ?_, ?_, ?_, fun hd => by rw [t4] at hd; exact absurd hd (by decide)⟩
  · obtain ⟨s1, s2, s3⟩ := h.hstd
    exact ⟨by rw [t6.hcurrlevel]; exact s1, by rw [t6.hlightradius]; exact s2,
      by rw [t6.hlightblock]; exact s3⟩
  · intro i h0 h1
    rw [t3] at h1
    rw [t1, t2, hrecs]
    split
    · rename_i hj
      apply ho
      rw [← hj]
      exact h.hoff i h0 h1
    · exact h.hoff i h0 h1
  · intro i h0 h1
    rw [t3] at h1
    rw [t1, t2, hrecs]
    split
    · rename_i hj
      apply hr
      rw [← hj]
      exact h.hrad i h0 h1
    · exact h.hrad i h0 h1
  · intro i h0 h1
    rw [t1, t2, hshown]
    exact h.hshown i h0 h1
  · intro a b
    obtain ⟨g1, g2, g3⟩ := h.hgrid a b
    rw [t7]
    refine ⟨g1, ?_, ?_⟩
    · intro i hi
      have := g2 i hi
      simp only at this ⊢
      rw [t1, t2, hshown, hl]
      exact this
    · rcases g3 with g | ⟨i, hi, g⟩
      · exact Or.inl g
      · right
        refine ⟨i, hi, ?_⟩
        simp only at g ⊢
        rw [t1, t2, hshown, hl]
        exact g

theorem LightInv_AddUnLight (K : Consts) (base : Int → Int → Int) (s : Lighting) (m : Int)
    (h : LightInv K base s m) (i : Int) : LightInv K base (AddUnLight K s i) m := by
  unfold AddUnLight
  split
  · exact h
  · exact LightInv_update K base s m h i _ rfl (fun h => h) (fun h => h)

theorem LightInv_ChangeLightRadius (K : Consts) (base : Int → Int → Int) (s : Lighting) (m : Int)
    (h : LightInv K base s m) (i r : Int) (hr : 0 ≤ r ∧ r ≤ 15)
    (hun : (s.LightList i)._lunflag = false) :
    LightInv K base (ChangeLightRadius K s i r) m := by
  unfold ChangeLightRadius
  split
  · exact h
  · exact LightInv_update K base s m h i _ (by simp [shown, hun]) (fun h => h) (fun _ => hr)

theorem LightInv_ChangeLightXY (K : Consts) (base : Int → Int → Int) (s : Lighting) (m : Int)
    (h : LightInv K base s m) (i x y : Int) (hun : (s.LightList i)._lunflag = false) :
    LightInv K base (ChangeLightXY K s i x y) m := by
  unfold ChangeLightXY
  split
  · exact h
  · exact LightInv_update K base s m h i _ (by simp [shown, hun]) (fun h => h) (fun h => h)

theorem LightInv_ChangeLightOff (K : Consts) (base : Int → Int → Int) (s : Lighting) (m : Int)
    (h : LightInv K base s m) (i x y : Int) (hxy : x = 0 ∧ y = 0)
    (hun : (s.LightList i)._lunflag = false) :
    LightInv K base (ChangeLightOff K s i x y) m := by
  unfold ChangeLightOff
  split
  · exact h
  · exact LightInv_update K base s m h i _ (by simp [shown, hun])
      (fun _ => by rw [hxy.1, hxy.2]) (fun h => h)

theorem LightInv_ChangeLight (K : Consts) (base : Int → Int → Int) (s : Lighting) (m : Int)
    (h : LightInv K base s m) (i x y r : Int) (hr : 0 ≤ r ∧ r ≤ 15)
    (hun : (s.LightList i)._lunflag = false) :
    LightInv K base (ChangeLight K s i x y r) m := by
  unfold ChangeLight
  split
  · exact h
  · exact LightInv_update K base s m h i _ (by simp [shown, hun]) (fun h => h) (fun _ => hr)

theorem LightInv_AddLight (K : Consts) (base : Int → Int → Int) (s : Lighting) (m : Int)
    (h : LightInv K base s m) (x y r : Int) (hr : 0 ≤ r ∧ r ≤ 15) :
    LightInv K base (AddLight K s x y r).2 m := by
  unfold AddLight
  rw [if_neg (by rw [h.hfrozen]; decide)]
  by_cases hroom : s.numlights < K.MAXLIGHTS
  · rw [if_pos hroom]
    simp only
    generalize hj : ((s.lightactive s.numlights : Nat) : Int) = j
    generalize hrec : ({ s.LightList j with
        position := { (s.LightList j).position with tile := ⟨x, y⟩, offset := ⟨0, 0⟩ }
        _lradius := r, _ldel := false, _lunflag := false } : LightListStruct) = rec
    have r1 : rec.position.offset = ⟨0, 0⟩ := by rw [← hrec]
    have r2 : rec._lradius = r := by rw [← hrec]
    generalize ht : ({ s with
        numlights := s.numlights + 1
        LightList := setAt s.LightList j rec
        dolighting := true } : Lighting) = t
    have t1 : t.LightList = setAt s.LightList j rec := by rw [← ht]
    have t2 : t.lightactive = s.lightactive := by rw [← ht]
    have t3 : t.numlights = s.numlights + 1 := by rw [← ht]
    have t4 : t.dolighting = true := by rw [← ht]
    have t5 : t.lightflag = s.lightflag := by rw [← ht]
    have t6 : SameTables s t := by rw [← ht]; exact ⟨rfl, rfl, rfl, rfl⟩
    have t7 : t.dLight = s.dLight := by rw [← ht]
    have t8 : t.dPreLight = s.dPreLight := by rw [← ht]
    have hl : ∀ x y r a b, levelAt K t x y r a b = levelAt K s x y r a b :=
      fun x y r a b => levelAt_congr K s t t6 t8 x y r a b
    have hold : ∀ i, 0 ≤ i → i < s.numlights →
        t.LightList (s.lightactive i) = s.LightList (s.lightactive i) := by
      intro i h0 h1
      rw [t1]
      unfold setAt
      rw [if_neg]
      intro hcon
      rw [← hj] at hcon
      have := h.hinj i s.numlights h0 (by omega) h.hn0 hroom (by exact_mod_cast hcon)
      omega
    have hnew : t.LightList (s.lightactive s.numlights) = rec := by
      rw [t1, hj]
      unfold setAt
      rw [if_pos rfl]
    refine ⟨t5.trans h.hfrozen, t6.hLoadMapObjsFlag.trans h.hmap, ?_, t8.trans h.hbase,
      by rw [t3]; have := h.hn0; omega, by rw [t3]; omega, by rw [t2]; exact h.hinj, h.hm0,
      by rw [t3]; have := h.hmn; omega, ?_, ?_, ?_, ?_,
      fun hd => by rw [t4] at hd; exact absurd hd (by decide)⟩
    · obtain ⟨s1, s2, s3⟩ := h.hstd
      exact ⟨by rw [t6.hcurrlevel]; exact s1, by rw [t6.hlightradius]; exact s2,
        by rw [t6.hlightblock]; exact s3⟩
    · intro i h0 h1
      rw [t3] at h1
      rw [t2]
      by_cases hi : i = s.numlights
      · rw [hi, hnew]; exact r1
      · rw [hold i h0 (by omega)]; exact h.hoff i h0 (by omega)
    · intro i h0 h1
      rw [t3] at h1
      rw [t2]
      by_cases hi : i = s.numlights
      · rw [hi, hnew, r2]; exact hr
      · rw [hold i h0 (by omega)]; exact h.hrad i h0 (by omega)
    · intro i h0 h1
      rw [t2, hold i h0 (by have := h.hmn; omega)]
      exact h.hshown i h0 h1
    · intro a b
      obtain ⟨g1, g2, g3⟩ := h.hgrid a b
      rw [t7]
      refine ⟨g1, ?_, ?_⟩
      · intro i hi
        have := g2 i hi
        simp only at this ⊢
        rw [t2, hold i hi.1 (by have := h.hmn; omega), hl]
        exact this
      · rcases g3 with g | ⟨i, hi, g⟩
        · exact Or.inl g
        · right
          refine ⟨i, hi, ?_⟩
          simp only at g ⊢
          rw [t2, hold i hi.1 (by have := h.hmn; omega), hl]
          exact g
  · rw [if_neg hroom]
    exact h

theorem InitLighting_spec (K : Consts) (s : Lighting) (hmax : 0 ≤ K.MAXLIGHTS) :
    (InitLighting K s).numlights = 0 ∧ (InitLighting K s).dolighting = false ∧
      (InitLighting K s).lightflag = false ∧ (InitLighting K s).LightList = s.LightList ∧
      (InitLighting K s).lightradius = s.lightradius ∧
      (InitLighting K s).lightblock = s.lightblock ∧
      (InitLighting K s).dLight = s.dLight ∧ (InitLighting K s).dPreLight = s.dPreLight ∧
      (InitLighting K s).LoadMapObjsFlag = s.LoadMapObjsFlag ∧
      (InitLighting K s).currlevel = s.currlevel ∧
      ∀ k, 0 ≤ k → k < K.MAXLIGHTS → (InitLighting K s).lightactive k = (k % 256).toNat := by
  unfold InitLighting
  refine forRange_count (fun (i : Int) (t : Lighting) => t.numlights = 0 ∧ t.dolighting = false ∧
      t.lightflag = false ∧ t.LightList = s.LightList ∧ t.lightradius = s.lightradius ∧
      t.lightblock = s.lightblock ∧ t.dLight = s.dLight ∧ t.dPreLight = s.dPreLight ∧
      t.LoadMapObjsFlag = s.LoadMapObjsFlag ∧ t.currlevel = s.currlevel ∧
      ∀ k, 0 ≤ k → k < i → t.lightactive k = (k % 256).toNat) _ 0 K.MAXLIGHTS _ hmax ?_ ?_
  · intro i h0 h1 t ⟨a1, a2, a3, a4, a5, a6, a7, a8, a9, a10, a11⟩
    refine ⟨a1, a2, a3, a4, a5, a6, a7, a8, a9, a10, ?_⟩
    intro k k0 k1
    show setAt t.lightactive i (i % 256).toNat k = _
    unfold setAt
    by_cases hk : k = i
    · rw [if_pos hk, hk]
    · rw [if_neg hk]
      exact a11 k k0 (by omega)
  · exact ⟨rfl, rfl, rfl, rfl, rfl, rfl, rfl, rfl, rfl, rfl, fun k k0 k1 => by omega⟩

theorem LightInv_InitLighting (K : Consts) (s : Lighting) (hmax0 : 0 ≤ K.MAXLIGHTS)
    (hmax : K.MAXLIGHTS ≤ 256) (hbase : s.dLight = s.dPreLight)
    (hgrid : ∀ a b, 0 ≤ s.dPreLight a b ∧ s.dPreLight a b ≤ 15) (hstd : StandardTables s)
    (hmap : s.LoadMapObjsFlag = false) :
    LightInv K s.dPreLight (InitLighting K s) 0 := by
  obtain ⟨a1, a2, a3, a4, a5, a6, a7, a8, a9, a10, a11⟩ := InitLighting_spec K s hmax0
  have _h := hgrid
  refine ⟨a3, a9.trans hmap, ?_, a8, by rw [a1], by rw [a1]; exact hmax0, ?_, le_refl _,
    by rw [a1], ?_, ?_, ?_, ?_, ?_⟩
  · obtain ⟨s1, s2, s3⟩ := hstd
    exact ⟨by rw [a10]; exact s1, by rw [a5]; exact s2, by rw [a6]; exact s3⟩
  · intro i k i0 i1 k0 k1 hik
    rw [a11 i i0 i1, a11 k k0 k1] at hik
    omega
  · intro i h0 h1; rw [a1] at h1; omega
  · intro i h0 h1; rw [a1] at h1; omega
  · intro i h0 h1; omega
  · intro a b
    rw [a7, hbase]
    exact ⟨le_refl _, fun i hi => by omega, Or.inl rfl⟩
  · intro _
    refine ⟨a1.symm, ?_⟩
    intro i h0 h1; rw [a1] at h1; omega

theorem shown_clearUn (l : LightListStruct) :
    shown (clearUn l) = (l.position.tile.x, l.position.tile.y, l._lradius) := by
  simp [shown, clearUn]

theorem shown_undoArea (l : LightListStruct) (a b : Int)
    (h : l._ldel = true ∨ l._lunflag = true)
    (hsq : inSquare (shown l).1 (shown l).2.1 (shown l).2.2 a b) : undoArea l a b := by
  unfold undoArea
  unfold shown at hsq
  by_cases hu : l._lunflag = true
  · rw [if_pos hu] at hsq
    exact Or.inr ⟨hu, hsq⟩
  · rw [if_neg hu] at hsq
    rcases h with h | h
    · exact Or.inl ⟨h, hsq⟩
    · exact absurd h hu

theorem shown_plain (l : LightListStruct) (h : l._lunflag = false) :
    shown l = (l.position.tile.x, l.position.tile.y, l._lradius) := by
  unfold shown
  rw [if_neg (by rw [h]; decide)]

theorem LightInv.range {K : Consts} {base : Int → Int → Int} {s : Lighting} {m : Int}
    (h : LightInv K base s m) (hb : ∀ a b, 0 ≤ base a b ∧ base a b ≤ 15) (a b : Int) :
    0 ≤ s.dLight a b ∧ s.dLight a b ≤ 15 := by
  obtain ⟨o1, _, o3⟩ := h.hgrid a b
  have := hb a b
  refine ⟨?_, by omega⟩
  rcases o3 with e | ⟨i, _, e⟩
  · omega
  · rw [e]
    exact (levelAt_range K s h.hmap _ _ _ a b).1

theorem ProcessLightList_clean (K : Consts) (s : Lighting) (hfrozen : s.lightflag = false)
    (hd : s.dolighting = false) : ProcessLightList K s = s := by
  unfold ProcessLightList
  simp only [hfrozen, hd, Bool.false_eq_true, if_false]
  cases s
  simp only at hd hfrozen
  subst hd
  subst hfrozen
  rfl

theorem LightInv_ProcessLightList (K : Consts) (base : Int → Int → Int) (s : Lighting) (m : Int)
    (h : LightInv K base s m) (hb : ∀ a b, 0 ≤ base a b ∧ base a b ≤ 15) :
    LightInv K base (ProcessLightList K s) (ProcessLightList K s).numlights ∧
      (ProcessLightList K s).dolighting = false := by
  by_cases hd : s.dolighting = true
  · obtain ⟨⟨p1, p2, p3, p4, p5, p6⟩, ⟨q1, _⟩, n0, n1, ⟨σ, σfix, σla⟩, live, dead⟩ :=
      ProcessLightList_pool K s h.hfrozen hd h.hn0
    obtain ⟨g1, g2⟩ := ProcessLightList_grid K s h.hfrozen hd h.hmap (h.range hb)
      (by rw [h.hbase]; exact hb)
    generalize ProcessLightList K s = t at *
    have hwin : ∀ k, 0 ≤ k → k < s.numlights →
        (0 ≤ σ k ∧ σ k < s.numlights) ∧ (0 ≤ σ.symm k ∧ σ.symm k < s.numlights) :=
      fun k k0 k1 => perm_window σ 0 s.numlights σfix k ⟨k0, k1⟩
    have hla : ∀ k, t.lightactive k = s.lightactive (σ k) := fun k => congrFun σla k
    have hrec : ∀ k, 0 ≤ k → k < s.numlights →
        t.LightList (t.lightactive k) = clearUn (s.LightList (s.lightactive (σ k))) := by
      intro k k0 k1
      rw [hla]
      exact q1 _ ⟨σ k, (hwin k k0 k1).1.1, (hwin k k0 k1).1.2, rfl⟩
    have tabs : SameTables s t := ⟨p3, p4, p5, p6⟩
    have hlev : ∀ x y r a b, levelAt K t x y r a b = levelAt K s x y r a b :=
      fun x y r a b => levelAt_congr K s t tabs g1 x y r a b
    have hfind : ∀ i, 0 ≤ i → i < s.numlights →
        (s.LightList (s.lightactive i))._ldel = false →
        ∃ k, 0 ≤ k ∧ k < t.numlights ∧ σ k = i := by
      intro i i0 i1 il
      refine ⟨σ.symm i, (hwin i i0 i1).2.1, ?_, Equiv.apply_symm_apply σ i⟩
      by_contra hge
      have := dead (σ.symm i) (by omega) (hwin i i0 i1).2.2
      rw [hla, Equiv.apply_symm_apply, il] at this
      exact absurd this (by decide)
    have key : ∀ a b k, 0 ≤ k → k < t.numlights →
        levelAt K t (shown (t.LightList (t.lightactive k))).1
          (shown (t.LightList (t.lightactive k))).2.1
          (shown (t.LightList (t.lightactive k))).2.2 a b =
        lightLevel K s (s.lightactive (σ k)) a b := by
      intro a b k k0 k1
      rw [hrec k k0 (by omega), shown_clearUn, hlev]
      exact (lightLevel_eq_levelAt K s _ a b (h.hoff (σ k) (hwin k k0 (by omega)).1.1
        (hwin k k0 (by omega)).1.2)).symm
    refine ⟨⟨p2, p5.trans h.hmap, ?_, g1.trans h.hbase, n0, le_trans n1 h.hnmax, ?_, n0,
      le_refl _, ?_, ?_, ?_, ?_, ?_⟩, p1⟩
    · obtain ⟨s1, s2, s3⟩ := h.hstd
      exact ⟨by rw [p6]; exact s1, by rw [p3]; exact s2, by rw [p4]; exact s3⟩
    · intro i k i0 i1 k0 k1 hik
      rw [hla, hla] at hik
      have hs : ∀ j, 0 ≤ j → j < K.MAXLIGHTS → 0 ≤ σ j ∧ σ j < K.MAXLIGHTS := by
        intro j j0 j1
        by_cases hj : j < s.numlights
        · have := (hwin j j0 hj).1
          have := h.hnmax
          omega
        · rw [σfix j (by omega)]
          exact ⟨j0, j1⟩
      exact σ.injective (h.hinj (σ i) (σ k) (hs i i0 i1).1 (hs i i0 i1).2 (hs k k0 k1).1
        (hs k k0 k1).2 hik)
    · intro i i0 i1
      rw [hrec i i0 (by omega)]
      exact h.hoff (σ i) (hwin i i0 (by omega)).1.1 (hwin i i0 (by omega)).1.2
    · intro i i0 i1
      rw [hrec i i0 (by omega)]
      exact h.hrad (σ i) (hwin i i0 (by omega)).1.1 (hwin i i0 (by omega)).1.2
    · intro i i0 i1
      rw [hrec i i0 (by omega), shown_clearUn]
      exact h.hrad (σ i) (hwin i i0 (by omega)).1.1 (hwin i i0 (by omega)).1.2
    · intro a b
      obtain ⟨base', u1, u2, m1, m2, m3⟩ := g2 a b
      obtain ⟨o1, _, o3⟩ := h.hgrid a b
      have hbb := (hb a b).2
      have hle : base' ≤ base a b := by
        by_cases hu : undone K s s.numlights a b
        · rw [u1 hu, h.hbase]
        · rw [u2 hu]; exact o1
      refine ⟨le_trans m1 hle, ?_, ?_⟩
      · intro k hk
        show _ ≤ levelAt K t _ _ _ a b
        rw [key a b k hk.1 hk.2]
        have hl := live k hk.1 hk.2
        rw [hla] at hl
        exact m2 (σ k) ⟨(hwin k hk.1 (by omega)).1.1, (hwin k hk.1 (by omega)).1.2, hl⟩
      · have hlive : ∀ i, 0 ≤ i → i < s.numlights →
            (s.LightList (s.lightactive i))._ldel = false →
            t.dLight a b = lightLevel K s (s.lightactive i) a b →
            ∃ k, (0 ≤ k ∧ k < t.numlights) ∧ t.dLight a b =
              levelAt K t (shown (t.LightList (t.lightactive k))).1
                (shown (t.LightList (t.lightactive k))).2.1
                (shown (t.LightList (t.lightactive k))).2.2 a b := by
          intro i i0 i1 il e
          obtain ⟨k, k0, k1, hk⟩ := hfind i i0 i1 il
          refine ⟨k, ⟨k0, k1⟩, ?_⟩
          rw [key a b k k0 k1, hk]
          exact e
        rcases m3 with e | ⟨i, ⟨i0, i1, il⟩, e⟩
        · by_cases hu : undone K s s.numlights a b
          · left
            rw [e, u1 hu, h.hbase]
          · have eb := u2 hu
            rcases o3 with f | ⟨i, ⟨i0, i1⟩, f⟩
            · left
              rw [e, eb, f]
            · replace f : s.dLight a b = levelAt K s (shown (s.LightList (s.lightactive i))).1
                  (shown (s.LightList (s.lightactive i))).2.1
                  (shown (s.LightList (s.lightactive i))).2.2 a b := f
              by_cases hflags : (s.LightList (s.lightactive i))._ldel = true ∨
                  (s.LightList (s.lightactive i))._lunflag = true
              · have hfar := levelAt_far K s h.hstd h.hmap _ _ _ a b (h.hshown i i0 i1)
                  (fun hsq => hu ⟨hsq.1, i, i0, by have := h.hmn; omega,
                    shown_undoArea _ a b hflags hsq.2⟩)
                left
                rw [hfar] at f
                omega
              · have hdl : (s.LightList (s.lightactive i))._ldel = false := by
                  cases hc : (s.LightList (s.lightactive i))._ldel
                  · rfl
                  · exact absurd (Or.inl hc) hflags
                have hul : (s.LightList (s.lightactive i))._lunflag = false := by
                  cases hc : (s.LightList (s.lightactive i))._lunflag
                  · rfl
                  · exact absurd (Or.inr hc) hflags
                right
                have hmn := h.hmn
                refine hlive i i0 (by omega) hdl ?_
                rw [e, eb, f, shown_plain _ hul]
                exact (lightLevel_eq_levelAt K s _ a b (h.hoff i i0 (by omega))).symm
        · right
          exact hlive i i0 i1 il e
    · intro _
      refine ⟨rfl, ?_⟩
      intro i i0 i1
      rw [hrec i i0 (by omega)]
      refine ⟨?_, rfl⟩
      have hl := live i i0 i1
      rw [hla] at hl
      exact hl
  · have hd2 : s.dolighting = false := by
      cases hc : s.dolighting
      · rfl
      · exact absurd hc hd
    rw [ProcessLightList_clean K s h.hfrozen hd2]
    obtain ⟨e, _⟩ := h.hclean hd2
    rw [← e]
    exact ⟨h, hd2⟩

/-! ## The invariant of ProcessLightList -/

theorem minLevel_spec (K : Consts) (s : Lighting) (a b : Int) (hn : 0 ≤ s.numlights) :
    IsMinOf (minLevel K s a b) (s.dPreLight a b)
      (fun i => 0 ≤ i ∧ i < s.numlights ∧ (s.LightList (s.lightactive i))._ldel = false)
      (fun i => lightLevel K s (s.lightactive i) a b) := by
  unfold minLevel
  have key := forLoop_count
    (fun (i : Int) (v : Int) => IsMinOf v (s.dPreLight a b)
      (fun k => 0 ≤ k ∧ k < i ∧ (s.LightList (s.lightactive k))._ldel = false)
      (fun k => lightLevel K s (s.lightactive k) a b))
    (fun i m => if (s.LightList (s.lightactive i))._ldel then m
      else min m (lightLevel K s (s.lightactive i) a b))
    s.numlights.toNat 0 (s.dPreLight a b) ?_ ?_
  · have e : (0 : Int) + ((s.numlights.toNat : Nat) : Int) = s.numlights := by omega
    rw [e] at key
    exact key
  · intro i i0 _ v ⟨v1, v2, v3⟩
    by_cases hd : (s.LightList (s.lightactive i))._ldel = true
    · simp only [hd, if_true]
      refine ⟨v1, ?_, ?_⟩
      · intro k ⟨k0, k1, kl⟩
        by_cases hk : k = i
        · rw [hk, hd] at kl
          exact absurd kl (by decide)
        · exact v2 k ⟨k0, by omega, kl⟩
      · rcases v3 with e | ⟨k, ⟨k0, k1, kl⟩, e⟩
        · exact Or.inl e
        · exact Or.inr ⟨k, ⟨k0, by omega, kl⟩, e⟩
    · have hd2 : (s.LightList (s.lightactive i))._ldel = false := by
        cases hc : (s.LightList (s.lightactive i))._ldel
        · rfl
        · exact absurd hc hd
      simp only [hd2, Bool.false_eq_true, if_false]
      refine ⟨le_trans (min_le_left _ _) v1, ?_, ?_⟩
      · intro k ⟨k0, k1, kl⟩
        by_cases hk : k = i
        · rw [hk]
          exact min_le_right _ _
        · exact le_trans (min_le_left _ _) (v2 k ⟨k0, by omega, kl⟩)
      · rcases le_total v (lightLevel K s (s.lightactive i) a b) with hle | hle
        · rw [min_eq_left hle]
          rcases v3 with e | ⟨k, ⟨k0, k1, kl⟩, e⟩
          · exact Or.inl e
          · exact Or.inr ⟨k, ⟨k0, by omega, kl⟩, e⟩
        · rw [min_eq_right hle]
          exact Or.inr ⟨i, ⟨i0, by omega, hd2⟩, rfl⟩
  · exact ⟨le_refl _, fun k hk => by omega, Or.inl rfl⟩

theorem LightInv_step (K : Consts) (base : Int → Int → Int) (s : Lighting) (m : Int)
    (h : LightInv K base s m) (hb : ∀ a b, 0 ≤ base a b ∧ base a b ≤ 15) (op : LightOp)
    (hop : op.disciplined s) : ∃ m2, LightInv K base (op.run K s) m2 := by
  cases op with
  | addLight x y r => exact ⟨m, LightInv_AddLight K base s m h x y r hop⟩
  | addUnLight i => exact ⟨m, LightInv_AddUnLight K base s m h i⟩
  | changeLightRadius i r => exact ⟨m, LightInv_ChangeLightRadius K base s m h i r hop.1 hop.2⟩
  | changeLightXY i x y => exact ⟨m, LightInv_ChangeLightXY K base s m h i x y hop⟩
  | changeLightOff i x y => exact ⟨m, LightInv_ChangeLightOff K base s m h i x y hop.1 hop.2⟩
  | changeLight i x y r => exact ⟨m, LightInv_ChangeLight K base s m h i x y r hop.1 hop.2⟩
  | processLightList => exact ⟨_, (LightInv_ProcessLightList K base s m h hb).1⟩

theorem LightInv_of_Disciplined (K : Consts) (s0 : Lighting) (hmax0 : 0 ≤ K.MAXLIGHTS)
    (hmax : K.MAXLIGHTS ≤ 256) (hbase : s0.dLight = s0.dPreLight)
    (hgrid : ∀ a b, 0 ≤ s0.dPreLight a b ∧ s0.dPreLight a b ≤ 15) (hstd : StandardTables s0)
    (hmap : s0.LoadMapObjsFlag = false) (s : Lighting) (hs : Disciplined K s0 s) :
    ∃ m, LightInv K s0.dPreLight s m := by
  induction hs with
  | init => exact ⟨0, LightInv_InitLighting K s0 hmax0 hmax hbase hgrid hstd hmap⟩
  | step s op _ hop ih =>
    obtain ⟨m, hm⟩ := ih
    exact LightInv_step K _ s m hm hgrid op hop

theorem LightInv_clean_minLevel (K : Consts) (base : Int → Int → Int) (s : Lighting) (m : Int)
    (h : LightInv K base s m) (hd : s.dolighting = false) (a b : Int) :
    s.dLight a b = minLevel K s a b := by
  obtain ⟨hm, hflags⟩ := h.hclean hd
  have hmin := minLevel_spec K s a b h.hn0
  rw [h.hbase] at hmin
  obtain ⟨o1, o2, o3⟩ := h.hgrid a b
  have hc : ∀ i, 0 ≤ i → i < s.numlights →
      levelAt K s (shown (s.LightList (s.lightactive i))).1
        (shown (s.LightList (s.lightactive i))).2.1
        (shown (s.LightList (s.lightactive i))).2.2 a b =
      lightLevel K s (s.lightactive i) a b := by
    intro i i0 i1
    rw [shown_plain _ (hflags i i0 i1).2]
    exact (lightLevel_eq_levelAt K s _ a b (h.hoff i i0 i1)).symm
  refine IsMinOf_unique ⟨o1, ?_, ?_⟩ hmin
  · intro i ⟨i0, i1, _⟩
    show _ ≤ lightLevel K s (s.lightactive i) a b
    rw [← hc i i0 i1]
    exact o2 i ⟨i0, by omega⟩
  · rcases o3 with e | ⟨i, ⟨i0, i1⟩, e⟩
    · exact Or.inl e
    · refine Or.inr ⟨i, ⟨i0, by omega, (hflags i i0 (by omega)).1⟩, ?_⟩
      show _ = lightLevel K s (s.lightactive i) a b
      rw [← hc i i0 (by omega)]
      exact e

/-- C1 (as amended). On a level below 17, outside `LoadMapObjs`, with at most 256
light slots: in every state reachable from `InitLighting` (working grid equal to
the base grid, grid values `0..15`) by calls of `AddLight`, `AddUnLight`,
`ChangeLightRadius`, `ChangeLightXY`, `ChangeLightOff`, `ChangeLight` and
`ProcessLightList` that keep radii in `0..15`, keep sub-tile offsets at (0, 0) and
change a light at most once between two `ProcessLightList` calls, right after a
`ProcessLightList` call every working-grid tile equals the minimum of its base
value and of the levels contributed by the live lights that are not
pending-delete, at their current position and radius. -/
theorem process_restores_minimum (K : Consts) (s0 : Lighting) (hmax0 : 0 ≤ K.MAXLIGHTS)
    (hmax : K.MAXLIGHTS ≤ 256) (hbase : s0.dLight = s0.dPreLight)
    (hgrid : ∀ a b, 0 ≤ s0.dPreLight a b ∧ s0.dPreLight a b ≤ 15) (hstd : StandardTables s0)
    (hmap : s0.LoadMapObjsFlag = false) (s : Lighting) (hs : Disciplined K s0 s) (a b : Int) :
    (ProcessLightList K s).dLight a b = minLevel K (ProcessLightList K s) a b := by
  obtain ⟨m, hm⟩ := LightInv_of_Disciplined K s0 hmax0 hmax hbase hgrid hstd hmap s hs
  obtain ⟨hinv, hd⟩ := LightInv_ProcessLightList K s0.dPreLight s m hm hgrid
  exact LightInv_clean_minLevel K _ _ _ hinv hd a b

theorem process_restores_minimum_witness :
    (ProcessLightList upstream
        ((LightOp.addUnLight 0).run upstream
          (LightOp.processLightList.run upstream
            ((LightOp.addLight 30 30 5).run upstream (InitLighting upstream darkLevel))))).dLight
        31 30 =
      minLevel upstream (ProcessLightList upstream
        ((LightOp.addUnLight 0).run upstream
          (LightOp.processLightList.run upstream
            ((LightOp.addLight 30 30 5).run upstream (InitLighting upstream darkLevel))))) 31 30 :=
  process_restores_minimum upstream darkLevel (by decide) (by decide) rfl darkLevel_grid
    darkLevel_standard rfl _
    (Disciplined.step _ (LightOp.addUnLight 0)
      (Disciplined.step _ LightOp.processLightList
        (Disciplined.step _ (LightOp.addLight 30 30 5) Disciplined.init ⟨by decide, by decide⟩)
        True.intro)
      True.intro)
    31 30

/-! ## A light moved twice between two process calls -/

theorem AddLight_spec (K : Consts) (s : Lighting) (x y r : Int) (hfrozen : s.lightflag = false)
    (hroom : s.numlights < K.MAXLIGHTS) :
    (AddLight K s x y r).2.numlights = s.numlights + 1 ∧
      (AddLight K s x y r).2.lightactive = s.lightactive ∧
      (AddLight K s x y r).2.dolighting = true ∧
      (AddLight K s x y r).2.lightflag = false ∧
      (AddLight K s x y r).2.dLight = s.dLight ∧
      (AddLight K s x y r).2.dPreLight = s.dPreLight ∧
      SameTables s (AddLight K s x y r).2 ∧
      ((AddLight K s x y r).2.LightList (s.lightactive s.numlights)).position.tile = ⟨x, y⟩ ∧
      ((AddLight K s x y r).2.LightList (s.lightactive s.numlights)).position.offset = ⟨0, 0⟩ ∧
      ((AddLight K s x y r).2.LightList (s.lightactive s.numlights))._lradius = r ∧
      ((AddLight K s x y r).2.LightList (s.lightactive s.numlights))._ldel = false ∧
      ((AddLight K s x y r).2.LightList (s.lightactive s.numlights))._lunflag = false := by
  unfold AddLight
  rw [if_neg (by rw [hfrozen]; decide), if_pos hroom]
  refine ⟨rfl, rfl, rfl, hfrozen, rfl, rfl, ⟨rfl, rfl, rfl, rfl⟩, ?_, ?_, ?_, ?_, ?_⟩ <;>
    simp [setAt]

theorem ChangeLightXY_spec (K : Consts) (s : Lighting) (i x y : Int)
    (hfrozen : s.lightflag = false) (hi : i ≠ K.NO_LIGHT) :
    (ChangeLightXY K s i x y).numlights = s.numlights ∧
      (ChangeLightXY K s i x y).lightactive = s.lightactive ∧
      (ChangeLightXY K s i x y).dolighting = true ∧
      (ChangeLightXY K s i x y).lightflag = false ∧
      (ChangeLightXY K s i x y).dLight = s.dLight ∧
      (ChangeLightXY K s i x y).dPreLight = s.dPreLight ∧
      SameTables s (ChangeLightXY K s i x y) ∧
      ((ChangeLightXY K s i x y).LightList i).position.tile = ⟨x, y⟩ ∧
      ((ChangeLightXY K s i x y).LightList i).position.old = (s.LightList i).position.tile ∧
      ((ChangeLightXY K s i x y).LightList i).position.offset = (s.LightList i).position.offset ∧
      ((ChangeLightXY K s i x y).LightList i)._lradius = (s.LightList i)._lradius ∧
      ((ChangeLightXY K s i x y).LightList i).oldRadious = (s.LightList i)._lradius ∧
      ((ChangeLightXY K s i x y).LightList i)._ldel = (s.LightList i)._ldel ∧
      ((ChangeLightXY K s i x y).LightList i)._lunflag = true := by
  unfold ChangeLightXY
  rw [if_neg (by rw [hfrozen]; simp [hi])]
  refine ⟨rfl, rfl, rfl, hfrozen, rfl, rfl, ⟨rfl, rfl, rfl, rfl⟩, ?_, ?_, ?_, ?_, ?_, ?_, ?_⟩ <;>
    simp [setAt]

/-- `ProcessLightList` on a dirty pool with a single live light that is not
pending-delete keeps the light in its slot, clears its pending-change flag and
leaves the controls and tables alone. -/
theorem ProcessLightList_single (K : Consts) (s : Lighting) (hfrozen : s.lightflag = false)
    (hdirty : s.dolighting = true) (hn : s.numlights = 1)
    (hlive : (s.LightList (s.lightactive 0))._ldel = false) :
    (ProcessLightList K s).numlights = 1 ∧
      (ProcessLightList K s).lightactive 0 = s.lightactive 0 ∧
      (ProcessLightList K s).LightList (s.lightactive 0) = clearUn (s.LightList (s.lightactive 0)) ∧
      (ProcessLightList K s).lightflag = false ∧
      (ProcessLightList K s).dolighting = false ∧
      SameTables s (ProcessLightList K s) := by
  obtain ⟨⟨p1, p2, p3, p4, p5, p6⟩, ⟨q1, _⟩, n0, n1, ⟨σ, σfix, σla⟩, _, dead⟩ :=
    ProcessLightList_pool K s hfrozen hdirty (by omega)
  have hσ : σ 0 = 0 := by
    have := (perm_window σ 0 s.numlights σfix 0 ⟨le_refl _, by omega⟩).1
    omega
  have hla : (ProcessLightList K s).lightactive 0 = s.lightactive 0 := by
    rw [σla]
    show s.lightactive (σ 0) = _
    rw [hσ]
  refine ⟨?_, hla, q1 _ ⟨0, le_refl _, by omega, rfl⟩, p2, p1, ⟨p3, p4, p5, p6⟩⟩
  by_contra hne
  have := dead 0 (by omega) (by omega)
  rw [hla, hlive] at this
  exact absurd this (by decide)

theorem strayLight_table :
    MakeLightTable_lightblock (0 + 8 * 0) 0 1 = 8 ∧ MakeLightTable_lightradius 5 8 = 3 := by
  constructor
  · unfold MakeLightTable_lightblock
    norm_num
    have e : Int.toNat 64 = 8 * 8 := rfl
    rw [e]
    exact Nat.sqrt_eq 8
  · unfold MakeLightTable_lightradius
    norm_num
    rfl

theorem SameTables.standard {s t : Lighting} (h : SameTables s t) (hs : StandardTables s) :
    StandardTables t := by
  obtain ⟨s1, s2, s3⟩ := hs
  exact ⟨by rw [h.hcurrlevel]; exact s1, by rw [h.hlightradius]; exact s2,
    by rw [h.hlightblock]; exact s3⟩

theorem SameTables.chain {s t u : Lighting} (h1 : SameTables s t) (h2 : SameTables t u) :
    SameTables s u :=
  ⟨h2.hlightradius.trans h1.hlightradius, h2.hlightblock.trans h1.hlightblock,
    h2.hLoadMapObjsFlag.trans h1.hLoadMapObjsFlag, h2.hcurrlevel.trans h1.hcurrlevel⟩

/-- A light of radius 5 with zero offset, at least 15 tiles from every map edge,
contributes at most level 3 to its eastern neighbour. -/
theorem lightLevel_east_le (K : Consts) (s : Lighting) (j x y : Int)
    (hflag : s.LoadMapObjsFlag = false) (hstd : StandardTables s) (hj : 0 ≤ j)
    (htile : (s.LightList j).position.tile = ⟨x, y⟩)
    (hoff : (s.LightList j).position.offset = ⟨0, 0⟩) (hr : (s.LightList j)._lradius = 5)
    (hX : 15 ≤ x ∧ x + 15 ≤ K.MAXDUNX) (hY : 15 ≤ y ∧ y + 15 ≤ K.MAXDUNY)
    (E : Int) (hE : E = x + 1) : lightLevel K s j E y ≤ 3 := by
  unfold lightLevel
  rw [htile, hr]
  have hl : ((allDark s).LightList j).position.offset = ⟨0, 0⟩ := hoff
  have hb : (allDark s).lightblock (0 + 8 * 0) 0 1 = 8 := by
    show s.lightblock (0 + 8 * 0) 0 1 = 8
    rw [hstd.2.2 (0 + 8 * 0) 0 1 (by norm_num) (by norm_num) (by norm_num) (by norm_num)
      (by norm_num) (by norm_num)]
    exact strayLight_table.1
  have hv : (allDark s).lightradius 5 8 = 3 := by
    show s.lightradius 5 8 = 3
    rw [hstd.2.1 5 8 (by norm_num) (by norm_num) (by norm_num)]
    exact strayLight_table.2
  have := DoLighting_east_le K (allDark s) x y 5 j hflag
    (fun a b => show (0 : Int) ≤ 15 ∧ (15 : Int) ≤ 15 from ⟨by decide, by decide⟩) hj
    (by rw [hl]) (by rw [hl]) hX hY 3 (by rw [hl, hb]; decide) (by rw [hl, hb, hv]) E hE
  exact_mod_cast this

/-- After `AddLight(x, y, 5); ProcessLightList; ChangeLightXY(0, x1, y1);
ChangeLightXY(0, x2, y2); ProcessLightList` from `InitLighting`, the eastern
neighbour of `(x, y)` is still lit although no light reaches it. -/
theorem double_move_stray (K : Consts) (s0 : Lighting) (hmax0 : 1 ≤ K.MAXLIGHTS)
    (hmax : K.MAXLIGHTS ≤ 256) (hno : K.NO_LIGHT ≠ 0) (hbase : s0.dLight = s0.dPreLight)
    (hgrid : ∀ a b, 0 ≤ s0.dPreLight a b ∧ s0.dPreLight a b ≤ 15) (hstd : StandardTables s0)
    (hmap : s0.LoadMapObjsFlag = false) (x y x1 y1 x2 y2 : Int)
    (hX : 15 ≤ x ∧ x + 15 ≤ K.MAXDUNX) (hY : 15 ≤ y ∧ y + 15 ≤ K.MAXDUNY)
    (E : Int) (hE : E = x + 1)
    (far1 : ¬ inSquare x1 y1 5 E y) (far2 : ¬ inSquare x2 y2 5 E y) :
    (ProcessLightList K (ChangeLightXY K (ChangeLightXY K
        (ProcessLightList K (AddLight K (InitLighting K s0) x y 5).2) 0 x1 y1) 0 x2 y2)).dLight
        E y ≤ 3 ∧
      minLevel K (ProcessLightList K (ChangeLightXY K (ChangeLightXY K
        (ProcessLightList K (AddLight K (InitLighting K s0) x y 5).2) 0 x1 y1) 0 x2 y2)) E y =
        s0.dPreLight E y := by
  -- InitLighting
  obtain ⟨i1, _, i3, _, i5, i6, _, i8, i9, i10, i11⟩ := InitLighting_spec K s0 (by omega)
  have hI := LightInv_InitLighting K s0 (by omega) hmax hbase hgrid hstd hmap
  have tI : SameTables s0 (InitLighting K s0) := ⟨i5, i6, i9, i10⟩
  generalize InitLighting K s0 = I at *
  have hla0 : I.lightactive 0 = 0 := by rw [i11 0 (le_refl _) (by omega)]; rfl
  -- AddLight
  obtain ⟨a1, a2, a3, a4, _, a6, a7, a8, a9, a10, a11, _⟩ :=
    AddLight_spec K I x y 5 i3 (by omega)
  have hA := LightInv_AddLight K _ I 0 hI x y 5 ⟨by decide, by decide⟩
  rw [i1, hla0] at a8 a9 a10 a11
  rw [i1] at a1
  generalize (AddLight K I x y 5).2 = A at *
  have hA0 : A.lightactive 0 = 0 := by rw [a2, hla0]
  have hA1 : A.numlights = 1 := by omega
  -- first ProcessLightList
  obtain ⟨b1, b2, b3, b4, _, b6⟩ := ProcessLightList_single K A a4 a3 hA1 (by rw [hA0]; exact a11)
  have z : ((0 : Nat) : Int) = 0 := rfl
  rw [hA0] at b2 b3
  rw [z] at b3
  have hS := (LightInv_ProcessLightList K _ A 0 hA hgrid).1
  obtain ⟨g1, g2⟩ := ProcessLightList_grid K A a4 a3 hA.hmap (hA.range hgrid)
    (by rw [hA.hbase]; exact hgrid)
  have hlit : (ProcessLightList K A).dLight E y ≤ 3 := by
    obtain ⟨_, _, _, _, m2, _⟩ := g2 E y
    have h1 := m2 0 ⟨le_refl _, by omega, by rw [hA0]; exact a11⟩
    have h2 := lightLevel_east_le K A (A.lightactive 0) x y hA.hmap hA.hstd (by rw [hA0]; decide)
      (by rw [hA0]; exact a8) (by rw [hA0]; exact a9) (by rw [hA0]; exact a10) hX hY E hE
    exact le_trans h1 h2
  have hSr := hS.range hgrid
  generalize ProcessLightList K A = S at *
  -- the two moves
  obtain ⟨c1, c2, _, c4, c5, c6, c7, c8, _, c10, c11, _, c13, _⟩ :=
    ChangeLightXY_spec K S 0 x1 y1 b4 (Ne.symm hno)
  rw [b3] at c10 c11 c13
  generalize ChangeLightXY K S 0 x1 y1 = C at *
  obtain ⟨d1, d2, d3, d4, d5, d6, d7, d8, d9, d10, d11, d12, d13, d14⟩ :=
    ChangeLightXY_spec K C 0 x2 y2 c4 (Ne.symm hno)
  rw [c8] at d9
  rw [c10] at d10
  rw [c11] at d11 d12
  rw [c13] at d13
  generalize ChangeLightXY K C 0 x2 y2 = B at *
  have hB0 : B.lightactive 0 = 0 := by rw [d2, c2, b2]
  have hB1 : B.numlights = 1 := by rw [d1, c1, b1]
  have hBdel : (B.LightList 0)._ldel = false := by rw [d13]; exact a11
  have hBoff : (B.LightList 0).position.offset = ⟨0, 0⟩ := by rw [d10]; exact a9
  have hBrad : (B.LightList 0)._lradius = 5 := by rw [d11]; exact a10
  have hBold : (B.LightList 0).oldRadious = 5 := by rw [d12]; exact a10
  have tB : SameTables s0 B := tI.chain (a7.chain (b6.chain (c7.chain d7)))
  have pB : B.dPreLight = s0.dPreLight := by rw [d6, c6, g1, a6, i8]
  -- second ProcessLightList
  obtain ⟨e1, e2, e3, _, _, e6⟩ := ProcessLightList_single K B d4 d3 hB1 (by rw [hB0]; exact hBdel)
  rw [hB0] at e2 e3
  rw [z] at e3
  obtain ⟨f1, f2⟩ := ProcessLightList_grid K B d4 d3 (tB.hLoadMapObjsFlag.trans hmap)
    (by rw [d5, c5]; exact hSr) (by rw [pB]; exact hgrid)
  have hmin := minLevel_spec K (ProcessLightList K B) E y (by rw [e1]; decide)
  generalize ProcessLightList K B = T at *
  have tT : SameTables s0 T := tB.chain e6
  constructor
  · obtain ⟨base2, _, u2, m1, _, _⟩ := f2 E y
    have hnot : ¬ undone K B B.numlights E y := by
      rintro ⟨_, i, i0, i1, hu⟩
      have hi : i = 0 := by omega
      rw [hi, hB0, z] at hu
      rcases hu with ⟨hdel, _⟩ | ⟨_, hsq⟩
      · rw [hBdel] at hdel
        exact absurd hdel (by decide)
      · rw [d9, hBold] at hsq
        exact far1 hsq
    have := u2 hnot
    rw [d5, c5] at this
    omega
  · obtain ⟨v1, _, v3⟩ := hmin
    rw [f1, pB] at v1 v3
    rcases v3 with e | ⟨i, ⟨i0, i1, _⟩, e⟩
    · exact e
    · have hi : i = 0 := by omega
      replace e : minLevel K T E y = lightLevel K T (T.lightactive i) E y := e
      rw [hi, e2] at e
      have hTo : (T.LightList ((0 : Nat) : Int)).position.offset = ⟨0, 0⟩ := by
        show (T.LightList 0).position.offset = ⟨0, 0⟩
        rw [e3]; exact hBoff
      have hfar := levelAt_far K T (tT.standard hstd) (tT.hLoadMapObjsFlag.trans hmap)
        x2 y2 5 E y ⟨by decide, by decide⟩ (fun hsq => far2 hsq.2)
      have e5 : minLevel K T E y = levelAt K T x2 y2 5 E y := by
        rw [e]
        show lightLevel K T ((0 : Nat) : Int) E y = _
        rw [lightLevel_eq_levelAt K T _ E y hTo]
        show levelAt K T (T.LightList 0).position.tile.x (T.LightList 0).position.tile.y
          (T.LightList 0)._lradius E y = _
        rw [e3]
        show levelAt K T (B.LightList 0).position.tile.x (B.LightList 0).position.tile.y
          (B.LightList 0)._lradius E y = _
        rw [d8, hBrad]
      rw [hfar] at e5
      have := (hgrid E y).2
      omega

theorem strayRun_spec (t : Lighting)
    (ht : t = ProcessLightList upstream (ChangeLightXY upstream (ChangeLightXY upstream
      (ProcessLightList upstream (AddLight upstream (InitLighting upstream darkLevel) 30 30 5).2)
      0 50 50) 0 70 70)) :
    t.dLight 31 30 ≤ 3 ∧ minLevel upstream t 31 30 = 15 := by
  have h := double_move_stray upstream darkLevel (by decide) (by decide) (by decide) rfl
    darkLevel_grid darkLevel_standard rfl 30 30 50 50 70 70 ⟨by decide, by decide⟩
    ⟨by decide, by decide⟩ 31 (by norm_num) (by unfold inSquare; omega)
    (by unfold inSquare; omega)
  have e : darkLevel.dPreLight 31 30 = 15 := rfl
  rw [← ht] at h
  exact ⟨h.1, h.2.trans e⟩

/-- C1 as stated fails: a light moved twice between two `ProcessLightList` calls
leaves stray light behind. After `AddLight(30, 30, 5); ProcessLightList;
ChangeLightXY(0, 50, 50); ChangeLightXY(0, 70, 70); ProcessLightList` on the dark
level (every call in range, offsets (0, 0)), tile (31, 30) still has a working
value of at most 3, while the minimum of its base value and of the level of the
only light, now at (70, 70), is 15. -/
theorem process_invariant_fails_on_double_move :
    strayRun.dLight 31 30 ≤ 3 ∧ minLevel upstream strayRun 31 30 = 15 :=
  strayRun_spec strayRun rfl

/-! ## Vision: tile flags -/

theorem upstreamFlags_distinct : FlagsDistinct upstreamFlags := by
  unfold FlagsDistinct upstreamFlags
  decide

theorem and_or_self (f m : Nat) : (f ||| m) &&& m = m := by
  apply Nat.eq_of_testBit_eq
  intro i
  simp only [Nat.testBit_land, Nat.testBit_lor]
  cases f.testBit i <;> cases m.testBit i <;> rfl

theorem and_or_other (f k m : Nat) (h : k &&& m = 0) : (f ||| k) &&& m = f &&& m := by
  apply Nat.eq_of_testBit_eq
  intro i
  have hi := congrArg (fun n => n.testBit i) h
  simp only [Nat.testBit_land, Nat.testBit_lor, Nat.zero_testBit] at hi ⊢
  revert hi
  cases f.testBit i <;> cases m.testBit i <;> cases k.testBit i <;> simp

theorem and_clearBits_sub (f k m : Nat) (h : m &&& k = m) : clearBits f k &&& m = 0 := by
  apply Nat.eq_of_testBit_eq
  intro i
  have hi := congrArg (fun n => n.testBit i) h
  unfold clearBits
  simp only [Nat.testBit_land, Nat.testBit_ldiff, Nat.zero_testBit] at hi ⊢
  revert hi
  cases f.testBit i <;> cases m.testBit i <;> cases k.testBit i <;> simp

theorem and_clearBits_other (f k m : Nat) (h : k &&& m = 0) :
    clearBits f k &&& m = f &&& m := by
  apply Nat.eq_of_testBit_eq
  intro i
  have hi := congrArg (fun n => n.testBit i) h
  unfold clearBits
  simp only [Nat.testBit_land, Nat.testBit_ldiff, Nat.zero_testBit] at hi ⊢
  revert hi
  cases f.testBit i <;> cases m.testBit i <;> cases k.testBit i <;> simp

/-! ## Vision: DoUnVision and InitAutomap -/

theorem Vision.withFlags_congr (t : Vision) (g1 g2 : Int → Int → Nat)
    (h : ∀ a b, g1 a b = g2 a b) : ({ t with dFlags := g1 } : Vision) = { t with dFlags := g2 } := by
  have : g1 = g2 := funext fun a => funext fun b => h a b
  rw [this]

/-- A loop over a column of `dFlags` that rewrites each cell from its own value. -/
theorem flagsColumn (h : Nat → Nat) (x0 lo hi : Int) (t : Vision) :
    forRange lo hi
        (fun j s => { s with dFlags := setFlags s.dFlags x0 j (h (s.dFlags x0 j)) }) t =
      { t with dFlags := fun a b =>
          if a = x0 ∧ lo ≤ b ∧ b < hi then h (t.dFlags a b) else t.dFlags a b } := by
  by_cases hle : lo ≤ hi
  · refine forRange_count (fun (i : Int) (u : Vision) => u =
      { t with
        dFlags := fun a b =>
          if a = x0 ∧ lo ≤ b ∧ b < i then h (t.dFlags a b) else t.dFlags a b })
      _ lo hi t hle ?_ ?_
    · intro i i0 i1 u hu
      rw [hu]
      apply Vision.withFlags_congr
      intro a b
      simp only [setFlags]
      by_cases hab : a = x0 ∧ b = i
      · obtain ⟨rfl, rfl⟩ := hab
        rw [if_pos ⟨rfl, rfl⟩, if_neg (by omega), if_pos ⟨rfl, i0, by omega⟩]
      · rw [if_neg hab]
        by_cases hc : a = x0 ∧ lo ≤ b ∧ b < i
        · rw [if_pos hc, if_pos ⟨hc.1, hc.2.1, by omega⟩]
        · rw [if_neg hc, if_neg]
          rintro ⟨h1, h2, h3⟩
          by_cases hbi : b = i
          · exact hab ⟨h1, hbi⟩
          · exact hc ⟨h1, h2, by omega⟩
    · show t = _
      have : (fun a b => if a = x0 ∧ lo ≤ b ∧ b < lo then h (t.dFlags a b) else t.dFlags a b) =
          t.dFlags := by
        funext a b
        rw [if_neg (by omega)]
      rw [this]
  · have e : forRange lo hi
        (fun j s => { s with dFlags := setFlags s.dFlags x0 j (h (s.dFlags x0 j)) }) t = t := by
      unfold forRange
      have : (hi - lo).toNat = 0 := by omega
      rw [this]
      rfl
    rw [e]
    have : (fun a b => if a = x0 ∧ lo ≤ b ∧ b < hi then h (t.dFlags a b) else t.dFlags a b) =
        t.dFlags := by
      funext a b
      rw [if_neg (by omega)]
    rw [this]

/-- A double loop over a rectangle of `dFlags` that rewrites each cell from its own
value. -/
theorem flagsRect (h : Nat → Nat) (lx hx ly hy : Int) (t : Vision) :
    forRange lx hx (fun i s => forRange ly hy
        (fun j s => { s with dFlags := setFlags s.dFlags i j (h (s.dFlags i j)) }) s) t =
      { t with dFlags := fun a b =>
          if (lx ≤ a ∧ a < hx) ∧ ly ≤ b ∧ b < hy then h (t.dFlags a b) else t.dFlags a b } := by
  by_cases hle : lx ≤ hx
  · refine forRange_count (fun (i : Int) (u : Vision) => u =
      { t with
        dFlags := fun a b =>
          if (lx ≤ a ∧ a < i) ∧ ly ≤ b ∧ b < hy then h (t.dFlags a b) else t.dFlags a b })
      _ lx hx t hle ?_ ?_
    · intro i i0 i1 u hu
      rw [flagsColumn h i ly hy u, hu]
      apply Vision.withFlags_congr
      intro a b
      simp only
      by_cases hai : a = i
      · subst hai
        by_cases hb : ly ≤ b ∧ b < hy
        · rw [if_pos ⟨rfl, hb⟩, if_neg (by omega), if_pos ⟨⟨i0, by omega⟩, hb⟩]
        · rw [if_neg (fun hc => hb hc.2), if_neg (by omega), if_neg (fun hc => hb hc.2)]
      · rw [if_neg (fun hc => hai hc.1)]
        by_cases hc : (lx ≤ a ∧ a < i) ∧ ly ≤ b ∧ b < hy
        · rw [if_pos hc, if_pos ⟨⟨hc.1.1, by omega⟩, hc.2⟩]
        · rw [if_neg hc, if_neg]
          rintro ⟨⟨h1, h2⟩, h3⟩
          exact hc ⟨⟨h1, by omega⟩, h3⟩
    · show t = _
      have : (fun a b => if (lx ≤ a ∧ a < lx) ∧ ly ≤ b ∧ b < hy then h (t.dFlags a b)
          else t.dFlags a b) = t.dFlags := by
        funext a b
        rw [if_neg (by omega)]
      rw [this]
  · have e : forRange lx hx (fun i s => forRange ly hy
        (fun j s => { s with dFlags := setFlags s.dFlags i j (h (s.dFlags i j)) }) s) t = t := by
      unfold forRange
      have : (hx - lx).toNat = 0 := by omega
      rw [this]
      rfl
    rw [e]
    have : (fun a b => if (lx ≤ a ∧ a < hx) ∧ ly ≤ b ∧ b < hy then h (t.dFlags a b)
        else t.dFlags a b) = t.dFlags := by
      funext a b
      rw [if_neg (by omega)]
    rw [this]

/-- `DoUnVision` as one update of the flag grid. -/
theorem DoUnVision_eq (K : Consts) (F : VisionConsts) (s : Vision) (x y r : Int) :
    DoUnVision K F s x y r =
      { s with dFlags := fun a b =>
          if onMap K a b ∧ inSquare x y (r + 1) a b then
            clearBits (s.dFlags a b) (F.BFLAG_VISIBLE ||| F.BFLAG_LIT)
          else s.dFlags a b } := by
  unfold DoUnVision
  simp only
  rw [flagsRect (fun f => clearBits f (F.BFLAG_VISIBLE ||| F.BFLAG_LIT))]
  apply Vision.withFlags_congr
  intro a b
  have hiff : ((((if x - (r + 1 + 1) < 0 then (0 : Int) else x - (r + 1 + 1)) ≤ a ∧
      a < (if x + (r + 1 + 1) > K.MAXDUNX then K.MAXDUNX else x + (r + 1 + 1))) ∧
      (if y - (r + 1 + 1) < 0 then (0 : Int) else y - (r + 1 + 1)) ≤ b ∧
      b < (if y + (r + 1 + 1) > K.MAXDUNY then K.MAXDUNY else y + (r + 1 + 1))) ↔
      (onMap K a b ∧ inSquare x y (r + 1) a b)) := by
    unfold onMap inSquare
    split_ifs <;> constructor <;> intro hh <;> omega
  by_cases hc : onMap K a b ∧ inSquare x y (r + 1) a b
  · rw [if_pos hc, if_pos (hiff.2 hc)]
  · rw [if_neg hc, if_neg (fun hh => hc (hiff.1 hh))]

/-- `InitAutomap` as one update of the flag grid. -/
theorem InitAutomap_eq (K : Consts) (F : VisionConsts) (s : Vision) :
    InitAutomap K F s =
      { s with dFlags := fun a b =>
          if onMap K a b then clearBits (s.dFlags a b) F.BFLAG_EXPLORED else s.dFlags a b } := by
  unfold InitAutomap
  rw [flagsRect (fun f => clearBits f F.BFLAG_EXPLORED)]
  apply Vision.withFlags_congr
  intro a b
  have hiff : (((0 ≤ a ∧ a < K.MAXDUNX) ∧ 0 ≤ b ∧ b < K.MAXDUNY) ↔ onMap K a b) := by
    unfold onMap
    constructor <;> intro hh <;> omega
  by_cases hc : onMap K a b
  · rw [if_pos hc, if_pos (hiff.2 hc)]
  · rw [if_neg hc, if_neg (fun hh => hc (hiff.1 hh))]

/-- C22. `DoUnVision(x, y, r)` changes nothing but the flag grid; on the on-map
tiles `(tx, ty)` with `x - (r + 2) <= tx < x + (r + 2)` and
`y - (r + 2) <= ty < y + (r + 2)` it clears the bits of `BFLAG_VISIBLE` and
`BFLAG_LIT` and keeps every other bit of the flag byte (so also the explored bit,
whose mask is another bit); the flags of every other tile are unchanged. -/
theorem DoUnVision_clears_square (K : Consts) (F : VisionConsts) (s : Vision) (x y r : Int) :
    DoUnVision K F s x y r = { s with dFlags := (DoUnVision K F s x y r).dFlags } ∧
      ∀ (tx ty : Int) (i : Nat), ((DoUnVision K F s x y r).dFlags tx ty).testBit i =
        if (0 ≤ tx ∧ tx < K.MAXDUNX ∧ 0 ≤ ty ∧ ty < K.MAXDUNY) ∧
            x - (r + 2) ≤ tx ∧ tx < x + (r + 2) ∧ y - (r + 2) ≤ ty ∧ ty < y + (r + 2) then
          ((s.dFlags tx ty).testBit i && !(F.BFLAG_VISIBLE.testBit i || F.BFLAG_LIT.testBit i))
        else (s.dFlags tx ty).testBit i := by
  rw [DoUnVision_eq]
  refine ⟨rfl, ?_⟩
  intro tx ty i
  have hiff : ((0 ≤ tx ∧ tx < K.MAXDUNX ∧ 0 ≤ ty ∧ ty < K.MAXDUNY) ∧
      x - (r + 2) ≤ tx ∧ tx < x + (r + 2) ∧ y - (r + 2) ≤ ty ∧ ty < y + (r + 2)) ↔
      (onMap K tx ty ∧ inSquare x y (r + 1) tx ty) := by
    unfold onMap inSquare
    constructor <;> intro hh <;> omega
  show (if onMap K tx ty ∧ inSquare x y (r + 1) tx ty then
    clearBits (s.dFlags tx ty) (F.BFLAG_VISIBLE ||| F.BFLAG_LIT) else s.dFlags tx ty).testBit i = _
  by_cases hin : onMap K tx ty ∧ inSquare x y (r + 1) tx ty
  · rw [if_pos hin, if_pos (hiff.2 hin)]
    unfold clearBits
    rw [Nat.testBit_ldiff, Nat.testBit_lor]
  · rw [if_neg hin, if_neg (fun hh => hin (hiff.1 hh))]

/-! ## Vision: marking tiles -/

theorem VFrame.frameRefl (s : Vision) : VFrame s s :=
  ⟨rfl, rfl, rfl, rfl, rfl, rfl, rfl, rfl⟩

theorem VFrame.frameThen {s t u : Vision} (h1 : VFrame s t) (h2 : VFrame t u) : VFrame s u :=
  ⟨h2.hVisionList.trans h1.hVisionList, h2.hnumvision.trans h1.hnumvision,
    h2.hdovision.trans h1.hdovision, h2.hvisionid.trans h1.hvisionid,
    h2.hTransVal.trans h1.hTransVal, h2.hdTransVal.trans h1.hdTransVal,
    h2.hdPiece.trans h1.hdPiece, h2.hnBlockTable.trans h1.hnBlockTable⟩

theorem markFlags_idem (F : VisionConsts) (da vis : Bool) (f : Nat) :
    markFlags F da vis (markFlags F da vis f) = markFlags F da vis f := by
  apply Nat.eq_of_testBit_eq
  intro i
  unfold markFlags
  cases da <;> cases vis <;>
    simp only [Bool.false_eq_true, if_false, if_true, Nat.testBit_lor] <;>
    cases f.testBit i <;> cases F.BFLAG_EXPLORED.testBit i <;>
    cases F.BFLAG_LIT.testBit i <;> cases F.BFLAG_VISIBLE.testBit i <;> rfl

theorem Marked.markedRefl (F : VisionConsts) (da vis : Bool) (s : Vision) :
    Marked F da vis s s (fun _ _ => False) (fun _ => False) :=
  ⟨VFrame.frameRefl s, fun _ _ h => h.elim, fun _ _ _ => rfl, fun _ => by simp⟩

theorem Marked.markedIff {F : VisionConsts} {da vis : Bool} {s u : Vision}
    {M M2 : Int → Int → Prop} {T T2 : Int → Prop} (h : Marked F da vis s u M T)
    (hM : ∀ a b, M a b ↔ M2 a b) (hT : ∀ t, T t ↔ T2 t) : Marked F da vis s u M2 T2 :=
  ⟨h.frame, fun a b hm => h.hit a b ((hM a b).2 hm),
    fun a b hm => h.miss a b (fun hh => hm ((hM a b).1 hh)),
    fun t => by rw [h.trans t, hT t]⟩

theorem Marked.markedThen {F : VisionConsts} {da vis : Bool} {s u w : Vision}
    {M M2 : Int → Int → Prop} {T T2 : Int → Prop} (h1 : Marked F da vis s u M T)
    (h2 : Marked F da vis u w M2 T2) :
    Marked F da vis s w (fun a b => M a b ∨ M2 a b) (fun t => T t ∨ T2 t) := by
  refine ⟨h1.frame.frameThen h2.frame, ?_, ?_, ?_⟩
  · intro a b hm
    by_cases hb : M2 a b
    · rw [h2.hit a b hb]
      by_cases ha : M a b
      · rw [h1.hit a b ha, markFlags_idem]
      · rw [h1.miss a b ha]
    · rw [h2.miss a b hb]
      rcases hm with ha | ha
      · exact h1.hit a b ha
      · exact absurd ha hb
  · intro a b hm
    rw [h2.miss a b (fun hh => hm (Or.inr hh)), h1.miss a b (fun hh => hm (Or.inl hh))]
  · intro t
    rw [h2.trans t, h1.trans t, or_assoc]

theorem Marked_markTile (F : VisionConsts) (da vis : Bool) (s : Vision) (x y : Int) :
    Marked F da vis s (markTile F s x y da vis) (fun a b => a = x ∧ b = y) (fun _ => False) := by
  refine ⟨⟨rfl, rfl, rfl, rfl, rfl, rfl, rfl, rfl⟩, ?_, ?_, fun _ => by simp [markTile]⟩
  · rintro a b ⟨rfl, rfl⟩
    show setFlags s.dFlags a b _ a b = _
    unfold setFlags
    rw [if_pos ⟨rfl, rfl⟩]
    rfl
  · intro a b hab
    show setFlags s.dFlags x y _ a b = _
    unfold setFlags
    rw [if_neg hab]

/-! ## Vision: what DoVision marks -/

theorem VFrame.blocker {s u : Vision} (h : VFrame s u) (x y : Int) :
    u.nBlockTable (u.dPiece x y) = blocker s x y := by
  rw [h.hnBlockTable, h.hdPiece]
  rfl

theorem VFrame.openTile {s u : Vision} (h : VFrame s u) (K : Consts) (x y : Int) :
    openTile K u x y = openTile K s x y := by
  unfold Devilution.openTile
  rw [h.hnBlockTable, h.hdPiece]

/-- One executed step of a ring walk: it sets `nBlockerFlag` exactly when its
candidate is an on-map opaque tile, and marks the candidate exactly when the
candidate is seen. -/
theorem visionBody_spec (K : Consts) (F : VisionConsts) (s u : Vision) (X Y : Int)
    (da vis : Bool) (v j p : Int) (hf : VFrame s u) :
    ((visionBody K F X Y da vis v j p (false, u)).1 = true ↔
        candBlocks K s (cand X Y v j p)) ∧
      Marked F da vis u (visionBody K F X Y da vis v j p (false, u)).2
        (fun a b => candSeen K s (cand X Y v j p) ∧
          (cand X Y v j p).nCrawlX = a ∧ (cand X Y v j p).nCrawlY = b)
        (fun t => candSeen K s (cand X Y v j p) ∧
          blocker s (cand X Y v j p).nCrawlX (cand X Y v j p).nCrawlY = false ∧
          s.dTransVal (cand X Y v j p).nCrawlX (cand X Y v j p).nCrawlY = t ∧ t ≠ 0) := by
  unfold visionBody
  rw [if_neg Bool.false_ne_true]
  simp only
  generalize hc : cand X Y v j p = c
  have hc2 : crawlStep X Y v (vCrawlTable j.toNat (2 * p.toNat))
      (vCrawlTable j.toNat (2 * p.toNat + 1)) = c := hc
  rw [hc2]
  by_cases hon : 0 ≤ c.nCrawlX ∧ c.nCrawlX < K.MAXDUNX ∧ 0 ≤ c.nCrawlY ∧ c.nCrawlY < K.MAXDUNY
  · rw [if_pos hon, hf.blocker, hf.openTile, hf.openTile]
    by_cases hseen : (openTile K s (c.x1adj + c.nCrawlX) (c.y1adj + c.nCrawlY) ||
        openTile K s (c.x2adj + c.nCrawlX) (c.y2adj + c.nCrawlY)) = true
    · rw [if_pos hseen]
      have hs : candSeen K s c := ⟨hon, by simpa [Bool.or_eq_true] using hseen⟩
      refine ⟨⟨fun h => ⟨hon, h⟩, fun h => h.2⟩, ?_⟩
      have hm := Marked_markTile F da vis u c.nCrawlX c.nCrawlY
      by_cases hb : blocker s c.nCrawlX c.nCrawlY = false
      · rw [show (!blocker s c.nCrawlX c.nCrawlY) = true from by rw [hb]; rfl, if_pos rfl]
        by_cases ht : (markTile F u c.nCrawlX c.nCrawlY da vis).dTransVal c.nCrawlX c.nCrawlY ≠ 0
        · rw [if_pos ht]
          have ht2 : s.dTransVal c.nCrawlX c.nCrawlY ≠ 0 := by
            rw [← hf.hdTransVal]; exact ht
          refine ⟨⟨rfl, rfl, rfl, rfl, rfl, rfl, rfl, rfl⟩, ?_, ?_, ?_⟩
          · rintro a b ⟨_, rfl, rfl⟩
            exact hm.hit _ _ ⟨rfl, rfl⟩
          · intro a b hab
            exact hm.miss a b (fun hh => hab ⟨hs, hh.1.symm, hh.2.symm⟩)
          · intro t
            show setAt u.TransList (u.dTransVal c.nCrawlX c.nCrawlY) true t = true ↔ _
            unfold setAt
            rw [hf.hdTransVal]
            by_cases htt : t = s.dTransVal c.nCrawlX c.nCrawlY
            · rw [if_pos htt]
              simp only [true_iff]
              exact Or.inr ⟨hs, hb, htt.symm, by rw [htt]; exact ht2⟩
            · rw [if_neg htt]
              constructor
              · exact fun h => Or.inl h
              · rintro (h | ⟨_, _, h, _⟩)
                · exact h
                · exact absurd h.symm htt
        · rw [if_neg ht]
          have ht2 : s.dTransVal c.nCrawlX c.nCrawlY = 0 := by
            rw [← hf.hdTransVal]
            by_contra hne
            exact ht hne
          refine ⟨hm.frame, ?_, ?_, ?_⟩
          · rintro a b ⟨_, rfl, rfl⟩
            exact hm.hit _ _ ⟨rfl, rfl⟩
          · intro a b hab
            exact hm.miss a b (fun hh => hab ⟨hs, hh.1.symm, hh.2.symm⟩)
          · intro t
            rw [hm.trans t]
            constructor
            · rintro (h | h)
              · exact Or.inl h
              · exact h.elim
            · rintro (h | ⟨_, _, h, hne⟩)
              · exact Or.inl h
              · rw [ht2] at h
                exact absurd h.symm hne
      · have hb2 : blocker s c.nCrawlX c.nCrawlY = true := by
          cases hv : blocker s c.nCrawlX c.nCrawlY
          · exact absurd hv hb
          · rfl
        rw [show (!blocker s c.nCrawlX c.nCrawlY) = false from by rw [hb2]; rfl,
          if_neg Bool.false_ne_true]
        refine ⟨hm.frame, ?_, ?_, ?_⟩
        · rintro a b ⟨_, rfl, rfl⟩
          exact hm.hit _ _ ⟨rfl, rfl⟩
        · intro a b hab
          exact hm.miss a b (fun hh => hab ⟨hs, hh.1.symm, hh.2.symm⟩)
        · intro t
          rw [hm.trans t]
          constructor
          · rintro (h | h)
            · exact Or.inl h
            · exact h.elim
          · rintro (h | ⟨_, h, _, _⟩)
            · exact Or.inl h
            · exact absurd h hb
    · rw [if_neg hseen]
      have hs : ¬ candSeen K s c := by
        rintro ⟨_, h⟩
        exact hseen (by simpa [Bool.or_eq_true] using h)
      refine ⟨⟨fun h => ⟨hon, h⟩, fun h => h.2⟩, ?_⟩
      exact (Marked.markedRefl F da vis u).markedIff (fun a b => ⟨fun h => h.elim, fun h => hs h.1⟩)
        (fun t => ⟨fun h => h.elim, fun h => hs h.1⟩)
  · rw [if_neg hon]
    have hs : ¬ candSeen K s c := fun h => hon h.1
    refine ⟨⟨fun h => absurd h Bool.false_ne_true, fun h => absurd h.1 hon⟩, ?_⟩
    exact (Marked.markedRefl F da vis u).markedIff (fun a b => ⟨fun h => h.elim, fun h => hs h.1⟩)
      (fun t => ⟨fun h => h.elim, fun h => hs h.1⟩)

theorem visionBody_blocked (K : Consts) (F : VisionConsts) (X Y : Int) (da vis : Bool)
    (v j p : Int) (u : Vision) :
    visionBody K F X Y da vis v j p (true, u) = (true, u) := by
  unfold visionBody
  rw [if_pos rfl]

theorem forRange_none {σ : Type} (lo hi : Int) (body : Int → σ → σ) (s : σ) (h : hi ≤ lo) :
    forRange lo hi body s = s := by
  unfold forRange
  have : (hi - lo).toNat = 0 := by omega
  rw [this]
  rfl

/-- A ring walk marks the candidates of its executed steps that are seen. -/
theorem visionWalk_spec (K : Consts) (F : VisionConsts) (s u0 : Vision) (X Y r : Int)
    (da vis : Bool) (v j : Int) (hf0 : VFrame s u0) :
    Marked F da vis u0 (visionWalk K F X Y r da vis v j u0) (walkMarks K s X Y r v j)
      (walkTrans K s X Y r v j) := by
  unfold visionWalk
  by_cases hn : 0 ≤ r - RadiusAdj j.toNat
  · have key := forRange_count (fun (i : Int) (st : Bool × Vision) =>
        (st.1 = true ↔ ∃ q, 0 ≤ q ∧ q < i ∧ candBlocks K s (cand X Y v j q)) ∧
        Marked F da vis u0 st.2
          (fun a b => ∃ p, p < i ∧ stepMarks K s X Y r v j p ∧
            (cand X Y v j p).nCrawlX = a ∧ (cand X Y v j p).nCrawlY = b)
          (fun t => ∃ p, p < i ∧ stepMarks K s X Y r v j p ∧
            blocker s (cand X Y v j p).nCrawlX (cand X Y v j p).nCrawlY = false ∧
            s.dTransVal (cand X Y v j p).nCrawlX (cand X Y v j p).nCrawlY = t ∧ t ≠ 0))
      (visionBody K F X Y da vis v j) 0 (r - RadiusAdj j.toNat) (false, u0) hn ?_ ?_
    · exact key.2.markedIff
        (fun a b => ⟨fun ⟨p, _, h⟩ => ⟨p, h⟩, fun ⟨p, h⟩ => ⟨p, h.1.1.2, h⟩⟩)
        (fun t => ⟨fun ⟨p, _, h⟩ => ⟨p, h⟩, fun ⟨p, h⟩ => ⟨p, h.1.1.2, h⟩⟩)
    · rintro i i0 i1 ⟨bl, u⟩ ⟨hbl, hm⟩
      cases bl
      · have hreach : ∀ q, 0 ≤ q → q < i → ¬ candBlocks K s (cand X Y v j q) :=
          fun q q0 q1 hq => absurd (hbl.2 ⟨q, q0, q1, hq⟩) Bool.false_ne_true
        obtain ⟨b1, b2⟩ := visionBody_spec K F s u X Y da vis v j i (hf0.frameThen hm.frame)
        refine ⟨?_, (hm.markedThen b2).markedIff ?_ ?_⟩
        · rw [b1]
          constructor
          · intro h
            exact ⟨i, i0, by omega, h⟩
          · rintro ⟨q, q0, q1, hq⟩
            by_cases hqi : q = i
            · subst hqi
              exact hq
            · exact absurd hq (hreach q q0 (by omega))
        · intro a b
          constructor
          · rintro (⟨p, p1, h⟩ | ⟨hs, ha, hb⟩)
            · exact ⟨p, by omega, h⟩
            · exact ⟨i, by omega, ⟨⟨i0, i1⟩, hreach, hs⟩, ha, hb⟩
          · rintro ⟨p, p1, hst, ha, hb⟩
            by_cases hpi : p = i
            · subst hpi
              exact Or.inr ⟨hst.2.2, ha, hb⟩
            · exact Or.inl ⟨p, by omega, hst, ha, hb⟩
        · intro t
          constructor
          · rintro (⟨p, p1, h⟩ | ⟨hs, h⟩)
            · exact ⟨p, by omega, h⟩
            · exact ⟨i, by omega, ⟨⟨i0, i1⟩, hreach, hs⟩, h⟩
          · rintro ⟨p, p1, hst, h⟩
            by_cases hpi : p = i
            · subst hpi
              exact Or.inr ⟨hst.2.2, h⟩
            · exact Or.inl ⟨p, by omega, hst, h⟩
      · rw [visionBody_blocked]
        obtain ⟨q, q0, q1, hq⟩ := hbl.1 rfl
        refine ⟨⟨fun _ => ⟨q, q0, by omega, hq⟩, fun _ => rfl⟩, hm.markedIff ?_ ?_⟩
        · intro a b
          constructor
          · rintro ⟨p, p1, h⟩
            exact ⟨p, by omega, h⟩
          · rintro ⟨p, p1, hst, h⟩
            by_cases hpi : p = i
            · subst hpi
              exact absurd hq (hst.2.1 q q0 q1)
            · exact ⟨p, by omega, hst, h⟩
        · intro t
          constructor
          · rintro ⟨p, p1, h⟩
            exact ⟨p, by omega, h⟩
          · rintro ⟨p, p1, hst, h⟩
            by_cases hpi : p = i
            · subst hpi
              exact absurd hq (hst.2.1 q q0 q1)
            · exact ⟨p, by omega, hst, h⟩
    · refine ⟨⟨fun h => absurd h Bool.false_ne_true, fun ⟨q, q0, q1, _⟩ => by omega⟩,
        (Marked.markedRefl F da vis u0).markedIff ?_ ?_⟩
      · intro a b
        exact ⟨fun h => h.elim, fun ⟨p, p1, hst, _⟩ => by have := hst.1.1; omega⟩
      · intro t
        exact ⟨fun h => h.elim, fun ⟨p, p1, hst, _⟩ => by have := hst.1.1; omega⟩
  · rw [forRange_none _ _ _ _ (by omega)]
    refine (Marked.markedRefl F da vis u0).markedIff ?_ ?_
    · intro a b
      exact ⟨fun h => h.elim, fun ⟨p, hst, _⟩ => by have := hst.1; omega⟩
    · intro t
      exact ⟨fun h => h.elim, fun ⟨p, hst, _⟩ => by have := hst.1; omega⟩

/-- A loop whose iterations mark tiles marks the union. -/
theorem Marked_forRange (F : VisionConsts) (da vis : Bool) (s : Vision) (lo hi : Int)
    (body : Int → Vision → Vision) (M : Int → Int → Int → Prop) (T : Int → Int → Prop)
    (h : ∀ i, lo ≤ i → i < hi → ∀ u, VFrame s u → Marked F da vis u (body i u) (M i) (T i)) :
    Marked F da vis s (forRange lo hi body s) (fun a b => ∃ i, lo ≤ i ∧ i < hi ∧ M i a b)
      (fun t => ∃ i, lo ≤ i ∧ i < hi ∧ T i t) := by
  by_cases hle : lo ≤ hi
  · have key := forRange_count (fun (n : Int) (u : Vision) =>
        Marked F da vis s u (fun a b => ∃ i, lo ≤ i ∧ i < n ∧ i < hi ∧ M i a b)
          (fun t => ∃ i, lo ≤ i ∧ i < n ∧ i < hi ∧ T i t)) body lo hi s hle ?_ ?_
    · exact key.markedIff
        (fun a b => ⟨fun ⟨i, i0, _, i1, hm⟩ => ⟨i, i0, i1, hm⟩,
          fun ⟨i, i0, i1, hm⟩ => ⟨i, i0, i1, i1, hm⟩⟩)
        (fun t => ⟨fun ⟨i, i0, _, i1, hm⟩ => ⟨i, i0, i1, hm⟩,
          fun ⟨i, i0, i1, hm⟩ => ⟨i, i0, i1, i1, hm⟩⟩)
    · intro n n0 n1 u hu
      refine (hu.markedThen (h n n0 n1 u hu.frame)).markedIff ?_ ?_
      · intro a b
        constructor
        · rintro (⟨i, i0, i1, i2, hm⟩ | hm)
          · exact ⟨i, i0, by omega, i2, hm⟩
          · exact ⟨n, n0, by omega, n1, hm⟩
        · rintro ⟨i, i0, i1, i2, hm⟩
          by_cases hin : i = n
          · subst hin
            exact Or.inr hm
          · exact Or.inl ⟨i, i0, by omega, i2, hm⟩
      · intro t
        constructor
        · rintro (⟨i, i0, i1, i2, hm⟩ | hm)
          · exact ⟨i, i0, by omega, i2, hm⟩
          · exact ⟨n, n0, by omega, n1, hm⟩
        · rintro ⟨i, i0, i1, i2, hm⟩
          by_cases hin : i = n
          · subst hin
            exact Or.inr hm
          · exact Or.inl ⟨i, i0, by omega, i2, hm⟩
    · exact (Marked.markedRefl F da vis s).markedIff
        (fun a b => ⟨fun h => h.elim, fun ⟨i, i0, i1, _⟩ => by omega⟩)
        (fun t => ⟨fun h => h.elim, fun ⟨i, i0, i1, _⟩ => by omega⟩)
  · rw [forRange_none _ _ _ _ (by omega)]
    exact (Marked.markedRefl F da vis s).markedIff
      (fun a b => ⟨fun h => h.elim, fun ⟨i, i0, i1, _⟩ => by omega⟩)
      (fun t => ⟨fun h => h.elim, fun ⟨i, i0, i1, _⟩ => by omega⟩)

/-- `DoVision` marks the observer's own tile (when it passes the guard) and the
tiles marked by the ring walks, sets the entries of `TransList` of the non-opaque
tiles marked by a ring walk, and changes nothing else. -/
theorem DoVision_spec (K : Consts) (F : VisionConsts) (s : Vision) (X Y r : Int)
    (da vis : Bool) :
    Marked F da vis s (DoVision K F s X Y r da vis) (visMarks K s X Y r)
      (visTrans K s X Y r) := by
  unfold DoVision
  simp only
  have hown : Marked F da vis s
      (if 0 ≤ X ∧ X ≤ K.MAXDUNX ∧ 0 ≤ Y ∧ Y ≤ K.MAXDUNY then
        markTile F s (flagCell K X Y).1 (flagCell K X Y).2 da vis else s)
      (fun a b => (0 ≤ X ∧ X ≤ K.MAXDUNX ∧ 0 ≤ Y ∧ Y ≤ K.MAXDUNY) ∧
        a = (flagCell K X Y).1 ∧ b = (flagCell K X Y).2)
      (fun _ => False) := by
    by_cases hg : 0 ≤ X ∧ X ≤ K.MAXDUNX ∧ 0 ≤ Y ∧ Y ≤ K.MAXDUNY
    · rw [if_pos hg]
      exact (Marked_markTile F da vis s (flagCell K X Y).1 (flagCell K X Y).2).markedIff
        (fun a b => ⟨fun h => ⟨hg, h⟩, fun h => h.2⟩) (fun _ => Iff.rfl)
    · rw [if_neg hg]
      exact (Marked.markedRefl F da vis s).markedIff
        (fun a b => ⟨fun h => h.elim, fun h => hg h.1⟩) (fun _ => Iff.rfl)
  generalize (if 0 ≤ X ∧ X ≤ K.MAXDUNX ∧ 0 ≤ Y ∧ Y ≤ K.MAXDUNY then
    markTile F s (flagCell K X Y).1 (flagCell K X Y).2 da vis else s) = s1 at hown ⊢
  have hwalks := Marked_forRange F da vis s1 0 4
    (fun v s => forRange 0 23 (visionWalk K F X Y r da vis v) s)
    (fun v a b => ∃ j, 0 ≤ j ∧ j < 23 ∧ walkMarks K s X Y r v j a b)
    (fun v t => ∃ j, 0 ≤ j ∧ j < 23 ∧ walkTrans K s X Y r v j t)
    (fun v _ _ u hu => Marked_forRange F da vis u 0 23 (visionWalk K F X Y r da vis v)
      (fun j a b => walkMarks K s X Y r v j a b) (fun j t => walkTrans K s X Y r v j t)
      (fun j _ _ w hw => visionWalk_spec K F s w X Y r da vis v j
        ((hown.frame.frameThen hu).frameThen hw)))
  refine (hown.markedThen hwalks).markedIff ?_ ?_
  · intro a b
    unfold visMarks
    constructor
    · rintro (h | ⟨v, v0, v1, j, j0, j1, h⟩)
      · exact Or.inl h
      · exact Or.inr ⟨v, j, ⟨v0, v1⟩, ⟨j0, j1⟩, h⟩
    · rintro (h | ⟨v, j, ⟨v0, v1⟩, ⟨j0, j1⟩, h⟩)
      · exact Or.inl h
      · exact Or.inr ⟨v, v0, v1, j, j0, j1, h⟩
  · intro t
    unfold visTrans
    constructor
    · rintro (h | ⟨v, v0, v1, j, j0, j1, h⟩)
      · exact h.elim
      · exact ⟨v, j, ⟨v0, v1⟩, ⟨j0, j1⟩, h⟩
    · rintro ⟨v, j, ⟨v0, v1⟩, ⟨j0, j1⟩, h⟩
      exact Or.inr ⟨v, v0, v1, j, j0, j1, h⟩

/-! ## Vision: own tile, non-personal sources and translucency -/

theorem flagSet_markFlags_visible (F : VisionConsts) (da vis : Bool) (f : Nat) :
    flagSet (markFlags F da vis f) F.BFLAG_VISIBLE := by
  unfold flagSet markFlags
  exact and_or_self _ _

theorem flagSet_markFlags_lit (F : VisionConsts) (da : Bool) (f : Nat) :
    flagSet (markFlags F da true f) F.BFLAG_LIT := by
  unfold flagSet markFlags
  apply Nat.eq_of_testBit_eq
  intro i
  cases da <;>
    simp only [Bool.false_eq_true, if_false, if_true, Nat.testBit_lor, Nat.testBit_land] <;>
    cases f.testBit i <;> cases F.BFLAG_EXPLORED.testBit i <;>
    cases F.BFLAG_LIT.testBit i <;> cases F.BFLAG_VISIBLE.testBit i <;> rfl

theorem flagSet_markFlags_explored (F : VisionConsts) (vis : Bool) (f : Nat) :
    flagSet (markFlags F true vis f) F.BFLAG_EXPLORED := by
  unfold flagSet markFlags
  apply Nat.eq_of_testBit_eq
  intro i
  cases vis <;>
    simp only [Bool.false_eq_true, if_false, if_true, Nat.testBit_lor, Nat.testBit_land] <;>
    cases f.testBit i <;> cases F.BFLAG_EXPLORED.testBit i <;>
    cases F.BFLAG_LIT.testBit i <;> cases F.BFLAG_VISIBLE.testBit i <;> rfl

theorem markFlags_plain (F : VisionConsts) (f : Nat) :
    markFlags F false false f = f ||| F.BFLAG_VISIBLE := by
  unfold markFlags
  simp only [Bool.false_eq_true, if_false]

/-- An observer outside row `MAXDUNY` addresses its own byte. -/
theorem flagCell_of_ne (K : Consts) (X Y : Int) (hY : Y ≠ K.MAXDUNY) :
    flagCell K X Y = (X, Y) := by
  unfold flagCell
  rw [if_neg hY]

/-- An observer in row `MAXDUNY` addresses the first byte of the next row. -/
theorem flagCell_of_eq (K : Consts) (X Y : Int) (hY : Y = K.MAXDUNY) :
    flagCell K X Y = (X + 1, 0) := by
  unfold flagCell
  rw [if_pos hY]

/-- The flags of the byte written by the own-tile block of `DoVision`, when the
observer passes its guard. -/
theorem DoVision_own_cell (K : Consts) (F : VisionConsts) (s : Vision) (X Y r : Int)
    (da vis : Bool) (hg : 0 ≤ X ∧ X ≤ K.MAXDUNX ∧ 0 ≤ Y ∧ Y ≤ K.MAXDUNY) :
    (DoVision K F s X Y r da vis).dFlags (flagCell K X Y).1 (flagCell K X Y).2 =
      markFlags F da vis (s.dFlags (flagCell K X Y).1 (flagCell K X Y).2) :=
  (DoVision_spec K F s X Y r da vis).hit _ _ (Or.inl ⟨hg, rfl, rfl⟩)

/-- For an observer in row `MAXDUNY` that passes the guard of the first block,
`DoVision` marks the first tile `(a, 0)`, `a = X + 1`, of the next row of the flag
grid. -/
theorem DoVision_next_row (K : Consts) (F : VisionConsts) (s : Vision) (X Y r : Int)
    (da vis : Bool) (a : Int) (hg : 0 ≤ X ∧ X ≤ K.MAXDUNX ∧ 0 ≤ Y ∧ Y ≤ K.MAXDUNY)
    (hY : Y = K.MAXDUNY) (ha : a = X + 1) :
    (DoVision K F s X Y r da vis).dFlags a 0 = markFlags F da vis (s.dFlags a 0) := by
  have h := DoVision_own_cell K F s X Y r da vis hg
  rw [flagCell_of_eq K X Y hY] at h
  rw [ha]
  exact h

/-- The flags of the observer's own tile after `DoVision`, when the tile passes the
guard of the first block and is not in row `MAXDUNY`. -/
theorem DoVision_own_flags (K : Consts) (F : VisionConsts) (s : Vision) (X Y r : Int)
    (da vis : Bool) (hg : 0 ≤ X ∧ X ≤ K.MAXDUNX ∧ 0 ≤ Y ∧ Y ≤ K.MAXDUNY)
    (hY : Y ≠ K.MAXDUNY) :
    (DoVision K F s X Y r da vis).dFlags X Y = markFlags F da vis (s.dFlags X Y) := by
  have h := DoVision_own_cell K F s X Y r da vis hg
  rw [flagCell_of_ne K X Y hY] at h
  exact h

/-- After a non-personal `DoVision` each flag byte is the old one, or the old one
with `BFLAG_VISIBLE` added. -/
theorem DoVision_plain_flags (K : Consts) (F : VisionConsts) (s : Vision) (X Y r a b : Int) :
    (DoVision K F s X Y r false false).dFlags a b = s.dFlags a b ∨
      (DoVision K F s X Y r false false).dFlags a b = s.dFlags a b ||| F.BFLAG_VISIBLE := by
  have h := DoVision_spec K F s X Y r false false
  by_cases hm : visMarks K s X Y r a b
  · right
    rw [h.hit a b hm, markFlags_plain]
  · left
    exact h.miss a b hm

/-- C19 (as amended). For an observer on the map and every radius, `DoVision` sets
the visible bit of the observer's own tile; it sets the explored bit when
`doautomap` is true and the lit bit when `visible` is true (`ProcessVisionList`
passes the personal flag of the source for both); for a source that is not
personal the explored and lit bits of the own tile stay as they were. -/
theorem DoVision_own_tile (K : Consts) (F : VisionConsts) (s : Vision) (X Y r : Int)
    (da vis : Bool) (hon : 0 ≤ X ∧ X < K.MAXDUNX ∧ 0 ≤ Y ∧ Y < K.MAXDUNY) :
    flagSet ((DoVision K F s X Y r da vis).dFlags X Y) F.BFLAG_VISIBLE ∧
      (da = true → flagSet ((DoVision K F s X Y r da vis).dFlags X Y) F.BFLAG_EXPLORED) ∧
      (vis = true → flagSet ((DoVision K F s X Y r da vis).dFlags X Y) F.BFLAG_LIT) ∧
      (FlagsDistinct F →
        (DoVision K F s X Y r false false).dFlags X Y &&& F.BFLAG_EXPLORED =
            s.dFlags X Y &&& F.BFLAG_EXPLORED ∧
          (DoVision K F s X Y r false false).dFlags X Y &&& F.BFLAG_LIT =
            s.dFlags X Y &&& F.BFLAG_LIT) := by
  have hg : 0 ≤ X ∧ X ≤ K.MAXDUNX ∧ 0 ≤ Y ∧ Y ≤ K.MAXDUNY := by omega
  have hY : Y ≠ K.MAXDUNY := by omega
  rw [DoVision_own_flags K F s X Y r da vis hg hY,
    DoVision_own_flags K F s X Y r false false hg hY]
  refine ⟨flagSet_markFlags_visible F da vis _, ?_, ?_, ?_⟩
  · intro h
    rw [h]
    exact flagSet_markFlags_explored F vis _
  · intro h
    rw [h]
    exact flagSet_markFlags_lit F da _
  · intro hF
    rw [markFlags_plain]
    exact ⟨and_or_other _ _ _ hF.2.2.2.2.1, and_or_other _ _ _ hF.2.2.2.1⟩

theorem DoVision_own_tile_witness :
    flagSet ((DoVision upstream upstreamFlags openMap 50 50 10 true true).dFlags 50 50)
      upstreamFlags.BFLAG_VISIBLE :=
  (DoVision_own_tile upstream upstreamFlags openMap 50 50 10 true true (by decide)).1

/-- C19 as stated fails for a source that is not personal: `DoVision(50, 50, 10,
false, false)` on the open map leaves the explored bit of the observer's own tile
clear. -/
theorem DoVision_plain_own_tile_unexplored :
    flagClear ((DoVision upstream upstreamFlags openMap 50 50 10 false false).dFlags 50 50)
      upstreamFlags.BFLAG_EXPLORED := by
  have h := DoVision_own_flags upstream upstreamFlags openMap 50 50 10 false false (by decide)
    (by decide)
  unfold flagClear
  rw [h]
  decide

/-- C20. For a vision source that is not personal, `DoVision` (and so the reapply
step of `ProcessVisionList` for that source) leaves every flag byte as it was or
adds `BFLAG_VISIBLE` to it; when the three flag masks share no bit, the explored
bit and the lit bit of every tile are unchanged. -/
theorem DoVision_plain_frame (K : Consts) (F : VisionConsts) (s : Vision) (X Y r i : Int)
    (hF : FlagsDistinct F) (hi : (s.VisionList i)._lflags = false) (a b : Int) :
    ((DoVision K F s X Y r false false).dFlags a b = s.dFlags a b ∨
      (DoVision K F s X Y r false false).dFlags a b = s.dFlags a b ||| F.BFLAG_VISIBLE) ∧
    (DoVision K F s X Y r false false).dFlags a b &&& F.BFLAG_EXPLORED =
      s.dFlags a b &&& F.BFLAG_EXPLORED ∧
    (DoVision K F s X Y r false false).dFlags a b &&& F.BFLAG_LIT =
      s.dFlags a b &&& F.BFLAG_LIT ∧
    (visionApply K F i s).dFlags a b &&& F.BFLAG_EXPLORED = s.dFlags a b &&& F.BFLAG_EXPLORED ∧
    (visionApply K F i s).dFlags a b &&& F.BFLAG_LIT = s.dFlags a b &&& F.BFLAG_LIT := by
  have key : ∀ X Y r, (DoVision K F s X Y r false false).dFlags a b &&& F.BFLAG_EXPLORED =
      s.dFlags a b &&& F.BFLAG_EXPLORED ∧
      (DoVision K F s X Y r false false).dFlags a b &&& F.BFLAG_LIT =
        s.dFlags a b &&& F.BFLAG_LIT := by
    intro X Y r
    rcases DoVision_plain_flags K F s X Y r a b with h | h
    · rw [h]
      exact ⟨rfl, rfl⟩
    · rw [h]
      exact ⟨and_or_other _ _ _ hF.2.2.2.2.1, and_or_other _ _ _ hF.2.2.2.1⟩
  refine ⟨DoVision_plain_flags K F s X Y r a b, (key X Y r).1, (key X Y r).2, ?_⟩
  unfold visionApply
  by_cases hd : (!(s.VisionList i)._ldel) = true
  · rw [if_pos hd, hi]
    exact key _ _ _
  · rw [if_neg hd]
    exact ⟨rfl, rfl⟩

theorem DoVision_plain_frame_witness :
    (DoVision upstream upstreamFlags openMap 50 50 10 false false).dFlags 50 60 &&&
        upstreamFlags.BFLAG_EXPLORED =
      openMap.dFlags 50 60 &&& upstreamFlags.BFLAG_EXPLORED :=
  (DoVision_plain_frame upstream upstreamFlags openMap 50 50 10 0 upstreamFlags_distinct rfl
    50 60).2.1

/-- C21 (as amended). `DoVision` activates translucency regions for every source,
personal or not: whatever the values of `doautomap` and `visible`, `TransList[t]`
is true after the call exactly when it was true before or `t` is the non-zero
region id of a non-opaque tile that the call marks during a ring walk. -/
theorem DoVision_TransList (K : Consts) (F : VisionConsts) (s : Vision) (X Y r : Int)
    (da vis : Bool) (t : Int) :
    (DoVision K F s X Y r da vis).TransList t = true ↔
      (s.TransList t = true ∨ visTrans K s X Y r t) :=
  (DoVision_spec K F s X Y r da vis).trans t

/-- The first step of the walk along ring 0 in pass 0 from (50, 50) on the open
map: it marks tile (51, 50), which is not opaque and lies in region 1. -/
theorem openMap_first_step (r : Int) (hr : 0 < r) : visTrans upstream openMap 50 50 r 1 := by
  refine ⟨0, 0, by decide, by decide, 0, ⟨⟨le_refl _, ?_⟩, ?_, ?_⟩, rfl, rfl, by decide⟩
  · show 0 < r - 0
    omega
  · intro q q0 q1
    omega
  · exact ⟨by unfold candOn; decide, Or.inl (by decide)⟩

/-- C21 as stated fails: `DoVision(50, 50, 10, false, false)` for a source that is
not personal activates translucency region 1 of the open map, which was inactive
before the call. -/
theorem DoVision_plain_sets_TransList :
    openMap.TransList 1 = false ∧
      (DoVision upstream upstreamFlags openMap 50 50 10 false false).TransList 1 = true :=
  ⟨rfl, (DoVision_spec upstream upstreamFlags openMap 50 50 10 false false).trans 1 |>.2
    (Or.inr (openMap_first_step 10 (by decide)))⟩

/-! ## Vision: reach of the ring walks -/

set_option maxRecDepth 100000 in
/-- The pair at position `p` of every row of `vCrawlTable` has coordinates of at
most `p + 1`. -/
theorem vCrawlTable_bound : ∀ j < 23, ∀ p < 15,
    vCrawlTable j (2 * p) ≤ p + 1 ∧ vCrawlTable j (2 * p + 1) ≤ p + 1 := by
  decide

theorem cand_coords (X Y v j p : Int) :
    ((cand X Y v j p).nCrawlX = X + (vCrawlTable j.toNat (2 * p.toNat) : Nat) ∨
      (cand X Y v j p).nCrawlX = X - (vCrawlTable j.toNat (2 * p.toNat) : Nat)) ∧
    ((cand X Y v j p).nCrawlY = Y + (vCrawlTable j.toNat (2 * p.toNat + 1) : Nat) ∨
      (cand X Y v j p).nCrawlY = Y - (vCrawlTable j.toNat (2 * p.toNat + 1) : Nat)) := by
  unfold cand crawlStep
  simp only
  split_ifs <;> simp

/-- For radii `0..15` each tile marked by a ring walk of `DoVision(X, Y, r, ..)` is
on the map and within distance `r` of the observer. -/
theorem walkMarks_near (K : Consts) (s : Vision) (X Y r v j a b : Int) (hr : 0 ≤ r ∧ r ≤ 15)
    (hj : 0 ≤ j ∧ j < 23) (h : walkMarks K s X Y r v j a b) :
    near X Y r a b ∧ onMap K a b := by
  obtain ⟨j0, j1⟩ := hj
  obtain ⟨p, ⟨⟨p0, p1⟩, _, hseen⟩, rfl, rfl⟩ := h
  have hb := vCrawlTable_bound j.toNat (by omega) p.toNat (by omega)
  have hc := cand_coords X Y v j p
  refine ⟨?_, hseen.1⟩
  unfold near
  have e : ((p.toNat : Nat) : Int) = p := by omega
  have h1 : ((vCrawlTable j.toNat (2 * p.toNat) : Nat) : Int) ≤ p + 1 := by
    have := hb.1
    omega
  have h2 : ((vCrawlTable j.toNat (2 * p.toNat + 1) : Nat) : Int) ≤ p + 1 := by
    have := hb.2
    omega
  have h3 : (0 : Int) ≤ (vCrawlTable j.toNat (2 * p.toNat) : Nat) := Int.ofNat_nonneg _
  have h4 : (0 : Int) ≤ (vCrawlTable j.toNat (2 * p.toNat + 1) : Nat) := Int.ofNat_nonneg _
  have h5 : (0 : Int) ≤ (RadiusAdj j.toNat : Nat) := Int.ofNat_nonneg _
  omega

/-- For radii `0..15` and an observer outside row `MAXDUNY`, each tile marked by
`DoVision(X, Y, r, ..)` is within distance `r` of the observer, and is on the map
or the observer's own tile. -/
theorem visMarks_near (K : Consts) (s : Vision) (X Y r a b : Int) (hr : 0 ≤ r ∧ r ≤ 15)
    (hY : Y ≠ K.MAXDUNY) (h : visMarks K s X Y r a b) :
    near X Y r a b ∧ (onMap K a b ∨ (a = X ∧ b = Y)) := by
  rcases h with ⟨_, h1, h2⟩ | ⟨v, j, _, ⟨j0, j1⟩, p, ⟨⟨p0, p1⟩, _, hseen⟩, rfl, rfl⟩
  · rw [flagCell_of_ne K X Y hY] at h1 h2
    subst h1 h2
    exact ⟨by unfold near; omega, Or.inr ⟨rfl, rfl⟩⟩
  · have hb := vCrawlTable_bound j.toNat (by omega) p.toNat (by omega)
    have hc := cand_coords X Y v j p
    refine ⟨?_, Or.inl hseen.1⟩
    unfold near
    have e : ((p.toNat : Nat) : Int) = p := by omega
    have h1 : ((vCrawlTable j.toNat (2 * p.toNat) : Nat) : Int) ≤ p + 1 := by
      have := hb.1
      omega
    have h2 : ((vCrawlTable j.toNat (2 * p.toNat + 1) : Nat) : Int) ≤ p + 1 := by
      have := hb.2
      omega
    have h3 : (0 : Int) ≤ (vCrawlTable j.toNat (2 * p.toNat) : Nat) := Int.ofNat_nonneg _
    have h4 : (0 : Int) ≤ (vCrawlTable j.toNat (2 * p.toNat + 1) : Nat) := Int.ofNat_nonneg _
    have h5 : (0 : Int) ≤ (RadiusAdj j.toNat : Nat) := Int.ofNat_nonneg _
    omega

/-- For radii `0..15` each candidate of a ring walk of `DoVision(X, Y, r, ..)` is
within distance `r` of the observer. -/
theorem cand_near (X Y r v j p : Int) (hr : r ≤ 15) (hj : 0 ≤ j ∧ j < 23)
    (hp : 0 ≤ p ∧ p < r - RadiusAdj j.toNat) :
    near X Y r (cand X Y v j p).nCrawlX (cand X Y v j p).nCrawlY := by
  obtain ⟨j0, j1⟩ := hj
  obtain ⟨p0, p1⟩ := hp
  have h5 : (0 : Int) ≤ (RadiusAdj j.toNat : Nat) := Int.ofNat_nonneg _
  have hb := vCrawlTable_bound j.toNat (by omega) p.toNat (by omega)
  have hc := cand_coords X Y v j p
  unfold near
  have e : ((p.toNat : Nat) : Int) = p := by omega
  have h1 : ((vCrawlTable j.toNat (2 * p.toNat) : Nat) : Int) ≤ p + 1 := by
    have := hb.1
    omega
  have h2 : ((vCrawlTable j.toNat (2 * p.toNat + 1) : Nat) : Int) ≤ p + 1 := by
    have := hb.2
    omega
  have h3 : (0 : Int) ≤ (vCrawlTable j.toNat (2 * p.toNat) : Nat) := Int.ofNat_nonneg _
  have h4 : (0 : Int) ≤ (vCrawlTable j.toNat (2 * p.toNat + 1) : Nat) := Int.ofNat_nonneg _
  omega

/-- For radii `0..15` each tile marked by `DoVision(X, Y, r, ..)` is an on-map tile
within distance `r` of the observer, the observer's own tile, or, for an observer in
row `MAXDUNY`, the first tile of the next row of the flag grid. -/
theorem visMarks_cases (K : Consts) (s : Vision) (X Y r a b : Int) (hr : 0 ≤ r ∧ r ≤ 15)
    (h : visMarks K s X Y r a b) :
    (near X Y r a b ∧ onMap K a b) ∨ (a = X ∧ b = Y) ∨
      (Y = K.MAXDUNY ∧ a = X + 1 ∧ b = 0) := by
  rcases h with ⟨_, h1, h2⟩ | ⟨v, j, _, hj, hw⟩
  · by_cases hY : Y = K.MAXDUNY
    · rw [flagCell_of_eq K X Y hY] at h1 h2
      exact Or.inr (Or.inr ⟨hY, h1, h2⟩)
    · rw [flagCell_of_ne K X Y hY] at h1 h2
      exact Or.inr (Or.inl ⟨h1, h2⟩)
  · exact Or.inl (walkMarks_near K s X Y r v j a b hr hj hw)

/-- For a candidate off both axes of the observer, the two adjusted neighbours of
a step are the candidate's two orthogonal neighbours on the observer's side. -/
theorem cand_corner (K : Consts) (s : Vision) (X Y v j p a b : Int) (hv : 0 ≤ v ∧ v < 4)
    (hx : (cand X Y v j p).nCrawlX = X + a) (hy : (cand X Y v j p).nCrawlY = Y + b)
    (ha : a ≠ 0) (hb : b ≠ 0) :
    (openTile K s ((cand X Y v j p).x1adj + (cand X Y v j p).nCrawlX)
          ((cand X Y v j p).y1adj + (cand X Y v j p).nCrawlY) = true ∨
        openTile K s ((cand X Y v j p).x2adj + (cand X Y v j p).nCrawlX)
          ((cand X Y v j p).y2adj + (cand X Y v j p).nCrawlY) = true) ↔
      (openTile K s (X + a - Int.sign a) (Y + b) = true ∨
        openTile K s (X + a) (Y + b - Int.sign b) = true) := by
  unfold cand at hx hy ⊢
  generalize vCrawlTable j.toNat (2 * p.toNat) = cx at hx hy ⊢
  generalize vCrawlTable j.toNat (2 * p.toNat + 1) = cy at hx hy ⊢
  have hv2 : v = 0 ∨ v = 1 ∨ v = 2 ∨ v = 3 := by omega
  have hpos : ∀ n : Int, 0 < n → Int.sign n = 1 := fun n h => Int.sign_eq_one_of_pos h
  have hneg : ∀ n : Int, n < 0 → Int.sign n = -1 := fun n h => Int.sign_eq_neg_one_of_neg h
  rcases hv2 with rfl | rfl | rfl | rfl
  · simp only [crawlStep, if_true] at hx hy ⊢
    have hcx : (0 : Int) < cx := by omega
    have hcy : (0 : Int) < cy := by omega
    have hd : (cx > 0 ∧ cy > 0) := by omega
    have ea : a = cx := by omega
    have eb : b = cy := by omega
    simp only [hd, and_self, decide_True, if_true]
    rw [ea, eb, hpos _ hcx, hpos _ hcy]
    have e1 : (-1 : Int) + (X + cx) = X + cx - 1 := by ring
    have e2 : (0 : Int) + (Y + cy) = Y + cy := by ring
    have e3 : (0 : Int) + (X + cx) = X + cx := by ring
    have e4 : (-1 : Int) + (Y + cy) = Y + cy - 1 := by ring
    rw [e1, e2, e3, e4]
  · have n10 : ¬ ((1 : Int) = 0) := by decide
    simp only [crawlStep, n10, if_false, if_true] at hx hy ⊢
    have hcx : (0 : Int) < cx := by omega
    have hcy : (0 : Int) < cy := by omega
    have hd : (cx > 0 ∧ cy > 0) := by omega
    have ea : a = -cx := by omega
    have eb : b = -cy := by omega
    simp only [hd, and_self, decide_True, if_true]
    rw [ea, eb, hneg _ (by omega), hneg _ (by omega)]
    have e1 : (0 : Int) + (X - cx) = X + -cx := by ring
    have e2 : (1 : Int) + (Y - cy) = Y + -cy - -1 := by ring
    have e3 : (1 : Int) + (X - cx) = X + -cx - -1 := by ring
    have e4 : (0 : Int) + (Y - cy) = Y + -cy := by ring
    rw [e1, e2, e3, e4]
    exact or_comm
  · have n20 : ¬ ((2 : Int) = 0) := by decide
    have n21 : ¬ ((2 : Int) = 1) := by decide
    simp only [crawlStep, n20, n21, if_false, if_true] at hx hy ⊢
    have hcx : (0 : Int) < cx := by omega
    have hcy : (0 : Int) < cy := by omega
    have hd : (cx > 0 ∧ cy > 0) := by omega
    have ea : a = cx := by omega
    have eb : b = -cy := by omega
    simp only [hd, and_self, decide_True, if_true]
    rw [ea, eb, hpos _ hcx, hneg _ (by omega)]
    have e1 : (-1 : Int) + (X + cx) = X + cx - 1 := by ring
    have e2 : (0 : Int) + (Y - cy) = Y + -cy := by ring
    have e3 : (0 : Int) + (X + cx) = X + cx := by ring
    have e4 : (1 : Int) + (Y - cy) = Y + -cy - -1 := by ring
    rw [e1, e2, e3, e4]
  · have n30 : ¬ ((3 : Int) = 0) := by decide
    have n31 : ¬ ((3 : Int) = 1) := by decide
    have n32 : ¬ ((3 : Int) = 2) := by decide
    simp only [crawlStep, n30, n31, n32, if_false, if_true] at hx hy ⊢
    have hcx : (0 : Int) < cx := by omega
    have hcy : (0 : Int) < cy := by omega
    have hd : (cx > 0 ∧ cy > 0) := by omega
    have ea : a = -cx := by omega
    have eb : b = cy := by omega
    simp only [hd, and_self, decide_True, if_true]
    rw [ea, eb, hneg _ (by omega), hpos _ hcy]
    have e1 : (0 : Int) + (X - cx) = X + -cx := by ring
    have e2 : (-1 : Int) + (Y + cy) = Y + cy - 1 := by ring
    have e3 : (1 : Int) + (X - cx) = X + -cx - -1 := by ring
    have e4 : (0 : Int) + (Y + cy) = Y + cy := by ring
    rw [e1, e2, e3, e4]
    exact or_comm

/-- C17, for every observer but those in row `MAXDUNY`. Corner leniency. Let
`T = (X + a, Y + b)` with `a ≠ 0` and `b ≠ 0` be an on-map tile,
`N1 = T - (sign a, 0)` and `N2 = T - (0, sign b)`. If neither `N1`
nor `N2` is an on-map non-opaque tile, `DoVision(X, Y, r, ..)` leaves the flags of
`T` as they were. If one of them is an on-map non-opaque tile and `T` is the
candidate of a step `p` of some ring walk that is within the walk's length and has
no on-map opaque candidate before it, `DoVision` sets the visible bit of `T`,
whether or not `T` is opaque. -/
theorem corner_leniency (K : Consts) (F : VisionConsts) (s : Vision) (X Y r a b : Int)
    (da vis : Bool) (ha : a ≠ 0) (hb : b ≠ 0) (hon : onMap K (X + a) (Y + b))
    (hY : Y ≠ K.MAXDUNY) :
    (openTile K s (X + a - Int.sign a) (Y + b) = false →
      openTile K s (X + a) (Y + b - Int.sign b) = false →
      (DoVision K F s X Y r da vis).dFlags (X + a) (Y + b) = s.dFlags (X + a) (Y + b)) ∧
    ((openTile K s (X + a - Int.sign a) (Y + b) = true ∨
        openTile K s (X + a) (Y + b - Int.sign b) = true) →
      (∃ v j p, (0 ≤ v ∧ v < 4) ∧ (0 ≤ j ∧ j < 23) ∧ (0 ≤ p ∧ p < r - RadiusAdj j.toNat) ∧
        (∀ q, 0 ≤ q → q < p → ¬ candBlocks K s (cand X Y v j q)) ∧
        (cand X Y v j p).nCrawlX = X + a ∧ (cand X Y v j p).nCrawlY = Y + b) →
      flagSet ((DoVision K F s X Y r da vis).dFlags (X + a) (Y + b)) F.BFLAG_VISIBLE) := by
  have hspec := DoVision_spec K F s X Y r da vis
  constructor
  · intro h1 h2
    apply hspec.miss
    rintro (⟨_, hx, _⟩ | ⟨v, j, hv, _, p, ⟨_, _, _, hseen⟩, hx, hy⟩)
    · rw [flagCell_of_ne K X Y hY] at hx
      simp only at hx
      exact ha (by omega)
    · rcases (cand_corner K s X Y v j p a b hv hx hy ha hb).1 hseen with h | h
      · rw [h1] at h
        exact absurd h (by decide)
      · rw [h2] at h
        exact absurd h (by decide)
  · rintro hopen ⟨v, j, p, hv, hj, hp, hreach, hx, hy⟩
    have hon2 : candOn K (cand X Y v j p) := by
      unfold candOn
      rw [hx, hy]
      exact hon
    rw [hspec.hit _ _ (Or.inr ⟨v, j, hv, hj, p, ⟨hp, hreach, hon2,
      (cand_corner K s X Y v j p a b hv hx hy ha hb).2 hopen⟩, hx, hy⟩)]
    exact flagSet_markFlags_visible F da vis _

theorem corner_leniency_witness :
    flagSet ((DoVision upstream upstreamFlags openMap 50 50 10 true true).dFlags
      (50 + 1) (50 + 1)) upstreamFlags.BFLAG_VISIBLE :=
  (corner_leniency upstream upstreamFlags openMap 50 50 10 1 1 true true (by decide)
    (by decide) (by unfold onMap; decide) (by decide)).2 (Or.inl (by decide))
    ⟨0, 11, 0, by decide, by decide, ⟨by decide, by decide⟩, fun q q0 q1 => by omega,
      by decide, by decide⟩

/-- C17 fails for an observer in row `MAXDUNY`: on the 112 x 112 map with every
tile opaque and every flag byte 0, take the observer (50, 112) and the on-map tile
`T = (51, 0) = (50 + 1, 112 - 112)`. Its neighbours on the observer's side,
`N1 = (50, 0)` and `N2 = (51, 1)`, are both opaque, yet `DoVision(50, 112, 10, ..)`
sets the visible bit of `T`: the own-tile block passes the guard `nYPos <= MAXDUNY`
and its write to `dFlags[50][112]` lands in the flag byte of (51, 0). -/
theorem corner_marked_behind_walls :
    onMap upstream 51 0 ∧
      openTile upstream wallMap 50 0 = false ∧ openTile upstream wallMap 51 1 = false ∧
      flagClear (wallMap.dFlags 51 0) upstreamFlags.BFLAG_VISIBLE ∧
      flagSet ((DoVision upstream upstreamFlags wallMap 50 112 10 false false).dFlags 51 0)
        upstreamFlags.BFLAG_VISIBLE := by
  refine ⟨by unfold onMap; decide, rfl, rfl, show flagClear 0 2 by decide, ?_⟩
  rw [DoVision_next_row upstream upstreamFlags wallMap 50 112 10 false false 51 (by decide)
    rfl rfl]
  exact flagSet_markFlags_visible _ _ _ _

/-! ## Vision source manager -/

theorem Vision.eta (s : Vision) :
    ({ s with VisionList := s.VisionList, dovision := s.dovision } : Vision) = s := by
  cases s
  rfl

/-- The loop shared by `ChangeVisionRadius` and `ChangeVisionXY`: every live record
with the given id is rewritten by `g` and the dirty flag is set if there is one. -/
theorem changeLoop_spec (g : LightListStruct → LightListStruct) (id : Int) (s : Vision) :
    forRange 0 s.numvision (fun i s =>
        if (s.VisionList i)._lid = id then
          { s with VisionList := setAt s.VisionList i (g (s.VisionList i)), dovision := true }
        else s) s =
      { s with
        VisionList := fun k =>
          if 0 ≤ k ∧ k < s.numvision ∧ (s.VisionList k)._lid = id then g (s.VisionList k)
          else s.VisionList k
        dovision := (forRange 0 s.numvision (fun i s =>
          if (s.VisionList i)._lid = id then
            { s with VisionList := setAt s.VisionList i (g (s.VisionList i)), dovision := true }
          else s) s).dovision } ∧
    ((forRange 0 s.numvision (fun i s =>
        if (s.VisionList i)._lid = id then
          { s with VisionList := setAt s.VisionList i (g (s.VisionList i)), dovision := true }
        else s) s).dovision = true ↔
      (s.dovision = true ∨ ∃ k, 0 ≤ k ∧ k < s.numvision ∧ (s.VisionList k)._lid = id)) := by
  by_cases hle : 0 ≤ s.numvision
  · have key := forRange_count (fun (i : Int) (u : Vision) =>
        u = { s with
          VisionList := fun k =>
            if 0 ≤ k ∧ k < i ∧ (s.VisionList k)._lid = id then g (s.VisionList k)
            else s.VisionList k
          dovision := u.dovision } ∧
        (u.dovision = true ↔
          (s.dovision = true ∨ ∃ k, 0 ≤ k ∧ k < i ∧ (s.VisionList k)._lid = id)))
      (fun i s =>
        if (s.VisionList i)._lid = id then
          { s with VisionList := setAt s.VisionList i (g (s.VisionList i)), dovision := true }
        else s) 0 s.numvision s hle ?_ ?_
    · exact key
    · intro i i0 i1 u ⟨hu, hd⟩
      have hrec : u.VisionList i = s.VisionList i := by
        rw [hu]
        show (if 0 ≤ i ∧ i < i ∧ (s.VisionList i)._lid = id then g (s.VisionList i)
          else s.VisionList i) = _
        rw [if_neg (by omega)]
      simp only [hrec]
      by_cases hid : (s.VisionList i)._lid = id
      · rw [if_pos hid]
        constructor
        · rw [hu]
          simp only
          congr 1
          funext k
          unfold setAt
          beta_reduce
          by_cases hk : k = i
          · subst hk
            rw [if_pos rfl, if_pos ⟨i0, by omega, hid⟩]
          · rw [if_neg hk]
            by_cases hc : 0 ≤ k ∧ k < i ∧ (s.VisionList k)._lid = id
            · rw [if_pos hc, if_pos ⟨hc.1, by omega, hc.2.2⟩]
            · rw [if_neg hc, if_neg]
              rintro ⟨h1, h2, h3⟩
              exact hc ⟨h1, by omega, h3⟩
        · simp only [true_iff]
          exact Or.inr ⟨i, i0, by omega, hid⟩
      · rw [if_neg hid]
        constructor
        · have e : (fun k => if 0 ≤ k ∧ k < i + 1 ∧ (s.VisionList k)._lid = id
              then g (s.VisionList k) else s.VisionList k) =
              (fun k => if 0 ≤ k ∧ k < i ∧ (s.VisionList k)._lid = id
              then g (s.VisionList k) else s.VisionList k) := by
            funext k
            by_cases hc : 0 ≤ k ∧ k < i ∧ (s.VisionList k)._lid = id
            · rw [if_pos hc, if_pos ⟨hc.1, by omega, hc.2.2⟩]
            · rw [if_neg hc, if_neg]
              rintro ⟨h1, h2, h3⟩
              by_cases hk : k = i
              · subst hk
                exact hid h3
              · exact hc ⟨h1, by omega, h3⟩
          rw [e]
          exact hu
        · rw [hd]
          constructor
          · rintro (h | ⟨k, k0, k1, hk⟩)
            · exact Or.inl h
            · exact Or.inr ⟨k, k0, by omega, hk⟩
          · rintro (h | ⟨k, k0, k1, hk⟩)
            · exact Or.inl h
            · by_cases hki : k = i
              · subst hki
                exact absurd hk hid
              · exact Or.inr ⟨k, k0, by omega, hk⟩
    · constructor
      · have e : (fun k => if 0 ≤ k ∧ k < 0 ∧ (s.VisionList k)._lid = id
            then g (s.VisionList k) else s.VisionList k) = s.VisionList := by
          funext k
          rw [if_neg (by omega)]
        rw [e]
      · constructor
        · exact fun h => Or.inl h
        · rintro (h | ⟨k, k0, k1, _⟩)
          · exact h
          · omega
  · rw [forRange_none _ _ _ _ (by omega)]
    constructor
    · have e : (fun k => if 0 ≤ k ∧ k < s.numvision ∧ (s.VisionList k)._lid = id
          then g (s.VisionList k) else s.VisionList k) = s.VisionList := by
        funext k
        rw [if_neg (by omega)]
      rw [e]
    · constructor
      · exact fun h => Or.inl h
      · rintro (h | ⟨k, k0, k1, _⟩)
        · exact h
        · omega

theorem ChangeVisionRadius_spec (s : Vision) (id r : Int) :
    ChangeVisionRadius s id r =
      { s with
        VisionList := fun k =>
          if 0 ≤ k ∧ k < s.numvision ∧ (s.VisionList k)._lid = id then
            radiusChanged r (s.VisionList k)
          else s.VisionList k
        dovision := (ChangeVisionRadius s id r).dovision } ∧
    ((ChangeVisionRadius s id r).dovision = true ↔
      (s.dovision = true ∨ ∃ k, 0 ≤ k ∧ k < s.numvision ∧ (s.VisionList k)._lid = id)) :=
  changeLoop_spec (radiusChanged r) id s

theorem ChangeVisionXY_vision_spec (s : Vision) (id x y : Int) :
    ChangeVisionXY s id x y =
      { s with
        VisionList := fun k =>
          if 0 ≤ k ∧ k < s.numvision ∧ (s.VisionList k)._lid = id then
            xyChanged x y (s.VisionList k)
          else s.VisionList k
        dovision := (ChangeVisionXY s id x y).dovision } ∧
    ((ChangeVisionXY s id x y).dovision = true ↔
      (s.dovision = true ∨ ∃ k, 0 ≤ k ∧ k < s.numvision ∧ (s.VisionList k)._lid = id)) :=
  changeLoop_spec (xyChanged x y) id s

theorem changed_stale (s t : Vision) (g : LightListStruct → LightListStruct) (id : Int)
    (h : ∀ k, 0 ≤ k → k < s.numvision → (s.VisionList k)._lid ≠ id)
    (h1 : t = { s with
        VisionList := fun k =>
          if 0 ≤ k ∧ k < s.numvision ∧ (s.VisionList k)._lid = id then g (s.VisionList k)
          else s.VisionList k
        dovision := t.dovision })
    (h2 : t.dovision = true ↔
      (s.dovision = true ∨ ∃ k, 0 ≤ k ∧ k < s.numvision ∧ (s.VisionList k)._lid = id)) :
    t = s := by
  have e : (fun k => if 0 ≤ k ∧ k < s.numvision ∧ (s.VisionList k)._lid = id
      then g (s.VisionList k) else s.VisionList k) = s.VisionList := by
    funext k
    rw [if_neg]
    rintro ⟨k0, k1, hk⟩
    exact h k k0 k1 hk
  have hd : t.dovision = s.dovision := by
    cases hs : s.dovision
    · cases ht : t.dovision
      · rfl
      · rcases h2.1 ht with h3 | ⟨k, k0, k1, hk⟩
        · rw [hs] at h3
          exact absurd h3 (by decide)
        · exact absurd hk (h k k0 k1)
    · exact h2.2 (Or.inl hs)
  rw [h1, e, hd]

/-- C23. When the vision pool holds `MAXVISION` sources, `AddVision(x, y, r, mine)`
returns -1 and leaves the whole state (every record, `numvision`, `visionid` and
`dovision`) unchanged. -/
theorem AddVision_full (F : VisionConsts) (s : Vision) (x y r : Int) (mine : Bool)
    (hfull : s.numvision = F.MAXVISION) : AddVision F s x y r mine = (-1, s) := by
  unfold AddVision
  rw [if_neg (by omega)]

theorem AddVision_full_witness : AddVision upstreamFlags fullPool 50 50 10 true = (-1, fullPool) :=
  AddVision_full upstreamFlags fullPool 50 50 10 true rfl

/-- C25. `ChangeVisionRadius(id, r)` and `ChangeVisionXY(id, x, y)` called with an
id that no live vision source has leave the whole state unchanged. In general they
rewrite exactly the live records with that id (previous position and radius
recorded, pending-change flag set, new radius or position stored), set the dirty
flag when there is such a record, and change nothing else. -/
theorem ChangeVision_stale_id (s : Vision) (id r x y : Int) :
    ((∀ k, 0 ≤ k → k < s.numvision → (s.VisionList k)._lid ≠ id) →
      ChangeVisionRadius s id r = s ∧ ChangeVisionXY s id x y = s) ∧
    ChangeVisionRadius s id r =
      { s with
        VisionList := fun k =>
          if 0 ≤ k ∧ k < s.numvision ∧ (s.VisionList k)._lid = id then
            radiusChanged r (s.VisionList k)
          else s.VisionList k
        dovision := (ChangeVisionRadius s id r).dovision } ∧
    ChangeVisionXY s id x y =
      { s with
        VisionList := fun k =>
          if 0 ≤ k ∧ k < s.numvision ∧ (s.VisionList k)._lid = id then
            xyChanged x y (s.VisionList k)
          else s.VisionList k
        dovision := (ChangeVisionXY s id x y).dovision } ∧
    ((∃ k, 0 ≤ k ∧ k < s.numvision ∧ (s.VisionList k)._lid = id) →
      (ChangeVisionRadius s id r).dovision = true ∧ (ChangeVisionXY s id x y).dovision = true) := by
  obtain ⟨r1, r2⟩ := ChangeVisionRadius_spec s id r
  obtain ⟨x1, x2⟩ := ChangeVisionXY_vision_spec s id x y
  refine ⟨fun h => ⟨changed_stale s _ _ id h r1 r2, changed_stale s _ _ id h x1 x2⟩, r1, x1,
    fun h => ⟨r2.2 (Or.inr h), x2.2 (Or.inr h)⟩⟩

theorem ChangeVision_stale_id_witness :
    ChangeVisionRadius oneVision (-1) 3 = oneVision ∧ ChangeVisionXY oneVision (-1) 70 70 = oneVision :=
  (ChangeVision_stale_id oneVision (-1) 3 70 70).1 (fun k k0 k1 => by
    have h1 : k < 1 := k1
    have h0 : k = 0 := by omega
    subst h0
    decide)

/-- The loop `for (i = 0; i < n; i++) TransList[i] = false;`. -/
theorem transLoop_spec (n : Int) (s : Vision) :
    forRange 0 n (fun i s => { s with TransList := setAt s.TransList i false }) s =
      { s with TransList := fun k => if 0 ≤ k ∧ k < n then false else s.TransList k } := by
  by_cases hle : 0 ≤ n
  · refine forRange_count (fun (i : Int) (u : Vision) => u =
      { s with TransList := fun k => if 0 ≤ k ∧ k < i then false else s.TransList k })
      _ 0 n s hle ?_ ?_
    · intro i i0 i1 u hu
      rw [hu]
      simp only
      congr 1
      funext k
      unfold setAt
      beta_reduce
      by_cases hk : k = i
      · subst hk
        rw [if_pos rfl, if_pos ⟨i0, by omega⟩]
      · rw [if_neg hk]
        by_cases hc : 0 ≤ k ∧ k < i
        · rw [if_pos hc, if_pos ⟨hc.1, by omega⟩]
        · rw [if_neg hc, if_neg]
          rintro ⟨h1, h2⟩
          exact hc ⟨h1, by omega⟩
    · have e : (fun k => if 0 ≤ k ∧ k < 0 then false else s.TransList k) = s.TransList := by
        funext k
        rw [if_neg (by omega)]
      show s = _
      rw [e]
  · rw [forRange_none _ _ _ _ (by omega)]
    have e : (fun k => if 0 ≤ k ∧ k < n then false else s.TransList k) = s.TransList := by
      funext k
      rw [if_neg (by omega)]
    rw [e]

theorem InitVision_spec (s : Vision) :
    InitVision s =
      { s with
        numvision := 0, dovision := false, visionid := 1
        TransList := fun k => if 0 ≤ k ∧ k < s.TransVal then false else s.TransList k } := by
  unfold InitVision
  rw [transLoop_spec]

/-! ## Vision: the loops of ProcessVisionList -/

theorem clearBits_idem (f k : Nat) : clearBits (clearBits f k) k = clearBits f k := by
  apply Nat.eq_of_testBit_eq
  intro i
  unfold clearBits
  simp only [Nat.testBit_ldiff]
  cases f.testBit i <;> cases k.testBit i <;> rfl

theorem clearUn_of_clear (l : LightListStruct) (h : l._lunflag = false) : clearUn l = l := by
  cases l
  simp only at h
  subst h
  rfl

/-- One iteration of the undo loop of `ProcessVisionList`. -/
theorem visionUndo_spec (K : Consts) (F : VisionConsts) (i : Int) (s : Vision) :
    VRest s (visionUndo K F i s) ∧
      (visionUndo K F i s).VisionList = setAt s.VisionList i (clearUn (s.VisionList i)) ∧
      ∀ a b, (visionUndo K F i s).dFlags a b =
        if visionUndoArea K (s.VisionList i) a b then
          clearBits (s.dFlags a b) (F.BFLAG_VISIBLE ||| F.BFLAG_LIT)
        else s.dFlags a b := by
  unfold visionUndo
  by_cases hd : (s.VisionList i)._ldel = true <;>
    by_cases hu : (s.VisionList i)._lunflag = true
  · simp only [hd, if_true, DoUnVision_eq, hu]
    refine ⟨⟨rfl, rfl, rfl, rfl, rfl, rfl, rfl, rfl⟩, by unfold clearUn; simp only [hd], ?_⟩
    intro a b
    unfold visionUndoArea
    simp only [hd, hu, true_and]
    by_cases h1 : onMap K a b ∧ inSquare (s.VisionList i).position.tile.x
        (s.VisionList i).position.tile.y ((s.VisionList i)._lradius + 1) a b <;>
      by_cases h2 : onMap K a b ∧ inSquare (s.VisionList i).position.old.x
        (s.VisionList i).position.old.y ((s.VisionList i).oldRadious + 1) a b
    · rw [if_pos h2, if_pos h1, if_pos ⟨h1.1, Or.inl h1.2⟩, clearBits_idem]
    · rw [if_neg h2, if_pos h1, if_pos ⟨h1.1, Or.inl h1.2⟩]
    · rw [if_pos h2, if_neg h1, if_pos ⟨h2.1, Or.inr h2.2⟩]
    · rw [if_neg h2, if_neg h1, if_neg]
      rintro ⟨h3, h4 | h4⟩
      · exact h1 ⟨h3, h4⟩
      · exact h2 ⟨h3, h4⟩
  · have hu2 : (s.VisionList i)._lunflag = false := by
      cases hc : (s.VisionList i)._lunflag
      · rfl
      · exact absurd hc hu
    simp only [hd, if_true, DoUnVision_eq, hu2, Bool.false_eq_true, if_false]
    refine ⟨⟨rfl, rfl, rfl, rfl, rfl, rfl, rfl, rfl⟩, ?_, ?_⟩
    · funext k
      unfold setAt
      by_cases hk : k = i
      · rw [if_pos hk, clearUn_of_clear _ hu2, hk]
      · rw [if_neg hk]
    · intro a b
      unfold visionUndoArea
      simp only [hd, hu2, true_and, Bool.false_eq_true, false_and, or_false]
  · have hd2 : (s.VisionList i)._ldel = false := by
      cases hc : (s.VisionList i)._ldel
      · rfl
      · exact absurd hc hd
    simp only [hd2, Bool.false_eq_true, if_false, DoUnVision_eq, hu, if_true]
    refine ⟨⟨rfl, rfl, rfl, rfl, rfl, rfl, rfl, rfl⟩, by unfold clearUn; simp only [hd2], ?_⟩
    intro a b
    unfold visionUndoArea
    simp only [hd2, hu, true_and, Bool.false_eq_true, false_and, false_or]
  · have hd2 : (s.VisionList i)._ldel = false := by
      cases hc : (s.VisionList i)._ldel
      · rfl
      · exact absurd hc hd
    have hu2 : (s.VisionList i)._lunflag = false := by
      cases hc : (s.VisionList i)._lunflag
      · rfl
      · exact absurd hc hu
    simp only [hd2, hu2, Bool.false_eq_true, if_false]
    refine ⟨⟨rfl, rfl, rfl, rfl, rfl, rfl, rfl, rfl⟩, ?_, ?_⟩
    · funext k
      unfold setAt
      by_cases hk : k = i
      · rw [if_pos hk, clearUn_of_clear _ hu2, hk]
      · rw [if_neg hk]
    · intro a b
      unfold visionUndoArea
      simp only [hd2, hu2, Bool.false_eq_true, false_and, or_false, and_false, if_false]

theorem VRest.restRefl (s : Vision) : VRest s s :=
  ⟨rfl, rfl, rfl, rfl, rfl, rfl, rfl, rfl⟩

theorem VRest.restThen {s t u : Vision} (h1 : VRest s t) (h2 : VRest t u) : VRest s u :=
  ⟨h2.hnumvision.trans h1.hnumvision, h2.hdovision.trans h1.hdovision,
    h2.hvisionid.trans h1.hvisionid, h2.hTransList.trans h1.hTransList,
    h2.hTransVal.trans h1.hTransVal, h2.hdTransVal.trans h1.hdTransVal,
    h2.hdPiece.trans h1.hdPiece, h2.hnBlockTable.trans h1.hnBlockTable⟩

/-- The undo loop of `ProcessVisionList` over the first `n` records: it clears the
pending-change flag of each record and the visible and lit bits of the tiles of
the undo areas, and changes nothing else. -/
theorem visionUndoLoop_spec (K : Consts) (F : VisionConsts) (s : Vision) (n : Int) :
    VRest s (forRange 0 n (visionUndo K F) s) ∧
      (∀ k, (forRange 0 n (visionUndo K F) s).VisionList k =
        if 0 ≤ k ∧ k < n then clearUn (s.VisionList k) else s.VisionList k) ∧
      (∀ a b, (∃ i, 0 ≤ i ∧ i < n ∧ visionUndoArea K (s.VisionList i) a b) →
        (forRange 0 n (visionUndo K F) s).dFlags a b =
          clearBits (s.dFlags a b) (F.BFLAG_VISIBLE ||| F.BFLAG_LIT)) ∧
      (∀ a b, ¬ (∃ i, 0 ≤ i ∧ i < n ∧ visionUndoArea K (s.VisionList i) a b) →
        (forRange 0 n (visionUndo K F) s).dFlags a b = s.dFlags a b) := by
  by_cases hle : 0 ≤ n
  · refine forRange_count (fun (m : Int) (u : Vision) => VRest s u ∧
      (∀ k, u.VisionList k = if 0 ≤ k ∧ k < m then clearUn (s.VisionList k) else s.VisionList k) ∧
      (∀ a b, (∃ i, 0 ≤ i ∧ i < m ∧ visionUndoArea K (s.VisionList i) a b) →
        u.dFlags a b = clearBits (s.dFlags a b) (F.BFLAG_VISIBLE ||| F.BFLAG_LIT)) ∧
      (∀ a b, ¬ (∃ i, 0 ≤ i ∧ i < m ∧ visionUndoArea K (s.VisionList i) a b) →
        u.dFlags a b = s.dFlags a b)) _ 0 n s hle ?_ ?_
    · intro m m0 m1 u ⟨hr, hl, hc, hk⟩
      obtain ⟨sr, sl, sf⟩ := visionUndo_spec K F m u
      have hrec : u.VisionList m = s.VisionList m := by
        rw [hl m, if_neg (by omega)]
      refine ⟨hr.restThen sr, ?_, ?_, ?_⟩
      · intro k
        rw [sl]
        unfold setAt
        by_cases hkm : k = m
        · subst hkm
          rw [if_pos rfl, if_pos ⟨m0, by omega⟩, hrec]
        · rw [if_neg hkm, hl k]
          by_cases hc2 : 0 ≤ k ∧ k < m
          · rw [if_pos hc2, if_pos ⟨hc2.1, by omega⟩]
          · rw [if_neg hc2, if_neg (by omega)]
      · rintro a b ⟨i, i0, i1, hi⟩
        rw [sf a b, hrec]
        by_cases hold : ∃ i, 0 ≤ i ∧ i < m ∧ visionUndoArea K (s.VisionList i) a b
        · rw [hc a b hold]
          by_cases hnow : visionUndoArea K (s.VisionList m) a b
          · rw [if_pos hnow, clearBits_idem]
          · rw [if_neg hnow]
        · rw [hk a b hold]
          have him : i = m := by
            by_contra hne
            exact hold ⟨i, i0, by omega, hi⟩
          rw [him] at hi
          rw [if_pos hi]
      · intro a b hnone
        rw [sf a b, hrec, if_neg (fun hh => hnone ⟨m, m0, by omega, hh⟩)]
        exact hk a b (fun ⟨i, i0, i1, hi⟩ => hnone ⟨i, i0, by omega, hi⟩)
    · refine ⟨VRest.restRefl s, fun k => by rw [if_neg (by omega)], ?_, fun _ _ _ => rfl⟩
      rintro a b ⟨i, i0, i1, _⟩
      omega
  · rw [forRange_none _ _ _ _ (by omega)]
    refine ⟨VRest.restRefl s, fun k => by rw [if_neg (by omega)], ?_, fun _ _ _ => rfl⟩
    rintro a b ⟨i, i0, i1, _⟩
    omega

theorem flagSet_or (f k m : Nat) (h : flagSet f m) : flagSet (f ||| k) m := by
  unfold flagSet at h ⊢
  apply Nat.eq_of_testBit_eq
  intro i
  have hi := congrArg (fun n => n.testBit i) h
  simp only [Nat.testBit_land, Nat.testBit_lor] at hi ⊢
  revert hi
  cases f.testBit i <;> cases m.testBit i <;> cases k.testBit i <;> simp

theorem flagSet_markFlags_grow (F : VisionConsts) (da vis : Bool) (f m : Nat)
    (h : flagSet f m) : flagSet (markFlags F da vis f) m := by
  unfold markFlags
  cases da <;> cases vis <;> simp only [Bool.false_eq_true, if_false, if_true]
  · exact flagSet_or _ _ _ h
  · exact flagSet_or _ _ _ (flagSet_or _ _ _ h)
  · exact flagSet_or _ _ _ (flagSet_or _ _ _ h)
  · exact flagSet_or _ _ _ (flagSet_or _ _ _ (flagSet_or _ _ _ h))

theorem Marked.seen {F : VisionConsts} {da vis : Bool} {s u : Vision}
    {M : Int → Int → Prop} {T : Int → Prop} (h : Marked F da vis s u M T) :
    Seen F s u M (fun a b => da = true ∧ M a b) := by
  refine ⟨h.frame, ?_, ?_, h.miss, ?_⟩
  · intro a b hm
    rw [h.hit a b hm]
    exact flagSet_markFlags_visible F da vis _
  · rintro a b ⟨hda, hm⟩
    rw [h.hit a b hm, hda]
    exact flagSet_markFlags_explored F vis _
  · intro a b m hm
    by_cases hM : M a b
    · rw [h.hit a b hM]
      exact flagSet_markFlags_grow F da vis _ _ hm
    · rw [h.miss a b hM]
      exact hm

theorem Seen.seenRefl (F : VisionConsts) (s : Vision) :
    Seen F s s (fun _ _ => False) (fun _ _ => False) :=
  ⟨VFrame.frameRefl s, fun _ _ h => h.elim, fun _ _ h => h.elim, fun _ _ _ => rfl,
    fun _ _ _ h => h⟩

theorem Seen.seenIff {F : VisionConsts} {s u : Vision} {M M2 MP MP2 : Int → Int → Prop}
    (h : Seen F s u M MP) (hM : ∀ a b, M a b ↔ M2 a b) (hP : ∀ a b, MP a b ↔ MP2 a b) :
    Seen F s u M2 MP2 :=
  ⟨h.frame, fun a b hm => h.hit a b ((hM a b).2 hm), fun a b hm => h.hitP a b ((hP a b).2 hm),
    fun a b hm => h.miss a b (fun hh => hm ((hM a b).1 hh)), h.grow⟩

theorem Seen.seenThen {F : VisionConsts} {s u w : Vision} {M M2 MP MP2 : Int → Int → Prop}
    (h1 : Seen F s u M MP) (h2 : Seen F u w M2 MP2) :
    Seen F s w (fun a b => M a b ∨ M2 a b) (fun a b => MP a b ∨ MP2 a b) := by
  refine ⟨h1.frame.frameThen h2.frame, ?_, ?_, ?_, ?_⟩
  · rintro a b (hm | hm)
    · exact h2.grow a b _ (h1.hit a b hm)
    · exact h2.hit a b hm
  · rintro a b (hm | hm)
    · exact h2.grow a b _ (h1.hitP a b hm)
    · exact h2.hitP a b hm
  · intro a b hm
    rw [h2.miss a b (fun hh => hm (Or.inr hh)), h1.miss a b (fun hh => hm (Or.inl hh))]
  · intro a b m hm
    exact h2.grow a b m (h1.grow a b m hm)

theorem Seen_forRange (F : VisionConsts) (s : Vision) (lo hi : Int)
    (body : Int → Vision → Vision) (M MP : Int → Int → Int → Prop)
    (h : ∀ i, lo ≤ i → i < hi → ∀ u, VFrame s u → Seen F u (body i u) (M i) (MP i)) :
    Seen F s (forRange lo hi body s) (fun a b => ∃ i, lo ≤ i ∧ i < hi ∧ M i a b)
      (fun a b => ∃ i, lo ≤ i ∧ i < hi ∧ MP i a b) := by
  by_cases hle : lo ≤ hi
  · have key := forRange_count (fun (n : Int) (u : Vision) =>
        Seen F s u (fun a b => ∃ i, lo ≤ i ∧ i < n ∧ i < hi ∧ M i a b)
          (fun a b => ∃ i, lo ≤ i ∧ i < n ∧ i < hi ∧ MP i a b)) body lo hi s hle ?_ ?_
    · exact key.seenIff
        (fun a b => ⟨fun ⟨i, i0, _, i1, hm⟩ => ⟨i, i0, i1, hm⟩,
          fun ⟨i, i0, i1, hm⟩ => ⟨i, i0, i1, i1, hm⟩⟩)
        (fun a b => ⟨fun ⟨i, i0, _, i1, hm⟩ => ⟨i, i0, i1, hm⟩,
          fun ⟨i, i0, i1, hm⟩ => ⟨i, i0, i1, i1, hm⟩⟩)
    · intro n n0 n1 u hu
      refine (hu.seenThen (h n n0 n1 u hu.frame)).seenIff ?_ ?_
      · intro a b
        constructor
        · rintro (⟨i, i0, i1, i2, hm⟩ | hm)
          · exact ⟨i, i0, by omega, i2, hm⟩
          · exact ⟨n, n0, by omega, n1, hm⟩
        · rintro ⟨i, i0, i1, i2, hm⟩
          by_cases hin : i = n
          · subst hin
            exact Or.inr hm
          · exact Or.inl ⟨i, i0, by omega, i2, hm⟩
      · intro a b
        constructor
        · rintro (⟨i, i0, i1, i2, hm⟩ | hm)
          · exact ⟨i, i0, by omega, i2, hm⟩
          · exact ⟨n, n0, by omega, n1, hm⟩
        · rintro ⟨i, i0, i1, i2, hm⟩
          by_cases hin : i = n
          · subst hin
            exact Or.inr hm
          · exact Or.inl ⟨i, i0, by omega, i2, hm⟩
    · exact (Seen.seenRefl F s).seenIff
        (fun a b => ⟨fun h => h.elim, fun ⟨i, i0, i1, _⟩ => by omega⟩)
        (fun a b => ⟨fun h => h.elim, fun ⟨i, i0, i1, _⟩ => by omega⟩)
  · rw [forRange_none _ _ _ _ (by omega)]
    exact (Seen.seenRefl F s).seenIff
      (fun a b => ⟨fun h => h.elim, fun ⟨i, i0, i1, _⟩ => by omega⟩)
      (fun a b => ⟨fun h => h.elim, fun ⟨i, i0, i1, _⟩ => by omega⟩)

theorem VFrame.visMarks {s u : Vision} (h : VFrame s u) (K : Consts) (X Y r a b : Int) :
    visMarks K u X Y r a b ↔ visMarks K s X Y r a b := by
  have e1 : Devilution.blocker u = Devilution.blocker s := by
    funext x y
    exact h.blocker x y
  have e2 : Devilution.openTile K u = Devilution.openTile K s := by
    funext x y
    exact h.openTile K x y
  unfold Devilution.visMarks walkMarks stepMarks candBlocks candSeen
  rw [e1, e2]

/-- The reapply loop of `ProcessVisionList` over the first `n` records. -/
theorem visionApplyLoop_spec (K : Consts) (F : VisionConsts) (s : Vision) (n : Int) :
    Seen F s (forRange 0 n (visionApply K F) s)
      (fun a b => ∃ i, 0 ≤ i ∧ i < n ∧ (s.VisionList i)._ldel = false ∧
        visMarks K s (s.VisionList i).position.tile.x (s.VisionList i).position.tile.y
          (s.VisionList i)._lradius a b)
      (fun a b => ∃ i, 0 ≤ i ∧ i < n ∧ (s.VisionList i)._ldel = false ∧
        (s.VisionList i)._lflags = true ∧
        visMarks K s (s.VisionList i).position.tile.x (s.VisionList i).position.tile.y
          (s.VisionList i)._lradius a b) := by
  refine Seen_forRange F s 0 n (visionApply K F)
    (fun i a b => (s.VisionList i)._ldel = false ∧
      visMarks K s (s.VisionList i).position.tile.x (s.VisionList i).position.tile.y
        (s.VisionList i)._lradius a b)
    (fun i a b => (s.VisionList i)._ldel = false ∧ (s.VisionList i)._lflags = true ∧
      visMarks K s (s.VisionList i).position.tile.x (s.VisionList i).position.tile.y
        (s.VisionList i)._lradius a b) ?_
  intro i _ _ u hu
  unfold visionApply
  rw [hu.hVisionList]
  by_cases hd : (s.VisionList i)._ldel = false
  · rw [if_pos (by rw [hd]; rfl)]
    refine (DoVision_spec K F u _ _ _ _ _).seen.seenIff ?_ ?_
    · intro a b
      rw [hu.visMarks]
      exact ⟨fun hh => ⟨hd, hh⟩, fun hh => hh.2⟩
    · intro a b
      rw [hu.visMarks]
      exact ⟨fun hh => ⟨hd, hh.1, hh.2⟩, fun hh => ⟨hh.2.1, hh.2.2⟩⟩
  · have hd2 : (s.VisionList i)._ldel = true := by
      cases hc : (s.VisionList i)._ldel
      · exact absurd hc hd
      · rfl
    rw [if_neg (by rw [hd2]; decide)]
    exact (Seen.seenRefl F u).seenIff (fun a b => ⟨fun hh => hh.elim, fun hh => hd hh.1⟩)
      (fun a b => ⟨fun hh => hh.elim, fun hh => hd hh.1⟩)

theorem visionCompactPass_none :
    ∀ (fuel : Nat) (i : Int) (d : Bool) (s : Vision),
      (∀ k, i ≤ k → k < s.numvision → (s.VisionList k)._ldel = false) →
      visionCompactPass fuel i d s = (d, s)
  | 0, _, _, _, _ => rfl
  | fuel + 1, i, d, s, h => by
    unfold visionCompactPass
    by_cases hi : i < s.numvision
    · rw [if_pos hi, h i (le_refl _) hi, if_neg Bool.false_ne_true]
      exact visionCompactPass_none fuel (i + 1) d s (fun k k0 k1 => h k (by omega) k1)
    · rw [if_neg hi]

theorem visionCompact_none (fuel : Nat) (s : Vision)
    (h : ∀ k, 0 ≤ k → k < s.numvision → (s.VisionList k)._ldel = false) :
    visionCompact (fuel + 1) s = s := by
  unfold visionCompact
  simp only [visionCompactPass_none _ 0 false s h, Bool.false_eq_true, if_false]

/-! ## Vision: ProcessVisionList -/

theorem visMarks_static (K : Consts) (s u : Vision) (hP : u.dPiece = s.dPiece)
    (hB : u.nBlockTable = s.nBlockTable) (X Y r a b : Int) :
    visMarks K u X Y r a b ↔ visMarks K s X Y r a b := by
  have e1 : blocker u = blocker s := by
    funext x y
    unfold blocker
    rw [hP, hB]
  have e2 : openTile K u = openTile K s := by
    funext x y
    unfold openTile
    rw [hP, hB]
  unfold visMarks walkMarks stepMarks candBlocks candSeen
  rw [e1, e2]

theorem AddVision_spec (F : VisionConsts) (s : Vision) (x y r : Int) (mine : Bool)
    (hroom : s.numvision < F.MAXVISION) :
    (AddVision F s x y r mine).1 = s.visionid ∧
      (AddVision F s x y r mine).2 =
        { s with
          VisionList := setAt s.VisionList s.numvision
            { s.VisionList s.numvision with
              position := { (s.VisionList s.numvision).position with tile := ⟨x, y⟩ }
              _lradius := r, _lid := s.visionid, _ldel := false, _lunflag := false
              _lflags := mine }
          visionid := s.visionid + 1
          numvision := s.numvision + 1
          dovision := true } := by
  unfold AddVision
  rw [if_pos hroom]
  exact ⟨rfl, rfl⟩

theorem ProcessVisionList_idle (K : Consts) (F : VisionConsts) (s : Vision)
    (hd : s.dovision = false) : ProcessVisionList K F s = s := by
  unfold ProcessVisionList
  rw [hd, if_neg Bool.false_ne_true]
  cases s
  simp only at hd
  subst hd
  rfl

/-- `ProcessVisionList` on a dirty pool without pending-delete sources. -/
theorem ProcessVisionList_dirty_spec (K : Consts) (F : VisionConsts) (s : Vision)
    (hd : s.dovision = true)
    (hlive : ∀ k, 0 ≤ k → k < s.numvision → (s.VisionList k)._ldel = false) :
    ((ProcessVisionList K F s).numvision = s.numvision ∧
      (ProcessVisionList K F s).visionid = s.visionid ∧
      (ProcessVisionList K F s).dovision = false ∧
      (ProcessVisionList K F s).dPiece = s.dPiece ∧
      (ProcessVisionList K F s).nBlockTable = s.nBlockTable ∧
      (ProcessVisionList K F s).dTransVal = s.dTransVal ∧
      (ProcessVisionList K F s).TransVal = s.TransVal) ∧
    (∀ k, (ProcessVisionList K F s).VisionList k =
      if 0 ≤ k ∧ k < s.numvision then clearUn (s.VisionList k) else s.VisionList k) ∧
    (∀ a b, nowMarked K s a b →
      flagSet ((ProcessVisionList K F s).dFlags a b) F.BFLAG_VISIBLE) ∧
    (∀ a b, nowExplored K s a b →
      flagSet ((ProcessVisionList K F s).dFlags a b) F.BFLAG_EXPLORED) ∧
    (∀ a b, ¬ nowMarked K s a b → visionUndone K s a b →
      (ProcessVisionList K F s).dFlags a b =
        clearBits (s.dFlags a b) (F.BFLAG_VISIBLE ||| F.BFLAG_LIT)) ∧
    (∀ a b, ¬ nowMarked K s a b → ¬ visionUndone K s a b →
      (ProcessVisionList K F s).dFlags a b = s.dFlags a b) := by
  unfold ProcessVisionList
  rw [if_pos hd]
  dsimp only
  obtain ⟨u1, u2, u3, u4⟩ := visionUndoLoop_spec K F s s.numvision
  generalize forRange 0 s.numvision (visionUndo K F) s = s1 at *
  rw [transLoop_spec]
  generalize hs2 : ({ s1 with TransList := fun k =>
    if 0 ≤ k ∧ k < s1.TransVal then false else s1.TransList k } : Vision) = s2
  have f2 : VFrame s1 s2 := by
    rw [← hs2]
    exact ⟨rfl, rfl, rfl, rfl, rfl, rfl, rfl, rfl⟩
  have d2 : s2.dFlags = s1.dFlags := by rw [← hs2]
  have a3 := visionApplyLoop_spec K F s2 s2.numvision
  generalize forRange 0 s2.numvision (visionApply K F) s2 = s3 at *
  have f3 : VFrame s1 s3 := f2.frameThen a3.frame
  have hrec : ∀ k, s3.VisionList k =
      if 0 ≤ k ∧ k < s.numvision then clearUn (s.VisionList k) else s.VisionList k := by
    intro k
    rw [f3.hVisionList]
    exact u2 k
  have hn3 : s3.numvision = s.numvision := by rw [f3.hnumvision, u1.hnumvision]
  have hlive3 : ∀ k, 0 ≤ k → k < s3.numvision → (s3.VisionList k)._ldel = false := by
    intro k k0 k1
    rw [hrec k, if_pos ⟨k0, by omega⟩]
    exact hlive k k0 (by omega)
  rw [visionCompact_none _ s3 hlive3]
  have hn2 : s2.numvision = s.numvision := f2.hnumvision.trans u1.hnumvision
  have hfld : ∀ i, 0 ≤ i → i < s.numvision → s2.VisionList i = clearUn (s.VisionList i) := by
    intro i i0 i1
    rw [f2.hVisionList, u2 i, if_pos ⟨i0, i1⟩]
  have hst : ∀ X Y r a b, visMarks K s2 X Y r a b ↔ visMarks K s X Y r a b :=
    visMarks_static K s s2 (f2.hdPiece.trans u1.hdPiece) (f2.hnBlockTable.trans u1.hnBlockTable)
  have hM : ∀ a b, (∃ i, 0 ≤ i ∧ i < s2.numvision ∧ (s2.VisionList i)._ldel = false ∧
      visMarks K s2 (s2.VisionList i).position.tile.x (s2.VisionList i).position.tile.y
        (s2.VisionList i)._lradius a b) ↔ nowMarked K s a b := by
    intro a b
    unfold nowMarked
    constructor
    · rintro ⟨i, i0, i1, _, hm⟩
      rw [hn2] at i1
      rw [hfld i i0 i1, hst] at hm
      exact ⟨i, i0, i1, hm⟩
    · rintro ⟨i, i0, i1, hm⟩
      refine ⟨i, i0, by omega, ?_, ?_⟩
      · rw [hfld i i0 i1]
        exact hlive i i0 i1
      · rw [hfld i i0 i1, hst]
        exact hm
  have hMP : ∀ a b, (∃ i, 0 ≤ i ∧ i < s2.numvision ∧ (s2.VisionList i)._ldel = false ∧
      (s2.VisionList i)._lflags = true ∧
      visMarks K s2 (s2.VisionList i).position.tile.x (s2.VisionList i).position.tile.y
        (s2.VisionList i)._lradius a b) ↔ nowExplored K s a b := by
    intro a b
    unfold nowExplored
    constructor
    · rintro ⟨i, i0, i1, _, hp, hm⟩
      rw [hn2] at i1
      rw [hfld i i0 i1] at hp
      rw [hfld i i0 i1, hst] at hm
      exact ⟨i, i0, i1, hp, hm⟩
    · rintro ⟨i, i0, i1, hp, hm⟩
      refine ⟨i, i0, by omega, ?_, ?_, ?_⟩
      · rw [hfld i i0 i1]
        exact hlive i i0 i1
      · rw [hfld i i0 i1]
        exact hp
      · rw [hfld i i0 i1, hst]
        exact hm
  have a4 := a3.seenIff hM hMP
  refine ⟨⟨hn3, f3.hvisionid.trans u1.hvisionid, rfl, f3.hdPiece.trans u1.hdPiece,
    f3.hnBlockTable.trans u1.hnBlockTable, f3.hdTransVal.trans u1.hdTransVal,
    f3.hTransVal.trans u1.hTransVal⟩, hrec, a4.hit, a4.hitP, ?_, ?_⟩
  · intro a b hnm hun
    show s3.dFlags a b = _
    rw [a4.miss a b hnm, d2]
    exact u3 a b hun
  · intro a b hnm hun
    show s3.dFlags a b = _
    rw [a4.miss a b hnm, d2]
    exact u4 a b hun

/-! ## Vision ids -/

theorem IdInv_InitVision (s : Vision) : IdInv (InitVision s) := by
  rw [InitVision_spec]
  exact ⟨le_refl _, fun i i0 i1 => absurd i1 (by show ¬ i < 0; omega),
    fun i i0 i1 => absurd i1 (by show ¬ i < 0; omega),
    fun i k i0 i1 => absurd i1 (by show ¬ i < 0; omega)⟩

theorem IdInv_AddVision (F : VisionConsts) (s : Vision) (x y r : Int) (mine : Bool)
    (h : IdInv s) : IdInv (AddVision F s x y r mine).2 := by
  by_cases hroom : s.numvision < F.MAXVISION
  · rw [(AddVision_spec F s x y r mine hroom).2]
    have hn := h.hn
    have hrec : ∀ i, i ≠ s.numvision → setAt s.VisionList s.numvision
        { s.VisionList s.numvision with
          position := { (s.VisionList s.numvision).position with tile := ⟨x, y⟩ }
          _lradius := r, _lid := s.visionid, _ldel := false, _lunflag := false
          _lflags := mine } i = s.VisionList i := by
      intro i hi
      unfold setAt
      rw [if_neg hi]
    have hnew : setAt s.VisionList s.numvision
        { s.VisionList s.numvision with
          position := { (s.VisionList s.numvision).position with tile := ⟨x, y⟩ }
          _lradius := r, _lid := s.visionid, _ldel := false, _lunflag := false
          _lflags := mine } s.numvision =
        { s.VisionList s.numvision with
          position := { (s.VisionList s.numvision).position with tile := ⟨x, y⟩ }
          _lradius := r, _lid := s.visionid, _ldel := false, _lunflag := false
          _lflags := mine } := by
      unfold setAt
      rw [if_pos rfl]
    refine ⟨?_, ?_, ?_, ?_⟩
    · show 0 ≤ s.numvision + 1
      omega
    · intro i i0 i1
      have i1 : i < s.numvision + 1 := i1
      show (setAt s.VisionList s.numvision _ i)._ldel = false
      by_cases hi : i = s.numvision
      · rw [hi, hnew]
      · rw [hrec i hi]
        exact h.hlive i i0 (by omega)
    · intro i i0 i1
      have i1 : i < s.numvision + 1 := i1
      show (setAt s.VisionList s.numvision _ i)._lid < s.visionid + 1
      by_cases hi : i = s.numvision
      · rw [hi, hnew]
        show s.visionid < s.visionid + 1
        omega
      · rw [hrec i hi]
        have := h.hid i i0 (by omega)
        omega
    · intro i k i0 i1 k0 k1
      have i1 : i < s.numvision + 1 := i1
      have k1 : k < s.numvision + 1 := k1
      show (setAt s.VisionList s.numvision _ i)._lid = (setAt s.VisionList s.numvision _ k)._lid → _
      by_cases hi : i = s.numvision <;> by_cases hk : k = s.numvision
      · intro _
        omega
      · rw [hi, hnew, hrec k hk]
        intro he
        have := h.hid k k0 (by omega)
        have he : s.visionid = (s.VisionList k)._lid := he
        omega
      · rw [hk, hnew, hrec i hi]
        intro he
        have := h.hid i i0 (by omega)
        have he : (s.VisionList i)._lid = s.visionid := he
        omega
      · rw [hrec i hi, hrec k hk]
        exact h.huniq i k i0 (by omega) k0 (by omega)
  · have e : AddVision F s x y r mine = (-1, s) := by
      unfold AddVision
      rw [if_neg hroom]
    rw [e]
    exact h

/-- A state whose records differ from those of `s` only in fields other than the
id and the pending-delete flag, with the same number of sources and id counter,
keeps the invariant of the ids. -/
theorem IdInv_of_same_ids (s t : Vision) (h : IdInv s) (hn : t.numvision = s.numvision)
    (hv : t.visionid = s.visionid)
    (hl : ∀ k, (t.VisionList k)._lid = (s.VisionList k)._lid ∧
      (t.VisionList k)._ldel = (s.VisionList k)._ldel) : IdInv t := by
  refine ⟨by rw [hn]; exact h.hn, ?_, ?_, ?_⟩
  · intro i i0 i1
    rw [(hl i).2]
    exact h.hlive i i0 (by omega)
  · intro i i0 i1
    rw [(hl i).1, hv]
    exact h.hid i i0 (by omega)
  · intro i k i0 i1 k0 k1
    rw [(hl i).1, (hl k).1]
    exact h.huniq i k i0 (by omega) k0 (by omega)

theorem IdInv_ChangeVisionRadius (s : Vision) (id r : Int) (h : IdInv s) :
    IdInv (ChangeVisionRadius s id r) ∧ (ChangeVisionRadius s id r).visionid = s.visionid := by
  have e := (ChangeVisionRadius_spec s id r).1
  generalize ChangeVisionRadius s id r = t at e ⊢
  have hvid : t.visionid = s.visionid := by rw [e]
  refine ⟨IdInv_of_same_ids s t h (by rw [e]) hvid ?_, hvid⟩
  intro k
  rw [e]
  show (if 0 ≤ k ∧ k < s.numvision ∧ (s.VisionList k)._lid = id then
    radiusChanged r (s.VisionList k) else s.VisionList k)._lid = _ ∧
    (if 0 ≤ k ∧ k < s.numvision ∧ (s.VisionList k)._lid = id then
    radiusChanged r (s.VisionList k) else s.VisionList k)._ldel = _
  split_ifs
  · exact ⟨rfl, rfl⟩
  · exact ⟨rfl, rfl⟩

theorem IdInv_ChangeVisionXY (s : Vision) (id x y : Int) (h : IdInv s) :
    IdInv (ChangeVisionXY s id x y) ∧ (ChangeVisionXY s id x y).visionid = s.visionid := by
  have e := (ChangeVisionXY_vision_spec s id x y).1
  generalize ChangeVisionXY s id x y = t at e ⊢
  have hvid : t.visionid = s.visionid := by rw [e]
  refine ⟨IdInv_of_same_ids s t h (by rw [e]) hvid ?_, hvid⟩
  intro k
  rw [e]
  show (if 0 ≤ k ∧ k < s.numvision ∧ (s.VisionList k)._lid = id then
    xyChanged x y (s.VisionList k) else s.VisionList k)._lid = _ ∧
    (if 0 ≤ k ∧ k < s.numvision ∧ (s.VisionList k)._lid = id then
    xyChanged x y (s.VisionList k) else s.VisionList k)._ldel = _
  split_ifs
  · exact ⟨rfl, rfl⟩
  · exact ⟨rfl, rfl⟩

theorem IdInv_ProcessVisionList (K : Consts) (F : VisionConsts) (s : Vision) (h : IdInv s) :
    IdInv (ProcessVisionList K F s) ∧ (ProcessVisionList K F s).visionid = s.visionid := by
  by_cases hd : s.dovision = true
  · obtain ⟨⟨p1, p2, _⟩, p3, _⟩ := ProcessVisionList_dirty_spec K F s hd h.hlive
    refine ⟨IdInv_of_same_ids s _ h p1 p2 ?_, p2⟩
    intro k
    rw [p3 k]
    split_ifs
    · exact ⟨rfl, rfl⟩
    · exact ⟨rfl, rfl⟩
  · have hd2 : s.dovision = false := by
      cases hc : s.dovision
      · rfl
      · exact absurd hc hd
    rw [ProcessVisionList_idle K F s hd2]
    exact ⟨h, rfl⟩

theorem IdInv_run (K : Consts) (F : VisionConsts) (s : Vision) (op : VisionOp) (h : IdInv s) :
    IdInv (op.run K F s) := by
  cases op with
  | addVision x y r mine => exact IdInv_AddVision F s x y r mine h
  | changeVisionRadius id r => exact (IdInv_ChangeVisionRadius s id r h).1
  | changeVisionXY id x y => exact (IdInv_ChangeVisionXY s id x y h).1
  | processVisionList => exact (IdInv_ProcessVisionList K F s h).1

theorem IdInv_of_reach (K : Consts) (F : VisionConsts) (ok : Vision → VisionOp → Prop)
    (s0 s : Vision) (h : VisionReach K F ok s0 s) : IdInv s := by
  induction h with
  | init => exact IdInv_InitVision s0
  | step s op _ _ ih => exact IdInv_run K F s op ih

/-- The ids returned by the successful `AddVision` calls of a run count up from the
id counter of the state in which the run starts. -/
theorem visionIds_count (K : Consts) (F : VisionConsts) :
    ∀ (ops : List VisionOp) (s : Vision), IdInv s →
      visionIds K F s ops =
        (List.range (visionIds K F s ops).length).map (fun (k : Nat) => s.visionid + (k : Int))
  | [], s, _ => rfl
  | .addVision x y r mine :: ops, s, h => by
    have ih := visionIds_count K F ops (AddVision F s x y r mine).2
      (IdInv_AddVision F s x y r mine h)
    unfold visionIds
    by_cases hroom : s.numvision < F.MAXVISION
    · rw [if_pos hroom]
      have e1 := (AddVision_spec F s x y r mine hroom).1
      have e2 : (AddVision F s x y r mine).2.visionid = s.visionid + 1 := by
        rw [(AddVision_spec F s x y r mine hroom).2]
      rw [e2] at ih
      rw [e1, List.length_cons, List.range_succ_eq_map, List.map_cons, List.map_map]
      congr 1
      · simp
      · refine ih.trans ?_
        apply List.map_congr_left
        intro k _
        simp only [Function.comp]
        push_cast
        ring
    · rw [if_neg hroom]
      have e : AddVision F s x y r mine = (-1, s) := by
        unfold AddVision
        rw [if_neg hroom]
      rw [e] at ih ⊢
      exact ih
  | .changeVisionRadius id r :: ops, s, h => by
    have ih := visionIds_count K F ops _ (IdInv_ChangeVisionRadius s id r h).1
    rw [(IdInv_ChangeVisionRadius s id r h).2] at ih
    unfold visionIds
    exact ih
  | .changeVisionXY id x y :: ops, s, h => by
    have ih := visionIds_count K F ops _ (IdInv_ChangeVisionXY s id x y h).1
    rw [(IdInv_ChangeVisionXY s id x y h).2] at ih
    unfold visionIds
    exact ih
  | .processVisionList :: ops, s, h => by
    have ih := visionIds_count K F ops _ (IdInv_ProcessVisionList K F s h).1
    rw [(IdInv_ProcessVisionList K F s h).2] at ih
    unfold visionIds
    exact ih

/-- C24. `InitVision` sets the id counter to 1; a successful `AddVision` returns
the current value of `visionid` and increments it, a failed one returns -1 and
changes nothing; `ChangeVisionRadius`, `ChangeVisionXY` and `ProcessVisionList`
keep the counter. Hence the ids returned by the successful `AddVision` calls of
any sequence of calls after `InitVision` are 1, 2, 3, ... in this order, and in
every state reachable from `InitVision` by these four calls no two live vision
sources have the same id. -/
theorem vision_ids_unique (K : Consts) (F : VisionConsts) (s0 s : Vision)
    (ops : List VisionOp) (hreach : VisionReach K F (fun _ _ => True) s0 s) :
    (InitVision s0).visionid = 1 ∧
    (∀ x y r mine,
      (s.numvision < F.MAXVISION →
        (AddVision F s x y r mine).1 = s.visionid ∧
          (AddVision F s x y r mine).2.visionid = s.visionid + 1) ∧
      (¬ s.numvision < F.MAXVISION → AddVision F s x y r mine = (-1, s))) ∧
    (∀ id r x y, (ChangeVisionRadius s id r).visionid = s.visionid ∧
      (ChangeVisionXY s id x y).visionid = s.visionid) ∧
    (ProcessVisionList K F s).visionid = s.visionid ∧
    visionIds K F (InitVision s0) ops =
      (List.range (visionIds K F (InitVision s0) ops).length).map
        (fun (k : Nat) => 1 + (k : Int)) ∧
    (∀ i k, 0 ≤ i → i < s.numvision → 0 ≤ k → k < s.numvision →
      (s.VisionList i)._lid = (s.VisionList k)._lid → i = k) := by
  have hinv := IdInv_of_reach K F _ s0 s hreach
  have h1 : (InitVision s0).visionid = 1 := by rw [InitVision_spec]
  refine ⟨h1, ?_, ?_, (IdInv_ProcessVisionList K F s hinv).2, ?_, hinv.huniq⟩
  · intro x y r mine
    constructor
    · intro hroom
      refine ⟨(AddVision_spec F s x y r mine hroom).1, ?_⟩
      rw [(AddVision_spec F s x y r mine hroom).2]
    · intro hroom
      unfold AddVision
      rw [if_neg hroom]
  · intro id r x y
    exact ⟨(IdInv_ChangeVisionRadius s id r hinv).2, (IdInv_ChangeVisionXY s id x y hinv).2⟩
  · have := visionIds_count K F ops (InitVision s0) (IdInv_InitVision s0)
    rw [h1] at this
    exact this

theorem vision_ids_unique_witness :
    visionIds upstream upstreamFlags (InitVision openMap)
        [VisionOp.addVision 50 50 10 true, VisionOp.processVisionList,
          VisionOp.addVision 60 60 5 false] =
      (List.range (visionIds upstream upstreamFlags (InitVision openMap)
        [VisionOp.addVision 50 50 10 true, VisionOp.processVisionList,
          VisionOp.addVision 60 60 5 false]).length).map (fun (k : Nat) => 1 + (k : Int)) :=
  (vision_ids_unique upstream upstreamFlags openMap
    ((VisionOp.addVision 50 50 10 true).run upstream upstreamFlags (InitVision openMap))
    [VisionOp.addVision 50 50 10 true, VisionOp.processVisionList,
      VisionOp.addVision 60 60 5 false]
    (VisionReach.step _ (VisionOp.addVision 50 50 10 true) VisionReach.init True.intro)).2.2.2.2.1

/-! ## Vision: the invariant of ProcessVisionList -/

theorem shownMarked_congr (K : Consts) (s t : Vision) (m : Int)
    (hP : t.dPiece = s.dPiece) (hB : t.nBlockTable = s.nBlockTable)
    (hl : ∀ i, 0 ≤ i → i < m → shown (t.VisionList i) = shown (s.VisionList i)) (a b : Int) :
    shownMarked K t m a b ↔ shownMarked K s m a b := by
  unfold shownMarked
  constructor
  · rintro ⟨i, i0, i1, h⟩
    rw [hl i i0 i1, visMarks_static K s t hP hB] at h
    exact ⟨i, i0, i1, h⟩
  · rintro ⟨i, i0, i1, h⟩
    refine ⟨i, i0, i1, ?_⟩
    rw [hl i i0 i1, visMarks_static K s t hP hB]
    exact h

theorem VisInv_InitVision (K : Consts) (F : VisionConsts) (s : Vision)
    (h0 : ∀ a b, onMap K a b → flagClear (s.dFlags a b) F.BFLAG_VISIBLE) :
    VisInv K F (InitVision s) 0 := by
  have hi := IdInv_InitVision s
  rw [InitVision_spec] at hi ⊢
  refine ⟨hi, le_refl _, le_refl _, fun i i0 i1 => absurd i1 (by show ¬ i < 0; omega),
    fun i i0 i1 => absurd i1 (by omega), ?_, fun a b hon _ => h0 a b hon,
    fun _ => ⟨rfl, fun i i0 i1 => absurd i1 (by show ¬ i < 0; omega)⟩⟩
  rintro a b _ ⟨i, i0, i1, _⟩
  omega

theorem AddVision_fields (F : VisionConsts) (s : Vision) (x y r : Int) (mine : Bool)
    (hroom : s.numvision < F.MAXVISION) :
    (AddVision F s x y r mine).2.numvision = s.numvision + 1 ∧
      (AddVision F s x y r mine).2.dovision = true ∧
      (AddVision F s x y r mine).2.dFlags = s.dFlags ∧
      (AddVision F s x y r mine).2.dPiece = s.dPiece ∧
      (AddVision F s x y r mine).2.nBlockTable = s.nBlockTable ∧
      (∀ i, i ≠ s.numvision → (AddVision F s x y r mine).2.VisionList i = s.VisionList i) ∧
      ((AddVision F s x y r mine).2.VisionList s.numvision).position.tile = ⟨x, y⟩ ∧
      ((AddVision F s x y r mine).2.VisionList s.numvision)._lradius = r ∧
      ((AddVision F s x y r mine).2.VisionList s.numvision)._lunflag = false ∧
      ((AddVision F s x y r mine).2.VisionList s.numvision)._lflags = mine := by
  rw [(AddVision_spec F s x y r mine hroom).2]
  refine ⟨rfl, rfl, rfl, rfl, rfl, ?_, ?_, ?_, ?_, ?_⟩
  · intro i hi
    show setAt s.VisionList s.numvision _ i = _
    unfold setAt
    rw [if_neg hi]
  all_goals simp [setAt]

theorem VisInv_AddVision (K : Consts) (F : VisionConsts) (s : Vision) (m : Int)
    (h : VisInv K F s m) (x y r : Int) (mine : Bool) (hr : 0 ≤ r ∧ r ≤ 15) :
    VisInv K F (AddVision F s x y r mine).2 m := by
  have hi := IdInv_AddVision F s x y r mine h.hid
  by_cases hroom : s.numvision < F.MAXVISION
  · obtain ⟨t1, t2, t3, t4, t5, t6, _, t8, _, _⟩ := AddVision_fields F s x y r mine hroom
    generalize (AddVision F s x y r mine).2 = t at *
    have hmn := h.hmn
    have hsm : ∀ a b, shownMarked K t m a b ↔ shownMarked K s m a b := by
      intro a b
      apply shownMarked_congr K s t m t4 t5
      intro i i0 i1
      rw [t6 i (by omega)]
    refine ⟨hi, h.hm0, by omega, ?_, ?_, ?_, ?_, ?_⟩
    · intro i i0 i1
      by_cases hin : i = s.numvision
      · rw [hin, t8]
        exact hr
      · rw [t6 i hin]
        exact h.hrad i i0 (by omega)
    · intro i i0 i1
      rw [t6 i (by omega)]
      exact h.hshown i i0 i1
    · intro a b hon hm
      rw [t3]
      exact h.hset a b hon ((hsm a b).1 hm)
    · intro a b hon hm
      rw [t3]
      exact h.hclear a b hon (fun hh => hm ((hsm a b).2 hh))
    · intro hd
      rw [t2] at hd
      exact absurd hd (by decide)
  · have e : AddVision F s x y r mine = (-1, s) := by
      unfold AddVision
      rw [if_neg hroom]
    rw [e]
    exact h

theorem VisInv_change (K : Consts) (F : VisionConsts) (s : Vision) (m : Int)
    (h : VisInv K F s m) (g : LightListStruct → LightListStruct) (id : Int) (t : Vision)
    (hg1 : ∀ l, l._lunflag = false → shown (g l) = shown l)
    (hg2 : ∀ l, (0 ≤ l._lradius ∧ l._lradius ≤ 15) → 0 ≤ (g l)._lradius ∧ (g l)._lradius ≤ 15)
    (hi : IdInv t)
    (ht : t = { s with
      VisionList := fun k =>
        if 0 ≤ k ∧ k < s.numvision ∧ (s.VisionList k)._lid = id then g (s.VisionList k)
        else s.VisionList k
      dovision := t.dovision })
    (hdov : t.dovision = true ↔
      (s.dovision = true ∨ ∃ k, 0 ≤ k ∧ k < s.numvision ∧ (s.VisionList k)._lid = id))
    (hdisc : ∀ k, 0 ≤ k → k < s.numvision → (s.VisionList k)._lid = id →
      (s.VisionList k)._lunflag = false) :
    VisInv K F t m := by
  have t1 : t.numvision = s.numvision := by rw [ht]
  have t2 : t.dFlags = s.dFlags := by rw [ht]
  have t3 : t.dPiece = s.dPiece := by rw [ht]
  have t4 : t.nBlockTable = s.nBlockTable := by rw [ht]
  have t5 : ∀ k, t.VisionList k =
      if 0 ≤ k ∧ k < s.numvision ∧ (s.VisionList k)._lid = id then g (s.VisionList k)
      else s.VisionList k := by
    intro k
    rw [ht]
  have hmn := h.hmn
  have hsh : ∀ i, 0 ≤ i → i < s.numvision → shown (t.VisionList i) = shown (s.VisionList i) := by
    intro i i0 i1
    rw [t5 i]
    by_cases hc : 0 ≤ i ∧ i < s.numvision ∧ (s.VisionList i)._lid = id
    · rw [if_pos hc]
      exact hg1 _ (hdisc i i0 i1 hc.2.2)
    · rw [if_neg hc]
  have hsm : ∀ a b, shownMarked K t m a b ↔ shownMarked K s m a b :=
    fun a b => shownMarked_congr K s t m t3 t4 (fun i i0 i1 => hsh i i0 (by omega)) a b
  refine ⟨hi, h.hm0, by omega, ?_, ?_, ?_, ?_, ?_⟩
  · intro i i0 i1
    rw [t5 i]
    by_cases hc : 0 ≤ i ∧ i < s.numvision ∧ (s.VisionList i)._lid = id
    · rw [if_pos hc]
      exact hg2 _ (h.hrad i i0 (by omega))
    · rw [if_neg hc]
      exact h.hrad i i0 (by omega)
  · intro i i0 i1
    rw [hsh i i0 (by omega)]
    exact h.hshown i i0 i1
  · intro a b hon hm
    rw [t2]
    exact h.hset a b hon ((hsm a b).1 hm)
  · intro a b hon hm
    rw [t2]
    exact h.hclear a b hon (fun hh => hm ((hsm a b).2 hh))
  · intro hd
    have hnone : ¬ (s.dovision = true ∨
        ∃ k, 0 ≤ k ∧ k < s.numvision ∧ (s.VisionList k)._lid = id) := by
      intro hh
      rw [hdov.2 hh] at hd
      exact absurd hd (by decide)
    have hsd : s.dovision = false := by
      cases hc : s.dovision
      · rfl
      · exact absurd (Or.inl hc) hnone
    obtain ⟨c1, c2⟩ := h.hclean hsd
    refine ⟨by omega, ?_⟩
    intro i i0 i1
    rw [t5 i, if_neg (fun hc => hnone (Or.inr ⟨i, hc⟩))]
    exact c2 i i0 (by omega)

theorem shown_radiusChanged (r : Int) (l : LightListStruct) (h : l._lunflag = false) :
    shown (radiusChanged r l) = shown l := by
  rw [shown_plain l h]
  rfl

theorem shown_xyChanged (x y : Int) (l : LightListStruct) (h : l._lunflag = false) :
    shown (xyChanged x y l) = shown l := by
  rw [shown_plain l h]
  rfl

theorem VisInv_ChangeVisionRadius (K : Consts) (F : VisionConsts) (s : Vision) (m : Int)
    (h : VisInv K F s m) (id r : Int) (hr : 0 ≤ r ∧ r ≤ 15)
    (hdisc : ∀ k, 0 ≤ k → k < s.numvision → (s.VisionList k)._lid = id →
      (s.VisionList k)._lunflag = false) :
    VisInv K F (ChangeVisionRadius s id r) m :=
  VisInv_change K F s m h (radiusChanged r) id _ (shown_radiusChanged r) (fun _ _ => hr)
    (IdInv_ChangeVisionRadius s id r h.hid).1 (ChangeVisionRadius_spec s id r).1
    (ChangeVisionRadius_spec s id r).2 hdisc

theorem VisInv_ChangeVisionXY (K : Consts) (F : VisionConsts) (s : Vision) (m : Int)
    (h : VisInv K F s m) (id x y : Int)
    (hdisc : ∀ k, 0 ≤ k → k < s.numvision → (s.VisionList k)._lid = id →
      (s.VisionList k)._lunflag = false) :
    VisInv K F (ChangeVisionXY s id x y) m :=
  VisInv_change K F s m h (xyChanged x y) id _ (shown_xyChanged x y) (fun _ hl => hl)
    (IdInv_ChangeVisionXY s id x y h.hid).1 (ChangeVisionXY_vision_spec s id x y).1
    (ChangeVisionXY_vision_spec s id x y).2 hdisc

theorem and_or_absorb (m k : Nat) : m &&& (m ||| k) = m := by
  apply Nat.eq_of_testBit_eq
  intro i
  simp only [Nat.testBit_land, Nat.testBit_lor]
  cases m.testBit i <;> cases k.testBit i <;> rfl

theorem VisInv_ProcessVisionList (K : Consts) (F : VisionConsts) (s : Vision) (m : Int)
    (h : VisInv K F s m) (hpos : PlacedInv K s) :
    VisInv K F (ProcessVisionList K F s) (ProcessVisionList K F s).numvision ∧
      (ProcessVisionList K F s).dovision = false := by
  by_cases hd : s.dovision = true
  · have hi := (IdInv_ProcessVisionList K F s h.hid).1
    obtain ⟨⟨p1, _, p3, p4, p5, _, _⟩, q, r1, _, r3, r4⟩ :=
      ProcessVisionList_dirty_spec K F s hd h.hid.hlive
    generalize ProcessVisionList K F s = t at *
    have hn := h.hid.hn
    have hrec : ∀ i, 0 ≤ i → i < s.numvision → t.VisionList i = clearUn (s.VisionList i) := by
      intro i i0 i1
      rw [q i, if_pos ⟨i0, i1⟩]
    have hsm : ∀ a b, shownMarked K t t.numvision a b ↔ nowMarked K s a b := by
      intro a b
      unfold shownMarked nowMarked
      rw [p1]
      constructor
      · rintro ⟨i, i0, i1, hm⟩
        rw [hrec i i0 i1, shown_clearUn, visMarks_static K s t p4 p5] at hm
        exact ⟨i, i0, i1, hm⟩
      · rintro ⟨i, i0, i1, hm⟩
        refine ⟨i, i0, i1, ?_⟩
        rw [hrec i i0 i1, shown_clearUn, visMarks_static K s t p4 p5]
        exact hm
    refine ⟨⟨hi, by omega, le_refl _, ?_, ?_, ?_, ?_, ?_⟩, p3⟩
    · intro i i0 i1
      rw [hrec i i0 (by omega)]
      exact h.hrad i i0 (by omega)
    · intro i i0 i1
      rw [hrec i i0 (by omega), shown_clearUn]
      exact h.hrad i i0 (by omega)
    · intro a b _ hm
      exact r1 a b ((hsm a b).1 hm)
    · intro a b hon hm
      have hnm : ¬ nowMarked K s a b := fun hh => hm ((hsm a b).2 hh)
      by_cases hun : visionUndone K s a b
      · rw [r3 a b hnm hun]
        exact and_clearBits_sub _ _ _ (and_or_absorb _ _)
      · rw [r4 a b hnm hun]
        apply h.hclear a b hon
        rintro ⟨i, i0, i1, hv⟩
        have hmn := h.hmn
        by_cases hu : (s.VisionList i)._lunflag = true
        · apply hun
          refine ⟨i, i0, by omega, hon, Or.inr ⟨hu, ?_⟩⟩
          have hold : (shown (s.VisionList i)).2.1 ≠ K.MAXDUNY := by
            unfold shown
            rw [if_pos hu]
            exact (hpos i i0 (by omega)).2 hu
          have hnear := (visMarks_near K s _ _ _ a b (h.hshown i i0 i1) hold hv).1
          unfold shown at hnear
          rw [if_pos hu] at hnear
          unfold near at hnear
          unfold inSquare
          simp only at hnear
          omega
        · have hu2 : (s.VisionList i)._lunflag = false := by
            cases hc : (s.VisionList i)._lunflag
            · rfl
            · exact absurd hc hu
          rw [shown_plain _ hu2] at hv
          exact hnm ⟨i, i0, by omega, hv⟩
    · intro _
      refine ⟨rfl, ?_⟩
      intro i i0 i1
      rw [hrec i i0 (by omega)]
      rfl
  · have hd2 : s.dovision = false := by
      cases hc : s.dovision
      · rfl
      · exact absurd hc hd
    rw [ProcessVisionList_idle K F s hd2]
    obtain ⟨e, _⟩ := h.hclean hd2
    rw [← e]
    exact ⟨h, hd2⟩

theorem PlacedInv_InitVision (K : Consts) (s : Vision) : PlacedInv K (InitVision s) := by
  intro i i0 i1
  rw [InitVision_spec] at i1
  simp only at i1
  omega

theorem PlacedInv_AddVision (K : Consts) (F : VisionConsts) (s : Vision)
    (h : PlacedInv K s) (x y r : Int) (mine : Bool) (hy : y ≠ K.MAXDUNY) :
    PlacedInv K (AddVision F s x y r mine).2 := by
  by_cases hroom : s.numvision < F.MAXVISION
  · obtain ⟨t1, _, _, _, _, t6, t7, _, t9, _⟩ := AddVision_fields F s x y r mine hroom
    generalize (AddVision F s x y r mine).2 = t at *
    intro i i0 i1
    by_cases hin : i = s.numvision
    · rw [hin, t7, t9]
      exact ⟨hy, fun hc => absurd hc (by decide)⟩
    · rw [t6 i hin]
      exact h i i0 (by omega)
  · have e : AddVision F s x y r mine = (-1, s) := by
      unfold AddVision
      rw [if_neg hroom]
    rw [e]
    exact h

theorem PlacedInv_change (K : Consts) (s : Vision) (h : PlacedInv K s)
    (g : LightListStruct → LightListStruct) (id : Int) (t : Vision)
    (hg : ∀ l, l.position.tile.y ≠ K.MAXDUNY →
      (g l).position.tile.y ≠ K.MAXDUNY ∧ (g l).position.old.y ≠ K.MAXDUNY)
    (ht : t = { s with
      VisionList := fun k =>
        if 0 ≤ k ∧ k < s.numvision ∧ (s.VisionList k)._lid = id then g (s.VisionList k)
        else s.VisionList k
      dovision := t.dovision }) :
    PlacedInv K t := by
  have t1 : t.numvision = s.numvision := by rw [ht]
  have t5 : ∀ k, t.VisionList k =
      if 0 ≤ k ∧ k < s.numvision ∧ (s.VisionList k)._lid = id then g (s.VisionList k)
      else s.VisionList k := by
    intro k
    rw [ht]
  intro i i0 i1
  rw [t5 i]
  by_cases hc : 0 ≤ i ∧ i < s.numvision ∧ (s.VisionList i)._lid = id
  · rw [if_pos hc]
    have := hg _ (h i i0 (by omega)).1
    exact ⟨this.1, fun _ => this.2⟩
  · rw [if_neg hc]
    exact h i i0 (by omega)

theorem PlacedInv_ProcessVisionList (K : Consts) (F : VisionConsts) (s : Vision)
    (hid : IdInv s) (h : PlacedInv K s) : PlacedInv K (ProcessVisionList K F s) := by
  by_cases hd : s.dovision = true
  · obtain ⟨⟨p1, _, _, _, _, _, _⟩, q, _⟩ := ProcessVisionList_dirty_spec K F s hd hid.hlive
    generalize ProcessVisionList K F s = t at *
    intro i i0 i1
    rw [q i, if_pos ⟨i0, by omega⟩]
    exact ⟨(h i i0 (by omega)).1,
      fun hc => absurd (show false = true from hc) (by decide)⟩
  · have hd2 : s.dovision = false := by
      cases hc : s.dovision
      · rfl
      · exact absurd hc hd
    rw [ProcessVisionList_idle K F s hd2]
    exact h

theorem VisInv_of_reach (K : Consts) (F : VisionConsts) (s0 s : Vision)
    (h0 : ∀ a b, onMap K a b → flagClear (s0.dFlags a b) F.BFLAG_VISIBLE)
    (h : VisionReach K F (fun s op => op.disciplined s ∧ op.placed K) s0 s) :
    ∃ m, VisInv K F s m ∧ PlacedInv K s := by
  induction h with
  | init => exact ⟨0, VisInv_InitVision K F s0 h0, PlacedInv_InitVision K s0⟩
  | step s op _ hop ih =>
    obtain ⟨m, hm, hpl⟩ := ih
    cases op with
    | addVision x y r mine =>
      exact ⟨m, VisInv_AddVision K F s m hm x y r mine hop.1,
        PlacedInv_AddVision K F s hpl x y r mine hop.2⟩
    | changeVisionRadius id r =>
      exact ⟨m, VisInv_ChangeVisionRadius K F s m hm id r hop.1.1 hop.1.2,
        PlacedInv_change K s hpl (radiusChanged r) id _ (fun _ hl => ⟨hl, hl⟩)
          (ChangeVisionRadius_spec s id r).1⟩
    | changeVisionXY id x y =>
      exact ⟨m, VisInv_ChangeVisionXY K F s m hm id x y hop.1,
        PlacedInv_change K s hpl (xyChanged x y) id _ (fun _ hl => ⟨hop.2, hl⟩)
          (ChangeVisionXY_vision_spec s id x y).1⟩
    | processVisionList =>
      exact ⟨_, (VisInv_ProcessVisionList K F s m hm hpl).1,
        PlacedInv_ProcessVisionList K F s hm.hid hpl⟩

/-- C16 (as amended). In every state reachable from `InitVision` (the visible bit of
every on-map tile clear) by calls of `AddVision`, `ChangeVisionRadius`,
`ChangeVisionXY` and `ProcessVisionList` that keep radii in `0..15`, change a
source at most once between two `ProcessVisionList` calls and put no source in row
`MAXDUNY`, right after a `ProcessVisionList` call an on-map tile has its visible bit
set when `DoVision` for at least one live vision source, at its current position
and radius, marks the tile, and clear otherwise. -/
theorem visible_recomputed (K : Consts) (F : VisionConsts) (s0 s : Vision)
    (h0 : ∀ a b, onMap K a b → flagClear (s0.dFlags a b) F.BFLAG_VISIBLE)
    (hreach : VisionReach K F (fun s op => op.disciplined s ∧ op.placed K) s0 s) (a b : Int)
    (hon : onMap K a b) :
    (nowMarked K (ProcessVisionList K F s) a b →
      flagSet ((ProcessVisionList K F s).dFlags a b) F.BFLAG_VISIBLE) ∧
    (¬ nowMarked K (ProcessVisionList K F s) a b →
      flagClear ((ProcessVisionList K F s).dFlags a b) F.BFLAG_VISIBLE) := by
  obtain ⟨m, hm, hpl⟩ := VisInv_of_reach K F s0 s h0 hreach
  obtain ⟨hinv, hd⟩ := VisInv_ProcessVisionList K F s m hm hpl
  generalize ProcessVisionList K F s = t at *
  obtain ⟨_, hun⟩ := hinv.hclean hd
  have hsm : shownMarked K t t.numvision a b ↔ nowMarked K t a b := by
    unfold shownMarked nowMarked
    constructor
    · rintro ⟨i, i0, i1, hv⟩
      rw [shown_plain _ (hun i i0 i1)] at hv
      exact ⟨i, i0, i1, hv⟩
    · rintro ⟨i, i0, i1, hv⟩
      refine ⟨i, i0, i1, ?_⟩
      rw [shown_plain _ (hun i i0 i1)]
      exact hv
  exact ⟨fun hh => hinv.hset a b hon (hsm.2 hh),
    fun hh => hinv.hclear a b hon (fun hc => hh (hsm.1 hc))⟩

theorem openMap_clear (a b : Int) (_h : onMap upstream a b) :
    flagClear (openMap.dFlags a b) upstreamFlags.BFLAG_VISIBLE := by
  show flagClear 0 2
  decide

theorem visible_recomputed_witness :
    (nowMarked upstream (ProcessVisionList upstream upstreamFlags
        ((VisionOp.addVision 50 50 10 true).run upstream upstreamFlags (InitVision openMap)))
        50 60 →
      flagSet ((ProcessVisionList upstream upstreamFlags
        ((VisionOp.addVision 50 50 10 true).run upstream upstreamFlags
          (InitVision openMap))).dFlags 50 60) upstreamFlags.BFLAG_VISIBLE) ∧
    (¬ nowMarked upstream (ProcessVisionList upstream upstreamFlags
        ((VisionOp.addVision 50 50 10 true).run upstream upstreamFlags (InitVision openMap)))
        50 60 →
      flagClear ((ProcessVisionList upstream upstreamFlags
        ((VisionOp.addVision 50 50 10 true).run upstream upstreamFlags
          (InitVision openMap))).dFlags 50 60) upstreamFlags.BFLAG_VISIBLE) :=
  visible_recomputed upstream upstreamFlags openMap _ openMap_clear
    (VisionReach.step _ (VisionOp.addVision 50 50 10 true) VisionReach.init
      ⟨⟨by decide, by decide⟩, show (50 : Int) ≠ 112 by decide⟩) 50 60
    (by unfold onMap; decide)

/-! ## Vision: the open-map scenario -/

/-- On a map without opaque tiles that reaches beyond (50, 60), the walk along ring
22 in pass 0 from (50, 50) with radius 10 marks tile (50, 60) at its tenth step. -/
theorem open_marks_south (K : Consts) (s : Vision) (hK : 50 < K.MAXDUNX ∧ 60 < K.MAXDUNY)
    (hopen : ∀ x y, s.nBlockTable (s.dPiece x y) = false) :
    visMarks K s 50 50 10 50 60 := by
  have hc : cand 50 50 0 22 9 = ⟨50, 60, 0, 0, 0, 0⟩ := rfl
  refine Or.inr ⟨0, 22, by decide, by decide, 9, ⟨⟨by decide, by decide⟩, ?_, ?_⟩, rfl, rfl⟩
  · rintro q _ _ ⟨_, hb⟩
    unfold blocker at hb
    rw [hopen] at hb
    exact absurd hb (by decide)
  · rw [hc]
    refine ⟨by unfold candOn; simp only; omega, Or.inl ?_⟩
    unfold openTile
    rw [hopen]
    simp only [Bool.not_false, Bool.and_true, decide_eq_true_eq]
    omega

theorem far_not_marked (K : Consts) (s : Vision) : ¬ visMarks K s 50 50 10 50 75 := by
  intro h
  rcases visMarks_cases K s 50 50 10 50 75 ⟨by decide, by decide⟩ h with h | h | h
  · have := h.1
    unfold near at this
    omega
  · omega
  · omega

theorem flagClear_zero (m : Nat) : flagClear 0 m := by
  unfold flagClear
  exact Nat.zero_and m

/-- The pool after `InitVision; AddVision(x, y, r, mine)` when there is room: one
live source, not pending, and the dirty flag set. -/
theorem InitVision_AddVision (F : VisionConsts) (s0 : Vision) (x y r : Int) (mine : Bool)
    (hV : 0 < F.MAXVISION) :
    (AddVision F (InitVision s0) x y r mine).2.numvision = 1 ∧
      (AddVision F (InitVision s0) x y r mine).2.dovision = true ∧
      (AddVision F (InitVision s0) x y r mine).2.dFlags = s0.dFlags ∧
      (AddVision F (InitVision s0) x y r mine).2.dPiece = s0.dPiece ∧
      (AddVision F (InitVision s0) x y r mine).2.nBlockTable = s0.nBlockTable ∧
      ((AddVision F (InitVision s0) x y r mine).2.VisionList 0).position.tile = ⟨x, y⟩ ∧
      ((AddVision F (InitVision s0) x y r mine).2.VisionList 0)._lradius = r ∧
      ((AddVision F (InitVision s0) x y r mine).2.VisionList 0)._lunflag = false ∧
      ((AddVision F (InitVision s0) x y r mine).2.VisionList 0)._lflags = mine ∧
      ((AddVision F (InitVision s0) x y r mine).2.VisionList 0)._ldel = false := by
  have hi : (InitVision s0).numvision = 0 := by rw [InitVision_spec]
  have hd : (InitVision s0).dFlags = s0.dFlags := by rw [InitVision_spec]
  have hp : (InitVision s0).dPiece = s0.dPiece := by rw [InitVision_spec]
  have hb : (InitVision s0).nBlockTable = s0.nBlockTable := by rw [InitVision_spec]
  have hroom : (InitVision s0).numvision < F.MAXVISION := by rw [hi]; exact hV
  obtain ⟨t1, t2, t3, t4, t5, _, t7, t8, t9, t10⟩ :=
    AddVision_fields F (InitVision s0) x y r mine hroom
  have hl := (IdInv_AddVision F (InitVision s0) x y r mine (IdInv_InitVision s0)).hlive 0
    (le_refl _) (by rw [t1, hi]; decide)
  rw [hi] at t1 t7 t8 t9 t10
  exact ⟨t1, t2, t3.trans hd, t4.trans hp, t5.trans hb, t7, t8, t9, t10, hl⟩

/-- C18. On a map with no opaque tile and every tile flag clear, that reaches
beyond (50, 60): `DoVision` for a personal observer at (50, 50) with radius 10 sets
the visible and the explored bit of tile (50, 60) and leaves both bits of tile
(50, 75) clear; and so does `AddVision(50, 50, 10, true)` followed by
`ProcessVisionList` on a freshly initialised vision pool with room for a source. -/
theorem open_map_scenario (K : Consts) (F : VisionConsts) (s0 : Vision)
    (hK : 50 < K.MAXDUNX ∧ 60 < K.MAXDUNY) (hV : 0 < F.MAXVISION)
    (hopen : ∀ x y, s0.nBlockTable (s0.dPiece x y) = false)
    (hflags : ∀ x y, s0.dFlags x y = 0) :
    (flagSet ((DoVision K F s0 50 50 10 true true).dFlags 50 60) F.BFLAG_VISIBLE ∧
      flagSet ((DoVision K F s0 50 50 10 true true).dFlags 50 60) F.BFLAG_EXPLORED ∧
      flagClear ((DoVision K F s0 50 50 10 true true).dFlags 50 75) F.BFLAG_VISIBLE ∧
      flagClear ((DoVision K F s0 50 50 10 true true).dFlags 50 75) F.BFLAG_EXPLORED) ∧
    (flagSet ((ProcessVisionList K F (AddVision F (InitVision s0) 50 50 10 true).2).dFlags
        50 60) F.BFLAG_VISIBLE ∧
      flagSet ((ProcessVisionList K F (AddVision F (InitVision s0) 50 50 10 true).2).dFlags
        50 60) F.BFLAG_EXPLORED ∧
      flagClear ((ProcessVisionList K F (AddVision F (InitVision s0) 50 50 10 true).2).dFlags
        50 75) F.BFLAG_VISIBLE ∧
      flagClear ((ProcessVisionList K F (AddVision F (InitVision s0) 50 50 10 true).2).dFlags
        50 75) F.BFLAG_EXPLORED) := by
  constructor
  · have hspec := DoVision_spec K F s0 50 50 10 true true
    rw [hspec.hit 50 60 (open_marks_south K s0 hK hopen),
      hspec.miss 50 75 (far_not_marked K s0), hflags 50 75]
    exact ⟨flagSet_markFlags_visible F true true _, flagSet_markFlags_explored F true _,
      flagClear_zero _, flagClear_zero _⟩
  · obtain ⟨a1, a2, a3, a4, a5, a6, a7, a8, a9, a10⟩ :=
      InitVision_AddVision F s0 50 50 10 true hV
    generalize (AddVision F (InitVision s0) 50 50 10 true).2 = A at *
    have hlive : ∀ k, 0 ≤ k → k < A.numvision → (A.VisionList k)._ldel = false := by
      intro k k0 k1
      have : k = 0 := by omega
      rw [this]
      exact a10
    obtain ⟨_, _, r1, r2, _, r4⟩ := ProcessVisionList_dirty_spec K F A a2 hlive
    have hst := visMarks_static K s0 A a4 a5
    have hm : nowMarked K A 50 60 := by
      refine ⟨0, le_refl _, by omega, ?_⟩
      rw [a6, a7, hst]
      exact open_marks_south K s0 hK hopen
    have he : nowExplored K A 50 60 := by
      refine ⟨0, le_refl _, by omega, a9, ?_⟩
      rw [a6, a7, hst]
      exact open_marks_south K s0 hK hopen
    have hn : ¬ nowMarked K A 50 75 := by
      rintro ⟨i, i0, i1, hv⟩
      have : i = 0 := by omega
      rw [this, a6, a7, hst] at hv
      exact far_not_marked K s0 hv
    have hu : ¬ visionUndone K A 50 75 := by
      rintro ⟨i, i0, i1, _, hv⟩
      have : i = 0 := by omega
      rw [this] at hv
      rcases hv with ⟨hv, _⟩ | ⟨hv, _⟩
      · rw [a10] at hv
        exact absurd hv (by decide)
      · rw [a8] at hv
        exact absurd hv (by decide)
    rw [r4 50 75 hn hu, a3, hflags 50 75]
    exact ⟨r1 50 60 hm, r2 50 60 he, flagClear_zero _, flagClear_zero _⟩

theorem open_map_scenario_witness :
    flagSet ((ProcessVisionList upstream upstreamFlags
        (AddVision upstreamFlags (InitVision openMap) 50 50 10 true).2).dFlags 50 60)
      upstreamFlags.BFLAG_EXPLORED :=
  (open_map_scenario upstream upstreamFlags openMap (by decide) (by decide) (fun _ _ => rfl)
    (fun _ _ => rfl)).2.2.1

/-! ## Vision: a source moved twice between two process calls -/

theorem InitVision_AddVision_id (F : VisionConsts) (s0 : Vision) (x y r : Int) (mine : Bool)
    (hV : 0 < F.MAXVISION) :
    ((AddVision F (InitVision s0) x y r mine).2.VisionList 0)._lid = 1 := by
  have hi : (InitVision s0).numvision = 0 := by rw [InitVision_spec]
  have hv : (InitVision s0).visionid = 1 := by rw [InitVision_spec]
  have hroom : (InitVision s0).numvision < F.MAXVISION := by rw [hi]; exact hV
  rw [(AddVision_spec F (InitVision s0) x y r mine hroom).2]
  show (setAt (InitVision s0).VisionList (InitVision s0).numvision _ 0)._lid = 1
  rw [hi]
  unfold setAt
  rw [if_pos rfl]
  exact hv

/-- The only record of a one-source pool after `ChangeVisionXY` with its id. -/
theorem ChangeVisionXY_single (s : Vision) (id x y : Int) (hn : s.numvision = 1)
    (hid : (s.VisionList 0)._lid = id) :
    (ChangeVisionXY s id x y).VisionList 0 = xyChanged x y (s.VisionList 0) ∧
      (ChangeVisionXY s id x y).numvision = 1 ∧
      (ChangeVisionXY s id x y).dovision = true ∧
      (ChangeVisionXY s id x y).dFlags = s.dFlags ∧
      (ChangeVisionXY s id x y).dPiece = s.dPiece ∧
      (ChangeVisionXY s id x y).nBlockTable = s.nBlockTable := by
  obtain ⟨e, hd⟩ := ChangeVisionXY_vision_spec s id x y
  have hdov := hd.2 (Or.inr ⟨0, le_refl _, by omega, hid⟩)
  generalize ChangeVisionXY s id x y = t at *
  refine ⟨?_, by rw [e]; exact hn, hdov, by rw [e], by rw [e], by rw [e]⟩
  rw [e]
  show (if 0 ≤ (0 : Int) ∧ 0 < s.numvision ∧ (s.VisionList 0)._lid = id then
    xyChanged x y (s.VisionList 0) else s.VisionList 0) = _
  rw [if_pos ⟨le_refl _, by omega, hid⟩]

/-- After `AddVision(30, 30, 5, true); ProcessVisionList; ChangeVisionXY(1, 50, 50);
ChangeVisionXY(1, 70, 70); ProcessVisionList` from `InitVision`, tile (30, 30) still
has its visible bit set although the only source, now at (70, 70), does not mark
it. -/
theorem vision_double_move_stray (K : Consts) (F : VisionConsts) (s0 : Vision)
    (hK : 30 ≤ K.MAXDUNX ∧ 30 < K.MAXDUNY) (hV : 0 < F.MAXVISION) :
    flagSet ((ProcessVisionList K F (ChangeVisionXY (ChangeVisionXY
        (ProcessVisionList K F (AddVision F (InitVision s0) 30 30 5 true).2) 1 50 50)
        1 70 70)).dFlags 30 30) F.BFLAG_VISIBLE ∧
      ¬ nowMarked K (ProcessVisionList K F (ChangeVisionXY (ChangeVisionXY
        (ProcessVisionList K F (AddVision F (InitVision s0) 30 30 5 true).2) 1 50 50)
        1 70 70)) 30 30 := by
  obtain ⟨a1, a2, _, _, _, a6, a7, _, _, a10⟩ := InitVision_AddVision F s0 30 30 5 true hV
  have a11 := InitVision_AddVision_id F s0 30 30 5 true hV
  generalize (AddVision F (InitVision s0) 30 30 5 true).2 = A at *
  have hliveA : ∀ k, 0 ≤ k → k < A.numvision → (A.VisionList k)._ldel = false := by
    intro k k0 k1
    have : k = 0 := by omega
    rw [this]
    exact a10
  obtain ⟨⟨p1, _, _, _, _, _, _⟩, p2, p3, _, _, _⟩ :=
    ProcessVisionList_dirty_spec K F A a2 hliveA
  have hS : flagSet ((ProcessVisionList K F A).dFlags 30 30) F.BFLAG_VISIBLE := by
    apply p3
    refine ⟨0, le_refl _, by omega, ?_⟩
    rw [a6]
    refine Or.inl ⟨by simp only; omega, ?_⟩
    rw [flagCell_of_ne K _ _ (by simp only; omega)]
    exact ⟨rfl, rfl⟩
  have hrecS : (ProcessVisionList K F A).VisionList 0 = clearUn (A.VisionList 0) := by
    rw [p2 0, if_pos ⟨le_refl _, by omega⟩]
  generalize ProcessVisionList K F A = S at *
  have hnS : S.numvision = 1 := by omega
  have hidS : (S.VisionList 0)._lid = 1 := by rw [hrecS]; exact a11
  obtain ⟨c1, c2, _, c4, _, _⟩ := ChangeVisionXY_single S 1 50 50 hnS hidS
  generalize ChangeVisionXY S 1 50 50 = C at *
  have hidC : (C.VisionList 0)._lid = 1 := by rw [c1]; exact hidS
  obtain ⟨b1, b2, b3, b4, _, _⟩ := ChangeVisionXY_single C 1 70 70 c2 hidC
  generalize ChangeVisionXY C 1 70 70 = B at *
  have hB : B.VisionList 0 = xyChanged 70 70 (xyChanged 50 50 (clearUn (A.VisionList 0))) := by
    rw [b1, c1, hrecS]
  have hr : (B.VisionList 0)._lradius = 5 := by rw [hB]; exact a7
  have hro : (B.VisionList 0).oldRadious = 5 := by rw [hB]; exact a7
  have hdl : (B.VisionList 0)._ldel = false := by rw [hB]; exact a10
  have htile : (B.VisionList 0).position.tile = ⟨70, 70⟩ := by rw [hB]; rfl
  have hold : (B.VisionList 0).position.old = ⟨50, 50⟩ := by rw [hB]; rfl
  have hliveB : ∀ k, 0 ≤ k → k < B.numvision → (B.VisionList k)._ldel = false := by
    intro k k0 k1
    have : k = 0 := by omega
    rw [this]
    exact hdl
  obtain ⟨⟨q1, _, _, _, _, _, _⟩, q2, _, _, _, q6⟩ :=
    ProcessVisionList_dirty_spec K F B b3 hliveB
  have hfar : ∀ u : Vision, ¬ visMarks K u 70 70 5 30 30 := by
    intro u h
    rcases visMarks_cases K u 70 70 5 30 30 ⟨by decide, by decide⟩ h with h | h | h
    · have := h.1
      unfold near at this
      omega
    · omega
    · omega
  have hnm : ¬ nowMarked K B 30 30 := by
    rintro ⟨i, i0, i1, hv⟩
    have : i = 0 := by omega
    rw [this, htile, hr] at hv
    exact hfar B hv
  have hnu : ¬ visionUndone K B 30 30 := by
    rintro ⟨i, i0, i1, _, hv⟩
    have : i = 0 := by omega
    rw [this] at hv
    rcases hv with ⟨hv, _⟩ | ⟨_, hv⟩
    · rw [hdl] at hv
      exact absurd hv (by decide)
    · rw [hold, hro] at hv
      unfold inSquare at hv
      simp only at hv
      omega
  have hrecT : (ProcessVisionList K F B).VisionList 0 = clearUn (B.VisionList 0) := by
    rw [q2 0, if_pos ⟨le_refl _, by omega⟩]
  constructor
  · rw [q6 30 30 hnm hnu, b4, c4]
    exact hS
  · rintro ⟨i, i0, i1, hv⟩
    have : i = 0 := by omega
    rw [this, hrecT] at hv
    have e1 : (clearUn (B.VisionList 0)).position.tile = ⟨70, 70⟩ := htile
    have e2 : (clearUn (B.VisionList 0))._lradius = 5 := hr
    rw [e1, e2] at hv
    exact hfar _ hv

theorem strayVision_spec (t : Vision)
    (ht : t = ProcessVisionList upstream upstreamFlags (ChangeVisionXY (ChangeVisionXY
      (ProcessVisionList upstream upstreamFlags
        (AddVision upstreamFlags (InitVision openMap) 30 30 5 true).2) 1 50 50) 1 70 70)) :
    flagSet (t.dFlags 30 30) upstreamFlags.BFLAG_VISIBLE ∧ ¬ nowMarked upstream t 30 30 := by
  have h := vision_double_move_stray upstream upstreamFlags openMap (by decide) (by decide)
  rw [← ht] at h
  exact h

/-- C16 as stated fails: a vision source moved twice between two `ProcessVisionList`
calls leaves stray visible tiles behind. After `AddVision(30, 30, 5, true);
ProcessVisionList; ChangeVisionXY(1, 50, 50); ChangeVisionXY(1, 70, 70);
ProcessVisionList` on the open map (radii in range), tile (30, 30) has its visible
bit set although `DoVision` for the only live source, now at (70, 70) with radius
5, does not mark it. -/
theorem visible_stray_after_double_move :
    flagSet (strayVision.dFlags 30 30) upstreamFlags.BFLAG_VISIBLE ∧
      ¬ nowMarked upstream strayVision 30 30 :=
  strayVision_spec strayVision rfl

/-! ## Explored monotonicity -/

theorem explored_disjoint (F : VisionConsts) (hF : FlagsDistinct F) :
    (F.BFLAG_VISIBLE ||| F.BFLAG_LIT) &&& F.BFLAG_EXPLORED = 0 := by
  obtain ⟨_, _, _, _, h1, h2⟩ := hF
  apply Nat.eq_of_testBit_eq
  intro i
  have a1 := congrArg (fun n => n.testBit i) h1
  have a2 := congrArg (fun n => n.testBit i) h2
  simp only [Nat.testBit_land, Nat.testBit_lor, Nat.zero_testBit] at a1 a2 ⊢
  revert a1 a2
  cases F.BFLAG_VISIBLE.testBit i <;> cases F.BFLAG_LIT.testBit i <;>
    cases F.BFLAG_EXPLORED.testBit i <;> simp

theorem visionCompactPass_flags :
    ∀ (fuel : Nat) (i : Int) (d : Bool) (s : Vision),
      (visionCompactPass fuel i d s).2.dFlags = s.dFlags
  | 0, _, _, _ => rfl
  | fuel + 1, i, d, s => by
    unfold visionCompactPass
    by_cases hi : i < s.numvision
    · rw [if_pos hi]
      by_cases hd : (s.VisionList i)._ldel = true
      · rw [if_pos hd]
        simp only
        rw [visionCompactPass_flags fuel (i + 1) true _]
        split_ifs <;> rfl
      · rw [if_neg hd]
        exact visionCompactPass_flags fuel (i + 1) d s
    · rw [if_neg hi]

theorem visionCompact_flags : ∀ (fuel : Nat) (s : Vision),
    (visionCompact fuel s).dFlags = s.dFlags
  | 0, _ => rfl
  | fuel + 1, s => by
    unfold visionCompact
    simp only
    split_ifs
    · rw [visionCompact_flags fuel _, visionCompactPass_flags]
    · rw [visionCompactPass_flags]

/-- `ProcessVisionList` clears the explored bit of no tile, whatever the state of
the pool. -/
theorem ProcessVisionList_keeps_explored (K : Consts) (F : VisionConsts)
    (hF : FlagsDistinct F) (s : Vision) (a b : Int)
    (h : flagSet (s.dFlags a b) F.BFLAG_EXPLORED) :
    flagSet ((ProcessVisionList K F s).dFlags a b) F.BFLAG_EXPLORED := by
  unfold ProcessVisionList
  by_cases hd : s.dovision = true
  · rw [if_pos hd]
    dsimp only
    rw [visionCompact_flags]
    obtain ⟨_, _, u3, u4⟩ := visionUndoLoop_spec K F s s.numvision
    generalize forRange 0 s.numvision (visionUndo K F) s = s1 at *
    have h1 : flagSet (s1.dFlags a b) F.BFLAG_EXPLORED := by
      unfold flagSet at h ⊢
      by_cases hu : ∃ i, 0 ≤ i ∧ i < s.numvision ∧ visionUndoArea K (s.VisionList i) a b
      · rw [u3 a b hu, and_clearBits_other _ _ _ (explored_disjoint F hF)]
        exact h
      · rw [u4 a b hu]
        exact h
    rw [transLoop_spec]
    generalize hs2 : ({ s1 with TransList := fun k =>
      if 0 ≤ k ∧ k < s1.TransVal then false else s1.TransList k } : Vision) = s2
    have d2 : s2.dFlags = s1.dFlags := by rw [← hs2]
    have a3 := visionApplyLoop_spec K F s2 s2.numvision
    exact a3.grow a b _ (by rw [d2]; exact h1)
  · rw [if_neg hd]
    exact h

theorem LightOp_frame (K : Consts) (F : VisionConsts) (g : Game) (op : LightOp) :
    ((GameOp.light op).run K F g).vision = g.vision := rfl

theorem GameOp_keeps_explored (K : Consts) (F : VisionConsts) (hF : FlagsDistinct F)
    (g : Game) (op : GameOp) (a b : Int)
    (h : flagSet (g.vision.dFlags a b) F.BFLAG_EXPLORED) :
    flagSet ((op.run K F g).vision.dFlags a b) F.BFLAG_EXPLORED := by
  cases op with
  | light op => exact h
  | vision op =>
    cases op with
    | addVision x y r mine =>
      show flagSet ((AddVision F g.vision x y r mine).2.dFlags a b) _
      unfold AddVision
      split_ifs
      · exact h
      · exact h
    | changeVisionRadius id r =>
      show flagSet ((ChangeVisionRadius g.vision id r).dFlags a b) _
      rw [(ChangeVisionRadius_spec g.vision id r).1]
      exact h
    | changeVisionXY id x y =>
      show flagSet ((ChangeVisionXY g.vision id x y).dFlags a b) _
      rw [(ChangeVisionXY_vision_spec g.vision id x y).1]
      exact h
    | processVisionList => exact ProcessVisionList_keeps_explored K F hF g.vision a b h
  | doVision x y r da vis =>
    exact (DoVision_spec K F g.vision x y r da vis).seen.grow a b _ h
  | doUnVision x y r =>
    show flagSet ((DoUnVision K F g.vision x y r).dFlags a b) _
    rw [DoUnVision_eq]
    show flagSet (if onMap K a b ∧ inSquare x y (r + 1) a b then
      clearBits (g.vision.dFlags a b) (F.BFLAG_VISIBLE ||| F.BFLAG_LIT)
      else g.vision.dFlags a b) _
    split_ifs
    · unfold flagSet at h ⊢
      rw [and_clearBits_other _ _ _ (explored_disjoint F hF)]
      exact h
    · exact h

theorem runGame_keeps_explored (K : Consts) (F : VisionConsts) (hF : FlagsDistinct F) :
    ∀ (ops : List GameOp) (g : Game) (a b : Int),
      flagSet (g.vision.dFlags a b) F.BFLAG_EXPLORED →
      flagSet ((runGame K F g ops).vision.dFlags a b) F.BFLAG_EXPLORED
  | [], _, _, _, h => h
  | op :: ops, g, a, b, h =>
    runGame_keeps_explored K F hF ops (op.run K F g) a b (GameOp_keeps_explored K F hF g op a b h)

/-- C15. Explored monotonicity. With flag masks that share no bit, a tile whose
explored bit is set before any sequence of calls of `AddVision`,
`ChangeVisionRadius`, `ChangeVisionXY`, `ProcessVisionList`, `DoVision`,
`DoUnVision`, `AddLight`, `AddUnLight`, `ChangeLightRadius`, `ChangeLightXY`,
`ChangeLightOff`, `ChangeLight` and `ProcessLightList` has it set after the
sequence, from any state; `InitAutomap` clears the explored bit of every on-map
tile. -/
theorem explored_monotone (K : Consts) (F : VisionConsts) (hF : FlagsDistinct F)
    (ops : List GameOp) (g : Game) (a b : Int)
    (h : flagSet (g.vision.dFlags a b) F.BFLAG_EXPLORED) :
    flagSet ((runGame K F g ops).vision.dFlags a b) F.BFLAG_EXPLORED ∧
      (onMap K a b → flagClear ((InitAutomap K F g.vision).dFlags a b) F.BFLAG_EXPLORED) := by
  refine ⟨runGame_keeps_explored K F hF ops g a b h, ?_⟩
  intro hon
  rw [InitAutomap_eq]
  show flagClear (if onMap K a b then clearBits (g.vision.dFlags a b) F.BFLAG_EXPLORED
    else g.vision.dFlags a b) _
  rw [if_pos hon]
  exact and_clearBits_sub _ _ _ (Nat.and_self _)

theorem explored_monotone_witness :
    flagSet ((runGame upstream upstreamFlags ⟨darkLevel, exploredMap⟩
      [GameOp.vision (VisionOp.addVision 50 50 10 false), GameOp.doUnVision 50 50 10,
        GameOp.vision VisionOp.processVisionList, GameOp.light LightOp.processLightList,
        GameOp.doVision 40 40 3 false false]).vision.dFlags 50 50)
      upstreamFlags.BFLAG_EXPLORED :=
  (explored_monotone upstream upstreamFlags upstreamFlags_distinct _ ⟨darkLevel, exploredMap⟩
    50 50 (by decide)).1

/-! ## Array bounds of DoLighting and DoVision -/

theorem logOk_cons (K : Consts) (a : Access) (log : List Access) (ha : a.ok K)
    (h : logOk K log) : logOk K (a :: log) := by
  intro b hb
  rcases List.mem_cons.1 hb with rfl | hb
  · exact ha
  · exact h b hb

theorem passLog_ok (K : Consts) (s : Lighting) (nRadius mult ylim xlim block_x block_y : Int)
    (tx ty : Int → Int → Int) (log : List Access) (hr : 0 ≤ nRadius ∧ nRadius ≤ 15)
    (hm : 0 ≤ mult ∧ mult < 64) (hy : ylim ≤ 15) (hx : xlim ≤ 15)
    (hbx : 0 ≤ block_x ∧ block_x ≤ 1) (hby : 0 ≤ block_y ∧ block_y ≤ 1) (h : logOk K log) :
    logOk K (passLog K s nRadius mult ylim xlim block_x block_y tx ty log) := by
  unfold passLog
  apply forRange_inv (logOk K) _ 0 ylim log _ h
  intro y y0 y1 log1 h1
  apply forRange_inv (logOk K) _ 1 xlim log1 _ h1
  intro x x0 x1 log2 h2
  have hb : (Access.block mult (y + block_y) (x + block_x)).ok K := by
    show (0 ≤ mult ∧ mult < 64) ∧ (0 ≤ y + block_y ∧ y + block_y < 16) ∧
      0 ≤ x + block_x ∧ x + block_x < 16
    omega
  simp only
  split_ifs with c1 c2
  · refine logOk_cons K _ _ ?_ (logOk_cons K _ _ ?_ (logOk_cons K _ _ hb h2))
    · exact c2
    · show (0 ≤ nRadius ∧ nRadius < 16) ∧
        (0 : Int) ≤ (s.lightblock mult (y + block_y) (x + block_x) : Nat) ∧
        ((s.lightblock mult (y + block_y) (x + block_x) : Nat) : Int) < 128
      refine ⟨by omega, Int.ofNat_nonneg _, ?_⟩
      exact_mod_cast c1
  · refine logOk_cons K _ _ ?_ (logOk_cons K _ _ hb h2)
    show (0 ≤ nRadius ∧ nRadius < 16) ∧
      (0 : Int) ≤ (s.lightblock mult (y + block_y) (x + block_x) : Nat) ∧
      ((s.lightblock mult (y + block_y) (x + block_x) : Nat) : Int) < 128
    refine ⟨by omega, Int.ofNat_nonneg _, ?_⟩
    exact_mod_cast c1
  · exact logOk_cons K _ _ hb h2

theorem RotateRadius_range (dx dy lx ly : Int) (h1 : 0 ≤ dx ∧ dx ≤ 7) (h2 : 0 ≤ dy ∧ dy ≤ 7)
    (h3 : 0 ≤ lx ∧ lx ≤ 7) (h4 : 0 ≤ ly ∧ ly ≤ 7) :
    (0 ≤ (RotateRadius dx dy lx ly).x ∧ (RotateRadius dx dy lx ly).x ≤ 7) ∧
    (0 ≤ (RotateRadius dx dy lx ly).y ∧ (RotateRadius dx dy lx ly).y ≤ 7) ∧
    (0 ≤ (RotateRadius dx dy lx ly).dx ∧ (RotateRadius dx dy lx ly).dx ≤ 7) ∧
    (0 ≤ (RotateRadius dx dy lx ly).dy ∧ (RotateRadius dx dy lx ly).dy ≤ 7) ∧
    (0 ≤ (RotateRadius dx dy lx ly).lx ∧ (RotateRadius dx dy lx ly).lx ≤ 7) ∧
    (0 ≤ (RotateRadius dx dy lx ly).ly ∧ (RotateRadius dx dy lx ly).ly ≤ 7) ∧
    (0 ≤ (RotateRadius dx dy lx ly).bx ∧ (RotateRadius dx dy lx ly).bx ≤ 1) ∧
    (0 ≤ (RotateRadius dx dy lx ly).by_ ∧ (RotateRadius dx dy lx ly).by_ ≤ 1) := by
  unfold RotateRadius
  simp only
  split_ifs <;> omega

theorem ownLog_ok (K : Consts) (s : Lighting) (X Y r : Int) (hr : 0 ≤ r ∧ r ≤ 15) :
    logOk K (ownLog K s X Y r) := by
  unfold ownLog
  split_ifs with c1 c2
  · intro a ha
    rcases List.mem_singleton.1 ha with rfl
    exact ⟨c1.1, c1.2.1, c1.2.2.1, c1.2.2.2⟩
  · intro a ha
    rcases List.mem_cons.1 ha with rfl | ha
    · exact ⟨c1.1, c1.2.1, c1.2.2.1, c1.2.2.2⟩
    · rcases List.mem_singleton.1 ha with rfl
      show (0 ≤ r ∧ r < 16) ∧ (0 : Int) ≤ 0 ∧ (0 : Int) < 128
      omega
  · intro a ha
    exact absurd ha (List.not_mem_nil a)

theorem lightFromLog_ok (K : Consts) (s : Lighting) (X Y r xoff yoff : Int)
    (hr : 0 ≤ r ∧ r ≤ 15) (hx : 0 ≤ xoff ∧ xoff ≤ 7) (hy : 0 ≤ yoff ∧ yoff ≤ 7) :
    logOk K (lightFromLog K s X Y r xoff yoff) := by
  unfold lightFromLog
  simp only
  have z : (0 : Int) ≤ 0 ∧ (0 : Int) ≤ 7 := by omega
  have z1 : (0 : Int) ≤ 0 ∧ (0 : Int) ≤ 1 := by omega
  obtain ⟨a1, a2, a3, a4, a5, a6, a7, a8⟩ := RotateRadius_range xoff yoff 0 0 hx hy z z
  generalize RotateRadius xoff yoff 0 0 = r1 at *
  obtain ⟨b1, b2, b3, b4, b5, b6, b7, b8⟩ := RotateRadius_range r1.dx r1.dy r1.lx r1.ly a3 a4 a5 a6
  generalize RotateRadius r1.dx r1.dy r1.lx r1.ly = r2 at *
  obtain ⟨c1, c2, _, _, _, _, c7, c8⟩ := RotateRadius_range r2.dx r2.dy r2.lx r2.ly b3 b4 b5 b6
  generalize RotateRadius r2.dx r2.dy r2.lx r2.ly = r3 at *
  have hminx : (if X - 15 < 0 then X + 1 else 15) ≤ 15 := by split_ifs <;> omega
  have hmaxx : (if X + 15 > K.MAXDUNX then K.MAXDUNX - X else 15) ≤ 15 := by
    split_ifs <;> omega
  have hminy : (if Y - 15 < 0 then Y + 1 else 15) ≤ 15 := by split_ifs <;> omega
  have hmaxy : (if Y + 15 > K.MAXDUNY then K.MAXDUNY - Y else 15) ≤ 15 := by
    split_ifs <;> omega
  exact passLog_ok K s r _ _ _ _ _ _ _ _ hr (by omega) hminy hminx c7 c8
    (passLog_ok K s r _ _ _ _ _ _ _ _ hr (by omega) hmaxy hminx b7 b8
      (passLog_ok K s r _ _ _ _ _ _ _ _ hr (by omega) hmaxy hmaxx a7 a8
        (passLog_ok K s r _ _ _ _ _ _ _ _ hr (by omega) hminy hmaxx z1 z1
          (ownLog_ok K s X Y r hr))))

/-- C27. For every integer tile position, every radius in `0..15` and a light whose
sub-tile offset is in `-8..7` on each axis (or no light slot at all), every access
of `DoLighting` is within the arrays: the block table is read at a bucket in
`0..63` and a row and a column in `0..15`, the attenuation table at a radius in
`0..15` and a distance index in `0..127`, and every grid tile that is read or
written is on the map. -/
theorem DoLighting_in_bounds (K : Consts) (s : Lighting) (X Y r L : Int)
    (hr : 0 ≤ r ∧ r ≤ 15)
    (hoff : 0 ≤ L → (-8 ≤ (s.LightList L).position.offset.x ∧
      (s.LightList L).position.offset.x ≤ 7) ∧
      -8 ≤ (s.LightList L).position.offset.y ∧ (s.LightList L).position.offset.y ≤ 7) :
    logOk K (DoLightingLog K s X Y r L) := by
  unfold DoLightingLog
  simp only
  apply lightFromLog_ok K s _ _ r _ _ hr
  · unfold lightOrigin
    split_ifs with c <;> simp only
    · have := hoff c
      split_ifs <;> omega
    · omega
  · unfold lightOrigin
    split_ifs with c <;> simp only
    · have := hoff c
      split_ifs <;> omega
    · omega

theorem DoLighting_in_bounds_witness :
    logOk upstream (DoLightingLog upstream offsetLight 0 111 15 0) :=
  DoLighting_in_bounds upstream offsetLight 0 111 15 0 (by decide) (fun _ => by decide)

/-- C26 fails at the map edge: `DoVision(112, 50, 10, false, false)` on the
112 x 112 open map passes the guard `nXPos <= MAXDUNX` of the own-tile block and
writes the flag byte of (112, 50), which is not a tile of the map. -/
theorem DoVision_writes_past_edge :
    ¬ onMap upstream 112 50 ∧ openMap.dFlags 112 50 = 0 ∧
      (DoVision upstream upstreamFlags openMap 112 50 10 false false).dFlags 112 50 = 2 := by
  refine ⟨by unfold onMap; decide, rfl, ?_⟩
  rw [DoVision_own_flags upstream upstreamFlags openMap 112 50 10 false false (by decide)
    (by decide)]
  rfl

/-! ## Ramp table -/

theorem put_inv (l4 : Bool) (t : RampState) (v : Int) (h : RampInv l4 t)
    (hv : v = rampTarget l4 t.tbl) :
    RampInv l4 (put t v) ∧ (put t v).tbl = t.tbl + 1 ∧ (put t v).col = t.col ∧
      (put t v).max = t.max := by
  refine ⟨⟨?_, ?_⟩, rfl, rfl, rfl⟩
  · show 0 ≤ t.tbl + 1
    have := h.1
    omega
  · intro a a0 a1
    have a1 : a < t.tbl + 1 := a1
    show setAt t.pLightTbl t.tbl v a = _
    unfold setAt
    by_cases ha : a = t.tbl
    · rw [if_pos ha, hv, ha]
    · rw [if_neg ha]
      exact h.2 a a0 (by omega)


theorem rampTarget_at (l4 : Bool) (i p : Int) (_ : 0 ≤ i) (hi1 : i < rampLights l4)
    (hp0 : 0 ≤ p) (hp1 : p < 256) :
    rampTarget l4 (256 * i + p) = rampValue (rampShade l4 i) p := by
  unfold rampTarget
  have e1 : (256 * i + p) / 256 = i := by omega
  have e2 : (256 * i + p) % 256 = p := by omega
  rw [if_pos (by omega), e1, e2]

theorem rampTarget_last (l4 : Bool) (a : Int) (h : 256 * rampLights l4 ≤ a) :
    rampTarget l4 a = 0 := by
  unfold rampTarget
  rw [if_neg (by omega)]

theorem rampValue_low (s j k : Int) (hs : 0 ≤ s) (hj0 : 0 ≤ j) (hj1 : j < 8) (hk0 : 0 ≤ k)
    (hk1 : k < 16) (hjk : k ≠ 0 ∨ j ≠ 0) :
    rampValue s (16 * j + k) = if s + k ≤ 15 then 16 * j + s + k else 0 := by
  unfold rampValue
  have e : (16 * j + k) % 16 = k := by omega
  rw [e]
  split_ifs <;> omega

theorem rampValue_mid (s j k : Int) (hs : 0 ≤ s) (hj0 : 16 ≤ j) (hj1 : j < 20) (hk0 : 0 ≤ k)
    (hk1 : k < 8) :
    rampValue s (8 * j + k) = if s / 2 + k ≤ 7 then 8 * j + s / 2 + k else 0 := by
  unfold rampValue
  have e : (8 * j + k) % 8 = k := by omega
  rw [e]
  split_ifs <;> omega

theorem rampValue_high (s j k : Int) (hs : 0 ≤ s) (hj0 : 10 ≤ j) (hj1 : j < 16) (hk0 : 0 ≤ k)
    (hk1 : k < 16) :
    rampValue s (16 * j + k) =
      if s + k ≤ 15 ∧ 16 * j + s + k < 255 then 16 * j + s + k else 0 := by
  unfold rampValue
  have e : (16 * j + k) % 16 = k := by omega
  rw [e]
  split_ifs <;> omega

theorem rampLow_spec (l4 : Bool) (i j : Int) (t : RampState) (hi0 : 0 ≤ i)
    (hi1 : i < rampLights l4) (hs0 : 0 ≤ rampShade l4 i) (hs1 : rampShade l4 i ≤ 14)
    (hj0 : 0 ≤ j) (hj1 : j < 8) (h : RampInv l4 t)
    (ht : t.tbl = 256 * i + (if j = 0 then 1 else 16 * j)) :
    RampInv l4 (rampLow (rampShade l4 i) j t) ∧
      (rampLow (rampShade l4 i) j t).tbl = 256 * i + 16 * (j + 1) := by
  generalize hs : rampShade l4 i = s at *
  have key := forRange_count
    (fun (k : Int) (u : RampState) => RampInv l4 u ∧
      u.tbl = 256 * i + (if j = 0 ∧ k = 0 then 1 else 16 * j + k) ∧
      (s + k ≤ 15 → u.col = 16 * j + s + k ∧ u.max = 16 * j + 15) ∧
      (15 < s + k → u.col = 0 ∧ u.max = 0))
    (fun k t =>
      let t := if k ≠ 0 ∨ j ≠ 0 then put t t.col else t
      stepCol t) 0 16
    { t with col := (16 * j + s) % 256, max := (16 * j + 15) % 256 } (by omega) ?_ ?_
  · refine ⟨key.1, ?_⟩
    have := key.2.1
    unfold rampLow
    rw [this]
    split_ifs <;> omega
  · intro k hk0 hk1 u ⟨hu, hut, hc1, hc2⟩
    simp only
    have hmid : ∀ w : RampState, RampInv l4 w → w.tbl = 256 * i + 16 * j + (k + 1) →
        w.col = u.col → w.max = u.max →
        (RampInv l4 (stepCol w) ∧
          (stepCol w).tbl = 256 * i + (if j = 0 ∧ k + 1 = 0 then 1 else 16 * j + (k + 1)) ∧
          (s + (k + 1) ≤ 15 → (stepCol w).col = 16 * j + s + (k + 1) ∧
            (stepCol w).max = 16 * j + 15) ∧
          (15 < s + (k + 1) → (stepCol w).col = 0 ∧ (stepCol w).max = 0)) := by
      intro w hw hwt hwc hwm
      rw [if_neg (by omega)]
      unfold stepCol
      by_cases hlt : w.col < w.max
      · rw [if_pos hlt]
        have hk : s + k ≤ 15 := by
          by_contra hcon
          have := hc2 (by omega)
          omega
        have := hc1 hk
        refine ⟨hw, by simp only; omega, ?_, ?_⟩
        · intro _
          simp only
          omega
        · intro hgt
          simp only
          omega
      · rw [if_neg hlt]
        refine ⟨hw, by simp only; omega, ?_, ?_⟩
        · intro hle
          have := hc1 (by omega)
          omega
        · intro _
          exact ⟨rfl, rfl⟩
    by_cases hjk : k ≠ 0 ∨ j ≠ 0
    · rw [if_pos hjk]
      have hut2 : u.tbl = 256 * i + (16 * j + k) := by
        rw [hut, if_neg (by omega)]
      have hv : u.col = rampTarget l4 u.tbl := by
        rw [hut2, rampTarget_at l4 i _ hi0 hi1 (by omega) (by omega), hs,
          rampValue_low s j k hs0 hj0 hj1 hk0 hk1 hjk]
        by_cases hle : s + k ≤ 15
        · rw [if_pos hle]
          exact (hc1 hle).1
        · rw [if_neg hle]
          exact (hc2 (by omega)).1
      obtain ⟨p1, p2, p3, p4⟩ := put_inv l4 u u.col hu hv
      exact hmid _ p1 (by rw [p2, hut2]; omega) p3 p4
    · rw [if_neg hjk]
      have hj : j = 0 := by omega
      have hk : k = 0 := by omega
      exact hmid u hu (by rw [hut, if_pos ⟨hj, hk⟩, hj, hk]; omega) rfl rfl
  · refine ⟨⟨h.1, h.2⟩, ?_, ?_, ?_⟩
    · show t.tbl = _
      rw [ht]
      split_ifs <;> omega
    · intro _
      simp only
      omega
    · intro hgt
      omega

theorem rampMid_spec (l4 : Bool) (i j : Int) (t : RampState) (hi0 : 0 ≤ i)
    (hi1 : i < rampLights l4) (hs0 : 0 ≤ rampShade l4 i) (hs1 : rampShade l4 i ≤ 14)
    (hj0 : 16 ≤ j) (hj1 : j < 20) (h : RampInv l4 t)
    (ht : t.tbl = 256 * i + 8 * j) :
    RampInv l4 (rampMid (rampShade l4 i) j t) ∧
      (rampMid (rampShade l4 i) j t).tbl = 256 * i + 8 * (j + 1) := by
  generalize hs : rampShade l4 i = s at *
  have key := forRange_count
    (fun (k : Int) (u : RampState) => RampInv l4 u ∧
      u.tbl = 256 * i + 8 * j + k ∧
      (s / 2 + k ≤ 7 → u.col = 8 * j + s / 2 + k ∧ u.max = 8 * j + 7) ∧
      (7 < s / 2 + k → u.col = 0 ∧ u.max = 0))
    (fun _ t => stepCol (put t t.col)) 0 8
    { t with col := (8 * j + s / 2) % 256, max := (8 * j + 7) % 256 } (by omega) ?_ ?_
  · refine ⟨key.1, ?_⟩
    have := key.2.1
    unfold rampMid
    rw [this]
    omega
  · intro k hk0 hk1 u ⟨hu, hut, hc1, hc2⟩
    simp only
    have hv : u.col = rampTarget l4 u.tbl := by
      rw [hut, show 256 * i + 8 * j + k = 256 * i + (8 * j + k) by omega,
        rampTarget_at l4 i _ hi0 hi1 (by omega) (by omega), hs,
        rampValue_mid s j k hs0 hj0 hj1 hk0 hk1]
      by_cases hle : s / 2 + k ≤ 7
      · rw [if_pos hle]
        exact (hc1 hle).1
      · rw [if_neg hle]
        exact (hc2 (by omega)).1
    obtain ⟨p1, p2, p3, p4⟩ := put_inv l4 u u.col hu hv
    generalize put u u.col = w at *
    unfold stepCol
    by_cases hlt : w.col < w.max
    · rw [if_pos hlt]
      have hk : s / 2 + k ≤ 7 := by
        by_contra hcon
        have := hc2 (by omega)
        omega
      have := hc1 hk
      refine ⟨p1, by simp only; omega, ?_, ?_⟩
      · intro _
        simp only
        omega
      · intro hgt
        simp only
        omega
    · rw [if_neg hlt]
      refine ⟨p1, by simp only; omega, ?_, ?_⟩
      · intro hle
        have := hc1 (by omega)
        omega
      · intro _
        exact ⟨rfl, rfl⟩
  · refine ⟨⟨h.1, h.2⟩, ?_, ?_, ?_⟩
    · show t.tbl = _
      rw [ht]
      omega
    · intro _
      simp only
      omega
    · intro hgt
      omega

theorem rampHigh_spec (l4 : Bool) (i j : Int) (t : RampState) (hi0 : 0 ≤ i)
    (hi1 : i < rampLights l4) (hs0 : 0 ≤ rampShade l4 i) (hs1 : rampShade l4 i ≤ 14)
    (hj0 : 10 ≤ j) (hj1 : j < 16) (h : RampInv l4 t)
    (ht : t.tbl = 256 * i + 16 * j) :
    RampInv l4 (rampHigh (rampShade l4 i) j t) ∧
      (rampHigh (rampShade l4 i) j t).tbl = 256 * i + 16 * (j + 1) := by
  generalize hs : rampShade l4 i = s at *
  have key := forRange_count
    (fun (k : Int) (u : RampState) => RampInv l4 u ∧
      u.tbl = 256 * i + 16 * j + k ∧
      (s + k ≤ 15 ∧ 16 * j + s + k < 255 → u.col = 16 * j + s + k ∧ u.max = 16 * j + 15) ∧
      (¬ (s + k ≤ 15 ∧ 16 * j + s + k < 255) → u.col = 0 ∧ u.max = 0))
    (fun _ t =>
      let t := stepCol (put t t.col)
      if t.col = 255 then { t with max := 0, col := 0 } else t) 0 16
    { t with col := (16 * j + s) % 256, max := (16 * j + 15) % 256 } (by omega) ?_ ?_
  · refine ⟨key.1, ?_⟩
    have := key.2.1
    unfold rampHigh
    rw [this]
    omega
  · intro k hk0 hk1 u ⟨hu, hut, hc1, hc2⟩
    simp only
    have hv : u.col = rampTarget l4 u.tbl := by
      rw [hut, show 256 * i + 16 * j + k = 256 * i + (16 * j + k) by omega,
        rampTarget_at l4 i _ hi0 hi1 (by omega) (by omega), hs,
        rampValue_high s j k hs0 hj0 hj1 hk0 hk1]
      by_cases hle : s + k ≤ 15 ∧ 16 * j + s + k < 255
      · rw [if_pos hle]
        exact (hc1 hle).1
      · rw [if_neg hle]
        exact (hc2 hle).1
    obtain ⟨p1, p2, p3, p4⟩ := put_inv l4 u u.col hu hv
    generalize put u u.col = w at *
    have hstep : RampInv l4 (stepCol w) ∧ (stepCol w).tbl = 256 * i + 16 * j + (k + 1) ∧
        ((s + k < 15 ∧ 16 * j + s + k < 255 →
            (stepCol w).col = 16 * j + s + k + 1 ∧ (stepCol w).max = 16 * j + 15) ∧
          (¬ (s + k < 15 ∧ 16 * j + s + k < 255) →
            (stepCol w).col = 0 ∧ (stepCol w).max = 0)) := by
      unfold stepCol
      by_cases hlt : w.col < w.max
      · rw [if_pos hlt]
        have hk : s + k ≤ 15 ∧ 16 * j + s + k < 255 := by
          by_contra hcon
          have := hc2 hcon
          omega
        have := hc1 hk
        refine ⟨p1, by simp only; omega, ?_, ?_⟩
        · intro _
          simp only
          omega
        · intro hgt
          simp only
          omega
      · rw [if_neg hlt]
        refine ⟨p1, by simp only; omega, ?_, ?_⟩
        · intro hle
          have := hc1 (by omega)
          omega
        · intro _
          exact ⟨rfl, rfl⟩
    obtain ⟨q1, q2, q3, q4⟩ := hstep
    generalize stepCol w = z at *
    by_cases h255 : z.col = 255
    · rw [if_pos h255]
      refine ⟨q1, q2, ?_, ?_⟩
      · intro hle
        have := q3 (by omega)
        omega
      · intro _
        exact ⟨rfl, rfl⟩
    · rw [if_neg h255]
      refine ⟨q1, q2, ?_, ?_⟩
      · intro hle
        have := q3 (by omega)
        omega
      · intro hgt
        apply q4
        intro hcon
        have := q3 hcon
        omega
  · refine ⟨⟨h.1, h.2⟩, ?_, ?_, ?_⟩
    · show t.tbl = _
      rw [ht]
      omega
    · intro _
      simp only
      omega
    · intro hgt
      omega


theorem rampShade_range (l4 : Bool) (i : Int) (hi0 : 0 ≤ i) (hi1 : i < rampLights l4) :
    0 ≤ rampShade l4 i ∧ rampShade l4 i ≤ 14 := by
  unfold rampShade
  unfold rampLights at hi1
  cases l4
  · simp only [Bool.false_eq_true, if_false] at hi1 ⊢
    omega
  · simp only [if_true] at hi1 ⊢
    omega

theorem rampOne_spec (l4 : Bool) (i : Int) (st : Int × RampState) (hi0 : 0 ≤ i)
    (hi1 : i < rampLights l4) (hs : st.1 = rampShade l4 i) (h : RampInv l4 st.2)
    (ht : st.2.tbl = 256 * i) :
    (rampOne l4 i st).1 = rampShade l4 (i + 1) ∧ RampInv l4 (rampOne l4 i st).2 ∧
      (rampOne l4 i st).2.tbl = 256 * (i + 1) := by
  obtain ⟨s0, s1⟩ := rampShade_range l4 i hi0 hi1
  unfold rampOne
  simp only
  rw [hs]
  have hv : (0 : Int) = rampTarget l4 st.2.tbl := by
    rw [ht, show 256 * i = 256 * i + 0 by omega,
      rampTarget_at l4 i 0 hi0 hi1 (by omega) (by omega)]
    rfl
  obtain ⟨p1, p2, _, _⟩ := put_inv l4 st.2 0 h hv
  generalize put st.2 0 = t1 at *
  have k1 := forRange_count
    (fun (j : Int) (u : RampState) => RampInv l4 u ∧
      u.tbl = 256 * i + (if j = 0 then 1 else 16 * j))
    (rampLow (rampShade l4 i)) 0 8 t1 (by omega)
    (fun j j0 j1 u hu => by
      have := rampLow_spec l4 i j u hi0 hi1 s0 s1 j0 j1 hu.1 hu.2
      refine ⟨this.1, ?_⟩
      rw [this.2, if_neg (by omega)])
    ⟨p1, by rw [p2, ht, if_pos rfl]⟩
  generalize forRange 0 8 (rampLow (rampShade l4 i)) t1 = t2 at *
  have k2 := forRange_count
    (fun (j : Int) (u : RampState) => RampInv l4 u ∧ u.tbl = 256 * i + 8 * j)
    (rampMid (rampShade l4 i)) 16 20 t2 (by omega)
    (fun j j0 j1 u hu => rampMid_spec l4 i j u hi0 hi1 s0 s1 j0 j1 hu.1 hu.2)
    ⟨k1.1, by rw [k1.2, if_neg (by omega)]; omega⟩
  generalize forRange 16 20 (rampMid (rampShade l4 i)) t2 = t3 at *
  have k3 := forRange_count
    (fun (j : Int) (u : RampState) => RampInv l4 u ∧ u.tbl = 256 * i + 16 * j)
    (rampHigh (rampShade l4 i)) 10 16 t3 (by omega)
    (fun j j0 j1 u hu => rampHigh_spec l4 i j u hi0 hi1 s0 s1 j0 j1 hu.1 hu.2)
    ⟨k2.1, by rw [k2.2]; omega⟩
  refine ⟨?_, k3.1, by rw [k3.2]; omega⟩
  unfold rampShade
  cases l4
  · simp only [Bool.false_eq_true, if_false]
  · simp only [if_true]
    omega

/-- The ramp section of `MakeLightTable` leaves the table of the claim in the
first `lights + 1` ramps. -/
theorem MakeLightTable_ramps_spec (l4 : Bool) (tab0 : Int → Int) (a : Int) (h0 : 0 ≤ a)
    (h1 : a < 256 * (rampLights l4 + 1)) :
    MakeLightTable_ramps l4 tab0 a = rampTarget l4 a := by
  have hdef : MakeLightTable_ramps l4 tab0 = (forRange 0 256 (fun _ t => put t 0)
      (forRange 0 (rampLights l4) (rampOne l4)
        (0, { tbl := 0, pLightTbl := tab0, col := 0, max := 0 })).2).pLightTbl := rfl
  rw [hdef]
  have hL : 0 ≤ rampLights l4 := by
    unfold rampLights
    split_ifs <;> omega
  have k1 := forRange_count
    (fun (i : Int) (st : Int × RampState) => st.1 = rampShade l4 i ∧ RampInv l4 st.2 ∧
      st.2.tbl = 256 * i)
    (rampOne l4) 0 (rampLights l4)
    (0, { tbl := 0, pLightTbl := tab0, col := 0, max := 0 }) hL
    (fun i i0 i1 st hst => rampOne_spec l4 i st i0 i1 hst.1 hst.2.1 hst.2.2)
    ⟨by unfold rampShade; split_ifs <;> omega,
      ⟨le_refl _, fun a a0 a1 => absurd a1 (by simp only; omega)⟩, by simp only; omega⟩
  generalize forRange 0 (rampLights l4) (rampOne l4)
    (0, { tbl := 0, pLightTbl := tab0, col := 0, max := 0 }) = st at k1
  have k2 := forRange_count
    (fun (k : Int) (u : RampState) => RampInv l4 u ∧ u.tbl = 256 * rampLights l4 + k)
    (fun _ t => put t 0) 0 256 st.2 (by omega)
    (fun k k0 k1 u hu => by
      have hv : (0 : Int) = rampTarget l4 u.tbl := by
        rw [rampTarget_last l4 _ (by rw [hu.2]; omega)]
      obtain ⟨p1, p2, _, _⟩ := put_inv l4 u 0 hu.1 hv
      exact ⟨p1, by rw [p2, hu.2]; omega⟩)
    ⟨k1.2.1, by rw [k1.2.2]; omega⟩
  exact k2.1.2 a h0 (by rw [k2.2]; omega)

theorem rampValue_band (s p : Int) (hs0 : 0 ≤ s) (hp0 : 0 ≤ p) :
    rampValue s p = 0 ∨ (p ≤ rampValue s p ∧
      (if 128 ≤ p ∧ p ≤ 159 then rampValue s p / 8 = p / 8 else rampValue s p / 16 = p / 16)) := by
  unfold rampValue
  split_ifs <;> omega

/-- C28. The ramp section of `MakeLightTable` (all it writes into the first
`lights + 1` ramps on a level that is not hell and below 17), with `lights = 15`
and shade `s = i` in 16-level mode, `lights = 3` and `s = 5 * i` in 4-level mode:
ramp `i < lights` maps palette index `p` to `rampValue s p`, that is 0 for `p = 0`,
`p + s / 2` if `p % 8 + s / 2 ≤ 7` and else 0 for `p` in 128..159, and `p + s` if
`p % 16 + s ≤ 15` and `p + s ≠ 255` and else 0 for every other `p`; the ramp
`lights` maps every index to 0; and every value of these ramps is 0 or an index
of the band of `p` that is at least `p`. -/
theorem MakeLightTable_ramp_contents (light4flag : Bool) (tab0 : Int → Int) (i p : Int)
    (hi0 : 0 ≤ i) (hi1 : i ≤ rampLights light4flag) (hp0 : 0 ≤ p) (hp1 : p < 256) :
    (i < rampLights light4flag →
        MakeLightTable_ramps light4flag tab0 (256 * i + p) =
          rampValue (if light4flag then 5 * i else i) p) ∧
      (i = rampLights light4flag → MakeLightTable_ramps light4flag tab0 (256 * i + p) = 0) ∧
      (MakeLightTable_ramps light4flag tab0 (256 * i + p) = 0 ∨
        (p ≤ MakeLightTable_ramps light4flag tab0 (256 * i + p) ∧
          (if 128 ≤ p ∧ p ≤ 159
            then MakeLightTable_ramps light4flag tab0 (256 * i + p) / 8 = p / 8
            else MakeLightTable_ramps light4flag tab0 (256 * i + p) / 16 = p / 16))) := by
  have e := MakeLightTable_ramps_spec light4flag tab0 (256 * i + p) (by omega) (by omega)
  rw [e]
  have hlast : i = rampLights light4flag → rampTarget light4flag (256 * i + p) = 0 :=
    fun h => rampTarget_last light4flag _ (by omega)
  have hin : i < rampLights light4flag →
      rampTarget light4flag (256 * i + p) = rampValue (rampShade light4flag i) p :=
    fun h => rampTarget_at light4flag i p hi0 h hp0 hp1
  refine ⟨fun h => hin h, hlast, ?_⟩
  by_cases h : i < rampLights light4flag
  · rw [hin h]
    exact rampValue_band _ p (rampShade_range light4flag i hi0 h).1 hp0
  · exact Or.inl (hlast (by omega))

theorem MakeLightTable_ramp_contents_witness :
    (MakeLightTable_ramps false (fun _ => 7) (256 * 3 + 130) = rampValue 3 130) ∧
      rampValue 3 130 = 131 ∧ rampLights false = 15 :=
  ⟨(MakeLightTable_ramp_contents false (fun _ => 7) 3 130 (by decide) (by decide) (by decide)
      (by decide)).1 (by decide), by decide, by decide⟩

/-! ## Colour cycling -/

theorem cycleShift_spec (b : Int) (told : Int → Int) (t : CycleState)
    (ht : t.tbl = b + 1) (hp : t.pLightTbl = told) :
    (forRange 0 30 cycleShift t).tbl = b + 31 ∧ (forRange 0 30 cycleShift t).col = t.col ∧
      ∀ a, (forRange 0 30 cycleShift t).pLightTbl a =
        if b + 1 ≤ a ∧ a < b + 31 then told (a + 1) else told a := by
  have key := forRange_count
    (fun (i : Int) (w : CycleState) => w.tbl = b + 1 + i ∧ w.col = t.col ∧
      ∀ a, w.pLightTbl a = if b + 1 ≤ a ∧ a < b + 1 + i then told (a + 1) else told a)
    cycleShift 0 30 t (by omega) ?_ ?_
  · refine ⟨by rw [key.1]; omega, key.2.1, ?_⟩
    intro a
    rw [key.2.2 a]
    by_cases h : b + 1 ≤ a ∧ a < b + 31
    · rw [if_pos h, if_pos (by omega)]
    · rw [if_neg h, if_neg (by omega)]
  · intro i i0 i1 w ⟨hw1, hw2, hw3⟩
    refine ⟨?_, hw2, ?_⟩
    · show w.tbl + 1 = _
      omega
    · intro a
      show setAt w.pLightTbl w.tbl (w.pLightTbl (w.tbl + 1)) a = _
      unfold setAt
      by_cases ha : a = w.tbl
      · rw [if_pos ha, hw3, if_neg (by omega), if_pos (by omega), ha]
      · rw [if_neg ha, hw3]
        by_cases h : b + 1 ≤ a ∧ a < b + 1 + i
        · rw [if_pos h, if_pos (by omega)]
        · rw [if_neg h, if_neg (by omega)]
  · refine ⟨by omega, rfl, ?_⟩
    intro a
    rw [if_neg (by omega), hp]

theorem cycleRamp_spec (j : Int) (told : Int → Int) (t : CycleState)
    (ht : t.tbl = 256 * j) (hp : t.pLightTbl = told) :
    (cycleRamp j t).tbl = 256 * (j + 1) ∧
      ∀ a, (cycleRamp j t).pLightTbl a =
        if 256 * j ≤ a ∧ a < 256 * (j + 1) then told (cycleSource a) else told a := by
  obtain ⟨k1, k2, k3⟩ := cycleShift_spec (256 * j) told
    { tbl := t.tbl + 1, pLightTbl := t.pLightTbl, col := t.pLightTbl (t.tbl + 1) }
    (by simp only; omega) hp
  have hdef : cycleRamp j t =
      { tbl := (forRange 0 30 cycleShift
            { tbl := t.tbl + 1, pLightTbl := t.pLightTbl, col := t.pLightTbl (t.tbl + 1) }).tbl
            + 225
        pLightTbl := setAt (forRange 0 30 cycleShift
            { tbl := t.tbl + 1, pLightTbl := t.pLightTbl, col := t.pLightTbl (t.tbl + 1) }).pLightTbl
          (forRange 0 30 cycleShift
            { tbl := t.tbl + 1, pLightTbl := t.pLightTbl, col := t.pLightTbl (t.tbl + 1) }).tbl
          (forRange 0 30 cycleShift
            { tbl := t.tbl + 1, pLightTbl := t.pLightTbl, col := t.pLightTbl (t.tbl + 1) }).col
        col := (forRange 0 30 cycleShift
            { tbl := t.tbl + 1, pLightTbl := t.pLightTbl, col := t.pLightTbl (t.tbl + 1) }).col } :=
    rfl
  rw [hdef]
  generalize forRange 0 30 cycleShift
    { tbl := t.tbl + 1, pLightTbl := t.pLightTbl, col := t.pLightTbl (t.tbl + 1) } = w at *
  simp only at k2
  refine ⟨by simp only; omega, ?_⟩
  intro a
  simp only
  unfold setAt
  by_cases ha : a = w.tbl
  · rw [if_pos ha, k2, hp, if_pos (by omega)]
    unfold cycleSource
    rw [if_neg (by omega), if_pos (by omega), ht]
    congr 1
    omega
  · rw [if_neg ha, k3]
    unfold cycleSource
    by_cases h : 256 * j + 1 ≤ a ∧ a < 256 * j + 31
    · rw [if_pos h, if_pos (by omega), if_pos (by omega)]
    · rw [if_neg h]
      by_cases h2 : 256 * j ≤ a ∧ a < 256 * (j + 1)
      · rw [if_pos h2, if_neg (by omega), if_neg (by omega)]
      · rw [if_neg h2]

theorem cycleLoop_spec (l : Int) (hl : 0 ≤ l) (tab : Int → Int) :
    ∀ a, (forRange 0 l cycleRamp { tbl := 0, pLightTbl := tab, col := 0 }).pLightTbl a =
      if 0 ≤ a ∧ a < 256 * l then tab (cycleSource a) else tab a := by
  have key := forRange_count
    (fun (j : Int) (w : CycleState) => w.tbl = 256 * j ∧
      ∀ a, w.pLightTbl a = if 0 ≤ a ∧ a < 256 * j then tab (cycleSource a) else tab a)
    cycleRamp 0 l { tbl := 0, pLightTbl := tab, col := 0 } hl ?_ ?_
  · exact key.2
  · intro j j0 j1 w ⟨hw1, hw2⟩
    obtain ⟨k1, k2⟩ := cycleRamp_spec j w.pLightTbl w hw1 rfl
    refine ⟨k1, ?_⟩
    intro a
    rw [k2 a]
    by_cases h : 256 * j ≤ a ∧ a < 256 * (j + 1)
    · rw [if_pos h, if_pos (by omega), hw2, if_neg]
      unfold cycleSource
      split_ifs <;> omega
    · rw [if_neg h, hw2]
      by_cases h2 : 0 ≤ a ∧ a < 256 * j
      · rw [if_pos h2, if_pos (by omega)]
      · rw [if_neg h2, if_neg (by omega)]
  · refine ⟨by simp only; omega, ?_⟩
    intro a
    rw [if_neg (by omega)]

theorem lighting_color_cycling_hell (l4 : Bool) (H : Int) (tab : Int → Int) (a : Int) :
    lighting_color_cycling l4 H H tab a =
      if 0 ≤ a ∧ a < 256 * (if l4 then 4 else 16) then tab (cycleSource a) else tab a := by
  have hdef : lighting_color_cycling l4 H H tab =
      (forRange 0 (if l4 then 4 else 16) cycleRamp
        { tbl := 0, pLightTbl := tab, col := 0 }).pLightTbl := by
    unfold lighting_color_cycling
    simp only [ne_eq, not_true_eq_false, if_false]
  rw [hdef]
  exact cycleLoop_spec _ (by split_ifs <;> omega) tab a

theorem lighting_color_cycling_iterate (l4 : Bool) (H : Int) (n : Nat) :
    ∀ (tab : Int → Int) (a : Int), (lighting_color_cycling l4 H H)^[n] tab a =
      tab (cycleSourceN (if l4 then 4 else 16) n a) := by
  induction n with
  | zero =>
    intro tab a
    rw [Function.iterate_zero, id]
    congr 1
    unfold cycleSourceN
    split_ifs <;> omega
  | succ n ih =>
    intro tab a
    rw [Function.iterate_succ_apply, ih, lighting_color_cycling_hell]
    generalize hl : (if l4 then (4 : Int) else 16) = l
    unfold cycleSourceN cycleSource
    push_cast
    generalize (n : Int) = m
    split_ifs <;> first | rfl | (congr 1; omega)

theorem lighting_color_cycling_other (l4 : Bool) (lt H : Int) (h : lt ≠ H)
    (tab : Int → Int) : lighting_color_cycling l4 lt H tab = tab := by
  unfold lighting_color_cycling
  simp only [ne_eq, h, not_false_eq_true, if_true]

/-- C29. On a hell level (`leveltype = DTYPE_HELL`) one call of
`lighting_color_cycling` leaves at every offset `a` of the first `l` ramps of 256
entries (`l = 16`, or 4 in 4-level mode) whose index `a % 256` is in 1..30 the old
entry of `a + 1`, at index 31 the old entry of index 1 of the same ramp, and at
every other offset of the table the old entry; on any other level type it
leaves the table as it is; and 31 calls in a row restore the table. -/
theorem lighting_color_cycling_rotates (light4flag : Bool) (leveltype DTYPE_HELL : Int)
    (pLightTbl : Int → Int) :
    (∀ a, lighting_color_cycling light4flag leveltype DTYPE_HELL pLightTbl a =
        if leveltype = DTYPE_HELL ∧ 0 ≤ a ∧ a < 256 * (if light4flag then 4 else 16)
        then (if 1 ≤ a % 256 ∧ a % 256 ≤ 30 then pLightTbl (a + 1)
          else if a % 256 = 31 then pLightTbl (a - 30) else pLightTbl a)
        else pLightTbl a) ∧
      (lighting_color_cycling light4flag leveltype DTYPE_HELL)^[31] pLightTbl = pLightTbl := by
  by_cases h : leveltype = DTYPE_HELL
  · subst h
    refine ⟨?_, ?_⟩
    · intro a
      rw [lighting_color_cycling_hell]
      unfold cycleSource
      simp only [true_and]
      split_ifs <;> rfl
    · funext a
      rw [lighting_color_cycling_iterate]
      congr 1
      unfold cycleSourceN
      push_cast
      split_ifs <;> omega
  · have e : lighting_color_cycling light4flag leveltype DTYPE_HELL = id := by
      funext tab
      exact lighting_color_cycling_other light4flag leveltype DTYPE_HELL h tab
    refine ⟨?_, ?_⟩
    · intro a
      rw [e, if_neg (fun hc => h hc.1)]
      rfl
    · rw [e, Function.iterate_id]
      rfl

/-! ## Random numbers -/

theorem abs32_nonneg (x : Int) (h0 : -2147483648 < x) (h1 : x < 2147483648) :
    0 ≤ abs32 x := by
  unfold abs32 toInt32
  split_ifs <;> omega

theorem toInt32_range (x : Int) : -2147483648 ≤ toInt32 x ∧ toInt32 x < 2147483648 := by
  unfold toInt32
  omega

theorem tmod_range (a v : Int) (ha : 0 ≤ a) (hv : 0 < v) :
    0 ≤ Int.tmod a v ∧ Int.tmod a v ≤ v - 1 := by
  have h1 := Int.tmod_nonneg v ha
  have h2 := Int.tmod_lt_of_pos a hv
  omega

/-- C30 (the seeds that do not step to the most negative value). For `v > 0` and
a seed whose successor is not `-2^31`, `GenerateRnd v` returns a value in
`0 .. v - 1`; for `v ≤ 0` it returns 0 and leaves the seed as it is. -/
theorem GenerateRnd_range (v seed : Int) (hs : (AdvanceRndSeed seed).2 ≠ -2147483648) :
    (0 < v → 0 ≤ (GenerateRnd v seed).1 ∧ (GenerateRnd v seed).1 ≤ v - 1) ∧
      (v ≤ 0 → GenerateRnd v seed = (0, seed)) := by
  refine ⟨?_, ?_⟩
  · intro hv
    have hr := toInt32_range (toUInt32 (toUInt32 (RndMult * toUInt32 seed) + RndInc))
    have hn : 0 ≤ (AdvanceRndSeed seed).1 := by
      apply abs32_nonneg
      · have : (AdvanceRndSeed seed).2 ≠ -2147483648 := hs
        have e : (AdvanceRndSeed seed).2 =
          toInt32 (toUInt32 (toUInt32 (RndMult * toUInt32 seed) + RndInc)) := rfl
        rw [e] at this
        omega
      · exact hr.2
    unfold GenerateRnd
    rw [if_neg (by omega)]
    by_cases h : v < 65535
    · rw [if_pos h]
      exact tmod_range _ v (by omega) hv
    · rw [if_neg h]
      exact tmod_range _ v hn hv
  · intro hv
    unfold GenerateRnd
    rw [if_pos hv]

theorem GenerateRnd_range_witness :
    (AdvanceRndSeed 0).2 ≠ -2147483648 ∧ 0 ≤ (GenerateRnd 6 0).1 ∧ (GenerateRnd 6 0).1 ≤ 5 :=
  ⟨by decide, (GenerateRnd_range 6 0 (by decide)).1 (by decide)⟩

/-- C30, counterexample. From the seed 1457187811 the update
`RndMult * seed + RndInc` is `2^31` modulo `2^32`, the signed seed is `-2^31`, its
magnitude does not fit an `int`, and `GenerateRnd 3` returns `-2`. -/
theorem GenerateRnd_negative :
    -2147483648 ≤ (1457187811 : Int) ∧ (1457187811 : Int) < 2147483648 ∧
      GenerateRnd 3 1457187811 = (-2, -2147483648) := by
  decide

/-! ## Rotation, offset normalisation and crawl table reads -/

/-- C34. For `dx, dy, lx, ly` in `0..7`, `RotateRadius` replaces `(dx, dy)` by
`(7 - dy, dx)` and `(lx, ly)` by `(7 - ly, lx)`, returns `x = (dx' - lx') mod 8` and
`y = (dy' - ly') mod 8`, both in `0..7`, with `bx = 1` exactly when `dx' < lx'` and
`by = 1` exactly when `dy' < ly'` (else 0); four calls in a row return `dx`, `dy`,
`lx`, `ly` to their first values. -/
theorem RotateRadius_quarter_turn (dx dy lx ly : Int) (hdx : 0 ≤ dx ∧ dx ≤ 7)
    (hdy : 0 ≤ dy ∧ dy ≤ 7) (hlx : 0 ≤ lx ∧ lx ≤ 7) (hly : 0 ≤ ly ∧ ly ≤ 7) :
    ((RotateRadius dx dy lx ly).dx = 7 - dy ∧ (RotateRadius dx dy lx ly).dy = dx ∧
      (RotateRadius dx dy lx ly).lx = 7 - ly ∧ (RotateRadius dx dy lx ly).ly = lx) ∧
    ((RotateRadius dx dy lx ly).x =
        ((RotateRadius dx dy lx ly).dx - (RotateRadius dx dy lx ly).lx) % 8 ∧
      (RotateRadius dx dy lx ly).y =
        ((RotateRadius dx dy lx ly).dy - (RotateRadius dx dy lx ly).ly) % 8 ∧
      (0 ≤ (RotateRadius dx dy lx ly).x ∧ (RotateRadius dx dy lx ly).x ≤ 7) ∧
      0 ≤ (RotateRadius dx dy lx ly).y ∧ (RotateRadius dx dy lx ly).y ≤ 7) ∧
    ((RotateRadius dx dy lx ly).bx =
        (if (RotateRadius dx dy lx ly).dx < (RotateRadius dx dy lx ly).lx then 1 else 0) ∧
      (RotateRadius dx dy lx ly).by_ =
        (if (RotateRadius dx dy lx ly).dy < (RotateRadius dx dy lx ly).ly then 1 else 0)) ∧
    (let r1 := RotateRadius dx dy lx ly
     let r2 := RotateRadius r1.dx r1.dy r1.lx r1.ly
     let r3 := RotateRadius r2.dx r2.dy r2.lx r2.ly
     let r4 := RotateRadius r3.dx r3.dy r3.lx r3.ly
     r4.dx = dx ∧ r4.dy = dy ∧ r4.lx = lx ∧ r4.ly = ly) := by
  refine ⟨⟨rfl, rfl, rfl, rfl⟩, ⟨?_, ?_, ⟨?_, ?_⟩, ?_, ?_⟩, ⟨?_, ?_⟩, ?_, ?_, ?_, ?_⟩ <;>
    simp only [RotateRadius] <;> omega

theorem RotateRadius_quarter_turn_witness :
    (RotateRadius 2 5 6 1).x = 4 ∧ (RotateRadius 2 5 6 1).bx = 1 ∧
      (RotateRadius 2 5 6 1).x = ((RotateRadius 2 5 6 1).dx - (RotateRadius 2 5 6 1).lx) % 8 :=
  ⟨by decide, by decide,
    (RotateRadius_quarter_turn 2 5 6 1 (by decide) (by decide) (by decide) (by decide)).2.1.1⟩

/-- C33. `DoLighting` works from the position and offset given by `lightOrigin`. For
a light `Lnum ≥ 0` whose stored offset has both components in `-8..7` the offset
used is in `0..7` in both components and the position in eighths of a tile is the
stored one: `8 X' + xoff = 8 X + ox`, `8 Y' + yoff = 8 Y + oy`. For a negative
`Lnum` the offset used is (0, 0) and the position is unchanged. -/
theorem lightOrigin_normalises (K : Consts) (s : Lighting) (X Y r Lnum : Int)
    (hox : 0 ≤ Lnum → -8 ≤ (s.LightList Lnum).position.offset.x ∧
      (s.LightList Lnum).position.offset.x ≤ 7)
    (hoy : 0 ≤ Lnum → -8 ≤ (s.LightList Lnum).position.offset.y ∧
      (s.LightList Lnum).position.offset.y ≤ 7) :
    DoLighting K s X Y r Lnum =
        lightFrom K s (lightOrigin s X Y Lnum).1 (lightOrigin s X Y Lnum).2.1 r
          (lightOrigin s X Y Lnum).2.2.1 (lightOrigin s X Y Lnum).2.2.2 ∧
      (0 ≤ Lnum →
        (0 ≤ (lightOrigin s X Y Lnum).2.2.1 ∧ (lightOrigin s X Y Lnum).2.2.1 ≤ 7) ∧
        (0 ≤ (lightOrigin s X Y Lnum).2.2.2 ∧ (lightOrigin s X Y Lnum).2.2.2 ≤ 7) ∧
        8 * (lightOrigin s X Y Lnum).1 + (lightOrigin s X Y Lnum).2.2.1 =
          8 * X + (s.LightList Lnum).position.offset.x ∧
        8 * (lightOrigin s X Y Lnum).2.1 + (lightOrigin s X Y Lnum).2.2.2 =
          8 * Y + (s.LightList Lnum).position.offset.y) ∧
      (Lnum < 0 → lightOrigin s X Y Lnum = (X, Y, 0, 0)) := by
  refine ⟨rfl, ?_, ?_⟩
  · intro hL
    have h1 := hox hL
    have h2 := hoy hL
    unfold lightOrigin
    rw [if_pos (by omega)]
    simp only
    refine ⟨?_, ?_, ?_, ?_⟩ <;> split_ifs <;> omega
  · intro hL
    unfold lightOrigin
    rw [if_neg (by omega)]

theorem lightOrigin_normalises_witness :
    lightOrigin negOffsetLight 30 40 0 = (29, 40, 5, 5) ∧
      8 * (lightOrigin negOffsetLight 30 40 0).1 + (lightOrigin negOffsetLight 30 40 0).2.2.1 =
        8 * 30 + (negOffsetLight.LightList 0).position.offset.x :=
  ⟨by decide,
    ((lightOrigin_normalises upstream negOffsetLight 30 40 5 0 (fun _ => by decide)
      (fun _ => by decide)).2.1 (by decide)).2.2.1⟩

set_option maxRecDepth 100000 in
theorem vCrawlTable_real_pairs : ∀ j < 23, ∀ p < 15, p + RadiusAdj j < 15 →
    ¬ (vCrawlTable j (2 * p) = 0 ∧ vCrawlTable j (2 * p + 1) = 0) := by
  decide

/-- C37. In a call of `DoVision` with radius `r` in `0..15`, every step `p` of the
walk along ring `j` (`0 ≤ j < 23`, `0 ≤ p < r - RadiusAdj[j]`, reading
`vCrawlTable[j][k]` and `vCrawlTable[j][k + 1]` for `k = 2 p`) has `k + 1 ≤ 29`, and
the pair it reads is not (0, 0): it is none of the alignment entries at the end of
a row. -/
theorem vCrawlTable_reads_in_data (r j p : Int) (hr : 0 ≤ r ∧ r ≤ 15) (hj : 0 ≤ j ∧ j < 23)
    (hp : 0 ≤ p ∧ p < r - RadiusAdj j.toNat) :
    2 * p.toNat + 1 ≤ 29 ∧
      ¬ (vCrawlTable j.toNat (2 * p.toNat) = 0 ∧ vCrawlTable j.toNat (2 * p.toNat + 1) = 0) := by
  have hj2 : j.toNat < 23 := by omega
  have hp2 : p.toNat < 15 := by omega
  refine ⟨by omega, vCrawlTable_real_pairs j.toNat hj2 p.toNat hp2 (by omega)⟩

theorem vCrawlTable_reads_in_data_witness :
    2 * (12 : Int).toNat + 1 ≤ 29 ∧
      ¬ (vCrawlTable (7 : Int).toNat (2 * (12 : Int).toNat) = 0 ∧
        vCrawlTable (7 : Int).toNat (2 * (12 : Int).toNat + 1) = 0) :=
  vCrawlTable_reads_in_data 15 7 12 (by decide) (by decide) (by decide)

/-! ## Line of sight -/

theorem forRange_split {σ : Type} (body : Int → σ → σ) (lo mid hi : Int) (s : σ)
    (h1 : lo ≤ mid) (h2 : mid ≤ hi) :
    forRange lo hi body s = forRange mid hi body (forRange lo mid body s) := by
  obtain ⟨n, hn⟩ : ∃ n : Nat, mid - lo = n := ⟨(mid - lo).toNat, by omega⟩
  induction n generalizing lo s with
  | zero =>
    have : mid = lo := by omega
    subst this
    rw [forRange_empty body mid mid s (le_refl _)]
  | succ n ih =>
    rw [forRange_succ body lo hi s (by omega), forRange_succ body lo mid s (by omega)]
    exact ih (lo + 1) (body lo s) (by omega) (by push_cast at hn; omega)

theorem forRange_last {σ : Type} (body : Int → σ → σ) (lo hi : Int) (s : σ) (h : lo ≤ hi) :
    forRange lo (hi + 1) body s = body hi (forRange lo hi body s) := by
  rw [forRange_split body lo hi (hi + 1) s h (by omega),
    forRange_succ body hi (hi + 1) _ (by omega), forRange_empty body _ _ _ (le_refl _)]

/-- A walk keeps the frame of the state it starts from. -/
theorem visionBody_frame (K : Consts) (F : VisionConsts) (X Y : Int) (da vis : Bool)
    (v j p : Int) (u : Vision) (st : Bool × Vision) (h : VFrame u st.2) :
    VFrame u (visionBody K F X Y da vis v j p st).2 := by
  obtain ⟨b, w⟩ := st
  cases b
  · exact h.frameThen (visionBody_spec K F w w X Y da vis v j p (VFrame.frameRefl w)).2.frame
  · rw [visionBody_blocked]
    exact h

/-- Once the walk along a ring has met an on-map opaque candidate at step `q`, the
later steps change nothing: the walk equals the walk cut after step `q`. -/
theorem visionWalk_stops (K : Consts) (F : VisionConsts) (X Y r : Int) (da vis : Bool)
    (v j q : Int) (u : Vision) (hq : 0 ≤ q) (hb : candBlocks K u (cand X Y v j q)) :
    visionWalk K F X Y r da vis v j u =
      visionWalk K F X Y (min r (q + 1 + RadiusAdj j.toNat)) da vis v j u := by
  by_cases hle : r ≤ q + 1 + RadiusAdj j.toNat
  · rw [min_eq_left hle]
  · rw [min_eq_right (by omega)]
    unfold visionWalk
    have e : q + 1 + (RadiusAdj j.toNat : Int) - RadiusAdj j.toNat = q + 1 := by omega
    rw [e, forRange_split _ 0 (q + 1) (r - RadiusAdj j.toNat) _ (by omega) (by omega)]
    have hflag : (forRange 0 (q + 1) (visionBody K F X Y da vis v j) (false, u)).1 = true := by
      rw [forRange_last _ 0 q _ hq]
      have hf : VFrame u (forRange 0 q (visionBody K F X Y da vis v j) (false, u)).2 :=
        forRange_inv (fun st => VFrame u st.2) _ 0 q (false, u)
          (fun p _ _ st hst => visionBody_frame K F X Y da vis v j p u st hst)
          (VFrame.frameRefl u)
      generalize forRange 0 q (visionBody K F X Y da vis v j) (false, u) = st at hf
      obtain ⟨b, w⟩ := st
      cases b
      · exact (visionBody_spec K F u w X Y da vis v j q hf).1.2 hb
      · rw [visionBody_blocked]
    generalize forRange 0 (q + 1) (visionBody K F X Y da vis v j) (false, u) = st at hflag
    obtain ⟨b, w⟩ := st
    simp only at hflag
    subst hflag
    have := forRange_inv (fun st => st = (true, w)) (visionBody K F X Y da vis v j) (q + 1)
      (r - RadiusAdj j.toNat) (true, w)
      (fun p _ _ st hst => by rw [hst, visionBody_blocked]) rfl
    rw [this]

/-- C35, for every observer but those in row `MAXDUNY`. `DoVision` changes the
flag byte of a tile other than the observer's own (in particular, gives it the
visible bit) only if the tile is the on-map candidate
of a step `p` of the walk along a ring `j` in a pass `v` and no candidate of an
earlier step of that walk is on the map and opaque. Such a step marks its
candidate whatever the other walks met, provided one of the candidate's two
adjusted neighbours is on the map and not opaque. And a walk that meets an on-map
opaque candidate at step `q` equals the walk cut after step `q`. -/
theorem DoVision_line_of_sight (K : Consts) (F : VisionConsts) (s : Vision) (X Y r : Int)
    (da vis : Bool) (hY : Y ≠ K.MAXDUNY) :
    (∀ a b, ¬ (a = X ∧ b = Y) →
      (DoVision K F s X Y r da vis).dFlags a b ≠ s.dFlags a b →
      ∃ v j p, (0 ≤ v ∧ v < 4) ∧ (0 ≤ j ∧ j < 23) ∧ (0 ≤ p ∧ p < r - RadiusAdj j.toNat) ∧
        ((cand X Y v j p).nCrawlX = a ∧ (cand X Y v j p).nCrawlY = b) ∧ onMap K a b ∧
        ∀ q, 0 ≤ q → q < p → ¬ candBlocks K s (cand X Y v j q)) ∧
    (∀ v j p, (0 ≤ v ∧ v < 4) → (0 ≤ j ∧ j < 23) → (0 ≤ p ∧ p < r - RadiusAdj j.toNat) →
      (∀ q, 0 ≤ q → q < p → ¬ candBlocks K s (cand X Y v j q)) →
      candSeen K s (cand X Y v j p) →
      flagSet ((DoVision K F s X Y r da vis).dFlags (cand X Y v j p).nCrawlX
        (cand X Y v j p).nCrawlY) F.BFLAG_VISIBLE) ∧
    (∀ (u : Vision) (v j q : Int), 0 ≤ q → candBlocks K u (cand X Y v j q) →
      visionWalk K F X Y r da vis v j u =
        visionWalk K F X Y (min r (q + 1 + RadiusAdj j.toNat)) da vis v j u) := by
  have hspec := DoVision_spec K F s X Y r da vis
  refine ⟨?_, ?_, ?_⟩
  · intro a b hne hch
    have hm : visMarks K s X Y r a b := by
      by_contra hcon
      exact hch (hspec.miss a b hcon)
    rcases hm with ⟨_, h1, h2⟩ | ⟨v, j, hv, hj, p, ⟨hp, hq, hseen⟩, hx, hy⟩
    · rw [flagCell_of_ne K X Y hY] at h1 h2
      exact absurd ⟨h1, h2⟩ hne
    · refine ⟨v, j, p, hv, hj, hp, ⟨hx, hy⟩, ?_, hq⟩
      have := hseen.1
      unfold candOn at this
      rw [hx, hy] at this
      exact this
  · intro v j p hv hj hp hq hseen
    rw [hspec.hit _ _ (Or.inr ⟨v, j, hv, hj, p, ⟨hp, hq, hseen⟩, rfl, rfl⟩)]
    exact flagSet_markFlags_visible F da vis _
  · intro u v j q hq hb
    exact visionWalk_stops K F X Y r da vis v j q u hq hb

theorem DoVision_line_of_sight_witness :
    flagSet ((DoVision upstream upstreamFlags openMap 50 50 10 false false).dFlags
      (cand 50 50 0 0 0).nCrawlX (cand 50 50 0 0 0).nCrawlY) upstreamFlags.BFLAG_VISIBLE :=
  (DoVision_line_of_sight upstream upstreamFlags openMap 50 50 10 false false
    (by decide)).2.1 0 0 0
    (by decide) (by decide) (by decide) (fun q q0 q1 => by omega)
    ⟨by unfold candOn; decide, Or.inl (by decide)⟩

/-- C35 fails for an observer in row `MAXDUNY`: on the 112 x 112 open map, where
every flag byte is 0, `DoVision(50, 112, 10, false, false)` gives the visible bit to
the on-map tile (51, 0), which is not the observer's own tile and is the candidate
of no step of any ring walk. The own-tile block passes the guard
`nYPos <= MAXDUNY` and its write to `dFlags[50][112]` lands in the flag byte of
(51, 0). -/
theorem DoVision_marks_next_row :
    onMap upstream 51 0 ∧ openMap.dFlags 51 0 = 0 ∧
      flagSet ((DoVision upstream upstreamFlags openMap 50 112 10 false false).dFlags 51 0)
        upstreamFlags.BFLAG_VISIBLE ∧
      ∀ v j p : Int, (0 ≤ j ∧ j < 23) → (0 ≤ p ∧ p < 10 - RadiusAdj j.toNat) →
        ¬ ((cand 50 112 v j p).nCrawlX = 51 ∧ (cand 50 112 v j p).nCrawlY = 0) := by
  refine ⟨by unfold onMap; decide, rfl, ?_, ?_⟩
  · rw [DoVision_next_row upstream upstreamFlags openMap 50 112 10 false false 51
      (by decide) rfl rfl]
    exact flagSet_markFlags_visible _ _ _ _
  · rintro v j p hj hp ⟨_, hy⟩
    have := cand_near 50 112 10 v j p (by decide) hj hp
    unfold near at this
    omega

/-! ## Vision undo covers vision reach -/

theorem and_or_absorb_right (m k : Nat) : m &&& (k ||| m) = m := by
  rw [Nat.lor_comm]
  exact and_or_absorb m k

/-- A flag byte cleared by `DoUnVision` has neither the visible nor the lit bit. -/
theorem clearBits_visible_lit (F : VisionConsts) (f : Nat) :
    flagClear (clearBits f (F.BFLAG_VISIBLE ||| F.BFLAG_LIT)) F.BFLAG_VISIBLE ∧
      flagClear (clearBits f (F.BFLAG_VISIBLE ||| F.BFLAG_LIT)) F.BFLAG_LIT :=
  ⟨and_clearBits_sub f _ _ (and_or_absorb _ _), and_clearBits_sub f _ _ (and_or_absorb_right _ _)⟩

/-- What `DoUnVision` after `DoVision` with the same arguments leaves in a flag
byte. -/
theorem DoUnVision_DoVision_flags (K : Consts) (F : VisionConsts) (s : Vision) (X Y r : Int)
    (da vis : Bool) (a b : Int) :
    (DoUnVision K F (DoVision K F s X Y r da vis) X Y r).dFlags a b =
      if onMap K a b ∧ inSquare X Y (r + 1) a b then
        clearBits ((DoVision K F s X Y r da vis).dFlags a b) (F.BFLAG_VISIBLE ||| F.BFLAG_LIT)
      else (DoVision K F s X Y r da vis).dFlags a b := by
  rw [DoUnVision_eq]

/-- C36, for every observer but those in column `MAXDUNX` or row `MAXDUNY`. For a
radius `r` in `0..15` and any terrain, every tile whose flag byte `DoVision(x, y, r)`
changes is within Chebyshev distance `r` of `(x, y)`, hence in the square
`x - (r + 2) ≤ tx < x + (r + 2)`, `y - (r + 2) ≤ ty < y + (r + 2)`; and when no flag
byte has the visible or the lit bit before, none has it after `DoVision` followed
by `DoUnVision` with the same arguments. -/
theorem DoUnVision_covers_DoVision (K : Consts) (F : VisionConsts) (s : Vision) (X Y r : Int)
    (da vis : Bool) (hr : 0 ≤ r ∧ r ≤ 15) (hedge : X ≠ K.MAXDUNX ∧ Y ≠ K.MAXDUNY) :
    (∀ a b, (DoVision K F s X Y r da vis).dFlags a b ≠ s.dFlags a b →
      (X - r ≤ a ∧ a ≤ X + r ∧ Y - r ≤ b ∧ b ≤ Y + r) ∧
      (X - (r + 2) ≤ a ∧ a < X + (r + 2) ∧ Y - (r + 2) ≤ b ∧ b < Y + (r + 2)) ∧
      onMap K a b) ∧
    ((∀ a b, flagClear (s.dFlags a b) F.BFLAG_VISIBLE ∧ flagClear (s.dFlags a b) F.BFLAG_LIT) →
      ∀ a b,
        flagClear ((DoUnVision K F (DoVision K F s X Y r da vis) X Y r).dFlags a b)
          F.BFLAG_VISIBLE ∧
        flagClear ((DoUnVision K F (DoVision K F s X Y r da vis) X Y r).dFlags a b)
          F.BFLAG_LIT) := by
  have hspec := DoVision_spec K F s X Y r da vis
  have hchg : ∀ a b, (DoVision K F s X Y r da vis).dFlags a b ≠ s.dFlags a b →
      near X Y r a b ∧ onMap K a b := by
    intro a b hch
    have hm : visMarks K s X Y r a b := by
      by_contra hcon
      exact hch (hspec.miss a b hcon)
    obtain ⟨h1, h2⟩ := visMarks_near K s X Y r a b hr hedge.2 hm
    refine ⟨h1, ?_⟩
    rcases h2 with h2 | ⟨rfl, rfl⟩
    · exact h2
    · rcases hm with ⟨hg, _, _⟩ | ⟨v, j, _, _, p, ⟨_, _, hseen⟩, hx, hy⟩
      · unfold onMap
        omega
      · have := hseen.1
        unfold candOn at this
        rw [hx, hy] at this
        exact this
  refine ⟨?_, ?_⟩
  · intro a b hch
    obtain ⟨h1, h2⟩ := hchg a b hch
    unfold near at h1
    exact ⟨h1, by omega, h2⟩
  · intro hclear a b
    rw [DoUnVision_DoVision_flags]
    by_cases hin : onMap K a b ∧ inSquare X Y (r + 1) a b
    · rw [if_pos hin]
      exact clearBits_visible_lit F _
    · rw [if_neg hin]
      by_cases hch : (DoVision K F s X Y r da vis).dFlags a b = s.dFlags a b
      · rw [hch]
        exact hclear a b
      · exfalso
        obtain ⟨h1, h2⟩ := hchg a b hch
        apply hin
        refine ⟨h2, ?_⟩
        unfold near at h1
        unfold inSquare
        omega

theorem DoUnVision_covers_DoVision_witness :
    flagClear ((DoUnVision upstream upstreamFlags
        (DoVision upstream upstreamFlags openMap 50 50 10 true true) 50 50 10).dFlags 51 50)
      upstreamFlags.BFLAG_VISIBLE :=
  ((DoUnVision_covers_DoVision upstream upstreamFlags openMap 50 50 10 true true (by decide)
    (by decide)).2 (fun _ _ => ⟨flagClear_zero _, flagClear_zero _⟩) 51 50).1

/-- C36 fails for an observer in column `MAXDUNX`: on the 112 x 112 open map, where
every flag byte is 0, `DoVision(112, 50, 10, false, false)` followed by
`DoUnVision(112, 50, 10)` leaves the visible bit in the flag byte of (112, 50),
which the own-tile block of `DoVision` writes and the clipped square of `DoUnVision`
does not reach. -/
theorem DoUnVision_misses_edge_observer :
    openMap.dFlags 112 50 = 0 ∧
      (DoUnVision upstream upstreamFlags
        (DoVision upstream upstreamFlags openMap 112 50 10 false false) 112 50 10).dFlags 112 50
        = 2 := by
  refine ⟨rfl, ?_⟩
  rw [DoUnVision_DoVision_flags, if_neg (fun h => absurd h.1 (by unfold onMap; decide)),
    DoVision_own_flags upstream upstreamFlags openMap 112 50 10 false false (by decide)
      (by decide)]
  rfl

/-! ## Pool invariant of the reachable states -/

theorem PoolInv_InitLighting (K : Consts) (s0 : Lighting) (hM0 : 0 ≤ K.MAXLIGHTS)
    (hM : K.MAXLIGHTS ≤ 256) : PoolInv K (InitLighting K s0) := by
  obtain ⟨a1, a2, a3, _, _, _, _, _, _, _, a4⟩ := InitLighting_spec K s0 hM0
  refine ⟨a3, by omega, by omega, ⟨1, fun _ _ => rfl, ?_⟩, ?_⟩
  · intro k k0 k1
    rw [a4 k k0 k1]
    show ((k % 256).toNat : Int) = k
    omega
  · intro _ k k0 k1
    omega

/-- A call that changes records only and sets the dirty flag keeps the invariant. -/
theorem PoolInv_dirty (K : Consts) (s t : Lighting) (h : PoolInv K s)
    (h1 : t.lightflag = s.lightflag) (h2 : t.numlights = s.numlights)
    (h3 : t.lightactive = s.lightactive) (h4 : t.dolighting = true) : PoolInv K t := by
  refine ⟨by rw [h1]; exact h.hfrozen, by rw [h2]; exact h.hn0, by rw [h2]; exact h.hnmax, ?_, ?_⟩
  · rw [h3]
    exact h.hperm
  · intro hd
    rw [h4] at hd
    exact absurd hd (by decide)

theorem PoolInv_AddLight (K : Consts) (s : Lighting) (x y r : Int) (h : PoolInv K s) :
    PoolInv K (AddLight K s x y r).2 := by
  by_cases hroom : s.numlights < K.MAXLIGHTS
  · obtain ⟨a1, a2, a3, a4, _⟩ := AddLight_spec K s x y r h.hfrozen hroom
    refine ⟨a4, by rw [a1]; have := h.hn0; omega, by rw [a1]; omega, ?_, ?_⟩
    · rw [a2]
      exact h.hperm
    · intro hd
      rw [a3] at hd
      exact absurd hd (by decide)
  · have : AddLight K s x y r = (K.NO_LIGHT, s) := by
      unfold AddLight
      rw [if_neg (by rw [h.hfrozen]; decide), if_neg hroom]
    rw [this]
    exact h

theorem PoolInv_ProcessLightList (K : Consts) (s : Lighting) (h : PoolInv K s) :
    PoolInv K (ProcessLightList K s) := by
  cases hd : s.dolighting
  · rw [ProcessLightList_clean K s h.hfrozen hd]
    exact h
  · obtain ⟨⟨b1, b2, _⟩, _, b3, b4, ⟨τ, b5, b6⟩, _⟩ :=
      ProcessLightList_pool K s h.hfrozen hd h.hn0
    obtain ⟨_, _, _, c4, _⟩ := pool_compaction K s h.hfrozen hd h.hn0 h.hnmax
    obtain ⟨σ, s1, s2⟩ := h.hperm
    have hnm := h.hnmax
    refine ⟨b2, b3, by omega, ⟨σ * τ, ?_, ?_⟩, ?_⟩
    · intro k hk
      rw [Equiv.Perm.mul_apply, b5 k (by omega), s1 k hk]
    · intro k k0 k1
      rw [b6, Equiv.Perm.mul_apply]
      show ((s.lightactive (τ k) : Nat) : Int) = σ (τ k)
      by_cases hw : 0 ≤ k ∧ k < s.numlights
      · have := (perm_window τ 0 s.numlights b5 k hw).1
        exact s2 _ (by omega) (by omega)
      · rw [b5 k hw]
        exact s2 k k0 k1
    · intro _ k k0 k1
      exact c4 _ ⟨k, k0, k1, rfl⟩

theorem PoolInv_run (K : Consts) (s : Lighting) (op : LightOp) (h : PoolInv K s) :
    PoolInv K (op.run K s) := by
  have hf := h.hfrozen
  cases op with
  | addLight x y r => exact PoolInv_AddLight K s x y r h
  | addUnLight i =>
    show PoolInv K (AddUnLight K s i)
    unfold AddUnLight
    split
    · exact h
    · exact PoolInv_dirty K s _ h rfl rfl rfl rfl
  | changeLightRadius i r =>
    show PoolInv K (ChangeLightRadius K s i r)
    unfold ChangeLightRadius
    split
    · exact h
    · exact PoolInv_dirty K s _ h rfl rfl rfl rfl
  | changeLightXY i x y =>
    show PoolInv K (ChangeLightXY K s i x y)
    unfold ChangeLightXY
    split
    · exact h
    · exact PoolInv_dirty K s _ h rfl rfl rfl rfl
  | changeLightOff i x y =>
    show PoolInv K (ChangeLightOff K s i x y)
    unfold ChangeLightOff
    split
    · exact h
    · exact PoolInv_dirty K s _ h rfl rfl rfl rfl
  | changeLight i x y r =>
    show PoolInv K (ChangeLight K s i x y r)
    unfold ChangeLight
    split
    · exact h
    · exact PoolInv_dirty K s _ h rfl rfl rfl rfl
  | processLightList => exact PoolInv_ProcessLightList K s h

theorem PoolInv_runOps (K : Consts) (ops : List LightOp) :
    ∀ s : Lighting, PoolInv K s → PoolInv K (runOps K s ops) := by
  induction ops with
  | nil => exact fun s h => h
  | cons op ops ih => exact fun s h => ih _ (PoolInv_run K s op h)

/-- A call other than `ProcessLightList` leaves the slot table as it is, does not
lower `numlights` and does not clear the dirty flag. -/
theorem mutator_keeps_slots (K : Consts) (s : Lighting) (op : LightOp)
    (hop : op ≠ LightOp.processLightList) :
    (op.run K s).lightactive = s.lightactive ∧ s.numlights ≤ (op.run K s).numlights ∧
      (s.dolighting = true → (op.run K s).dolighting = true) := by
  cases op with
  | addLight x y r =>
    show (AddLight K s x y r).2.lightactive = _ ∧ _ ≤ (AddLight K s x y r).2.numlights ∧
      (_ → (AddLight K s x y r).2.dolighting = true)
    unfold AddLight
    split
    · exact ⟨rfl, le_refl _, fun h => h⟩
    · split
      · exact ⟨rfl, by simp only; omega, fun _ => rfl⟩
      · exact ⟨rfl, le_refl _, fun h => h⟩
  | addUnLight i =>
    show (AddUnLight K s i).lightactive = _ ∧ _ ≤ (AddUnLight K s i).numlights ∧
      (_ → (AddUnLight K s i).dolighting = true)
    unfold AddUnLight
    split
    · exact ⟨rfl, le_refl _, fun h => h⟩
    · exact ⟨rfl, le_refl _, fun _ => rfl⟩
  | changeLightRadius i r =>
    show (ChangeLightRadius K s i r).lightactive = _ ∧ _ ≤ (ChangeLightRadius K s i r).numlights ∧
      (_ → (ChangeLightRadius K s i r).dolighting = true)
    unfold ChangeLightRadius
    split
    · exact ⟨rfl, le_refl _, fun h => h⟩
    · exact ⟨rfl, le_refl _, fun _ => rfl⟩
  | changeLightXY i x y =>
    show (ChangeLightXY K s i x y).lightactive = _ ∧ _ ≤ (ChangeLightXY K s i x y).numlights ∧
      (_ → (ChangeLightXY K s i x y).dolighting = true)
    unfold ChangeLightXY
    split
    · exact ⟨rfl, le_refl _, fun h => h⟩
    · exact ⟨rfl, le_refl _, fun _ => rfl⟩
  | changeLightOff i x y =>
    show (ChangeLightOff K s i x y).lightactive = _ ∧ _ ≤ (ChangeLightOff K s i x y).numlights ∧
      (_ → (ChangeLightOff K s i x y).dolighting = true)
    unfold ChangeLightOff
    split
    · exact ⟨rfl, le_refl _, fun h => h⟩
    · exact ⟨rfl, le_refl _, fun _ => rfl⟩
  | changeLight i x y r =>
    show (ChangeLight K s i x y r).lightactive = _ ∧ _ ≤ (ChangeLight K s i x y r).numlights ∧
      (_ → (ChangeLight K s i x y r).dolighting = true)
    unfold ChangeLight
    split
    · exact ⟨rfl, le_refl _, fun h => h⟩
    · exact ⟨rfl, le_refl _, fun _ => rfl⟩
  | processLightList => exact absurd rfl hop

theorem mutators_keep_slots (K : Consts) (ops : List LightOp) :
    ∀ s : Lighting, (∀ op ∈ ops, op ≠ LightOp.processLightList) →
      (runOps K s ops).lightactive = s.lightactive ∧ s.numlights ≤ (runOps K s ops).numlights := by
  induction ops with
  | nil => exact fun s _ => ⟨rfl, le_refl _⟩
  | cons op ops ih =>
    intro s h
    obtain ⟨a1, a2, _⟩ := mutator_keeps_slots K s op (h op (List.mem_cons_self _ _))
    obtain ⟨b1, b2⟩ := ih (op.run K s) (fun o ho => h o (List.mem_cons_of_mem _ ho))
    exact ⟨b1.trans a1, le_trans a2 b2⟩

/-- The id returned by an `AddLight` call that does not return `NO_LIGHT`. -/
theorem AddLight_id (K : Consts) (s : Lighting) (x y r : Int)
    (h : (AddLight K s x y r).1 ≠ K.NO_LIGHT) :
    s.lightflag = false ∧ s.numlights < K.MAXLIGHTS ∧
      (AddLight K s x y r).1 = s.lightactive s.numlights ∧
      (AddLight K s x y r).2.numlights = s.numlights + 1 ∧
      (AddLight K s x y r).2.lightactive = s.lightactive := by
  unfold AddLight at h ⊢
  split at h
  · exact absurd rfl h
  · rename_i hf
    split at h
    · rename_i hroom
      rw [if_neg hf, if_pos hroom]
      exact ⟨by simpa using hf, hroom, rfl, rfl, rfl⟩
    · exact absurd rfl h

/-- The slot table of a pool that satisfies the invariant is injective on
`0 .. MAXLIGHTS - 1`. -/
theorem PoolInv_injective (K : Consts) (s : Lighting) (h : PoolInv K s) (i k : Int)
    (hi : 0 ≤ i ∧ i < K.MAXLIGHTS) (hk : 0 ≤ k ∧ k < K.MAXLIGHTS)
    (he : (s.lightactive i : Int) = s.lightactive k) : i = k := by
  obtain ⟨σ, _, s2⟩ := h.hperm
  rw [s2 i hi.1 hi.2, s2 k hk.1 hk.2] at he
  exact σ.injective he

/-- `ProcessLightList` never changes the freeze flag. -/
theorem ProcessLightList_lightflag (K : Consts) (s : Lighting) :
    (ProcessLightList K s).lightflag = s.lightflag := by
  cases hf : s.lightflag
  · cases hd : s.dolighting
    · rw [ProcessLightList_clean K s hf hd, hf]
    · rw [ProcessLightList_dirty K s hf hd]
      show (processCompact _ 0 _).lightflag = false
      rw [(processCompact_frame K _ 0 _).2.2.2.2.1,
        (SameCtl_applyLoop K (forRange 0 s.numlights (processUndo K) s) s.numlights).hlightflag,
        (forRange_inv (fun u => SameRest s u) (processUndo K) 0 s.numlights s
          (fun i _ _ u hu => hu.andThen (processUndo_spec K i u).1)
          (SameRest.same s)).hlightflag, hf]
  · unfold ProcessLightList
    rw [if_pos hf, hf]

/-- C38. After a `ProcessLightList` call in a state that is not frozen the dirty
flag is clear and a second `ProcessLightList` call changes nothing at all. If the
state was dirty with `numlights` in `0 .. MAXLIGHTS`, or is any state reached from
`InitLighting` by calls of the light manager (such a state is not frozen), then
after the call no live light is pending-delete or pending-change. And in any state
no call of `AddLight`, `AddUnLight`, `ChangeLightRadius`, `ChangeLightXY`,
`ChangeLightOff` or `ChangeLight` clears a dirty flag that is set. -/
theorem ProcessLightList_returns_idle (K : Consts) (s0 : Lighting) (hM0 : 0 ≤ K.MAXLIGHTS)
    (hM : K.MAXLIGHTS ≤ 256) (ops : List LightOp) :
    (∀ s : Lighting, s.lightflag = false →
      (ProcessLightList K s).dolighting = false ∧
      ProcessLightList K (ProcessLightList K s) = ProcessLightList K s ∧
      (s.dolighting = true → 0 ≤ s.numlights → s.numlights ≤ K.MAXLIGHTS →
        ∀ k, 0 ≤ k → k < (ProcessLightList K s).numlights →
          ((ProcessLightList K s).LightList ((ProcessLightList K s).lightactive k))._ldel
            = false ∧
          ((ProcessLightList K s).LightList ((ProcessLightList K s).lightactive k))._lunflag
            = false)) ∧
    (runOps K (InitLighting K s0) ops).lightflag = false ∧
    (∀ k, 0 ≤ k → k < (ProcessLightList K (runOps K (InitLighting K s0) ops)).numlights →
      ((ProcessLightList K (runOps K (InitLighting K s0) ops)).LightList
        ((ProcessLightList K (runOps K (InitLighting K s0) ops)).lightactive k))._ldel = false ∧
      ((ProcessLightList K (runOps K (InitLighting K s0) ops)).LightList
        ((ProcessLightList K (runOps K (InitLighting K s0) ops)).lightactive k))._lunflag
        = false) ∧
    (∀ (u : Lighting) (i x y r : Int), u.dolighting = true →
      (AddLight K u x y r).2.dolighting = true ∧ (AddUnLight K u i).dolighting = true ∧
      (ChangeLightRadius K u i r).dolighting = true ∧
      (ChangeLightXY K u i x y).dolighting = true ∧
      (ChangeLightOff K u i x y).dolighting = true ∧
      (ChangeLight K u i x y r).dolighting = true) := by
  have hs := PoolInv_runOps K ops _ (PoolInv_InitLighting K s0 hM0 hM)
  generalize runOps K (InitLighting K s0) ops = s at hs
  have ht := PoolInv_ProcessLightList K s hs
  have hidle : ∀ t : Lighting, t.lightflag = false → (ProcessLightList K t).dolighting = false ∧
      (ProcessLightList K t).lightflag = false := by
    intro t hf
    refine ⟨?_, (ProcessLightList_lightflag K t).trans hf⟩
    unfold ProcessLightList
    rw [if_neg (by rw [hf]; decide)]
  refine ⟨?_, hs.hfrozen, ht.hidle (hidle s hs.hfrozen).1, ?_⟩
  · intro t hf
    obtain ⟨h1, h2⟩ := hidle t hf
    refine ⟨h1, ProcessLightList_clean K _ h2 h1, ?_⟩
    intro hd hn0 hnm k k0 k1
    exact (pool_compaction K t hf hd hn0 hnm).2.2.2.1 _ ⟨k, k0, k1, rfl⟩
  · intro u i x y r hu
    exact ⟨(mutator_keeps_slots K u (.addLight x y r) (by simp)).2.2 hu,
      (mutator_keeps_slots K u (.addUnLight i) (by simp)).2.2 hu,
      (mutator_keeps_slots K u (.changeLightRadius i r) (by simp)).2.2 hu,
      (mutator_keeps_slots K u (.changeLightXY i x y) (by simp)).2.2 hu,
      (mutator_keeps_slots K u (.changeLightOff i x y) (by simp)).2.2 hu,
      (mutator_keeps_slots K u (.changeLight i x y r) (by simp)).2.2 hu⟩

theorem ProcessLightList_returns_idle_witness :
    (ProcessLightList upstream pendingDelete).dolighting = false ∧
      ProcessLightList upstream (ProcessLightList upstream pendingDelete) =
        ProcessLightList upstream pendingDelete :=
  ⟨((ProcessLightList_returns_idle upstream darkLevel (by decide) (by decide) []).1
      pendingDelete rfl).1,
    ((ProcessLightList_returns_idle upstream darkLevel (by decide) (by decide) []).1
      pendingDelete rfl).2.1⟩

/-- C39. In every state reached from `InitLighting` by calls of the light manager,
`lightactive` is a permutation of `0 .. MAXLIGHTS - 1` and `numlights` is in
`0 .. MAXLIGHTS`; an `AddLight` call that returns an id (not `NO_LIGHT`) returns none
that is live, and a later `AddLight` call that returns an id, with no
`ProcessLightList` call in between, returns a different one. -/
theorem slot_table_permutation (K : Consts) (s0 : Lighting) (hM0 : 0 ≤ K.MAXLIGHTS)
    (hM : K.MAXLIGHTS ≤ 256) (ops : List LightOp) :
    (∃ σ : Equiv.Perm Int, (∀ k, ¬ (0 ≤ k ∧ k < K.MAXLIGHTS) → σ k = k) ∧
      ∀ k, 0 ≤ k → k < K.MAXLIGHTS →
        ((runOps K (InitLighting K s0) ops).lightactive k : Int) = σ k) ∧
    (0 ≤ (runOps K (InitLighting K s0) ops).numlights ∧
      (runOps K (InitLighting K s0) ops).numlights ≤ K.MAXLIGHTS) ∧
    (∀ x y r : Int, (AddLight K (runOps K (InitLighting K s0) ops) x y r).1 ≠ K.NO_LIGHT →
      ∀ k, 0 ≤ k → k < (runOps K (InitLighting K s0) ops).numlights →
        ((runOps K (InitLighting K s0) ops).lightactive k : Int) ≠
          (AddLight K (runOps K (InitLighting K s0) ops) x y r).1) ∧
    (∀ (x y r x2 y2 r2 : Int) (mid : List LightOp),
      (∀ op ∈ mid, op ≠ LightOp.processLightList) →
      (AddLight K (runOps K (InitLighting K s0) ops) x y r).1 ≠ K.NO_LIGHT →
      (AddLight K (runOps K (AddLight K (runOps K (InitLighting K s0) ops) x y r).2 mid)
        x2 y2 r2).1 ≠ K.NO_LIGHT →
      (AddLight K (runOps K (AddLight K (runOps K (InitLighting K s0) ops) x y r).2 mid)
        x2 y2 r2).1 ≠ (AddLight K (runOps K (InitLighting K s0) ops) x y r).1) := by
  have hs := PoolInv_runOps K ops _ (PoolInv_InitLighting K s0 hM0 hM)
  generalize runOps K (InitLighting K s0) ops = s at hs
  refine ⟨hs.hperm, ⟨hs.hn0, hs.hnmax⟩, ?_, ?_⟩
  · intro x y r hid k k0 k1 he
    obtain ⟨_, a2, a3, _⟩ := AddLight_id K s x y r hid
    rw [a3] at he
    have := PoolInv_injective K s hs k s.numlights ⟨k0, by omega⟩ ⟨hs.hn0, a2⟩ he
    omega
  · intro x y r x2 y2 r2 mid hmid hid hid2 he
    obtain ⟨_, a2, a3, a4, a5⟩ := AddLight_id K s x y r hid
    obtain ⟨_, b2, b3, _⟩ := AddLight_id K _ x2 y2 r2 hid2
    obtain ⟨c1, c2⟩ := mutators_keep_slots K mid (AddLight K s x y r).2 hmid
    rw [a3, b3, c1, a5] at he
    have hn0 := hs.hn0
    have := PoolInv_injective K s hs _ _ ⟨by omega, b2⟩ ⟨hn0, a2⟩ he
    omega

theorem slot_table_permutation_witness :
    0 ≤ (runOps upstream (InitLighting upstream darkLevel)
        [LightOp.addLight 30 30 5, LightOp.addUnLight 0, LightOp.processLightList]).numlights ∧
      (runOps upstream (InitLighting upstream darkLevel)
        [LightOp.addLight 30 30 5, LightOp.addUnLight 0, LightOp.processLightList]).numlights ≤
        upstream.MAXLIGHTS :=
  (slot_table_permutation upstream darkLevel (by decide) (by decide)
    [LightOp.addLight 30 30 5, LightOp.addUnLight 0, LightOp.processLightList]).2.1

/-! ## Block table -/

/-- A loop whose iteration `n` overwrites the cells of `D n` with the values of `f`
overwrites the cells of all `D n` and leaves the others. -/
theorem fillLoop (lo hi : Int) (body : Int → (Int → Int → Int → Nat) → Int → Int → Int → Nat)
    (D : Int → Int → Int → Int → Prop) (f : Int → Int → Int → Nat)
    (hbody : ∀ n t, lo ≤ n → n < hi → ∀ a b c,
      (D n a b c → body n t a b c = f a b c) ∧ (¬ D n a b c → body n t a b c = t a b c))
    (t : Int → Int → Int → Nat) (a b c : Int) :
    ((∃ n, lo ≤ n ∧ n < hi ∧ D n a b c) → forRange lo hi body t a b c = f a b c) ∧
      (¬ (∃ n, lo ≤ n ∧ n < hi ∧ D n a b c) → forRange lo hi body t a b c = t a b c) := by
  by_cases hle : lo ≤ hi
  · have key := forRange_count
      (fun (n : Int) (u : Int → Int → Int → Nat) => ∀ a b c,
        ((∃ m, lo ≤ m ∧ m < n ∧ D m a b c) → u a b c = f a b c) ∧
          (¬ (∃ m, lo ≤ m ∧ m < n ∧ D m a b c) → u a b c = t a b c))
      body lo hi t hle ?_ ?_
    · exact key a b c
    · intro n n0 n1 u hu a b c
      obtain ⟨b1, b2⟩ := hbody n u n0 n1 a b c
      by_cases hd : D n a b c
      · exact ⟨fun _ => b1 hd, fun h => absurd ⟨n, n0, by omega, hd⟩ h⟩
      · rw [b2 hd]
        refine ⟨?_, ?_⟩
        · rintro ⟨m, m0, m1, hm⟩
          by_cases hmn : m = n
          · exact absurd (hmn ▸ hm) hd
          · exact (hu a b c).1 ⟨m, m0, by omega, hm⟩
        · intro h
          exact (hu a b c).2 (fun ⟨m, m0, m1, hm⟩ => h ⟨m, m0, by omega, hm⟩)
    · intro a b c
      refine ⟨?_, fun _ => rfl⟩
      rintro ⟨m, m0, m1, _⟩
      omega
  · rw [forRange_empty body lo hi t (by omega)]
    refine ⟨?_, fun _ => rfl⟩
    rintro ⟨m, m0, m1, _⟩
    omega

/-- The entries of `lightblock` after the last loop nest of `MakeLightTable`: the
cells of the array `lightblock[64][16][16]` hold the closed form
`MakeLightTable_lightblock`, every other cell is untouched. -/
theorem MakeLightTable_blocks_spec (t : Int → Int → Int → Nat) (m k l : Int) :
    MakeLightTable_blocks t m k l =
      if (0 ≤ m ∧ m < 64) ∧ (0 ≤ k ∧ k < 16) ∧ 0 ≤ l ∧ l < 16
      then MakeLightTable_lightblock m k l else t m k l := by
  have hval : ∀ j i k l : Int, 0 ≤ i → i < 8 → 0 ≤ j → j < 8 → 0 ≤ k → k < 16 → 0 ≤ l →
      l < 16 →
      Nat.sqrt ((8 * l - j) * (8 * l - j) + (8 * k - i) * (8 * k - i)).toNat % 256 =
        MakeLightTable_lightblock (j * 8 + i) k l := by
    intro j i k l i0 i1 j0 j1 k0 k1 l0 l1
    unfold MakeLightTable_lightblock
    have e1 : (j * 8 + i) / 8 = j := by omega
    have e2 : (j * 8 + i) % 8 = i := by omega
    simp only [e1, e2]
    apply Nat.mod_eq_of_lt
    have hb : ((8 * l - j) * (8 * l - j) + (8 * k - i) * (8 * k - i)).toNat < 256 * 256 := by
      have h1 : (8 * l - j) * (8 * l - j) ≤ 120 * 120 := by nlinarith
      have h2 : (8 * k - i) * (8 * k - i) ≤ 120 * 120 := by nlinarith
      omega
    exact Nat.sqrt_lt.mpr hb
  have h4 : ∀ (j i k : Int) (t4 : Int → Int → Int → Nat), 0 ≤ j → j < 8 → 0 ≤ i → i < 8 →
      0 ≤ k → k < 16 → ∀ l, 0 ≤ l → l < 16 → ∀ a b c,
      (a = j * 8 + i ∧ b = k ∧ c = l →
        setBlock t4 (j * 8 + i) k l
          (Nat.sqrt ((8 * l - j) * (8 * l - j) + (8 * k - i) * (8 * k - i)).toNat % 256) a b c =
          MakeLightTable_lightblock a b c) ∧
      (¬ (a = j * 8 + i ∧ b = k ∧ c = l) →
        setBlock t4 (j * 8 + i) k l
          (Nat.sqrt ((8 * l - j) * (8 * l - j) + (8 * k - i) * (8 * k - i)).toNat % 256) a b c =
          t4 a b c) := by
    intro j i k t4 j0 j1 i0 i1 k0 k1 l l0 l1 a b c
    unfold setBlock
    refine ⟨fun h => ?_, fun h => ?_⟩
    · rw [if_pos h, hval j i k l i0 i1 j0 j1 k0 k1 l0 l1, h.1, h.2.1, h.2.2]
    · rw [if_neg h]
  have h3 : ∀ (j i : Int), 0 ≤ j → j < 8 → 0 ≤ i → i < 8 →
      ∀ (k : Int) (t3 : Int → Int → Int → Nat), 0 ≤ k → k < 16 → ∀ a b c, _ :=
    fun j i j0 j1 i0 i1 k t3 k0 k1 a b c =>
      fillLoop 0 16 _ (fun l a b c => a = j * 8 + i ∧ b = k ∧ c = l) MakeLightTable_lightblock
        (fun l t4 l0 l1 => h4 j i k t4 j0 j1 i0 i1 k0 k1 l l0 l1) t3 a b c
  have h2 : ∀ (j : Int), 0 ≤ j → j < 8 →
      ∀ (i : Int) (t2 : Int → Int → Int → Nat), 0 ≤ i → i < 8 → ∀ a b c, _ :=
    fun j j0 j1 i t2 i0 i1 a b c =>
      fillLoop 0 16 _
        (fun k a b c => ∃ l, 0 ≤ l ∧ l < 16 ∧ a = j * 8 + i ∧ b = k ∧ c = l)
        MakeLightTable_lightblock
        (fun k t3 k0 k1 => h3 j i j0 j1 i0 i1 k t3 k0 k1) t2 a b c
  have h1 : ∀ (j : Int) (t1 : Int → Int → Int → Nat), 0 ≤ j → j < 8 → ∀ a b c, _ :=
    fun j t1 j0 j1 a b c =>
      fillLoop 0 8 _
        (fun i a b c => ∃ k, 0 ≤ k ∧ k < 16 ∧ ∃ l, 0 ≤ l ∧ l < 16 ∧
          a = j * 8 + i ∧ b = k ∧ c = l)
        MakeLightTable_lightblock
        (fun i t2 i0 i1 => h2 j j0 j1 i t2 i0 i1) t1 a b c
  have h0 := fillLoop 0 8 _
    (fun j a b c => ∃ i, 0 ≤ i ∧ i < 8 ∧ ∃ k, 0 ≤ k ∧ k < 16 ∧ ∃ l, 0 ≤ l ∧ l < 16 ∧
      a = j * 8 + i ∧ b = k ∧ c = l)
    MakeLightTable_lightblock (fun j t1 j0 j1 => h1 j t1 j0 j1) t m k l
  by_cases h : (0 ≤ m ∧ m < 64) ∧ (0 ≤ k ∧ k < 16) ∧ 0 ≤ l ∧ l < 16
  · rw [if_pos h]
    exact h0.1 ⟨m / 8, by omega, by omega, m % 8, by omega, by omega, k, h.2.1.1, h.2.1.2, l,
        h.2.2.1, h.2.2.2, by omega, rfl, rfl⟩
  · rw [if_neg h]
    apply h0.2
    rintro ⟨j, j0, j1, i, i0, i1, k2, k0, k1, l2, l0, l1, rfl, rfl, rfl⟩
    apply h
    omega

/-- C32 as the code has it. For a normalised offset `(xoff, yoff)` in `0..7 x 0..7`
and a local tile `(x, y)` with `1 ≤ x ≤ 14`, `0 ≤ y ≤ 14`, the entry
`lightblock[xoff + 8 * yoff][y][x]` built by `MakeLightTable`, which the first pass
of `DoLighting` reads for tile `(X + x, Y + y)`, is the integer part of
`sqrt((8 x - yoff)² + (8 y - xoff)²)`: the table pairs `x` with `yoff` and `y` with
`xoff`. It is the distance between the source point `(xoff, yoff)` and the tile
origin `(8 x, 8 y)` when `xoff = yoff`. -/
theorem lightblock_distance (t : Int → Int → Int → Nat) (xoff yoff x y : Int)
    (hxo : 0 ≤ xoff ∧ xoff ≤ 7) (hyo : 0 ≤ yoff ∧ yoff ≤ 7) (hx : 1 ≤ x ∧ x ≤ 14)
    (hy : 0 ≤ y ∧ y ≤ 14) :
    MakeLightTable_blocks t (xoff + 8 * yoff) y x =
        Nat.sqrt ((8 * x - yoff) ^ 2 + (8 * y - xoff) ^ 2).toNat ∧
      (MakeLightTable_blocks t (xoff + 8 * yoff) y x : Int) =
        ⌊Real.sqrt (((8 * x - yoff) ^ 2 + (8 * y - xoff) ^ 2 : Int) : ℝ)⌋ ∧
      (xoff = yoff → (MakeLightTable_blocks t (xoff + 8 * yoff) y x : Int) =
        ⌊Real.sqrt (((8 * x - xoff) ^ 2 + (8 * y - yoff) ^ 2 : Int) : ℝ)⌋) := by
  have h1 : MakeLightTable_blocks t (xoff + 8 * yoff) y x =
      Nat.sqrt ((8 * x - yoff) ^ 2 + (8 * y - xoff) ^ 2).toNat := by
    rw [MakeLightTable_blocks_spec, if_pos (by omega)]
    unfold MakeLightTable_lightblock
    have e1 : (xoff + 8 * yoff) / 8 = yoff := by omega
    have e2 : (xoff + 8 * yoff) % 8 = xoff := by omega
    simp only [e1, e2, sq]
  have h2 : (MakeLightTable_blocks t (xoff + 8 * yoff) y x : Int) =
      ⌊Real.sqrt (((8 * x - yoff) ^ 2 + (8 * y - xoff) ^ 2 : Int) : ℝ)⌋ := by
    rw [h1]
    have hn : (0 : Int) ≤ (8 * x - yoff) ^ 2 + (8 * y - xoff) ^ 2 := by positivity
    have e : (((8 * x - yoff) ^ 2 + (8 * y - xoff) ^ 2 : Int) : ℝ) =
        ((((8 * x - yoff) ^ 2 + (8 * y - xoff) ^ 2).toNat : Nat) : ℝ) := by
      have : ((((8 * x - yoff) ^ 2 + (8 * y - xoff) ^ 2).toNat : Nat) : Int) =
          (8 * x - yoff) ^ 2 + (8 * y - xoff) ^ 2 := Int.toNat_of_nonneg hn
      exact_mod_cast this.symm
    rw [e, Real.floor_real_sqrt_eq_nat_sqrt]
  refine ⟨h1, h2, ?_⟩
  intro he
  rw [h2, he]

theorem lightblock_distance_witness :
    MakeLightTable_blocks (fun _ _ _ => 0) (3 + 8 * 3) 2 5 =
      Nat.sqrt ((8 * 5 - 3) ^ 2 + (8 * 2 - 3) ^ 2 : Int).toNat :=
  (lightblock_distance (fun _ _ _ => 0) 3 3 5 2 (by decide) (by decide) (by decide)
    (by decide)).1

/-- C32 as stated fails: for the offset `(xoff, yoff) = (7, 0)` and the local tile
`(x, y) = (1, 0)` the table entry `lightblock[7 + 8 * 0][0][1]` is 10, the integer
part of `sqrt(8² + 7²)`, while the distance between the source point `(7, 0)` and
the tile origin `(8, 0)` is 1. -/
theorem lightblock_swaps_offsets :
    MakeLightTable_blocks (fun _ _ _ => 0) (7 + 8 * 0) 0 1 = 10 ∧
      Nat.sqrt ((8 * 1 - 7) ^ 2 + (8 * 0 - 0) ^ 2 : Int).toNat = 1 := by
  refine ⟨?_, ?_⟩
  · rw [MakeLightTable_blocks_spec, if_pos (by decide)]
    show Nat.sqrt 113 = 10
    exact (Nat.eq_sqrt.mpr ⟨by decide, by decide⟩).symm
  · show Nat.sqrt 1 = 1
    exact (Nat.eq_sqrt.mpr ⟨by decide, by decide⟩).symm

/-! ## Reference definition of light propagation at zero offset -/

/-- One pass of `DoLighting`, exactly: with `(ix, iy)` the loop indices that lead to
a tile, the pass lowers the tiles that are on the map, in the window and have a
distance bucket below 128 to the level of the tables, and leaves all others. -/
theorem lightPass_exact (K : Consts) (R mult ylim xlim block_x block_y : Int)
    (tx ty ix iy : Int → Int → Int)
    (hinv : ∀ x y, ix (tx x y) (ty x y) = x ∧ iy (tx x y) (ty x y) = y)
    (s : Lighting) (hflag : s.LoadMapObjsFlag = false)
    (hg : ∀ a b, 0 ≤ s.dLight a b ∧ s.dLight a b ≤ 15) :
    SameCtl s (lightPass K R mult ylim xlim block_x block_y tx ty s) ∧
    (∀ a b, 0 ≤ (lightPass K R mult ylim xlim block_x block_y tx ty s).dLight a b ∧
      (lightPass K R mult ylim xlim block_x block_y tx ty s).dLight a b ≤ 15) ∧
    ∀ a b,
      ((onMap K a b ∧ (0 ≤ iy a b ∧ iy a b < ylim) ∧ (1 ≤ ix a b ∧ ix a b < xlim) ∧
          (tx (ix a b) (iy a b) = a ∧ ty (ix a b) (iy a b) = b) ∧
          s.lightblock mult (iy a b + block_y) (ix a b + block_x) < 128) →
        (lightPass K R mult ylim xlim block_x block_y tx ty s).dLight a b =
          min (s.dLight a b)
            (s.lightradius R (s.lightblock mult (iy a b + block_y) (ix a b + block_x)))) ∧
      (¬ (onMap K a b ∧ (0 ≤ iy a b ∧ iy a b < ylim) ∧ (1 ≤ ix a b ∧ ix a b < xlim) ∧
          (tx (ix a b) (iy a b) = a ∧ ty (ix a b) (iy a b) = b) ∧
          s.lightblock mult (iy a b + block_y) (ix a b + block_x) < 128) →
        (lightPass K R mult ylim xlim block_x block_y tx ty s).dLight a b = s.dLight a b) := by
  have key := lightPass_inv
    (fun u => SameCtl s u ∧ (∀ a b, 0 ≤ u.dLight a b ∧ u.dLight a b ≤ 15) ∧
      ∀ a b,
        ((onMap K a b ∧ (0 ≤ iy a b ∧ iy a b < ylim) ∧ (1 ≤ ix a b ∧ ix a b < xlim) ∧
            (tx (ix a b) (iy a b) = a ∧ ty (ix a b) (iy a b) = b) ∧
            s.lightblock mult (iy a b + block_y) (ix a b + block_x) < 128) →
          min (s.dLight a b)
              (s.lightradius R (s.lightblock mult (iy a b + block_y) (ix a b + block_x))) ≤
            u.dLight a b ∧ u.dLight a b ≤ s.dLight a b) ∧
        (¬ (onMap K a b ∧ (0 ≤ iy a b ∧ iy a b < ylim) ∧ (1 ≤ ix a b ∧ ix a b < xlim) ∧
            (tx (ix a b) (iy a b) = a ∧ ty (ix a b) (iy a b) = b) ∧
            s.lightblock mult (iy a b + block_y) (ix a b + block_x) < 128) →
          u.dLight a b = s.dLight a b))
    K R mult ylim xlim block_x block_y tx ty ?_ s
    ⟨SameCtl.refl s, hg, fun a b => ⟨fun _ => ⟨min_le_left _ _, le_refl _⟩, fun _ => rfl⟩⟩
  · obtain ⟨k1, k2, k3⟩ := key
    refine ⟨k1, k2, ?_⟩
    intro a b
    refine ⟨?_, (k3 a b).2⟩
    intro hhit
    obtain ⟨h1, h2⟩ := (k3 a b).1 hhit
    obtain ⟨hon, hy, hx, ⟨e1, e2⟩, hrb⟩ := hhit
    have hle := lightPass_le K R mult ylim xlim block_x block_y tx ty s hflag
      (fun a b => (hg a b).2) (ix a b) (iy a b) hy hx hrb (by rw [e1, e2]; exact hon)
    rw [e1, e2] at hle
    exact le_antisymm (le_min h2 hle) h1
  · intro u x y ⟨hc, hr, hv⟩ y0 y1 x0 x1 hrb
    have hfu : u.LoadMapObjsFlag = false := by rw [hc.hLoadMapObjsFlag]; exact hflag
    rw [hc.hlightblock] at hrb
    rw [hc.hlightblock, hc.hlightradius]
    have hst := stamp_dLight K u (tx x y) (ty x y)
      (s.lightradius R (s.lightblock mult (y + block_y) (x + block_x))) hfu
      (by have := hr (tx x y) (ty x y); omega)
    obtain ⟨i1, i2⟩ := hinv x y
    refine ⟨hc.trans (SameCtl_stamp K u _ _ _), ?_, ?_⟩
    · intro a b
      rw [hst a b]
      have := hr a b
      split
      · have hn : (0 : Int) ≤
            (s.lightradius R (s.lightblock mult (y + block_y) (x + block_x)) : Nat) :=
          Int.ofNat_nonneg _
        omega
      · exact this
    · intro a b
      rw [hst a b]
      by_cases hw : (a = tx x y ∧ b = ty x y) ∧
          0 ≤ tx x y ∧ tx x y < K.MAXDUNX ∧ 0 ≤ ty x y ∧ ty x y < K.MAXDUNY
      · rw [if_pos hw]
        obtain ⟨⟨rfl, rfl⟩, _⟩ := hw
        rw [i1, i2]
        refine ⟨fun hh => ?_, fun hh => ?_⟩
        · have := ((hv (tx x y) (ty x y)).1 (by rw [i1, i2]; exact hh))
          rw [i1, i2] at this
          omega
        · exfalso
          apply hh
          refine ⟨?_, ⟨y0, y1⟩, ⟨x0, x1⟩, ⟨rfl, rfl⟩, hrb⟩
          unfold onMap
          omega
      · rw [if_neg hw]
        exact hv a b

/-- The write of `DoLighting` to the source tile on a level below 17. -/
theorem lightOwnTile_exact (K : Consts) (s : Lighting) (X Y R : Int)
    (hl : s.currlevel < 17) (hflag : s.LoadMapObjsFlag = false) (a b : Int) :
    (lightOwnTile K s X Y R).dLight a b =
      if (a = X ∧ b = Y) ∧ onMap K X Y then 0 else s.dLight a b := by
  unfold lightOwnTile onMap
  by_cases hin : X ≥ 0 ∧ X < K.MAXDUNX ∧ Y ≥ 0 ∧ Y < K.MAXDUNY
  · rw [if_pos hin, if_pos hl, (SetLight_dLight s X Y 0 hflag).1]
    unfold setGrid
    by_cases hw : a = X ∧ b = Y
    · rw [if_pos hw, if_pos ⟨hw, by omega⟩]
      rfl
    · rw [if_neg hw, if_neg (fun h => hw h.1)]
  · rw [if_neg hin, if_neg]
    intro h
    apply hin
    omega

/-- The distance bucket of the block table of a level below 17 at offset 0. -/
theorem lightblock_zero (x y : Int) :
    MakeLightTable_lightblock 0 y x = Nat.sqrt (64 * (x * x + y * y)).toNat := by
  unfold MakeLightTable_lightblock
  have e : (8 * x - 0 / 8) * (8 * x - 0 / 8) + (8 * y - 0 % 8) * (8 * y - 0 % 8) =
      64 * (x * x + y * y) := by
    norm_num
    ring
  simp only [e]

/-- At zero offset `RotateRadius` leaves the block index 0 and no block shift, so
`DoLighting` is the write to the source tile followed by four passes over the block
table of offset 0. -/
theorem lightFrom_zero_eq (K : Consts) (s : Lighting) (X Y R : Int) :
    lightFrom K s X Y R 0 0 =
      lightPass K R 0 (if Y - 15 < 0 then Y + 1 else 15) (if X - 15 < 0 then X + 1 else 15) 0 0
        (fun _ y => X - y) (fun x _ => Y + x)
        (lightPass K R 0 (if Y + 15 > K.MAXDUNY then K.MAXDUNY - Y else 15)
          (if X - 15 < 0 then X + 1 else 15) 0 0 (fun x _ => X - x) (fun _ y => Y - y)
          (lightPass K R 0 (if Y + 15 > K.MAXDUNY then K.MAXDUNY - Y else 15)
            (if X + 15 > K.MAXDUNX then K.MAXDUNX - X else 15) 0 0
            (fun _ y => X + y) (fun x _ => Y - x)
            (lightPass K R 0 (if Y - 15 < 0 then Y + 1 else 15)
              (if X + 15 > K.MAXDUNX then K.MAXDUNX - X else 15) 0 0
              (fun x _ => X + x) (fun _ y => Y + y) (lightOwnTile K s X Y R)))) := by
  unfold lightFrom
  simp only [RotateRadius_zero.1, RotateRadius_zero.2.1, RotateRadius_zero.2.2, mul_zero,
    add_zero]

/-- One pass at offset 0 on a level with the standard block table, in terms of the
reference level. -/
theorem lightPass_zero_exact (K : Consts) (s u : Lighting) (X Y R ylim xlim : Int)
    (tx ty ix iy : Int → Int → Int)
    (hinv : ∀ x y, ix (tx x y) (ty x y) = x ∧ iy (tx x y) (ty x y) = y)
    (hback : ∀ p q, tx (ix p q) (iy p q) = p ∧ ty (ix p q) (iy p q) = q)
    (hsq : ∀ p q, ix p q * ix p q + iy p q * iy p q =
      (p - X) * (p - X) + (q - Y) * (q - Y))
    (hstd : StandardTables s) (hflag : s.LoadMapObjsFlag = false) (hc : SameCtl s u)
    (hg : ∀ a b, 0 ≤ u.dLight a b ∧ u.dLight a b ≤ 15) (hyl : ylim ≤ 15) (hxl : xlim ≤ 15) :
    SameCtl s (lightPass K R 0 ylim xlim 0 0 tx ty u) ∧
    (∀ a b, 0 ≤ (lightPass K R 0 ylim xlim 0 0 tx ty u).dLight a b ∧
      (lightPass K R 0 ylim xlim 0 0 tx ty u).dLight a b ≤ 15) ∧
    ∀ p q, (lightPass K R 0 ylim xlim 0 0 tx ty u).dLight p q =
      if onMap K p q ∧ (0 ≤ iy p q ∧ iy p q < ylim) ∧ 1 ≤ ix p q ∧ ix p q < xlim
      then min (u.dLight p q) (refLevel s R (p - X) (q - Y)) else u.dLight p q := by
  have hfu : u.LoadMapObjsFlag = false := by rw [hc.hLoadMapObjsFlag]; exact hflag
  obtain ⟨k1, k2, k3⟩ := lightPass_exact K R 0 ylim xlim 0 0 tx ty ix iy hinv u hfu hg
  refine ⟨hc.trans k1, k2, ?_⟩
  intro p q
  by_cases hw : onMap K p q ∧ (0 ≤ iy p q ∧ iy p q < ylim) ∧ 1 ≤ ix p q ∧ ix p q < xlim
  · rw [if_pos hw]
    obtain ⟨hon, hy, hx⟩ := hw
    have hb : u.lightblock 0 (iy p q + 0) (ix p q + 0) =
        Nat.sqrt (64 * ((p - X) * (p - X) + (q - Y) * (q - Y))).toNat := by
      rw [hc.hlightblock, add_zero, add_zero,
        hstd.2.2 0 (iy p q) (ix p q) (le_refl _) (by decide) hy.1 (by omega) (by omega)
          (by omega), lightblock_zero, hsq]
    unfold refLevel
    by_cases hlt : Nat.sqrt (64 * ((p - X) * (p - X) + (q - Y) * (q - Y))).toNat < 128
    · rw [if_pos hlt, (k3 p q).1 ⟨hon, hy, hx, hback p q, by rw [hb]; exact hlt⟩, hb,
        hc.hlightradius]
    · rw [if_neg hlt, (k3 p q).2 (fun h => hlt (by rw [← hb]; exact h.2.2.2.2)),
        min_eq_left (hg p q).2]
  · rw [if_neg hw]
    exact (k3 p q).2 (fun h => hw ⟨h.1, h.2.1, h.2.2.1⟩)

/-- Four guarded `min` updates in a row amount to one. -/
theorem four_pass (v0 v1 v2 v3 v4 L : Int) (C1 C2 C3 C4 : Prop) [Decidable C1] [Decidable C2]
    [Decidable C3] [Decidable C4] (h1 : v1 = if C1 then min v0 L else v0)
    (h2 : v2 = if C2 then min v1 L else v1) (h3 : v3 = if C3 then min v2 L else v2)
    (h4 : v4 = if C4 then min v3 L else v3) :
    (C1 ∨ C2 ∨ C3 ∨ C4 → v4 = min v0 L) ∧ (¬ (C1 ∨ C2 ∨ C3 ∨ C4) → v4 = v0) := by
  subst h1 h2 h3 h4
  by_cases c1 : C1 <;> by_cases c2 : C2 <;> by_cases c3 : C3 <;> by_cases c4 : C4 <;>
    simp [c1, c2, c3, c4]

/-- `DoLighting` at zero offset, exactly, for a source anywhere: the source tile,
when on the map, gets 0; every other tile that is on the map and in the window of
one of the four passes gets the minimum of its previous value and the reference
level; every other tile keeps its value. -/
theorem lightFrom_zero_exact (K : Consts) (s : Lighting) (X Y R : Int)
    (hstd : StandardTables s) (hflag : s.LoadMapObjsFlag = false)
    (hg : ∀ a b, 0 ≤ s.dLight a b ∧ s.dLight a b ≤ 15) (p q : Int) :
    (lightFrom K s X Y R 0 0).dLight p q =
      if p = X ∧ q = Y then (if onMap K X Y then 0 else s.dLight p q)
      else if onMap K p q ∧ litWindow K X Y (p - X) (q - Y) then
        min (s.dLight p q) (refLevel s R (p - X) (q - Y))
      else s.dLight p q := by
  rw [lightFrom_zero_eq]
  generalize hmnx : (if X - 15 < 0 then X + 1 else 15) = mnx
  generalize hmxx : (if X + 15 > K.MAXDUNX then K.MAXDUNX - X else 15) = mxx
  generalize hmny : (if Y - 15 < 0 then Y + 1 else 15) = mny
  generalize hmxy : (if Y + 15 > K.MAXDUNY then K.MAXDUNY - Y else 15) = mxy
  have b1 : mnx ≤ 15 := by rw [← hmnx]; split <;> omega
  have b2 : mxx ≤ 15 := by rw [← hmxx]; split <;> omega
  have b3 : mny ≤ 15 := by rw [← hmny]; split <;> omega
  have b4 : mxy ≤ 15 := by rw [← hmxy]; split <;> omega
  obtain ⟨c0, g0⟩ := lightOwnTile_range K s X Y R hflag hg
  have h0 := lightOwnTile_exact K s X Y R hstd.1 hflag
  generalize lightOwnTile K s X Y R = s0 at c0 g0 h0 ⊢
  obtain ⟨c1, g1, h1⟩ := lightPass_zero_exact K s s0 X Y R mny mxx
    (fun x _ => X + x) (fun _ y => Y + y) (fun p _ => p - X) (fun _ q => q - Y)
    (fun x y => ⟨by dsimp only; omega, by dsimp only; omega⟩)
    (fun p q => ⟨by dsimp only; omega, by dsimp only; omega⟩) (fun p q => rfl)
    hstd hflag c0 g0 b3 b2
  generalize lightPass K R 0 mny mxx 0 0 (fun x _ => X + x) (fun _ y => Y + y) s0 = s1
    at c1 g1 h1 ⊢
  obtain ⟨c2, g2, h2⟩ := lightPass_zero_exact K s s1 X Y R mxy mxx
    (fun _ y => X + y) (fun x _ => Y - x) (fun _ q => Y - q) (fun p _ => p - X)
    (fun x y => ⟨by dsimp only; omega, by dsimp only; omega⟩)
    (fun p q => ⟨by dsimp only; omega, by dsimp only; omega⟩)
    (fun p q => by dsimp only; ring) hstd hflag c1 g1 b4 b2
  generalize lightPass K R 0 mxy mxx 0 0 (fun _ y => X + y) (fun x _ => Y - x) s1 = s2
    at c2 g2 h2 ⊢
  obtain ⟨c3, g3, h3⟩ := lightPass_zero_exact K s s2 X Y R mxy mnx
    (fun x _ => X - x) (fun _ y => Y - y) (fun p _ => X - p) (fun _ q => Y - q)
    (fun x y => ⟨by dsimp only; omega, by dsimp only; omega⟩)
    (fun p q => ⟨by dsimp only; omega, by dsimp only; omega⟩)
    (fun p q => by dsimp only; ring) hstd hflag c2 g2 b4 b1
  generalize lightPass K R 0 mxy mnx 0 0 (fun x _ => X - x) (fun _ y => Y - y) s2 = s3
    at c3 g3 h3 ⊢
  obtain ⟨c4, g4, h4⟩ := lightPass_zero_exact K s s3 X Y R mny mnx
    (fun _ y => X - y) (fun x _ => Y + x) (fun _ q => q - Y) (fun p _ => X - p)
    (fun x y => ⟨by dsimp only; omega, by dsimp only; omega⟩)
    (fun p q => ⟨by dsimp only; omega, by dsimp only; omega⟩)
    (fun p q => by dsimp only; ring) hstd hflag c3 g3 b3 b1
  have hw : litWindow K X Y (p - X) (q - Y) ↔
      (((1 ≤ p - X ∧ p - X < mxx) ∧ 0 ≤ q - Y ∧ q - Y < mny) ∨
        ((0 ≤ p - X ∧ p - X < mxy) ∧ 1 ≤ -(q - Y) ∧ -(q - Y) < mxx) ∨
        ((1 ≤ -(p - X) ∧ -(p - X) < mnx) ∧ 0 ≤ -(q - Y) ∧ -(q - Y) < mxy) ∨
        ((0 ≤ -(p - X) ∧ -(p - X) < mny) ∧ 1 ≤ q - Y ∧ q - Y < mnx)) := by
    unfold litWindow
    simp only [hmnx, hmxx, hmny, hmxy]
  obtain ⟨f1, f2⟩ := four_pass (s0.dLight p q) (s1.dLight p q) (s2.dLight p q) (s3.dLight p q)
    _ (refLevel s R (p - X) (q - Y)) _ _ _ _ (h1 p q) (h2 p q) (h3 p q) (h4 p q)
  have hiff : (onMap K p q ∧ litWindow K X Y (p - X) (q - Y)) ↔
      ((onMap K p q ∧ (0 ≤ q - Y ∧ q - Y < mny) ∧ 1 ≤ p - X ∧ p - X < mxx) ∨
        (onMap K p q ∧ (0 ≤ p - X ∧ p - X < mxy) ∧ 1 ≤ Y - q ∧ Y - q < mxx) ∨
        (onMap K p q ∧ (0 ≤ Y - q ∧ Y - q < mxy) ∧ 1 ≤ X - p ∧ X - p < mnx) ∨
        (onMap K p q ∧ (0 ≤ X - p ∧ X - p < mny) ∧ 1 ≤ q - Y ∧ q - Y < mnx)) := by
    rw [hw]
    constructor
    · rintro ⟨hon, h | h | h | h⟩
      · exact Or.inl ⟨hon, by omega⟩
      · exact Or.inr (Or.inl ⟨hon, by omega⟩)
      · exact Or.inr (Or.inr (Or.inl ⟨hon, by omega⟩))
      · exact Or.inr (Or.inr (Or.inr ⟨hon, by omega⟩))
    · rintro (⟨hon, h⟩ | ⟨hon, h⟩ | ⟨hon, h⟩ | ⟨hon, h⟩)
      · exact ⟨hon, Or.inl (by omega)⟩
      · exact ⟨hon, Or.inr (Or.inl (by omega))⟩
      · exact ⟨hon, Or.inr (Or.inr (Or.inl (by omega)))⟩
      · exact ⟨hon, Or.inr (Or.inr (Or.inr (by omega)))⟩
  by_cases hsrc : p = X ∧ q = Y
  · rw [if_pos hsrc, f2 (by rw [← hiff, hw]; omega), h0 p q]
    by_cases hon : onMap K X Y
    · rw [if_pos ⟨hsrc, hon⟩, if_pos hon]
    · rw [if_neg (fun h => hon h.2), if_neg hon]
  · rw [if_neg hsrc]
    have e0 : s0.dLight p q = s.dLight p q := by
      rw [h0 p q, if_neg (fun h => hsrc h.1)]
    by_cases hlit : onMap K p q ∧ litWindow K X Y (p - X) (q - Y)
    · rw [if_pos hlit, f1 (hiff.1 hlit), e0]
    · rw [if_neg hlit, f2 (fun h => hlit (hiff.2 h)), e0]

/-- `DoLighting` for a light of zero offset, or without a light record, exactly. -/
theorem DoLighting_zero_offset_exact (K : Consts) (s : Lighting) (X Y R Lnum : Int)
    (hstd : StandardTables s) (hflag : s.LoadMapObjsFlag = false)
    (hg : ∀ a b, 0 ≤ s.dLight a b ∧ s.dLight a b ≤ 15)
    (hoff : 0 ≤ Lnum → (s.LightList Lnum).position.offset = ⟨0, 0⟩) (p q : Int) :
    (DoLighting K s X Y R Lnum).dLight p q =
      if p = X ∧ q = Y then (if onMap K X Y then 0 else s.dLight p q)
      else if onMap K p q ∧ litWindow K X Y (p - X) (q - Y) then
        min (s.dLight p q) (refLevel s R (p - X) (q - Y))
      else s.dLight p q := by
  have ho : lightOrigin s X Y Lnum = (X, Y, 0, 0) := by
    unfold lightOrigin
    by_cases hL : Lnum ≥ 0
    · rw [if_pos hL, hoff hL]
      rfl
    · rw [if_neg hL]
  have hd : DoLighting K s X Y R Lnum = lightFrom K s X Y R 0 0 := by
    unfold DoLighting
    rw [ho]
  rw [hd]
  exact lightFrom_zero_exact K s X Y R hstd hflag hg p q

/-- The bucket `⌊sqrt(64 n)⌋` of the block table is `⌊8 sqrt(n)⌋`. -/
theorem bucket_eq_floor (a b : Int) :
    (Nat.sqrt (64 * (a * a + b * b)).toNat : Int) =
      ⌊8 * Real.sqrt ((a * a + b * b : Int) : ℝ)⌋ := by
  have hn : (0 : Int) ≤ a * a + b * b := add_nonneg (mul_self_nonneg a) (mul_self_nonneg b)
  have e8 : Real.sqrt 64 = 8 := by
    rw [show (64 : ℝ) = 8 ^ 2 by norm_num]
    exact Real.sqrt_sq (by norm_num)
  have e : (8 : ℝ) * Real.sqrt ((a * a + b * b : Int) : ℝ) =
      Real.sqrt (((64 * (a * a + b * b)).toNat : Nat) : ℝ) := by
    have c : ((((64 * (a * a + b * b)).toNat : Nat) : Int) : ℝ) =
        ((64 * (a * a + b * b) : Int) : ℝ) := by
      rw [Int.toNat_of_nonneg (by omega)]
    have c2 : ((((64 * (a * a + b * b)).toNat : Nat) : Int) : ℝ) =
        (((64 * (a * a + b * b)).toNat : Nat) : ℝ) := by
      norm_cast
    rw [← c2, c]
    push_cast
    rw [Real.sqrt_mul (by norm_num), e8]
  rw [e, Real.floor_real_sqrt_eq_nat_sqrt]

/-- C31, away from the map edges. For a light of zero offset (or no light record)
at a tile `(X, Y)` at least 15 tiles from every edge of the map, with the tables of
a level below 17 and grid values in `0..15`: after `DoLighting` the source tile
holds 0; every other tile `(X + a, Y + b)` with `|a| ≤ 14`, `|b| ≤ 14` is on the
map and holds the minimum of its previous value and the reference level
`lightradius[R][⌊8 sqrt(a² + b²)⌋]` (15 for a bucket of 128 or more); every tile
outside this window is unchanged; and the reference level is the same for the
offsets `(a, b)` and `(b, -a)`. -/
theorem DoLighting_reference_interior (K : Consts) (s : Lighting) (X Y R Lnum : Int)
    (hstd : StandardTables s) (hflag : s.LoadMapObjsFlag = false)
    (hg : ∀ a b, 0 ≤ s.dLight a b ∧ s.dLight a b ≤ 15) (_hR : 0 ≤ R ∧ R ≤ 15)
    (hoff : 0 ≤ Lnum → (s.LightList Lnum).position.offset = ⟨0, 0⟩)
    (hX : 15 ≤ X ∧ X + 15 ≤ K.MAXDUNX) (hY : 15 ≤ Y ∧ Y + 15 ≤ K.MAXDUNY) :
    (DoLighting K s X Y R Lnum).dLight X Y = 0 ∧
    (∀ a b, (-14 ≤ a ∧ a ≤ 14) → (-14 ≤ b ∧ b ≤ 14) → ¬ (a = 0 ∧ b = 0) →
      onMap K (X + a) (Y + b) ∧
      (DoLighting K s X Y R Lnum).dLight (X + a) (Y + b) =
        min (s.dLight (X + a) (Y + b)) (refLevel s R a b)) ∧
    (∀ p q, ¬ (X - 14 ≤ p ∧ p ≤ X + 14 ∧ Y - 14 ≤ q ∧ q ≤ Y + 14) →
      (DoLighting K s X Y R Lnum).dLight p q = s.dLight p q) ∧
    (∀ a b, refLevel s R b (-a) = refLevel s R a b) ∧
    (∀ a b, (Nat.sqrt (64 * (a * a + b * b)).toNat : Int) =
      ⌊8 * Real.sqrt ((a * a + b * b : Int) : ℝ)⌋) := by
  have hex := DoLighting_zero_offset_exact K s X Y R Lnum hstd hflag hg hoff
  have hwin : ∀ a b, litWindow K X Y a b ↔
      (((1 ≤ a ∧ a < 15) ∧ 0 ≤ b ∧ b < 15) ∨ ((0 ≤ a ∧ a < 15) ∧ 1 ≤ -b ∧ -b < 15) ∨
        ((1 ≤ -a ∧ -a < 15) ∧ 0 ≤ -b ∧ -b < 15) ∨ ((0 ≤ -a ∧ -a < 15) ∧ 1 ≤ b ∧ b < 15)) := by
    intro a b
    unfold litWindow
    rw [if_neg (by omega : ¬ X - 15 < 0), if_neg (by omega : ¬ X + 15 > K.MAXDUNX),
      if_neg (by omega : ¬ Y - 15 < 0), if_neg (by omega : ¬ Y + 15 > K.MAXDUNY)]
  refine ⟨?_, ?_, ?_, ?_, bucket_eq_floor⟩
  · rw [hex X Y, if_pos ⟨rfl, rfl⟩, if_pos (by unfold onMap; omega)]
  · intro a b ha hb hab
    have hon : onMap K (X + a) (Y + b) := by unfold onMap; omega
    refine ⟨hon, ?_⟩
    rw [hex (X + a) (Y + b), if_neg (by omega),
      if_pos ⟨hon, (hwin _ _).2 (by omega)⟩]
    have e1 : X + a - X = a := by omega
    have e2 : Y + b - Y = b := by omega
    rw [e1, e2]
  · intro p q hpq
    rw [hex p q, if_neg (by omega), if_neg]
    rintro ⟨_, hl⟩
    rw [hwin] at hl
    omega
  · intro a b
    unfold refLevel
    have e : b * b + -a * -a = a * a + b * b := by ring
    rw [e]

theorem DoLighting_reference_interior_witness :
    (DoLighting upstream darkLevel 50 50 10 (-1)).dLight (50 + 3) (50 + -4) =
      min (darkLevel.dLight (50 + 3) (50 + -4)) (refLevel darkLevel 10 3 (-4)) :=
  ((DoLighting_reference_interior upstream darkLevel 50 50 10 (-1) darkLevel_standard rfl
    darkLevel_grid (by decide) (fun h => absurd h (by decide)) (by decide) (by decide)).2.1
    3 (-4) (by decide) (by decide) (by decide)).2

/-- C31 fails near a map edge. On the dark level below 17 (every tile 15), after
`DoLighting(50, 2, 10, -1)` the on-map tile (51, 8), at offset (1, 6) from the
on-map source, still holds 15, while the reference level for that offset is
`lightradius[10][48] = 8`: the first pass, which walks towards larger `y`, is cut
at `min_y = 3`, the limit computed from the edge `y = 0`. -/
theorem DoLighting_window_clipped :
    onMap upstream 50 2 ∧ onMap upstream 51 8 ∧
      (DoLighting upstream darkLevel 50 2 10 (-1)).dLight 51 8 = 15 ∧
      min (darkLevel.dLight 51 8) (refLevel darkLevel 10 1 6) = 8 := by
  refine ⟨by unfold onMap; decide, by unfold onMap; decide, ?_, ?_⟩
  · rw [DoLighting_zero_offset_exact upstream darkLevel 50 2 10 (-1) darkLevel_standard rfl
      darkLevel_grid (fun h => absurd h (by decide)) 51 8,
      if_neg (by decide), if_neg (fun h => absurd h.2 (by decide))]
    rfl
  · have e : (64 * ((1 : Int) * 1 + 6 * 6)).toNat = 2368 := by decide
    have e2 : Nat.sqrt 2368 = 48 := (Nat.eq_sqrt.mpr ⟨by decide, by decide⟩).symm
    unfold refLevel
    rw [e, e2]
    decide

end Devilution
